import Mathlib

/-!
# Reconcilers of the Vault mount, KV mount and policy kinds

A shallow embedding of `controllers/vaultmount_controller.go`,
`controllers/vaultkvmount_controller.go` and
`controllers/vaultpolicy_controller.go`, together with the resource types of
`api/v1alpha1`.

The reconcilers talk to two collaborators: the control plane (`r.Client`,
`r.Status()`, `r.Recorder`, `r.ClientFactory`) and the Vault client `c`.
Both are embedded as an environment `Env W O` of handlers over an arbitrary
world state `W`; every handler returns its Go result together with the next
world.  Each reconciler threads the world through its calls in program order
and returns, next to its Go result, the log of the calls it issued: one
`Event` per call, in order, with the arguments of the call and whether it
returned without error.  Statements about which calls are issued, in which
order and with which arguments are statements about that log.
-/

namespace VSO

/-! ## Resource model (`api/v1alpha1`) -/

/-- Go `error` values. -/
abbrev Err := String

/-- The part of `metav1.ObjectMeta` the reconcilers read or write. -/
structure ObjectMeta where
  Name : String
  Finalizers : List String
  DeletionTimestamp : Option Nat
  deriving DecidableEq, Repr

/-- `MountConfig` of `vaultmount_types.go`. -/
structure MountConfig where
  DefaultLeaseTTL : String
  MaxLeaseTTL : String
  ForceNoCache : Bool
  AuditNonHMACRequestKeys : List String
  AuditNonHMACResponseKeys : List String
  ListingVisibility : String
  PassthroughRequestHeaders : List String
  AllowedResponseHeaders : List String
  deriving DecidableEq, Repr

/-- `VaultMountSpec` of `vaultmount_types.go`. -/
structure VaultMountSpec where
  VaultAuthRef : String
  Namespace : String
  Path : String
  Description : String
  Config : MountConfig
  Local : Bool
  SealWrap : Bool
  ExternalEntropyAccess : Bool
  Options : List (String × String)
  deriving DecidableEq, Repr

/-- `VaultKVMountSpec` of `vaultmount_types.go`: `VaultMountSpec` inlined, plus
`Version` and `Type`. -/
structure VaultKVMountSpec extends VaultMountSpec where
  Version : String
  Typ : String
  deriving DecidableEq, Repr

/-- `VaultMountStatus` of `vaultmount_types.go`. -/
structure VaultMountStatus where
  Valid : Bool
  Error : String
  Path : String
  deriving DecidableEq, Repr

/-- `VaultKVMount` of `vaultmount_types.go`. -/
structure VaultKVMount where
  ObjectMeta : ObjectMeta
  Spec : VaultKVMountSpec
  Status : VaultMountStatus
  deriving DecidableEq, Repr

/-- Modelled from the spec: the declaration of the desired spec of the
`VaultMount` kind is not among the sources.  The mount controller reads
`Spec.Type` next to the fields of `VaultMountSpec`, so the desired spec of a
mount is `VaultMountSpec` together with the backend type. -/
structure VaultMountTypedSpec extends VaultMountSpec where
  Typ : String
  deriving DecidableEq, Repr

/-- Modelled from the spec: the declaration of the `VaultMount` kind is not
among the sources; like the other kinds it is object metadata, a desired spec
and a `VaultMountStatus`. -/
structure VaultMount where
  ObjectMeta : ObjectMeta
  Spec : VaultMountTypedSpec
  Status : VaultMountStatus
  deriving DecidableEq, Repr

/-- `VaultPolicyPath` of `vaultpolicy_types.go`.  A Go `map[string][]string` is
an association list; a `nil` slice value inside it is `none`. -/
structure VaultPolicyPath where
  Capabilities : List String
  AllowedParameters : List (String × Option (List String))
  DeniedParameters : List (String × Option (List String))
  RequiredParameters : List String
  MinWrappingTTL : String
  MaxWrappingTTL : String
  deriving DecidableEq, Repr

/-- `VaultPolicySpec` of `vaultpolicy_types.go`. -/
structure VaultPolicySpec where
  VaultAuthRef : String
  Namespace : String
  Path : List (String × VaultPolicyPath)
  deriving DecidableEq, Repr

/-- `VaultPolicyStatus` of `vaultpolicy_types.go`. -/
structure VaultPolicyStatus where
  Valid : Bool
  Error : String
  Name : String
  deriving DecidableEq, Repr

/-- `VaultPolicy` of `vaultpolicy_types.go`. -/
structure VaultPolicy where
  ObjectMeta : ObjectMeta
  Spec : VaultPolicySpec
  Status : VaultPolicyStatus
  deriving DecidableEq, Repr

/-! ## Payloads handed to the Vault client -/

/-- `api.MountConfigInput`, restricted to the fields the mount controller sets
(the remaining ones keep their zero value). `Description` is a `*string`. -/
structure MountConfigInput where
  DefaultLeaseTTL : String
  Description : Option String
  MaxLeaseTTL : String
  ForceNoCache : Bool
  AuditNonHMACRequestKeys : List String
  AuditNonHMACResponseKeys : List String
  ListingVisibility : String
  PassthroughRequestHeaders : List String
  AllowedResponseHeaders : List String
  Options : List (String × String)
  deriving DecidableEq, Repr

/-- `api.MountInput`, restricted to the fields the mount controller sets. -/
structure MountInput where
  Typ : String
  Description : String
  Config : MountConfigInput
  Local : Bool
  SealWrap : Bool
  ExternalEntropyAccess : Bool
  Options : List (String × String)
  deriving DecidableEq, Repr

/-- The leaves of the `map[string]interface{}` payloads the controllers build. -/
inductive Scalar where
  | str (s : String)
  | bool (b : Bool)
  | strs (l : List String)
  deriving DecidableEq, Repr

/-- A value of a `map[string]interface{}` payload: a leaf or one nested map. -/
inductive Value where
  | leaf (s : Scalar)
  | map (m : List (String × Scalar))
  deriving DecidableEq, Repr

/-- A `map[string]interface{}` literal, in the order it is written. -/
abbrev Payload := List (String × Value)

/-- `api.MountOutput`, the descriptor of a listed mount; the controllers only
test its presence. -/
structure MountOutput where
  Typ : String
  Description : String
  deriving DecidableEq, Repr

/-- `api.Secret`, the result of a `Read`; the controllers only test it against
`nil`. -/
structure Secret where
  Data : Payload
  deriving DecidableEq, Repr

/-! ## Calls, events and the environment -/

/-- The calls a reconciler issues to its collaborators. `O` is the kind. -/
inductive Call (O : Type) where
  | Get
  | ClientFactoryGet (o : O)
  | Eventf (o : O) (msg : String)
  | Update (o : O)
  | StatusUpdate (o : O)
  | ListMounts
  | TuneMount (path : String) (config : MountConfigInput)
  | Mount (path : String) (input : MountInput)
  | Read (path : String)
  | Write (path : String) (data : Payload)
  | Delete (path : String)
  deriving DecidableEq, Repr

/-- A call together with whether it returned without error. -/
structure Event (O : Type) where
  call : Call O
  ok : Bool
  deriving DecidableEq, Repr

/-- The result of `r.Client.Get`. -/
inductive GetResult (O : Type) where
  | found (o : O)
  | notFound
  | failed (err : Err)
  deriving DecidableEq, Repr

/-- The collaborators of a reconciler, as handlers over a world state `W`.
`Update` with `Updated` is `r.Update(ctx, o)`, and `StatusUpdate` with
`StatusUpdated` is `r.Status().Update(ctx, o)`: the error and the world after
the call, and the server's copy of the object, which a successful call decodes
into the in-memory object (with the status subresource the copy returned by
`Update` carries the stored status, not the one sent). A failed call leaves
the in-memory object as it is. -/
structure Env (W O : Type) where
  Get : W → GetResult O × W
  ClientFactoryGet : O → W → Option Err × W
  Update : O → W → Option Err × W
  Updated : O → W → O
  StatusUpdate : O → W → Option Err × W
  StatusUpdated : O → W → O
  ListMounts : W → Except Err (String → Option MountOutput) × W
  TuneMount : String → MountConfigInput → W → Option Err × W
  Mount : String → MountInput → W → Option Err × W
  Read : String → W → Except Err (Option Secret) × W
  Write : String → Payload → W → Option Err × W
  Delete : String → W → Option Err × W


/-- What a reconcile returns: the Go error (`none` for `nil`; the `ctrl.Result`
is always empty), the in-memory object when one was fetched, the world it
leaves behind and the log of the calls it issued. -/
structure Outcome (W O : Type) where
  err : Option Err
  obj : Option O
  world : W
  log : List (Event O)

/-- The outcome of a continuation, with the events that came before it. -/
def Outcome.after {W O : Type} (pre : List (Event O)) (r : Outcome W O) : Outcome W O :=
  { r with log := pre ++ r.log }

/-! ## `controllerutil` finalizer helpers (controller-runtime) -/

/-- `controllerutil.ContainsFinalizer`: the list holds the finalizer. -/
def ContainsFinalizer (m : ObjectMeta) (finalizer : String) : Bool :=
  m.Finalizers.contains finalizer

/-- `controllerutil.AddFinalizer`: append the finalizer unless it is there. -/
def AddFinalizer (m : ObjectMeta) (finalizer : String) : ObjectMeta :=
  if m.Finalizers.contains finalizer then m
  else { m with Finalizers := m.Finalizers ++ [finalizer] }

/-- `controllerutil.RemoveFinalizer`: drop every occurrence, keep the rest in
order. -/
def RemoveFinalizer (m : ObjectMeta) (finalizer : String) : ObjectMeta :=
  { m with Finalizers := m.Finalizers.filter (fun f => f != finalizer) }


/-! ## `controllers/vaultmount_controller.go` -/

/-- The finalizer marker of the mount kind. -/
def vaultMountFinalizer : String := "vaultmount.secrets.hashicorp.com/finalizer"

namespace VaultMountReconciler

variable {W : Type}

/-- `addFinalizer` (lines 141-150). Returns the error, the in-memory object (the
one sent when the update fails, the server's copy when it succeeds), the world
and the calls issued. -/
def addFinalizer (env : Env W VaultMount) (o : VaultMount) (w : W) :
    Option Err × VaultMount × W × List (Event VaultMount) :=
  if !ContainsFinalizer o.ObjectMeta vaultMountFinalizer then
    let o := { o with ObjectMeta := AddFinalizer o.ObjectMeta vaultMountFinalizer }
    match env.Update o w with
    | (some err, w1) => (some err, o, w1, [⟨.Update o, false⟩])
    | (none, w1) => (none, env.Updated o w, w1, [⟨.Update o, true⟩])
  else
    (none, o, w, [])

/-- `handleFinalizer` (lines 152-165). -/
def handleFinalizer (env : Env W VaultMount) (o : VaultMount) (w : W) : Outcome W VaultMount :=
  if ContainsFinalizer o.ObjectMeta vaultMountFinalizer then
    match env.Delete o.Spec.Path w with
    | (some err, w) => ⟨some err, some o, w, [⟨.Delete o.Spec.Path, false⟩]⟩
    | (none, w) =>
      let o1 := { o with ObjectMeta := RemoveFinalizer o.ObjectMeta vaultMountFinalizer }
      match env.Update o1 w with
      | (some err, w1) =>
        ⟨some err, some o1, w1, [⟨.Delete o.Spec.Path, true⟩, ⟨.Update o1, false⟩]⟩
      | (none, w1) =>
        ⟨none, some (env.Updated o1 w), w1,
          [⟨.Delete o.Spec.Path, true⟩, ⟨.Update o1, true⟩]⟩
  else
    ⟨none, some o, w, []⟩

/-- The `api.MountConfigInput` literal of lines 77-92. -/
def config (o : VaultMount) : MountConfigInput :=
  { DefaultLeaseTTL := o.Spec.Config.DefaultLeaseTTL
    Description := some o.Spec.Description
    MaxLeaseTTL := o.Spec.Config.MaxLeaseTTL
    ForceNoCache := o.Spec.Config.ForceNoCache
    AuditNonHMACRequestKeys := o.Spec.Config.AuditNonHMACRequestKeys
    AuditNonHMACResponseKeys := o.Spec.Config.AuditNonHMACResponseKeys
    ListingVisibility := o.Spec.Config.ListingVisibility
    PassthroughRequestHeaders := o.Spec.Config.PassthroughRequestHeaders
    AllowedResponseHeaders := o.Spec.Config.AllowedResponseHeaders
    Options := o.Spec.Options }

/-- The `api.MountInput` literal of lines 103-111. -/
def mountInput (o : VaultMount) : MountInput :=
  { Typ := o.Spec.Typ
    Description := o.Spec.Description
    Config := config o
    Local := o.Spec.Local
    SealWrap := o.Spec.SealWrap
    ExternalEntropyAccess := o.Spec.ExternalEntropyAccess
    Options := o.Spec.Options }

/-- Lines 124-125: `o.Status.Valid = true` and
`o.Status.Path = o.Spec.Path`. -/
def markValid (o : VaultMount) : VaultMount :=
  let o := { o with Status := { o.Status with Valid := true } }
  { o with Status := { o.Status with Path := o.Spec.Path } }

/-- The condition of line 118: a path is recorded and differs from the
desired one. -/
def renamed (o : VaultMount) : Bool :=
  o.Status.Path != "" && o.Status.Path != o.Spec.Path

/-- Lines 124-131: mark the status valid, then update the status. -/
def persist (env : Env W VaultMount) (o : VaultMount) (w : W) : Outcome W VaultMount :=
  match env.StatusUpdate (markValid o) w with
  | (some err, w1) => ⟨some err, some (markValid o), w1, [⟨.StatusUpdate (markValid o), false⟩]⟩
  | (none, w1) =>
    ⟨none, some (env.StatusUpdated (markValid o) w), w1, [⟨.StatusUpdate (markValid o), true⟩]⟩

/-- Lines 118-131: rename cleanup, then the status update. -/
def cleanup (env : Env W VaultMount) (o : VaultMount) (w : W) : Outcome W VaultMount :=
  if renamed o then
    match env.Delete ("/sys/mounts/" ++ o.Status.Path) w with
    | (some err, w) => ⟨some err, some o, w, [⟨.Delete ("/sys/mounts/" ++ o.Status.Path), false⟩]⟩
    | (none, w) => (persist env o w).after [⟨.Delete ("/sys/mounts/" ++ o.Status.Path), true⟩]
  else
    persist env o w

/-- Lines 72-131: the convergence of the Active path. -/
def converge (env : Env W VaultMount) (o : VaultMount) (w : W) : Outcome W VaultMount :=
  match env.ListMounts w with
  | (.error err, w) => ⟨some err, some o, w, [⟨.ListMounts, false⟩]⟩
  | (.ok mounts, w) =>
    Outcome.after [⟨.ListMounts, true⟩] <|
    let path := o.Spec.Path ++ "/"
    if (mounts path).isSome then
      match env.TuneMount o.Spec.Path (config o) w with
      | (some err, w) => ⟨some err, some o, w, [⟨.TuneMount o.Spec.Path (config o), false⟩]⟩
      | (none, w) => (cleanup env o w).after [⟨.TuneMount o.Spec.Path (config o), true⟩]
    else
      match env.Mount o.Spec.Path (mountInput o) w with
      | (some err, w) => ⟨some err, some o, w, [⟨.Mount o.Spec.Path (mountInput o), false⟩]⟩
      | (none, w) => (cleanup env o w).after [⟨.Mount o.Spec.Path (mountInput o), true⟩]

/-- `Reconcile` (lines 41-132). -/
def Reconcile (env : Env W VaultMount) (w : W) : Outcome W VaultMount :=
  match env.Get w with
  | (.notFound, w) => ⟨none, none, w, [⟨.Get, false⟩]⟩
  | (.failed err, w) => ⟨some err, none, w, [⟨.Get, false⟩]⟩
  | (.found o, w) =>
    Outcome.after [⟨.Get, true⟩] <|
    match env.ClientFactoryGet o w with
    | (some err, w) =>
      ⟨some err, some o, w,
        [⟨.ClientFactoryGet o, false⟩, ⟨.Eventf o ("Failed to get Vault auth login: " ++ err), true⟩]⟩
    | (none, w) =>
      Outcome.after [⟨.ClientFactoryGet o, true⟩] <|
      let o := { o with Status := { o.Status with Valid := false } }
      match o.ObjectMeta.DeletionTimestamp with
      | none =>
        match addFinalizer env o w with
        | (some err, o, w, log) => ⟨some err, some o, w, log⟩
        | (none, o, w, log) => (converge env o w).after log
      | some _ => handleFinalizer env o w

end VaultMountReconciler

/-! ## `controllers/vaultkvmount_controller.go` -/

/-- The finalizer marker of the KV mount kind. -/
def vaultKVMountFinalizer : String := "vaultkvmount.secrets.hashicorp.com/finalizer"

namespace VaultKVMountReconciler

variable {W : Type}

/-- `addFinalizer` (lines 123-132). Returns the error, the in-memory object (the
one sent when the update fails, the server's copy when it succeeds), the world
and the calls issued. -/
def addFinalizer (env : Env W VaultKVMount) (o : VaultKVMount) (w : W) :
    Option Err × VaultKVMount × W × List (Event VaultKVMount) :=
  if !ContainsFinalizer o.ObjectMeta vaultKVMountFinalizer then
    let o := { o with ObjectMeta := AddFinalizer o.ObjectMeta vaultKVMountFinalizer }
    match env.Update o w with
    | (some err, w1) => (some err, o, w1, [⟨.Update o, false⟩])
    | (none, w1) => (none, env.Updated o w, w1, [⟨.Update o, true⟩])
  else
    (none, o, w, [])

/-- `handleFinalizer` (lines 134-147). -/
def handleFinalizer (env : Env W VaultKVMount) (o : VaultKVMount) (w : W) : Outcome W VaultKVMount :=
  if ContainsFinalizer o.ObjectMeta vaultKVMountFinalizer then
    match env.Delete o.Spec.Path w with
    | (some err, w) => ⟨some err, some o, w, [⟨.Delete o.Spec.Path, false⟩]⟩
    | (none, w) =>
      let o1 := { o with ObjectMeta := RemoveFinalizer o.ObjectMeta vaultKVMountFinalizer }
      match env.Update o1 w with
      | (some err, w1) =>
        ⟨some err, some o1, w1, [⟨.Delete o.Spec.Path, true⟩, ⟨.Update o1, false⟩]⟩
      | (none, w1) =>
        ⟨none, some (env.Updated o1 w), w1,
          [⟨.Delete o.Spec.Path, true⟩, ⟨.Update o1, true⟩]⟩
  else
    ⟨none, some o, w, []⟩

/-- The `map[string]interface{}` literal of lines 77-93. -/
def createPayload (o : VaultKVMount) : Payload :=
  [ ("description", .leaf (.str o.Spec.Description)),
    ("type", .leaf (.str o.Spec.Typ)),
    ("config", .map
      [ ("default_lease_ttl", .str o.Spec.Config.DefaultLeaseTTL),
        ("max_lease_ttl", .str o.Spec.Config.MaxLeaseTTL),
        ("force_no_cache", .bool o.Spec.Config.ForceNoCache),
        ("audit_non_hmac_request_keys", .strs o.Spec.Config.AuditNonHMACRequestKeys),
        ("audit_non_hmac_response_keys", .strs o.Spec.Config.AuditNonHMACResponseKeys),
        ("listing_visibility", .str o.Spec.Config.ListingVisibility),
        ("passthrough_request_headers", .strs o.Spec.Config.PassthroughRequestHeaders),
        ("allowed_response_headers", .strs o.Spec.Config.AllowedResponseHeaders),
        ("local", .bool o.Spec.Local),
        ("seal_wrap", .bool o.Spec.SealWrap),
        ("external_entropy_access", .bool o.Spec.ExternalEntropyAccess) ]) ]

/-- Lines 106-107: `o.Status.Valid = true` and
`o.Status.Path = o.Spec.Path`. -/
def markValid (o : VaultKVMount) : VaultKVMount :=
  let o := { o with Status := { o.Status with Valid := true } }
  { o with Status := { o.Status with Path := o.Spec.Path } }

/-- The condition of line 99: a path is recorded and differs from the
desired one. -/
def renamed (o : VaultKVMount) : Bool :=
  o.Status.Path != "" && o.Status.Path != o.Spec.Path

/-- Lines 106-113: mark the status valid, then update the status. -/
def persist (env : Env W VaultKVMount) (o : VaultKVMount) (w : W) : Outcome W VaultKVMount :=
  match env.StatusUpdate (markValid o) w with
  | (some err, w1) => ⟨some err, some (markValid o), w1, [⟨.StatusUpdate (markValid o), false⟩]⟩
  | (none, w1) =>
    ⟨none, some (env.StatusUpdated (markValid o) w), w1, [⟨.StatusUpdate (markValid o), true⟩]⟩

/-- Lines 71-113: the convergence of the Active path. The rename cleanup of
lines 99-103 sits inside the `path == nil` branch. -/
def converge (env : Env W VaultKVMount) (o : VaultKVMount) (w : W) : Outcome W VaultKVMount :=
  match env.Read ("/sys/mounts/" ++ o.Spec.Path) w with
  | (.error err, w) => ⟨some err, some o, w, [⟨.Read ("/sys/mounts/" ++ o.Spec.Path), false⟩]⟩
  | (.ok path, w) =>
    Outcome.after [⟨.Read ("/sys/mounts/" ++ o.Spec.Path), true⟩] <|
    if path.isNone then
      match env.Write ("/sys/mounts/" ++ o.Spec.Path) (createPayload o) w with
      | (some err, w) =>
        ⟨some err, some o, w, [⟨.Write ("/sys/mounts/" ++ o.Spec.Path) (createPayload o), false⟩]⟩
      | (none, w) =>
        Outcome.after [⟨.Write ("/sys/mounts/" ++ o.Spec.Path) (createPayload o), true⟩] <|
        if renamed o then
          match env.Delete ("/sys/mounts/" ++ o.Status.Path) w with
          | (some err, w) =>
            ⟨some err, some o, w, [⟨.Delete ("/sys/mounts/" ++ o.Status.Path), false⟩]⟩
          | (none, w) =>
            (persist env o w).after [⟨.Delete ("/sys/mounts/" ++ o.Status.Path), true⟩]
        else
          persist env o w
    else
      persist env o w

/-- `Reconcile` (lines 40-114). -/
def Reconcile (env : Env W VaultKVMount) (w : W) : Outcome W VaultKVMount :=
  match env.Get w with
  | (.notFound, w) => ⟨none, none, w, [⟨.Get, false⟩]⟩
  | (.failed err, w) => ⟨some err, none, w, [⟨.Get, false⟩]⟩
  | (.found o, w) =>
    Outcome.after [⟨.Get, true⟩] <|
    match env.ClientFactoryGet o w with
    | (some err, w) =>
      ⟨some err, some o, w,
        [⟨.ClientFactoryGet o, false⟩, ⟨.Eventf o ("Failed to get Vault auth login: " ++ err), true⟩]⟩
    | (none, w) =>
      Outcome.after [⟨.ClientFactoryGet o, true⟩] <|
      let o := { o with Status := { o.Status with Valid := false } }
      match o.ObjectMeta.DeletionTimestamp with
      | none =>
        match addFinalizer env o w with
        | (some err, o, w, log) => ⟨some err, some o, w, log⟩
        | (none, o, w, log) => (converge env o w).after log
      | some _ => handleFinalizer env o w

end VaultKVMountReconciler

/-! ## `encoding/json` on the policy document

`json.Marshal` on `map[string]any{"path": map[string]vaultPolicyPath}`: map
keys are emitted in sorted order, struct fields in declaration order under
their tag names, `omitempty` fields are dropped when empty, a `nil` slice is
`null`, and strings are quoted with the HTML-safe escaping that is the
default of `Marshal`. This type never makes `Marshal` fail. -/

/-- The characters `Marshal` writes as a six-character unicode escape: control
characters other than backspace, form feed, newline, carriage return and tab,
then the HTML-sensitive less-than, greater-than and ampersand. -/
def jsonHexEscaped (c : Char) : Bool :=
  c.toNat < 32 || c.toNat == 60 || c.toNat == 62 || c.toNat == 38

/-- The escape of one character inside a JSON string, as `encoding/json` of
Go 1.22 and later writes it: backspace and form feed have their two-character
escapes (earlier releases wrote them as six-character unicode escapes). -/
def jsonEscape (c : Char) : List Char :=
  if c.toNat == 34 then [Char.ofNat 92, Char.ofNat 34]
  else if c.toNat == 92 then [Char.ofNat 92, Char.ofNat 92]
  else if c.toNat == 8 then [Char.ofNat 92, 'b']
  else if c.toNat == 12 then [Char.ofNat 92, 'f']
  else if c.toNat == 10 then [Char.ofNat 92, 'n']
  else if c.toNat == 13 then [Char.ofNat 92, 'r']
  else if c.toNat == 9 then [Char.ofNat 92, 't']
  else if jsonHexEscaped c then
    [Char.ofNat 92, 'u', '0', '0', Nat.digitChar (c.toNat / 16), Nat.digitChar (c.toNat % 16)]
  else if c.toNat == 8232 then [Char.ofNat 92, 'u', '2', '0', '2', '8']
  else if c.toNat == 8233 then [Char.ofNat 92, 'u', '2', '0', '2', '9']
  else [c]

/-- A Go string as a JSON string. -/
def jsonString (s : String) : String :=
  String.mk ([Char.ofNat 34] ++ s.data.flatMap jsonEscape ++ [Char.ofNat 34])

/-- A JSON array from the encodings of its elements. -/
def jsonArray (items : List String) : String :=
  "[" ++ ",".intercalate items ++ "]"

/-- A JSON object from its members, already encoded and in output order. -/
def jsonObject (members : List (String × String)) : String :=
  String.mk [Char.ofNat 123] ++
    ",".intercalate (members.map (fun m => jsonString m.1 ++ ":" ++ m.2)) ++
    String.mk [Char.ofNat 125]

/-- Insert one entry into a list of entries sorted by key. -/
def insertByKey {α : Type} (e : String × α) : List (String × α) → List (String × α)
  | [] => [e]
  | x :: xs => if x.1 < e.1 then x :: insertByKey e xs else e :: x :: xs

/-- The entries of a Go map in the order `Marshal` emits them: sorted by key. -/
def sortByKey {α : Type} (m : List (String × α)) : List (String × α) :=
  m.foldr insertByKey []

/-- `m[k] = v` on a Go map held as an association list. -/
def mapSet {α : Type} (k : String) (v : α) : List (String × α) → List (String × α)
  | [] => [(k, v)]
  | x :: xs => if x.1 = k then (k, v) :: xs else x :: mapSet k v xs

/-- A `[]string`: `null` when `nil`, else an array of strings. -/
def jsonSlice : Option (List String) → String
  | none => "null"
  | some l => jsonArray (l.map jsonString)

/-- A `map[string][]string`. -/
def jsonParameters (m : List (String × Option (List String))) : String :=
  jsonObject ((sortByKey m).map (fun e => (e.1, jsonSlice e.2)))

/-! ## `controllers/vaultpolicy_controller.go` -/

/-- The finalizer marker of the policy kind. -/
def vaultPolicyFinalizer : String := "vaultpolicy.secrets.hashicorp.com/finalizer"

/-- `vaultPolicyPath` (lines 36-43). -/
structure vaultPolicyPath where
  Capabilities : List String
  AllowedParameters : List (String × Option (List String))
  DeniedParameters : List (String × Option (List String))
  RequiredParameters : List String
  MinWrappingTTL : String
  MaxWrappingTTL : String
  deriving DecidableEq, Repr

/-- The members `Marshal` emits for a `vaultPolicyPath`: the json tags of lines
37-42 in declaration order, each dropped when its field is empty. -/
def vaultPolicyPath.members (p : vaultPolicyPath) : List (String × String) :=
  (if p.Capabilities.isEmpty then []
    else [("capabilities", jsonArray (p.Capabilities.map jsonString))]) ++
  (if p.AllowedParameters.isEmpty then []
    else [("allowed_parameters", jsonParameters p.AllowedParameters)]) ++
  (if p.DeniedParameters.isEmpty then []
    else [("denied_parameters", jsonParameters p.DeniedParameters)]) ++
  (if p.RequiredParameters.isEmpty then []
    else [("required_parameters", jsonArray (p.RequiredParameters.map jsonString))]) ++
  (if p.MinWrappingTTL.isEmpty then [] else [("min_wrapping_ttl", jsonString p.MinWrappingTTL)]) ++
  (if p.MaxWrappingTTL.isEmpty then [] else [("max_wrapping_ttl", jsonString p.MaxWrappingTTL)])

/-- `json.Marshal(map[string]any{"path": path})` (lines 94-96), as a string. -/
def marshalPolicy (path : List (String × vaultPolicyPath)) : String :=
  jsonObject [("path", jsonObject ((sortByKey path).map (fun e => (e.1, jsonObject e.2.members))))]


namespace VaultPolicyReconciler

variable {W : Type}

/-- `addFinalizer` (lines 130-139). Returns the error, the in-memory object (the
one sent when the update fails, the server's copy when it succeeds), the world
and the calls issued. -/
def addFinalizer (env : Env W VaultPolicy) (o : VaultPolicy) (w : W) :
    Option Err × VaultPolicy × W × List (Event VaultPolicy) :=
  if !ContainsFinalizer o.ObjectMeta vaultPolicyFinalizer then
    let o := { o with ObjectMeta := AddFinalizer o.ObjectMeta vaultPolicyFinalizer }
    match env.Update o w with
    | (some err, w1) => (some err, o, w1, [⟨.Update o, false⟩])
    | (none, w1) => (none, env.Updated o w, w1, [⟨.Update o, true⟩])
  else
    (none, o, w, [])

/-- `handleFinalizer` (lines 141-154). -/
def handleFinalizer (env : Env W VaultPolicy) (o : VaultPolicy) (w : W) : Outcome W VaultPolicy :=
  if ContainsFinalizer o.ObjectMeta vaultPolicyFinalizer then
    match env.Delete ("/sys/policies/acl/" ++ o.ObjectMeta.Name) w with
    | (some err, w) => ⟨some err, some o, w, [⟨.Delete ("/sys/policies/acl/" ++ o.ObjectMeta.Name), false⟩]⟩
    | (none, w) =>
      let o1 := { o with ObjectMeta := RemoveFinalizer o.ObjectMeta vaultPolicyFinalizer }
      match env.Update o1 w with
      | (some err, w1) =>
        ⟨some err, some o1, w1,
          [⟨.Delete ("/sys/policies/acl/" ++ o.ObjectMeta.Name), true⟩, ⟨.Update o1, false⟩]⟩
      | (none, w1) =>
        ⟨none, some (env.Updated o1 w), w1,
          [⟨.Delete ("/sys/policies/acl/" ++ o.ObjectMeta.Name), true⟩, ⟨.Update o1, true⟩]⟩
  else
    ⟨none, some o, w, []⟩

/-- The `vaultPolicyPath` literal of lines 84-91. -/
def copyPath (v : VaultPolicyPath) : vaultPolicyPath :=
  { Capabilities := v.Capabilities
    AllowedParameters := v.AllowedParameters
    DeniedParameters := v.DeniedParameters
    RequiredParameters := v.RequiredParameters
    MinWrappingTTL := v.MinWrappingTTL
    MaxWrappingTTL := v.MaxWrappingTTL }

/-- The loop of lines 81-92: `path[k] = vaultPolicyPath{...}` for every entry
of `o.Spec.Path`, starting from the empty map. -/
def pathMap (o : VaultPolicy) : List (String × vaultPolicyPath) :=
  o.Spec.Path.foldl (fun path e => mapSet e.1 (copyPath e.2) path) []

/-- The payload of the write of lines 101-103. -/
def writePayload (o : VaultPolicy) : Payload :=
  [("policy", .leaf (.str (marshalPolicy (pathMap o))))]

/-- Lines 113-114: `o.Status.Valid = true` and
`o.Status.Name = o.ObjectMeta.Name`. -/
def markValid (o : VaultPolicy) : VaultPolicy :=
  let o := { o with Status := { o.Status with Valid := true } }
  { o with Status := { o.Status with Name := o.ObjectMeta.Name } }

/-- The condition of line 107: a name is recorded and differs from the
desired one. -/
def renamed (o : VaultPolicy) : Bool :=
  o.Status.Name != "" && o.Status.Name != o.ObjectMeta.Name

/-- Lines 113-120: mark the status valid, then update the status. -/
def persist (env : Env W VaultPolicy) (o : VaultPolicy) (w : W) : Outcome W VaultPolicy :=
  match env.StatusUpdate (markValid o) w with
  | (some err, w1) => ⟨some err, some (markValid o), w1, [⟨.StatusUpdate (markValid o), false⟩]⟩
  | (none, w1) =>
    ⟨none, some (env.StatusUpdated (markValid o) w), w1, [⟨.StatusUpdate (markValid o), true⟩]⟩

/-- Lines 81-120: the convergence of the Active path. -/
def converge (env : Env W VaultPolicy) (o : VaultPolicy) (w : W) : Outcome W VaultPolicy :=
  match env.Write ("/sys/policies/acl/" ++ o.ObjectMeta.Name) (writePayload o) w with
  | (some err, w) =>
    ⟨some err, some o, w,
      [⟨.Write ("/sys/policies/acl/" ++ o.ObjectMeta.Name) (writePayload o), false⟩]⟩
  | (none, w) =>
    Outcome.after [⟨.Write ("/sys/policies/acl/" ++ o.ObjectMeta.Name) (writePayload o), true⟩] <|
    if renamed o then
      match env.Delete ("/sys/policies/acl/" ++ o.Status.Name) w with
      | (some err, w) =>
        ⟨some err, some o, w, [⟨.Delete ("/sys/policies/acl/" ++ o.Status.Name), false⟩]⟩
      | (none, w) =>
        (persist env o w).after [⟨.Delete ("/sys/policies/acl/" ++ o.Status.Name), true⟩]
    else
      persist env o w

/-- `Reconcile` (lines 50-121). -/
def Reconcile (env : Env W VaultPolicy) (w : W) : Outcome W VaultPolicy :=
  match env.Get w with
  | (.notFound, w) => ⟨none, none, w, [⟨.Get, false⟩]⟩
  | (.failed err, w) => ⟨some err, none, w, [⟨.Get, false⟩]⟩
  | (.found o, w) =>
    Outcome.after [⟨.Get, true⟩] <|
    match env.ClientFactoryGet o w with
    | (some err, w) =>
      ⟨some err, some o, w,
        [⟨.ClientFactoryGet o, false⟩, ⟨.Eventf o ("Failed to get Vault auth login: " ++ err), true⟩]⟩
    | (none, w) =>
      Outcome.after [⟨.ClientFactoryGet o, true⟩] <|
      let o := { o with Status := { o.Status with Valid := false } }
      match o.ObjectMeta.DeletionTimestamp with
      | none =>
        match addFinalizer env o w with
        | (some err, o, w, log) => ⟨some err, some o, w, log⟩
        | (none, o, w, log) => (converge env o w).after log
      | some _ => handleFinalizer env o w

end VaultPolicyReconciler

/-- The desired policy of the example: one pattern with two capabilities. -/
def appReader : VaultPolicy :=
  { ObjectMeta := { Name := "app-reader", Finalizers := [], DeletionTimestamp := none }
    Spec :=
      { VaultAuthRef := ""
        Namespace := ""
        Path := [("secret/*",
          { Capabilities := ["read", "list"], AllowedParameters := [], DeniedParameters := [],
            RequiredParameters := [], MinWrappingTTL := "", MaxWrappingTTL := "" })] }
    Status := { Valid := false, Error := "", Name := "" } }

/-! ## Reading the log -/

namespace Call

variable {O : Type}

/-- A call to the Vault client, as opposed to the control plane. -/
def isRemote : Call O → Bool
  | .ListMounts | .TuneMount _ _ | .Mount _ _ | .Read _ | .Write _ _ | .Delete _ => true
  | _ => false

/-- A `Mount` call. -/
def isMount : Call O → Bool
  | .Mount _ _ => true
  | _ => false

/-- A `TuneMount` call. -/
def isTuneMount : Call O → Bool
  | .TuneMount _ _ => true
  | _ => false

/-- A `Write` call. -/
def isWrite : Call O → Bool
  | .Write _ _ => true
  | _ => false

/-- A `Delete` call. -/
def isDelete : Call O → Bool
  | .Delete _ => true
  | _ => false

/-- A `Read` or `ListMounts` call. -/
def isReadOrList : Call O → Bool
  | .Read _ | .ListMounts => true
  | _ => false

/-- A manifest update, `r.Client.Update` or `r.Update`. -/
def isUpdate : Call O → Bool
  | .Update _ => true
  | _ => false

/-- A status update, `r.Status().Update`. -/
def isStatusUpdate : Call O → Bool
  | .StatusUpdate _ => true
  | _ => false

/-- A create, tune or write of the desired identity. -/
def isApply : Call O → Bool
  | .Mount _ _ | .TuneMount _ _ | .Write _ _ => true
  | _ => false

/-- A `Mount` or a `TuneMount` call. -/
def isMountOrTune : Call O → Bool
  | .Mount _ _ | .TuneMount _ _ => true
  | _ => false

end Call

namespace Event

variable {O : Type}

/-- An event of the Vault client. -/
def isRemote (e : Event O) : Bool := e.call.isRemote

/-- An event of a status update. -/
def isStatusUpdate (e : Event O) : Bool := e.call.isStatusUpdate

/-- An event of a manifest update. -/
def isUpdate (e : Event O) : Bool := e.call.isUpdate

/-- An event of a `Delete`. -/
def isDelete (e : Event O) : Bool := e.call.isDelete

/-- An event of a create, tune or write of the desired identity. -/
def isApply (e : Event O) : Bool := e.call.isApply

end Event

/-- The calls of a log, in order. -/
def calls {O : Type} (log : List (Event O)) : List (Call O) := log.map Event.call

/-- The Vault client events of a log, in order. -/
def remoteEvents {O : Type} (log : List (Event O)) : List (Event O) :=
  log.filter Event.isRemote

/-- The status updates of a log, in order. -/
def statusUpdates {O : Type} (log : List (Event O)) : List (Event O) :=
  log.filter Event.isStatusUpdate

/-- The manifest updates of a log, in order. -/
def manifestUpdates {O : Type} (log : List (Event O)) : List (Event O) :=
  log.filter Event.isUpdate

/-- Scan of a log for the ordering of deletes: `seen` says whether a create,
tune or write has already returned success; every `Delete` must come with
`seen` set. -/
def deletesGuarded {O : Type} (seen : Bool) : List (Event O) → Bool
  | [] => true
  | e :: es => (!e.isDelete || seen) && deletesGuarded (seen || (e.isApply && e.ok)) es

/-- No create, tune or write of the log failed. -/
def appliesSucceed {O : Type} (log : List (Event O)) : Bool :=
  log.all (fun e => !e.isApply || e.ok)

/-- The log holds no `Delete`. -/
def deleteFree {O : Type} (log : List (Event O)) : Bool :=
  log.all (fun e => !e.isDelete)

/-- A `Get` call. -/
def Call.isGet {O : Type} : Call O → Bool
  | .Get => true
  | _ => false

/-- A `ClientFactoryGet` call. -/
def Call.isClientFactoryGet {O : Type} : Call O → Bool
  | .ClientFactoryGet _ => true
  | _ => false

/-! ## The Active and Deleting paths

The paths of a reconcile are fixed by what the control plane answers before
the first Vault call. `Active env w o w1` says that a run from world `w`
finds the manifest, obtains the handle, sees no deletion timestamp and gets
through the finalizer step; `o` is then the in-memory object and `w1` the
world in which convergence starts. With the marker already present `o` is the
fetched manifest with the validity flag reset; otherwise it is the server's
copy returned by the update that attached the marker.
`Deleting env w o w1` is the same with the deletion timestamp set; there is
no finalizer step before `handleFinalizer`. -/

/-- The Active path of a mount reconcile. -/
def VaultMountReconciler.Active {W : Type} (env : Env W VaultMount) (w : W) (o : VaultMount)
    (w1 : W) : Prop :=
  ∃ o0 wg wf, env.Get w = (.found o0, wg) ∧ env.ClientFactoryGet o0 wg = (none, wf) ∧
    o0.ObjectMeta.DeletionTimestamp = none ∧
    ((vaultMountFinalizer ∈ o0.ObjectMeta.Finalizers ∧
        o = { o0 with Status := { o0.Status with Valid := false } } ∧ w1 = wf) ∨
     (vaultMountFinalizer ∉ o0.ObjectMeta.Finalizers ∧
        o = env.Updated
              { o0 with
                Status := { o0.Status with Valid := false }
                ObjectMeta := { o0.ObjectMeta with
                  Finalizers := o0.ObjectMeta.Finalizers ++ [vaultMountFinalizer] } } wf ∧
        env.Update
            { o0 with
              Status := { o0.Status with Valid := false }
              ObjectMeta := { o0.ObjectMeta with
                Finalizers := o0.ObjectMeta.Finalizers ++ [vaultMountFinalizer] } } wf = (none, w1)))

/-- The Deleting path of a mount reconcile. -/
def VaultMountReconciler.Deleting {W : Type} (env : Env W VaultMount) (w : W) (o : VaultMount)
    (w1 : W) : Prop :=
  ∃ o0 wg t, env.Get w = (.found o0, wg) ∧ env.ClientFactoryGet o0 wg = (none, w1) ∧
    o0.ObjectMeta.DeletionTimestamp = some t ∧
    o = { o0 with Status := { o0.Status with Valid := false } }

/-- The Active path of a KV mount reconcile. -/
def VaultKVMountReconciler.Active {W : Type} (env : Env W VaultKVMount) (w : W)
    (o : VaultKVMount) (w1 : W) : Prop :=
  ∃ o0 wg wf, env.Get w = (.found o0, wg) ∧ env.ClientFactoryGet o0 wg = (none, wf) ∧
    o0.ObjectMeta.DeletionTimestamp = none ∧
    ((vaultKVMountFinalizer ∈ o0.ObjectMeta.Finalizers ∧
        o = { o0 with Status := { o0.Status with Valid := false } } ∧ w1 = wf) ∨
     (vaultKVMountFinalizer ∉ o0.ObjectMeta.Finalizers ∧
        o = env.Updated
              { o0 with
                Status := { o0.Status with Valid := false }
                ObjectMeta := { o0.ObjectMeta with
                  Finalizers := o0.ObjectMeta.Finalizers ++ [vaultKVMountFinalizer] } } wf ∧
        env.Update
            { o0 with
              Status := { o0.Status with Valid := false }
              ObjectMeta := { o0.ObjectMeta with
                Finalizers := o0.ObjectMeta.Finalizers ++ [vaultKVMountFinalizer] } } wf = (none, w1)))

/-- The Deleting path of a KV mount reconcile. -/
def VaultKVMountReconciler.Deleting {W : Type} (env : Env W VaultKVMount) (w : W)
    (o : VaultKVMount) (w1 : W) : Prop :=
  ∃ o0 wg t, env.Get w = (.found o0, wg) ∧ env.ClientFactoryGet o0 wg = (none, w1) ∧
    o0.ObjectMeta.DeletionTimestamp = some t ∧
    o = { o0 with Status := { o0.Status with Valid := false } }

/-- The Active path of a policy reconcile. -/
def VaultPolicyReconciler.Active {W : Type} (env : Env W VaultPolicy) (w : W) (o : VaultPolicy)
    (w1 : W) : Prop :=
  ∃ o0 wg wf, env.Get w = (.found o0, wg) ∧ env.ClientFactoryGet o0 wg = (none, wf) ∧
    o0.ObjectMeta.DeletionTimestamp = none ∧
    ((vaultPolicyFinalizer ∈ o0.ObjectMeta.Finalizers ∧
        o = { o0 with Status := { o0.Status with Valid := false } } ∧ w1 = wf) ∨
     (vaultPolicyFinalizer ∉ o0.ObjectMeta.Finalizers ∧
        o = env.Updated
              { o0 with
                Status := { o0.Status with Valid := false }
                ObjectMeta := { o0.ObjectMeta with
                  Finalizers := o0.ObjectMeta.Finalizers ++ [vaultPolicyFinalizer] } } wf ∧
        env.Update
            { o0 with
              Status := { o0.Status with Valid := false }
              ObjectMeta := { o0.ObjectMeta with
                Finalizers := o0.ObjectMeta.Finalizers ++ [vaultPolicyFinalizer] } } wf = (none, w1)))

/-- The Deleting path of a policy reconcile. -/
def VaultPolicyReconciler.Deleting {W : Type} (env : Env W VaultPolicy) (w : W)
    (o : VaultPolicy) (w1 : W) : Prop :=
  ∃ o0 wg t, env.Get w = (.found o0, wg) ∧ env.ClientFactoryGet o0 wg = (none, w1) ∧
    o0.ObjectMeta.DeletionTimestamp = some t ∧
    o = { o0 with Status := { o0.Status with Valid := false } }

/-! ## A model of the collaborators

The remote backend as a map from address to configuration and the control
plane as the one stored manifest, after sections 4.4 and 6 of the
specification. Every call can be made to fail by a fault predicate, in which
case it returns an error and leaves the world as it is. -/

/-- Modelled from the spec: what the remote holds at an address. The Vault
client of `internal/vault` is not among the sources; a configuration is the
input of the `Mount` that created it or the document a `Write` stored. -/
inductive RemoteObj where
  | mount (input : MountInput)
  | doc (data : Payload)
  deriving DecidableEq, Repr

/-- Modelled from the spec: the world of the model, the stored manifest (none
when the control plane has no such manifest) and the remote as a map from
address to configuration. -/
structure World (O : Type) where
  manifest : Option O
  remote : String → Option RemoteObj

/-- Modelled from the spec: the remote with the configuration at one address
replaced, or removed with `none`. -/
def World.put {O : Type} (w : World O) (addr : String) (v : Option RemoteObj) : World O :=
  { w with remote := fun a => if a = addr then v else w.remote a }

/-- Modelled from the spec: a listing key without its trailing slash, `none`
for a key that does not end in a slash. -/
def stripSlash (k : String) : Option String :=
  match k.data.reverse with
  | c :: rest => if c = '/' then some (String.mk rest.reverse) else none
  | [] => none

/-- Modelled from the spec: the string stored under a key of a document, empty
when there is none. -/
def payloadString (key : String) (d : Payload) : String :=
  match d.lookup key with
  | some (.leaf (.str v)) => v
  | _ => ""

/-- Modelled from the spec: the descriptor `ListMounts` reports for an
object. -/
def RemoteObj.descriptor : RemoteObj → MountOutput
  | .mount i => ⟨i.Typ, i.Description⟩
  | .doc d => ⟨payloadString "type" d, payloadString "description" d⟩

/-- Modelled from the spec: `ListMounts() -> mapping from normalized path to
mount descriptor`: the key `p/` is listed when an object lives at
`/sys/mounts/p`. -/
def listing (remote : String → Option RemoteObj) : String → Option MountOutput :=
  fun k =>
    match stripSlash k with
    | some p => (remote ("/sys/mounts/" ++ p)).map RemoteObj.descriptor
    | none => none

/-- Modelled from the spec: `TuneMount`, a partial update of the tunables of
an existing mount. A stored document has no typed tunables and is kept. -/
def RemoteObj.tune (config : MountConfigInput) : RemoteObj → RemoteObj
  | .mount i =>
    .mount { i with
      Config := config
      Description := config.Description.getD i.Description
      Options := config.Options }
  | .doc d => .doc d

/-- Modelled from the spec: what `Read` returns for an object. -/
def RemoteObj.secret : RemoteObj → Secret
  | .mount _ => ⟨[]⟩
  | .doc d => ⟨d⟩

/-- Modelled from the spec: the collaborators over `World`. `fails` makes a
call return an error without effect. `Write` is an upsert, `Delete` of an
absent address is a no-op, `Mount` creates at `/sys/mounts/<path>` and refuses
an address in use, `TuneMount` needs an object there. `onUpdate stored given`
and `onStatus stored given` say what the control plane stores on a manifest
update and on a status update; the copy it returns is what it stored. -/
def modelEnv {O : Type} (fails : Call O → Bool) (onUpdate onStatus : O → O → O) :
    Env (World O) O where
  Get w :=
    if fails .Get then (.failed "remote error", w)
    else match w.manifest with
      | some o => (.found o, w)
      | none => (.notFound, w)
  ClientFactoryGet o w :=
    if fails (.ClientFactoryGet o) then (some "remote error", w) else (none, w)
  Update o w :=
    if fails (.Update o) then (some "remote error", w)
    else match w.manifest with
      | some stored => (none, { w with manifest := some (onUpdate stored o) })
      | none => (some "not found", w)
  Updated o w :=
    match w.manifest with
    | some stored => onUpdate stored o
    | none => o
  StatusUpdate o w :=
    if fails (.StatusUpdate o) then (some "remote error", w)
    else match w.manifest with
      | some stored => (none, { w with manifest := some (onStatus stored o) })
      | none => (some "not found", w)
  StatusUpdated o w :=
    match w.manifest with
    | some stored => onStatus stored o
    | none => o
  ListMounts w :=
    if fails .ListMounts then (.error "remote error", w) else (.ok (listing w.remote), w)
  TuneMount path config w :=
    if fails (.TuneMount path config) then (some "remote error", w)
    else match w.remote ("/sys/mounts/" ++ path) with
      | some obj => (none, w.put ("/sys/mounts/" ++ path) (some (obj.tune config)))
      | none => (some "no mount at path", w)
  Mount path input w :=
    if fails (.Mount path input) then (some "remote error", w)
    else match w.remote ("/sys/mounts/" ++ path) with
      | some _ => (some "path is already in use", w)
      | none => (none, w.put ("/sys/mounts/" ++ path) (some (.mount input)))
  Read path w :=
    if fails (.Read path) then (.error "remote error", w)
    else (.ok ((w.remote path).map RemoteObj.secret), w)
  Write path data w :=
    if fails (.Write path data) then (some "remote error", w)
    else (none, w.put path (some (.doc data)))
  Delete path w :=
    if fails (.Delete path) then (some "remote error", w) else (none, w.put path none)

/-- No injected fault. -/
def noFault {O : Type} : Call O → Bool := fun _ => false

/-- Modelled from the spec: the model for the mount kind. A manifest update
keeps the stored status, a status update changes nothing but the status. -/
def mountModel (fails : Call VaultMount → Bool) : Env (World VaultMount) VaultMount :=
  modelEnv fails (fun stored o => { o with Status := stored.Status })
    (fun stored o => { stored with Status := o.Status })

/-- Modelled from the spec: the model for the KV mount kind. -/
def kvMountModel (fails : Call VaultKVMount → Bool) : Env (World VaultKVMount) VaultKVMount :=
  modelEnv fails (fun stored o => { o with Status := stored.Status })
    (fun stored o => { stored with Status := o.Status })

/-- Modelled from the spec: the model for the policy kind. -/
def policyModel (fails : Call VaultPolicy → Bool) : Env (World VaultPolicy) VaultPolicy :=
  modelEnv fails (fun stored o => { o with Status := stored.Status })
    (fun stored o => { stored with Status := o.Status })

/-- One mount reconcile over the model without faults. -/
def mountOnce (w : World VaultMount) : Outcome (World VaultMount) VaultMount :=
  VaultMountReconciler.Reconcile (mountModel noFault) w

/-- A second mount reconcile, from the world the first one left. -/
def mountTwice (w : World VaultMount) : Outcome (World VaultMount) VaultMount :=
  VaultMountReconciler.Reconcile (mountModel noFault) (mountOnce w).world

/-- One KV mount reconcile over the model without faults. -/
def kvOnce (w : World VaultKVMount) : Outcome (World VaultKVMount) VaultKVMount :=
  VaultKVMountReconciler.Reconcile (kvMountModel noFault) w

/-- A second KV mount reconcile, from the world the first one left. -/
def kvTwice (w : World VaultKVMount) : Outcome (World VaultKVMount) VaultKVMount :=
  VaultKVMountReconciler.Reconcile (kvMountModel noFault) (kvOnce w).world

/-- One policy reconcile over the model without faults. -/
def policyOnce (w : World VaultPolicy) : Outcome (World VaultPolicy) VaultPolicy :=
  VaultPolicyReconciler.Reconcile (policyModel noFault) w

/-- A second policy reconcile, from the world the first one left. -/
def policyTwice (w : World VaultPolicy) : Outcome (World VaultPolicy) VaultPolicy :=
  VaultPolicyReconciler.Reconcile (policyModel noFault) (policyOnce w).world

/-- A run persists a valid status: it returns no error, its one status update
succeeds and carries the validity flag set, and the stored manifest has the
flag set. -/
def PersistsValid {O : Type} (valid : O → Bool) (r : Outcome (World O) O) : Prop :=
  r.err = none ∧
  (∃ o1, statusUpdates r.log = [⟨.StatusUpdate o1, true⟩] ∧ valid o1 = true) ∧
  r.world.manifest.map valid = some true

/-! ## Example manifests -/

/-- A mount configuration with nothing set. -/
def emptyConfig : MountConfig :=
  { DefaultLeaseTTL := "", MaxLeaseTTL := "", ForceNoCache := false,
    AuditNonHMACRequestKeys := [], AuditNonHMACResponseKeys := [], ListingVisibility := "",
    PassthroughRequestHeaders := [], AllowedResponseHeaders := [] }

/-- A mount manifest on the Active path: finalizer attached, desired path `b`,
recorded status path `a`. -/
def mountAt (a b : String) : VaultMount :=
  { ObjectMeta := { Name := "m", Finalizers := [vaultMountFinalizer], DeletionTimestamp := none }
    Spec :=
      { VaultAuthRef := "", Namespace := "", Path := b, Description := "", Config := emptyConfig,
        Local := false, SealWrap := false, ExternalEntropyAccess := false, Options := [],
        Typ := "kv" }
    Status := { Valid := false, Error := "", Path := a } }

/-- A KV mount manifest on the Active path: finalizer attached, desired path
`b`, recorded status path `a`. -/
def kvMountAt (a b : String) : VaultKVMount :=
  { ObjectMeta := { Name := "m", Finalizers := [vaultKVMountFinalizer], DeletionTimestamp := none }
    Spec :=
      { VaultAuthRef := "", Namespace := "", Path := b, Description := "", Config := emptyConfig,
        Local := false, SealWrap := false, ExternalEntropyAccess := false, Options := [],
        Version := "2", Typ := "kv" }
    Status := { Valid := false, Error := "", Path := a } }

/-- A policy manifest on the Active path: finalizer attached, name `b`,
recorded status name `a`, the document of `appReader`. -/
def policyAt (a b : String) : VaultPolicy :=
  { ObjectMeta := { Name := b, Finalizers := [vaultPolicyFinalizer], DeletionTimestamp := none }
    Spec := appReader.Spec
    Status := { Valid := false, Error := "", Name := a } }

/-- A mount manifest on the Deleting path: deletion timestamp set, the marker
of the kind after a foreign finalizer. -/
def deletingMount : VaultMount :=
  { mountAt "b" "b" with
    ObjectMeta :=
      { Name := "m", Finalizers := ["other/finalizer", vaultMountFinalizer],
        DeletionTimestamp := some 1 } }

/-- A KV mount manifest on the Deleting path. -/
def deletingKVMount : VaultKVMount :=
  { kvMountAt "b" "b" with
    ObjectMeta :=
      { Name := "m", Finalizers := ["other/finalizer", vaultKVMountFinalizer],
        DeletionTimestamp := some 1 } }

/-- A policy manifest on the Deleting path. -/
def deletingPolicy : VaultPolicy :=
  { policyAt "b" "b" with
    ObjectMeta :=
      { Name := "b", Finalizers := ["other/finalizer", vaultPolicyFinalizer],
        DeletionTimestamp := some 1 } }

/-- A world holding one manifest and an empty remote. -/
def emptyRemote {O : Type} (o : O) : World O := ⟨some o, fun _ => none⟩

/-- A world holding one manifest and one remote object. -/
def oneObject {O : Type} (o : O) (addr : String) (obj : RemoteObj) : World O :=
  ⟨some o, fun a => if a = addr then some obj else none⟩

/-- The mount `a` is live and the manifest asks for `b`. -/
def mountRenameWorld : World VaultMount :=
  oneObject (mountAt "a" "b") "/sys/mounts/a"
    (.mount (VaultMountReconciler.mountInput (mountAt "a" "a")))

/-- A fault: every `Delete` and every `TuneMount` fails. -/
def deleteAndTuneFail {O : Type} (c : Call O) : Bool := c.isDelete || c.isTuneMount

/-- The first run of the rename of mount `a` to `b` when deletes fail. -/
def crashFirstRun : Outcome (World VaultMount) VaultMount :=
  VaultMountReconciler.Reconcile (mountModel Call.isDelete) mountRenameWorld

/-- The first run of the rename of mount `a` to `b` when deletes and tunes
fail. -/
def tuneCrashFirstRun : Outcome (World VaultMount) VaultMount :=
  VaultMountReconciler.Reconcile (mountModel deleteAndTuneFail) mountRenameWorld

/-- The retry of `tuneCrashFirstRun`, from the world it left. -/
def tuneCrashRetry : Outcome (World VaultMount) VaultMount :=
  VaultMountReconciler.Reconcile (mountModel deleteAndTuneFail) tuneCrashFirstRun.world

/-- The KV mount `a` is live and the manifest asks for `b`. -/
def kvRenameWorld : World VaultKVMount :=
  oneObject (kvMountAt "a" "b") "/sys/mounts/a"
    (.doc (VaultKVMountReconciler.createPayload (kvMountAt "a" "a")))

/-- The first run of the rename of KV mount `a` to `b` when deletes fail. -/
def kvCrashFirstRun : Outcome (World VaultKVMount) VaultKVMount :=
  VaultKVMountReconciler.Reconcile (kvMountModel Call.isDelete) kvRenameWorld

/-- The retry of `kvCrashFirstRun` from the world it left, without faults. -/
def kvCrashRetry : Outcome (World VaultKVMount) VaultKVMount :=
  VaultKVMountReconciler.Reconcile (kvMountModel noFault) kvCrashFirstRun.world

/-- The policy `a` is live and the manifest is named `b`. -/
def policyRenameWorld : World VaultPolicy :=
  oneObject (policyAt "a" "b") "/sys/policies/acl/a"
    (.doc (VaultPolicyReconciler.writePayload (policyAt "a" "a")))

end VSO

namespace VSO

/-- A world without manifest and with an empty remote. -/
def noManifest {O : Type} : World O := ⟨none, fun _ => none⟩

/-- A mount manifest whose finalizer list holds a foreign finalizer only. -/
def foreignOnlyMount : VaultMount :=
  { mountAt "" "b" with
    ObjectMeta := { Name := "m", Finalizers := ["other/finalizer"], DeletionTimestamp := none } }

/-- A KV mount manifest whose finalizer list holds a foreign finalizer only. -/
def foreignOnlyKVMount : VaultKVMount :=
  { kvMountAt "" "b" with
    ObjectMeta := { Name := "m", Finalizers := ["other/finalizer"], DeletionTimestamp := none } }

/-- A policy manifest whose finalizer list holds a foreign finalizer only. -/
def foreignOnlyPolicy : VaultPolicy :=
  { policyAt "" "b" with
    ObjectMeta := { Name := "b", Finalizers := ["other/finalizer"], DeletionTimestamp := none } }

/-- A mount manifest after a successful run: finalizer attached, desired and
recorded path `b`, validity flag set. -/
def settledMount : VaultMount :=
  { mountAt "b" "b" with Status := { Valid := true, Error := "", Path := "b" } }

/-- A KV mount manifest after a successful run: finalizer attached, desired
and recorded path `b`, validity flag set. -/
def settledKVMount : VaultKVMount :=
  { kvMountAt "b" "b" with Status := { Valid := true, Error := "", Path := "b" } }

/-- A policy manifest after a successful run: finalizer attached, name and
recorded name `b`, validity flag set. -/
def settledPolicy : VaultPolicy :=
  { policyAt "b" "b" with Status := { Valid := true, Error := "", Name := "b" } }

/-- A mount manifest renamed from `a` to `b` in which every field of the
desired spec that the controller hands to Vault has a value of its own. -/
def tunedMount : VaultMount :=
  { mountAt "a" "b" with
    Spec :=
      { VaultAuthRef := "", Namespace := "", Path := "b", Description := "team secrets",
        Config :=
          { DefaultLeaseTTL := "1h", MaxLeaseTTL := "24h", ForceNoCache := true,
            AuditNonHMACRequestKeys := ["x-req"], AuditNonHMACResponseKeys := ["x-resp"],
            ListingVisibility := "unauth", PassthroughRequestHeaders := ["x-pass"],
            AllowedResponseHeaders := ["x-allow"] },
        Local := true, SealWrap := true, ExternalEntropyAccess := true,
        Options := [("version", "2")], Typ := "kv" } }

/-- The world of `tunedMount` before its rename: the remote holds a mount at
`/sys/mounts/a`. -/
def tunedRenameWorld : World VaultMount :=
  oneObject tunedMount "/sys/mounts/a"
    (.mount (VaultMountReconciler.mountInput (mountAt "a" "a")))

/-- A KV mount manifest whose desired description changed after the mount was
created: finalizer attached, desired and recorded path `b`. -/
def kvDrifted : VaultKVMount :=
  { kvMountAt "b" "b" with
    Spec := { (kvMountAt "b" "b").Spec with Description := "new" } }

/-- The world of `kvDrifted`: the remote holds at `/sys/mounts/b` the object
created from the manifest before the change. -/
def kvDriftedWorld : World VaultKVMount :=
  oneObject kvDrifted "/sys/mounts/b"
    (.doc (VaultKVMountReconciler.createPayload (kvMountAt "b" "b")))

/-- The world of `deletingMount`: the remote holds at `/sys/mounts/b` the
mount a convergence of the manifest created. -/
def mountedDeleting : World VaultMount :=
  oneObject deletingMount "/sys/mounts/b"
    (.mount (VaultMountReconciler.mountInput deletingMount))

/-- The world of `deletingKVMount`: the remote holds at `/sys/mounts/b` the
object a convergence of the manifest wrote. -/
def kvMountedDeleting : World VaultKVMount :=
  oneObject deletingKVMount "/sys/mounts/b"
    (.doc (VaultKVMountReconciler.createPayload deletingKVMount))

/-- The world of `deletingPolicy`: the remote holds at `/sys/policies/acl/b`
the document a convergence of the manifest wrote. -/
def policyWrittenDeleting : World VaultPolicy :=
  oneObject deletingPolicy "/sys/policies/acl/b"
    (.doc (VaultPolicyReconciler.writePayload deletingPolicy))

/-- A policy manifest with two path patterns, `a/*` set before `b/*`. -/
def readerAB : VaultPolicy :=
  { appReader with
    Spec :=
      { VaultAuthRef := ""
        Namespace := ""
        Path :=
          [("a/*",
            { Capabilities := ["read"], AllowedParameters := [], DeniedParameters := [],
              RequiredParameters := [], MinWrappingTTL := "", MaxWrappingTTL := "" }),
           ("b/*",
            { Capabilities := ["list"], AllowedParameters := [], DeniedParameters := [],
              RequiredParameters := [], MinWrappingTTL := "", MaxWrappingTTL := "" })] } }

/-- The policy manifest of `readerAB` with `b/*` set before `a/*`. -/
def readerBA : VaultPolicy :=
  { appReader with
    Spec :=
      { VaultAuthRef := ""
        Namespace := ""
        Path :=
          [("b/*",
            { Capabilities := ["list"], AllowedParameters := [], DeniedParameters := [],
              RequiredParameters := [], MinWrappingTTL := "", MaxWrappingTTL := "" }),
           ("a/*",
            { Capabilities := ["read"], AllowedParameters := [], DeniedParameters := [],
              RequiredParameters := [], MinWrappingTTL := "", MaxWrappingTTL := "" })] } }

/-- A mount manifest marked for deletion whose finalizer list holds a foreign
finalizer only. -/
def unguardedMount : VaultMount :=
  { mountAt "b" "b" with
    ObjectMeta :=
      { Name := "m", Finalizers := ["other/finalizer"], DeletionTimestamp := some 1 } }

/-- A KV mount manifest marked for deletion whose finalizer list holds a
foreign finalizer only. -/
def unguardedKVMount : VaultKVMount :=
  { kvMountAt "b" "b" with
    ObjectMeta :=
      { Name := "m", Finalizers := ["other/finalizer"], DeletionTimestamp := some 1 } }

/-- A policy manifest marked for deletion whose finalizer list holds a foreign
finalizer only. -/
def unguardedPolicy : VaultPolicy :=
  { policyAt "b" "b" with
    ObjectMeta :=
      { Name := "b", Finalizers := ["other/finalizer"], DeletionTimestamp := some 1 } }

/-- The KV mount manifest `kvMountAt "" "b"` with version `1` in place of
`2`. -/
def kvVersionOne : VaultKVMount :=
  { kvMountAt "" "b" with Spec := { (kvMountAt "" "b").Spec with Version := "1" } }

/-- The KV mount manifest `kvMountAt "" "b"` with a mount option set. -/
def kvWithOptions : VaultKVMount :=
  { kvMountAt "" "b" with
    Spec := { (kvMountAt "" "b").Spec with Options := [("max_versions", "5")] } }

/-- The world of a mount manifest of desired path `p` with nothing recorded:
the remote holds a mount at `/sys/mounts/secret`. -/
def secretWorld (p : String) : World VaultMount :=
  oneObject (mountAt "" p) "/sys/mounts/secret"
    (.mount (VaultMountReconciler.mountInput (mountAt "" "secret")))

/-- Whether the fetch found a manifest whose finalizer list holds the
marker. -/
def holdsMarker {O : Type} (fin : O → List String) (marker : String) : GetResult O → Bool
  | .found o => decide (marker ∈ fin o)
  | _ => false

/-- A successful manifest update of an object whose finalizer list holds the
marker. -/
def attaches {O : Type} (fin : O → List String) (marker : String) (e : Event O) : Bool :=
  e.ok && (match e.call with
    | .Update o => decide (marker ∈ fin o)
    | _ => false)

/-- Scan of a log for the finalizer guard: `held` says whether the stored
manifest is known to hold the marker, from the fetch or from a successful
manifest update that attached it; every create, tune or write must come with
`held` set. -/
def appliesGuarded {O : Type} (fin : O → List String) (marker : String) (held : Bool) :
    List (Event O) → Bool
  | [] => true
  | e :: es => (!e.isApply || held) && appliesGuarded fin marker (held || attaches fin marker e) es

/-- The finalizer list of a mount manifest. -/
def VaultMount.finalizers (o : VaultMount) : List String := o.ObjectMeta.Finalizers

/-- The finalizer list of a KV mount manifest. -/
def VaultKVMount.finalizers (o : VaultKVMount) : List String := o.ObjectMeta.Finalizers

/-- The finalizer list of a policy manifest. -/
def VaultPolicy.finalizers (o : VaultPolicy) : List String := o.ObjectMeta.Finalizers

/-- The object a call hands to the control plane for storing: that of a
manifest update or of a status update. -/
def Call.written {O : Type} : Call O → Option O
  | .Update o => some o
  | .StatusUpdate o => some o
  | _ => none

/-- The fields of a mount manifest outside the finalizer list, the validity
flag and the status path: the desired spec, the status error, the name and the
deletion timestamp. -/
def VaultMount.unwritten (o : VaultMount) :
    VaultMountTypedSpec × String × String × Option Nat :=
  (o.Spec, o.Status.Error, o.ObjectMeta.Name, o.ObjectMeta.DeletionTimestamp)

/-- The fields of a KV mount manifest outside the finalizer list, the validity
flag and the status path. -/
def VaultKVMount.unwritten (o : VaultKVMount) :
    VaultKVMountSpec × String × String × Option Nat :=
  (o.Spec, o.Status.Error, o.ObjectMeta.Name, o.ObjectMeta.DeletionTimestamp)

/-- The fields of a policy manifest outside the finalizer list, the validity
flag and the status name. -/
def VaultPolicy.unwritten (o : VaultPolicy) :
    VaultPolicySpec × String × String × Option Nat :=
  (o.Spec, o.Status.Error, o.ObjectMeta.Name, o.ObjectMeta.DeletionTimestamp)

/-! ## Reading a JSON text -/

/-- A JSON text as a tree; the members of an object are in the order of the
text. Numbers and booleans are left out: `Marshal` writes none for the policy
document. -/
inductive Json where
  | null
  | str (s : String)
  | arr (items : List Json)
  | obj (members : List (String × Json))

/-- The value of a hexadecimal digit. -/
def hexValue (c : Char) : Option Nat :=
  if 48 ≤ c.toNat ∧ c.toNat ≤ 57 then some (c.toNat - 48)
  else if 97 ≤ c.toNat ∧ c.toNat ≤ 102 then some (c.toNat - 87)
  else if 65 ≤ c.toNat ∧ c.toNat ≤ 70 then some (c.toNat - 55)
  else none

/-- The character a two-character escape of JSON stands for, by the character
after the backslash. -/
def simpleEscape (c : Char) : Option Char :=
  if c.toNat = 34 then some (Char.ofNat 34)
  else if c.toNat = 92 then some (Char.ofNat 92)
  else if c.toNat = 47 then some (Char.ofNat 47)
  else if c.toNat = 98 then some (Char.ofNat 8)
  else if c.toNat = 102 then some (Char.ofNat 12)
  else if c.toNat = 110 then some (Char.ofNat 10)
  else if c.toNat = 114 then some (Char.ofNat 13)
  else if c.toNat = 116 then some (Char.ofNat 9)
  else none

/-- Reads the characters of a JSON string after its opening quote, up to the
closing quote: the characters read and the rest of the text. A raw control
character, an unknown escape and a missing closing quote are errors. -/
def parseChars : List Char → Option (List Char × List Char)
  | [] => none
  | c :: cs =>
    if c.toNat = 34 then some ([], cs)
    else if c.toNat = 92 then
      match cs with
      | [] => none
      | e :: cs1 =>
        if e.toNat = 117 then
          match cs1 with
          | a :: b :: c2 :: d :: cs2 =>
            match hexValue a, hexValue b, hexValue c2, hexValue d with
            | some x, some y, some z, some t =>
              (parseChars cs2).map
                (fun r => (Char.ofNat (((x * 16 + y) * 16 + z) * 16 + t) :: r.1, r.2))
            | _, _, _, _ => none
          | _ => none
        else
          match simpleEscape e with
          | some ch => (parseChars cs1).map (fun r => (ch :: r.1, r.2))
          | none => none
    else if c.toNat < 32 then none
    else (parseChars cs).map (fun r => (c :: r.1, r.2))

/-- Reads the items of a non-empty JSON array or object, separated by commas,
up to the closing character: the items read and the rest of the text. -/
def parseItems {α : Type} (item : List Char → Option (α × List Char)) (close : Char) :
    Nat → List Char → Option (List α × List Char)
  | 0, _ => none
  | fuel + 1, cs =>
    match item cs with
    | none => none
    | some (x, r) =>
      match r with
      | [] => none
      | c :: r1 =>
        if c = close then some ([x], r1)
        else if c = Char.ofNat 44 then
          (parseItems item close fuel r1).map (fun p => (x :: p.1, p.2))
        else none

/-- Reads a JSON array or object after its opening character: the closing
character at once, or items separated by commas and then the closing
character. -/
def parseSeq {α : Type} (item : List Char → Option (α × List Char)) (close : Char)
    (cs : List Char) : Option (List α × List Char) :=
  match cs with
  | [] => none
  | c :: r => if c = close then some ([], r) else parseItems item close cs.length cs

/-- Reads one member of a JSON object: a string, a colon, a value. -/
def parseMember (value : List Char → Option (Json × List Char)) (cs : List Char) :
    Option ((String × Json) × List Char) :=
  match cs with
  | [] => none
  | q :: r =>
    if q.toNat = 34 then
      match parseChars r with
      | some (k, c :: r1) =>
        if c.toNat = 58 then (value r1).map (fun p => ((String.mk k, p.1), p.2)) else none
      | _ => none
    else none

/-- Reads one JSON value whose nested values are read by `value`: a string, an
array, an object or `null`. -/
def parseStep (value : List Char → Option (Json × List Char)) (cs : List Char) :
    Option (Json × List Char) :=
  match cs with
  | [] => none
  | c :: r =>
    if c.toNat = 34 then (parseChars r).map (fun p => (Json.str (String.mk p.1), p.2))
    else if c.toNat = 91 then
      (parseSeq value (Char.ofNat 93) r).map (fun p => (Json.arr p.1, p.2))
    else if c.toNat = 123 then
      (parseSeq (parseMember value) (Char.ofNat 125) r).map (fun p => (Json.obj p.1, p.2))
    else if c.toNat = 110 then
      match r with
      | u :: l1 :: l2 :: r1 =>
        if u.toNat = 117 ∧ l1.toNat = 108 ∧ l2.toNat = 108 then some (Json.null, r1) else none
      | _ => none
    else none

/-- Reads one JSON value nested at most `depth` deep, without white space, and
returns it with the rest of the text. -/
def parseValue : Nat → List Char → Option (Json × List Char)
  | 0, _ => none
  | depth + 1, cs => parseStep (parseValue depth) cs

/-- Reads a whole text as one JSON value. -/
def parseJson (s : String) : Option Json :=
  match parseValue s.length s.data with
  | some (j, []) => some j
  | _ => none

/-- Texts joined by commas. -/
def joinComma : List (List Char) → List Char
  | [] => []
  | x :: xs => x ++ xs.flatMap (fun a => Char.ofNat 44 :: a)

/-- The policy document in the spec's words, a list of strings: the JSON
array of the strings. -/
def specStringsJson (l : List String) : Json :=
  .arr (l.map Json.str)

/-- The policy document in the spec's words, a parameter map: the JSON object
with the keys of the map in increasing order, each with the array of its
strings, `null` for a key that holds no list. -/
def specParametersJson (m : List (String × Option (List String))) : Json :=
  .obj ((sortByKey m).map (fun e =>
    (e.1, match e.2 with
      | none => Json.null
      | some l => specStringsJson l)))

/-- The policy document in the spec's words, one path pattern: the JSON object
of its declared fields under the names `capabilities`, `allowed_parameters`,
`denied_parameters`, `required_parameters`, `min_wrapping_ttl` and
`max_wrapping_ttl`, empty fields omitted. -/
def specPathJson (d : VaultPolicyPath) : Json :=
  .obj
    ((if d.Capabilities = [] then [] else [("capabilities", specStringsJson d.Capabilities)]) ++
     (if d.AllowedParameters = [] then []
       else [("allowed_parameters", specParametersJson d.AllowedParameters)]) ++
     (if d.DeniedParameters = [] then []
       else [("denied_parameters", specParametersJson d.DeniedParameters)]) ++
     (if d.RequiredParameters = [] then []
       else [("required_parameters", specStringsJson d.RequiredParameters)]) ++
     (if d.MinWrappingTTL = "" then [] else [("min_wrapping_ttl", Json.str d.MinWrappingTTL)]) ++
     (if d.MaxWrappingTTL = "" then [] else [("max_wrapping_ttl", Json.str d.MaxWrappingTTL)]))

/-- The policy document in the spec's words: the JSON object with the single
key `path`, whose value has the given path patterns as keys, each mapped to
the object of its declared fields. -/
def specDocumentJson (entries : List (String × VaultPolicyPath)) : Json :=
  .obj [("path", .obj (entries.map (fun e => (e.1, specPathJson e.2))))]

/-- The declared fields of a path pattern that uses every field: capabilities
with a quote and a backslash, parameter maps with several keys, a key without
a list and an empty list, required parameters with control characters, and
both wrapping TTLs. -/
def teamSecretPath : VaultPolicyPath :=
  { Capabilities := ["read", "a\"b\\c"]
    AllowedParameters := [("zeta", some ["1", "2"]), ("alpha", none), ("mid", some [])]
    DeniedParameters := [("x&y", some ["\t"])]
    RequiredParameters := ["r1", "\x08\x0c\n\r\x1f"]
    MinWrappingTTL := "1s"
    MaxWrappingTTL := "90s" }

/-- The declared fields of a path pattern with capabilities only. -/
def teamAuthPath : VaultPolicyPath :=
  { Capabilities := ["list"], AllowedParameters := [], DeniedParameters := [],
    RequiredParameters := [], MinWrappingTTL := "", MaxWrappingTTL := "" }

/-- A policy manifest with two path patterns, declared out of key order. -/
def teamPolicy : VaultPolicy :=
  { ObjectMeta := { Name := "team", Finalizers := [vaultPolicyFinalizer], DeletionTimestamp := none }
    Spec :=
      { VaultAuthRef := ""
        Namespace := ""
        Path := [("secret/data/<team>", teamSecretPath), ("auth/*", teamAuthPath)] }
    Status := { Valid := false, Error := "", Name := "" } }

/-- The document `Marshal` writes for `teamPolicy`. -/
def teamDocument : String :=
  "\x7b\"path\":\x7b\"auth/*\":\x7b\"capabilities\":[\"list\"]\x7d,\"secret/data/\\u003cteam\\u003e\":\x7b\"capabilities\":[\"read\",\"a\\\"b\\\\c\"],\"allowed_parameters\":\x7b\"alpha\":null,\"mid\":[],\"zeta\":[\"1\",\"2\"]\x7d,\"denied_parameters\":\x7b\"x\\u0026y\":[\"\\t\"]\x7d,\"required_parameters\":[\"r1\",\"\\b\\f\\n\\r\\u001f\"],\"min_wrapping_ttl\":\"1s\",\"max_wrapping_ttl\":\"90s\"\x7d\x7d\x7d"

/-! ## Readings of the world that only a status update writes -/

/-- Every collaborator call other than the status update leaves a reading `f`
of the world as it is: for the persisted status document this is the status
subresource of the control plane, which a manifest update does not write. -/
structure Env.Preserves {W O S : Type} (env : Env W O) (f : W → S) : Prop where
  Get : ∀ w, f (env.Get w).2 = f w
  ClientFactoryGet : ∀ o w, f (env.ClientFactoryGet o w).2 = f w
  Update : ∀ o w, f (env.Update o w).2 = f w
  ListMounts : ∀ w, f (env.ListMounts w).2 = f w
  TuneMount : ∀ p c w, f (env.TuneMount p c w).2 = f w
  Mount : ∀ p i w, f (env.Mount p i w).2 = f w
  Read : ∀ p w, f (env.Read p w).2 = f w
  Write : ∀ p d w, f (env.Write p d w).2 = f w
  Delete : ∀ p w, f (env.Delete p w).2 = f w

/-- A run from world `w` is atomic on the status: an error it returns comes
with a failed call in its log, and when a call other than the status update
failed the run issued no status update and the reading `f` of the world is the
one before the run. -/
def StatusAtomic {W O S : Type} (f : W → S) (w : W) (r : Outcome W O) : Prop :=
  (r.err ≠ none → ∃ e ∈ r.log, e.ok = false) ∧
  ((∃ e ∈ r.log, e.isStatusUpdate = false ∧ e.ok = false) →
    statusUpdates r.log = [] ∧ f r.world = f w)

/-! ## Entering the paths -/

/-- On the Active path a reconcile of the VaultMount kind is its convergence,
run after a log of successful control-plane calls that holds no Vault call
and no status update. -/
theorem mount_reconcile_of_active {W : Type} (env : Env W VaultMount) (w w1 : W)
    (o : VaultMount) (h : VaultMountReconciler.Active env w o w1) :
    ∃ pre : List (Event VaultMount),
      (∀ e ∈ pre, e.call.isRemote = false ∧ e.call.isStatusUpdate = false ∧ e.ok = true) ∧
      VaultMountReconciler.Reconcile env w = (VaultMountReconciler.converge env o w1).after pre := by
  obtain ⟨o0, wg, wf, hG, hF, hT, h | h⟩ := h
  · obtain ⟨hc, rfl, rfl⟩ := h
    refine ⟨[⟨.Get, true⟩, ⟨.ClientFactoryGet o0, true⟩], ?_, ?_⟩
    · simp [Call.isRemote, Call.isStatusUpdate]
    · simp [VaultMountReconciler.Reconcile, hG, hF, hT, VaultMountReconciler.addFinalizer, ContainsFinalizer, hc,
        Outcome.after]
  · obtain ⟨hc, ho, hU⟩ := h
    refine ⟨[⟨.Get, true⟩, ⟨.ClientFactoryGet o0, true⟩,
      ⟨.Update { o0 with
          Status := { o0.Status with Valid := false }
          ObjectMeta := { o0.ObjectMeta with
            Finalizers := o0.ObjectMeta.Finalizers ++ [vaultMountFinalizer] } }, true⟩], ?_, ?_⟩
    · simp [Call.isRemote, Call.isStatusUpdate]
    · subst ho
      simp only [hT] at hU
      simp [VaultMountReconciler.Reconcile, hG, hF, hT, VaultMountReconciler.addFinalizer, ContainsFinalizer, AddFinalizer,
        hc, hU, Outcome.after]

/-- On the Deleting path a reconcile of the VaultMount kind is `handleFinalizer`,
run after the two successful control-plane calls. -/
theorem mount_reconcile_of_deleting {W : Type} (env : Env W VaultMount) (w w1 : W)
    (o : VaultMount) (h : VaultMountReconciler.Deleting env w o w1) :
    ∃ o0 : VaultMount, o = { o0 with Status := { o0.Status with Valid := false } } ∧
      VaultMountReconciler.Reconcile env w =
        (VaultMountReconciler.handleFinalizer env o w1).after [⟨.Get, true⟩, ⟨.ClientFactoryGet o0, true⟩] := by
  obtain ⟨o0, wg, t, hG, hF, hT, rfl⟩ := h
  refine ⟨o0, rfl, ?_⟩
  simp [VaultMountReconciler.Reconcile, hG, hF, hT, Outcome.after]

/-- On the Active path a reconcile of the VaultKVMount kind is its convergence,
run after a log of successful control-plane calls that holds no Vault call
and no status update. -/
theorem kv_reconcile_of_active {W : Type} (env : Env W VaultKVMount) (w w1 : W)
    (o : VaultKVMount) (h : VaultKVMountReconciler.Active env w o w1) :
    ∃ pre : List (Event VaultKVMount),
      (∀ e ∈ pre, e.call.isRemote = false ∧ e.call.isStatusUpdate = false ∧ e.ok = true) ∧
      VaultKVMountReconciler.Reconcile env w = (VaultKVMountReconciler.converge env o w1).after pre := by
  obtain ⟨o0, wg, wf, hG, hF, hT, h | h⟩ := h
  · obtain ⟨hc, rfl, rfl⟩ := h
    refine ⟨[⟨.Get, true⟩, ⟨.ClientFactoryGet o0, true⟩], ?_, ?_⟩
    · simp [Call.isRemote, Call.isStatusUpdate]
    · simp [VaultKVMountReconciler.Reconcile, hG, hF, hT, VaultKVMountReconciler.addFinalizer, ContainsFinalizer, hc,
        Outcome.after]
  · obtain ⟨hc, ho, hU⟩ := h
    refine ⟨[⟨.Get, true⟩, ⟨.ClientFactoryGet o0, true⟩,
      ⟨.Update { o0 with
          Status := { o0.Status with Valid := false }
          ObjectMeta := { o0.ObjectMeta with
            Finalizers := o0.ObjectMeta.Finalizers ++ [vaultKVMountFinalizer] } }, true⟩], ?_, ?_⟩
    · simp [Call.isRemote, Call.isStatusUpdate]
    · subst ho
      simp only [hT] at hU
      simp [VaultKVMountReconciler.Reconcile, hG, hF, hT, VaultKVMountReconciler.addFinalizer, ContainsFinalizer, AddFinalizer,
        hc, hU, Outcome.after]

/-- On the Deleting path a reconcile of the VaultKVMount kind is `handleFinalizer`,
run after the two successful control-plane calls. -/
theorem kv_reconcile_of_deleting {W : Type} (env : Env W VaultKVMount) (w w1 : W)
    (o : VaultKVMount) (h : VaultKVMountReconciler.Deleting env w o w1) :
    ∃ o0 : VaultKVMount, o = { o0 with Status := { o0.Status with Valid := false } } ∧
      VaultKVMountReconciler.Reconcile env w =
        (VaultKVMountReconciler.handleFinalizer env o w1).after [⟨.Get, true⟩, ⟨.ClientFactoryGet o0, true⟩] := by
  obtain ⟨o0, wg, t, hG, hF, hT, rfl⟩ := h
  refine ⟨o0, rfl, ?_⟩
  simp [VaultKVMountReconciler.Reconcile, hG, hF, hT, Outcome.after]

/-- On the Active path a reconcile of the VaultPolicy kind is its convergence,
run after a log of successful control-plane calls that holds no Vault call
and no status update. -/
theorem policy_reconcile_of_active {W : Type} (env : Env W VaultPolicy) (w w1 : W)
    (o : VaultPolicy) (h : VaultPolicyReconciler.Active env w o w1) :
    ∃ pre : List (Event VaultPolicy),
      (∀ e ∈ pre, e.call.isRemote = false ∧ e.call.isStatusUpdate = false ∧ e.ok = true) ∧
      VaultPolicyReconciler.Reconcile env w = (VaultPolicyReconciler.converge env o w1).after pre := by
  obtain ⟨o0, wg, wf, hG, hF, hT, h | h⟩ := h
  · obtain ⟨hc, rfl, rfl⟩ := h
    refine ⟨[⟨.Get, true⟩, ⟨.ClientFactoryGet o0, true⟩], ?_, ?_⟩
    · simp [Call.isRemote, Call.isStatusUpdate]
    · simp [VaultPolicyReconciler.Reconcile, hG, hF, hT, VaultPolicyReconciler.addFinalizer, ContainsFinalizer, hc,
        Outcome.after]
  · obtain ⟨hc, ho, hU⟩ := h
    refine ⟨[⟨.Get, true⟩, ⟨.ClientFactoryGet o0, true⟩,
      ⟨.Update { o0 with
          Status := { o0.Status with Valid := false }
          ObjectMeta := { o0.ObjectMeta with
            Finalizers := o0.ObjectMeta.Finalizers ++ [vaultPolicyFinalizer] } }, true⟩], ?_, ?_⟩
    · simp [Call.isRemote, Call.isStatusUpdate]
    · subst ho
      simp only [hT] at hU
      simp [VaultPolicyReconciler.Reconcile, hG, hF, hT, VaultPolicyReconciler.addFinalizer, ContainsFinalizer, AddFinalizer,
        hc, hU, Outcome.after]

/-- On the Deleting path a reconcile of the VaultPolicy kind is `handleFinalizer`,
run after the two successful control-plane calls. -/
theorem policy_reconcile_of_deleting {W : Type} (env : Env W VaultPolicy) (w w1 : W)
    (o : VaultPolicy) (h : VaultPolicyReconciler.Deleting env w o w1) :
    ∃ o0 : VaultPolicy, o = { o0 with Status := { o0.Status with Valid := false } } ∧
      VaultPolicyReconciler.Reconcile env w =
        (VaultPolicyReconciler.handleFinalizer env o w1).after [⟨.Get, true⟩, ⟨.ClientFactoryGet o0, true⟩] := by
  obtain ⟨o0, wg, t, hG, hF, hT, rfl⟩ := h
  refine ⟨o0, rfl, ?_⟩
  simp [VaultPolicyReconciler.Reconcile, hG, hF, hT, Outcome.after]

/-- The log of a continuation run after earlier events. -/
theorem after_log {W O : Type} (pre : List (Event O)) (r : Outcome W O) :
    (r.after pre).log = pre ++ r.log := rfl

/-- The error of a continuation run after earlier events. -/
theorem after_err {W O : Type} (pre : List (Event O)) (r : Outcome W O) :
    (r.after pre).err = r.err := rfl

/-- The world of a continuation run after earlier events. -/
theorem after_world {W O : Type} (pre : List (Event O)) (r : Outcome W O) :
    (r.after pre).world = r.world := rfl

/-- The object of a continuation run after earlier events. -/
theorem after_obj {W O : Type} (pre : List (Event O)) (r : Outcome W O) :
    (r.after pre).obj = r.obj := rfl

/-- Filtering a log by a property no event of it has leaves nothing. -/
theorem filter_pre_nil {O : Type} (p : Event O → Bool) (pre : List (Event O))
    (h : ∀ e ∈ pre, p e = false) : pre.filter p = [] := by
  rw [List.filter_eq_nil_iff]
  intro e he
  simp [h e he]

/-- The calls of a log of control-plane calls, filtered by a property only
Vault calls and status updates have, are none. -/
theorem calls_pre_nil {O : Type} (p : Call O → Bool) (pre : List (Event O))
    (hp : ∀ c, p c = true → c.isRemote = true ∨ c.isStatusUpdate = true)
    (h : ∀ e ∈ pre, e.call.isRemote = false ∧ e.call.isStatusUpdate = false ∧ e.ok = true) :
    (calls pre).filter p = [] := by
  rw [List.filter_eq_nil_iff]
  intro c hc
  simp only [calls, List.mem_map] at hc
  obtain ⟨e, he, rfl⟩ := hc
  intro hpc
  rcases hp _ hpc with h1 | h1
  · simp [(h e he).1] at h1
  · simp [(h e he).2.1] at h1


/-- A successful status update ends the run without error. -/
theorem mount_persist_ok {W : Type} (env : Env W VaultMount) (o : VaultMount) (w w1 : W)
    (h : env.StatusUpdate (VaultMountReconciler.markValid o) w = (none, w1)) :
    VaultMountReconciler.persist env o w =
      ⟨none, some (env.StatusUpdated (VaultMountReconciler.markValid o) w), w1,
        [⟨.StatusUpdate (VaultMountReconciler.markValid o), true⟩]⟩ := by
  simp [VaultMountReconciler.persist, h]

/-- A failed status update ends the run with its error. -/
theorem mount_persist_fail {W : Type} (env : Env W VaultMount) (o : VaultMount) (w w1 : W)
    (e : Err) (h : env.StatusUpdate (VaultMountReconciler.markValid o) w = (some e, w1)) :
    VaultMountReconciler.persist env o w =
      ⟨some e, some (VaultMountReconciler.markValid o), w1, [⟨.StatusUpdate (VaultMountReconciler.markValid o), false⟩]⟩ := by
  simp [VaultMountReconciler.persist, h]

/-- The status step issues exactly one call, the status update of the
validated object; it succeeds exactly when the step returns no error. -/
theorem mount_persist_log {W : Type} (env : Env W VaultMount) (o : VaultMount) (w : W) :
    (VaultMountReconciler.persist env o w).log =
      [⟨.StatusUpdate (VaultMountReconciler.markValid o), (VaultMountReconciler.persist env o w).err.isNone⟩] := by
  rcases h : env.StatusUpdate (VaultMountReconciler.markValid o) w with ⟨_ | e, w1⟩
  · simp [mount_persist_ok env o w w1 h]
  · simp [mount_persist_fail env o w w1 e h]

/-- A successful status update ends the run without error. -/
theorem kv_persist_ok {W : Type} (env : Env W VaultKVMount) (o : VaultKVMount) (w w1 : W)
    (h : env.StatusUpdate (VaultKVMountReconciler.markValid o) w = (none, w1)) :
    VaultKVMountReconciler.persist env o w =
      ⟨none, some (env.StatusUpdated (VaultKVMountReconciler.markValid o) w), w1,
        [⟨.StatusUpdate (VaultKVMountReconciler.markValid o), true⟩]⟩ := by
  simp [VaultKVMountReconciler.persist, h]

/-- A failed status update ends the run with its error. -/
theorem kv_persist_fail {W : Type} (env : Env W VaultKVMount) (o : VaultKVMount) (w w1 : W)
    (e : Err) (h : env.StatusUpdate (VaultKVMountReconciler.markValid o) w = (some e, w1)) :
    VaultKVMountReconciler.persist env o w =
      ⟨some e, some (VaultKVMountReconciler.markValid o), w1, [⟨.StatusUpdate (VaultKVMountReconciler.markValid o), false⟩]⟩ := by
  simp [VaultKVMountReconciler.persist, h]

/-- The status step issues exactly one call, the status update of the
validated object; it succeeds exactly when the step returns no error. -/
theorem kv_persist_log {W : Type} (env : Env W VaultKVMount) (o : VaultKVMount) (w : W) :
    (VaultKVMountReconciler.persist env o w).log =
      [⟨.StatusUpdate (VaultKVMountReconciler.markValid o), (VaultKVMountReconciler.persist env o w).err.isNone⟩] := by
  rcases h : env.StatusUpdate (VaultKVMountReconciler.markValid o) w with ⟨_ | e, w1⟩
  · simp [kv_persist_ok env o w w1 h]
  · simp [kv_persist_fail env o w w1 e h]

/-- A successful status update ends the run without error. -/
theorem policy_persist_ok {W : Type} (env : Env W VaultPolicy) (o : VaultPolicy) (w w1 : W)
    (h : env.StatusUpdate (VaultPolicyReconciler.markValid o) w = (none, w1)) :
    VaultPolicyReconciler.persist env o w =
      ⟨none, some (env.StatusUpdated (VaultPolicyReconciler.markValid o) w), w1,
        [⟨.StatusUpdate (VaultPolicyReconciler.markValid o), true⟩]⟩ := by
  simp [VaultPolicyReconciler.persist, h]

/-- A failed status update ends the run with its error. -/
theorem policy_persist_fail {W : Type} (env : Env W VaultPolicy) (o : VaultPolicy) (w w1 : W)
    (e : Err) (h : env.StatusUpdate (VaultPolicyReconciler.markValid o) w = (some e, w1)) :
    VaultPolicyReconciler.persist env o w =
      ⟨some e, some (VaultPolicyReconciler.markValid o), w1, [⟨.StatusUpdate (VaultPolicyReconciler.markValid o), false⟩]⟩ := by
  simp [VaultPolicyReconciler.persist, h]

/-- The status step issues exactly one call, the status update of the
validated object; it succeeds exactly when the step returns no error. -/
theorem policy_persist_log {W : Type} (env : Env W VaultPolicy) (o : VaultPolicy) (w : W) :
    (VaultPolicyReconciler.persist env o w).log =
      [⟨.StatusUpdate (VaultPolicyReconciler.markValid o), (VaultPolicyReconciler.persist env o w).err.isNone⟩] := by
  rcases h : env.StatusUpdate (VaultPolicyReconciler.markValid o) w with ⟨_ | e, w1⟩
  · simp [policy_persist_ok env o w w1 h]
  · simp [policy_persist_fail env o w w1 e h]

/-! ## Steps of the mount convergence -/


section

variable {W : Type} (env : Env W VaultMount) (o : VaultMount)

/-- Without a rename the VaultMountReconciler.cleanup is the status step. -/
theorem mount_cleanup_skip (w : W) (hr : VaultMountReconciler.renamed o = false) :
    VaultMountReconciler.cleanup env o w = VaultMountReconciler.persist env o w := by
  simp [VaultMountReconciler.cleanup, hr]

/-- A successful delete of the old path is followed by the status step. -/
theorem mount_cleanup_ok (w w1 : W) (hr : VaultMountReconciler.renamed o = true)
    (h : env.Delete ("/sys/mounts/" ++ o.Status.Path) w = (none, w1)) :
    VaultMountReconciler.cleanup env o w =
      (VaultMountReconciler.persist env o w1).after [⟨.Delete ("/sys/mounts/" ++ o.Status.Path), true⟩] := by
  simp [VaultMountReconciler.cleanup, hr, h]

/-- A failed delete of the old path ends the run with its error. -/
theorem mount_cleanup_fail (w w1 : W) (e : Err) (hr : VaultMountReconciler.renamed o = true)
    (h : env.Delete ("/sys/mounts/" ++ o.Status.Path) w = (some e, w1)) :
    VaultMountReconciler.cleanup env o w =
      ⟨some e, some o, w1, [⟨.Delete ("/sys/mounts/" ++ o.Status.Path), false⟩]⟩ := by
  simp [VaultMountReconciler.cleanup, hr, h]

/-- A failed `ListMounts` ends the run with its error. -/
theorem mount_converge_list_fail (w w1 : W) (e : Err) (h : env.ListMounts w = (.error e, w1)) :
    VaultMountReconciler.converge env o w = ⟨some e, some o, w1, [⟨.ListMounts, false⟩]⟩ := by
  simp [VaultMountReconciler.converge, h]

/-- Listed and tuned: the VaultMountReconciler.cleanup follows. -/
theorem mount_converge_tune_ok (w w1 w2 : W) (mounts : String → Option MountOutput)
    (hL : env.ListMounts w = (.ok mounts, w1)) (hm : (mounts (o.Spec.Path ++ "/")).isSome = true)
    (h : env.TuneMount o.Spec.Path (VaultMountReconciler.config o) w1 = (none, w2)) :
    VaultMountReconciler.converge env o w =
      (VaultMountReconciler.cleanup env o w2).after
        [⟨.ListMounts, true⟩, ⟨.TuneMount o.Spec.Path (VaultMountReconciler.config o), true⟩] := by
  simp [VaultMountReconciler.converge, hL, hm, h, Outcome.after]

/-- Listed and the tune fails: the run ends with its error. -/
theorem mount_converge_tune_fail (w w1 w2 : W) (mounts : String → Option MountOutput) (e : Err)
    (hL : env.ListMounts w = (.ok mounts, w1)) (hm : (mounts (o.Spec.Path ++ "/")).isSome = true)
    (h : env.TuneMount o.Spec.Path (VaultMountReconciler.config o) w1 = (some e, w2)) :
    VaultMountReconciler.converge env o w =
      ⟨some e, some o, w2, [⟨.ListMounts, true⟩, ⟨.TuneMount o.Spec.Path (VaultMountReconciler.config o), false⟩]⟩ := by
  simp [VaultMountReconciler.converge, hL, hm, h, Outcome.after]

/-- Not listed and mounted: the VaultMountReconciler.cleanup follows. -/
theorem mount_converge_mount_ok (w w1 w2 : W) (mounts : String → Option MountOutput)
    (hL : env.ListMounts w = (.ok mounts, w1)) (hm : mounts (o.Spec.Path ++ "/") = none)
    (h : env.Mount o.Spec.Path (VaultMountReconciler.mountInput o) w1 = (none, w2)) :
    VaultMountReconciler.converge env o w =
      (VaultMountReconciler.cleanup env o w2).after
        [⟨.ListMounts, true⟩, ⟨.Mount o.Spec.Path (VaultMountReconciler.mountInput o), true⟩] := by
  simp [VaultMountReconciler.converge, hL, hm, h, Outcome.after]

/-- Not listed and the mount fails: the run ends with its error. -/
theorem mount_converge_mount_fail (w w1 w2 : W) (mounts : String → Option MountOutput) (e : Err)
    (hL : env.ListMounts w = (.ok mounts, w1)) (hm : mounts (o.Spec.Path ++ "/") = none)
    (h : env.Mount o.Spec.Path (VaultMountReconciler.mountInput o) w1 = (some e, w2)) :
    VaultMountReconciler.converge env o w =
      ⟨some e, some o, w2, [⟨.ListMounts, true⟩, ⟨.Mount o.Spec.Path (VaultMountReconciler.mountInput o), false⟩]⟩ := by
  simp [VaultMountReconciler.converge, hL, hm, h, Outcome.after]

/-- The VaultMountReconciler.cleanup issues nothing but the delete of the old path and the status
update of the validated object. -/
theorem mount_cleanup_calls (w : W) :
    ∀ c ∈ calls (VaultMountReconciler.cleanup env o w).log,
      c = .Delete ("/sys/mounts/" ++ o.Status.Path) ∨ c = .StatusUpdate (VaultMountReconciler.markValid o) := by
  cases hr : VaultMountReconciler.renamed o
  · rw [mount_cleanup_skip env o w hr, mount_persist_log]
    simp [calls]
  · rcases h : env.Delete ("/sys/mounts/" ++ o.Status.Path) w with ⟨_ | e, w1⟩
    · rw [mount_cleanup_ok env o w w1 hr h]
      simp [Outcome.after, mount_persist_log, calls]
    · rw [mount_cleanup_fail env o w w1 e hr h]
      simp [calls]

end

/-! ## Steps of the KV mount convergence -/


section

variable {W : Type} (env : Env W VaultKVMount) (o : VaultKVMount)

/-- A failed `Read` ends the run with its error. -/
theorem kv_converge_read_fail (w w1 : W) (e : Err)
    (h : env.Read ("/sys/mounts/" ++ o.Spec.Path) w = (.error e, w1)) :
    VaultKVMountReconciler.converge env o w =
      ⟨some e, some o, w1, [⟨.Read ("/sys/mounts/" ++ o.Spec.Path), false⟩]⟩ := by
  simp [VaultKVMountReconciler.converge, h]

/-- An object is read at the desired path: the status step follows at once. -/
theorem kv_converge_present (w w1 : W) (sec : Secret)
    (h : env.Read ("/sys/mounts/" ++ o.Spec.Path) w = (.ok (some sec), w1)) :
    VaultKVMountReconciler.converge env o w =
      (VaultKVMountReconciler.persist env o w1).after [⟨.Read ("/sys/mounts/" ++ o.Spec.Path), true⟩] := by
  simp [VaultKVMountReconciler.converge, h]

/-- Nothing is read and the write fails: the run ends with its error. -/
theorem kv_converge_write_fail (w w1 w2 : W) (e : Err)
    (h : env.Read ("/sys/mounts/" ++ o.Spec.Path) w = (.ok none, w1))
    (hW : env.Write ("/sys/mounts/" ++ o.Spec.Path) (VaultKVMountReconciler.createPayload o) w1 = (some e, w2)) :
    VaultKVMountReconciler.converge env o w =
      ⟨some e, some o, w2,
        [⟨.Read ("/sys/mounts/" ++ o.Spec.Path), true⟩,
         ⟨.Write ("/sys/mounts/" ++ o.Spec.Path) (VaultKVMountReconciler.createPayload o), false⟩]⟩ := by
  simp [VaultKVMountReconciler.converge, h, hW, Outcome.after]

/-- Nothing is read, the write succeeds and there is no rename: the status
step follows. -/
theorem kv_converge_write_skip (w w1 w2 : W)
    (h : env.Read ("/sys/mounts/" ++ o.Spec.Path) w = (.ok none, w1))
    (hW : env.Write ("/sys/mounts/" ++ o.Spec.Path) (VaultKVMountReconciler.createPayload o) w1 = (none, w2))
    (hr : VaultKVMountReconciler.renamed o = false) :
    VaultKVMountReconciler.converge env o w =
      (VaultKVMountReconciler.persist env o w2).after
        [⟨.Read ("/sys/mounts/" ++ o.Spec.Path), true⟩,
         ⟨.Write ("/sys/mounts/" ++ o.Spec.Path) (VaultKVMountReconciler.createPayload o), true⟩] := by
  simp [VaultKVMountReconciler.converge, h, hW, hr, Outcome.after]

/-- Nothing is read, the write succeeds and the delete of the old path
succeeds: the status step follows. -/
theorem kv_converge_write_delete_ok (w w1 w2 w3 : W)
    (h : env.Read ("/sys/mounts/" ++ o.Spec.Path) w = (.ok none, w1))
    (hW : env.Write ("/sys/mounts/" ++ o.Spec.Path) (VaultKVMountReconciler.createPayload o) w1 = (none, w2))
    (hr : VaultKVMountReconciler.renamed o = true)
    (hD : env.Delete ("/sys/mounts/" ++ o.Status.Path) w2 = (none, w3)) :
    VaultKVMountReconciler.converge env o w =
      (VaultKVMountReconciler.persist env o w3).after
        [⟨.Read ("/sys/mounts/" ++ o.Spec.Path), true⟩,
         ⟨.Write ("/sys/mounts/" ++ o.Spec.Path) (VaultKVMountReconciler.createPayload o), true⟩,
         ⟨.Delete ("/sys/mounts/" ++ o.Status.Path), true⟩] := by
  simp [VaultKVMountReconciler.converge, h, hW, hr, hD, Outcome.after]

/-- Nothing is read, the write succeeds and the delete of the old path fails:
the run ends with its error. -/
theorem kv_converge_write_delete_fail (w w1 w2 w3 : W) (e : Err)
    (h : env.Read ("/sys/mounts/" ++ o.Spec.Path) w = (.ok none, w1))
    (hW : env.Write ("/sys/mounts/" ++ o.Spec.Path) (VaultKVMountReconciler.createPayload o) w1 = (none, w2))
    (hr : VaultKVMountReconciler.renamed o = true)
    (hD : env.Delete ("/sys/mounts/" ++ o.Status.Path) w2 = (some e, w3)) :
    VaultKVMountReconciler.converge env o w =
      ⟨some e, some o, w3,
        [⟨.Read ("/sys/mounts/" ++ o.Spec.Path), true⟩,
         ⟨.Write ("/sys/mounts/" ++ o.Spec.Path) (VaultKVMountReconciler.createPayload o), true⟩,
         ⟨.Delete ("/sys/mounts/" ++ o.Status.Path), false⟩]⟩ := by
  simp [VaultKVMountReconciler.converge, h, hW, hr, hD, Outcome.after]

end

/-! ## Steps of the policy convergence -/


section

variable {W : Type} (env : Env W VaultPolicy) (o : VaultPolicy)

/-- A failed write ends the run with its error. -/
theorem policy_converge_write_fail (w w1 : W) (e : Err)
    (hW : env.Write ("/sys/policies/acl/" ++ o.ObjectMeta.Name) (VaultPolicyReconciler.writePayload o) w =
      (some e, w1)) :
    VaultPolicyReconciler.converge env o w =
      ⟨some e, some o, w1,
        [⟨.Write ("/sys/policies/acl/" ++ o.ObjectMeta.Name) (VaultPolicyReconciler.writePayload o), false⟩]⟩ := by
  simp [VaultPolicyReconciler.converge, hW]

/-- The write succeeds and there is no rename: the status step follows. -/
theorem policy_converge_write_skip (w w1 : W)
    (hW : env.Write ("/sys/policies/acl/" ++ o.ObjectMeta.Name) (VaultPolicyReconciler.writePayload o) w = (none, w1))
    (hr : VaultPolicyReconciler.renamed o = false) :
    VaultPolicyReconciler.converge env o w =
      (VaultPolicyReconciler.persist env o w1).after
        [⟨.Write ("/sys/policies/acl/" ++ o.ObjectMeta.Name) (VaultPolicyReconciler.writePayload o), true⟩] := by
  simp [VaultPolicyReconciler.converge, hW, hr, Outcome.after]

/-- The write and the delete of the old name succeed: the status step
follows. -/
theorem policy_converge_write_delete_ok (w w1 w2 : W)
    (hW : env.Write ("/sys/policies/acl/" ++ o.ObjectMeta.Name) (VaultPolicyReconciler.writePayload o) w = (none, w1))
    (hr : VaultPolicyReconciler.renamed o = true)
    (hD : env.Delete ("/sys/policies/acl/" ++ o.Status.Name) w1 = (none, w2)) :
    VaultPolicyReconciler.converge env o w =
      (VaultPolicyReconciler.persist env o w2).after
        [⟨.Write ("/sys/policies/acl/" ++ o.ObjectMeta.Name) (VaultPolicyReconciler.writePayload o), true⟩,
         ⟨.Delete ("/sys/policies/acl/" ++ o.Status.Name), true⟩] := by
  simp [VaultPolicyReconciler.converge, hW, hr, hD, Outcome.after]

/-- The write succeeds and the delete of the old name fails: the run ends
with its error. -/
theorem policy_converge_write_delete_fail (w w1 w2 : W) (e : Err)
    (hW : env.Write ("/sys/policies/acl/" ++ o.ObjectMeta.Name) (VaultPolicyReconciler.writePayload o) w = (none, w1))
    (hr : VaultPolicyReconciler.renamed o = true)
    (hD : env.Delete ("/sys/policies/acl/" ++ o.Status.Name) w1 = (some e, w2)) :
    VaultPolicyReconciler.converge env o w =
      ⟨some e, some o, w2,
        [⟨.Write ("/sys/policies/acl/" ++ o.ObjectMeta.Name) (VaultPolicyReconciler.writePayload o), true⟩,
         ⟨.Delete ("/sys/policies/acl/" ++ o.Status.Name), false⟩]⟩ := by
  simp [VaultPolicyReconciler.converge, hW, hr, hD, Outcome.after]

end

/-- The rename condition of a mount, as a proposition. -/
theorem mount_renamed_iff (o : VaultMount) :
    VaultMountReconciler.renamed o = true ↔
      o.Status.Path ≠ "" ∧ o.Status.Path ≠ o.Spec.Path := by
  simp [VaultMountReconciler.renamed]

/-- The rename condition of a KV mount, as a proposition. -/
theorem kv_renamed_iff (o : VaultKVMount) :
    VaultKVMountReconciler.renamed o = true ↔
      o.Status.Path ≠ "" ∧ o.Status.Path ≠ o.Spec.Path := by
  simp [VaultKVMountReconciler.renamed]

/-- The rename condition of a policy, as a proposition. -/
theorem policy_renamed_iff (o : VaultPolicy) :
    VaultPolicyReconciler.renamed o = true ↔
      o.Status.Name ≠ "" ∧ o.Status.Name ≠ o.ObjectMeta.Name := by
  simp [VaultPolicyReconciler.renamed]

/-- The Vault events of a log of control-plane calls are none. -/
theorem remoteEvents_pre {O : Type} (pre : List (Event O))
    (h : ∀ e ∈ pre, e.call.isRemote = false ∧ e.call.isStatusUpdate = false ∧ e.ok = true) :
    remoteEvents pre = [] :=
  filter_pre_nil Event.isRemote pre (fun e he => (h e he).1)

/-- The status updates of a log of control-plane calls are none. -/
theorem statusUpdates_pre {O : Type} (pre : List (Event O))
    (h : ∀ e ∈ pre, e.call.isRemote = false ∧ e.call.isStatusUpdate = false ∧ e.ok = true) :
    statusUpdates pre = [] :=
  filter_pre_nil Event.isStatusUpdate pre (fun e he => (h e he).2.1)

/-! ## Create or tune (mount kind) -/

/-- C1: on the Active path of a mount reconcile with a successful `ListMounts`,
if the listing lacks the key of the desired path the only mount-or-tune call
of the run is one `Mount` of the desired path with the full input, and if the
listing holds the key it is one `TuneMount` of the desired path. -/
theorem C1_mount_create_or_tune {W : Type} (env : Env W VaultMount) (w w1 w2 : W)
    (o : VaultMount) (mounts : String → Option MountOutput)
    (hA : VaultMountReconciler.Active env w o w1)
    (hL : env.ListMounts w1 = (.ok mounts, w2)) :
    (mounts (o.Spec.Path ++ "/") = none →
      (calls (VaultMountReconciler.Reconcile env w).log).filter Call.isMountOrTune =
        [.Mount o.Spec.Path (VaultMountReconciler.mountInput o)]) ∧
    ((mounts (o.Spec.Path ++ "/")).isSome = true →
      (calls (VaultMountReconciler.Reconcile env w).log).filter Call.isMountOrTune =
        [.TuneMount o.Spec.Path (VaultMountReconciler.config o)]) := by
  obtain ⟨pre, hpre, hR⟩ := mount_reconcile_of_active env w w1 o hA
  have hp := calls_pre_nil Call.isMountOrTune pre
    (by intro c; cases c <;> simp [Call.isMountOrTune, Call.isRemote]) hpre
  have hc : ∀ w3, (calls (VaultMountReconciler.cleanup env o w3).log).filter
      Call.isMountOrTune = [] := by
    intro w3
    rw [List.filter_eq_nil_iff]
    intro c hc
    rcases mount_cleanup_calls env o w3 c hc with rfl | rfl <;>
      simp [Call.isMountOrTune]
  simp only [calls] at hp hc
  rw [hR]
  constructor
  · intro hm
    rcases hM : env.Mount o.Spec.Path (VaultMountReconciler.mountInput o) w2 with ⟨_ | e, w3⟩
    · rw [mount_converge_mount_ok env o w1 w2 w3 mounts hL hm hM]
      simp [Outcome.after, calls, List.filter_cons, hp, hc, Call.isMountOrTune]
    · rw [mount_converge_mount_fail env o w1 w2 w3 mounts e hL hm hM]
      simp [Outcome.after, calls, List.filter_cons, hp, Call.isMountOrTune]
  · intro hm
    rcases hM : env.TuneMount o.Spec.Path (VaultMountReconciler.config o) w2 with ⟨_ | e, w3⟩
    · rw [mount_converge_tune_ok env o w1 w2 w3 mounts hL hm hM]
      simp [Outcome.after, calls, List.filter_cons, hp, hc, Call.isMountOrTune]
    · rw [mount_converge_tune_fail env o w1 w2 w3 mounts e hL hm hM]
      simp [Outcome.after, calls, List.filter_cons, hp, Call.isMountOrTune]

/-- C1, witness: with nothing mounted the run issues the one `Mount` of
`secret`. -/
theorem C1_mount_create_or_tune_witness :
    (calls (VaultMountReconciler.Reconcile (mountModel noFault)
        (emptyRemote (mountAt "" "secret"))).log).filter Call.isMountOrTune =
      [.Mount "secret" (VaultMountReconciler.mountInput (mountAt "" "secret"))] :=
  (C1_mount_create_or_tune (mountModel noFault) (emptyRemote (mountAt "" "secret"))
    (emptyRemote (mountAt "" "secret")) (emptyRemote (mountAt "" "secret"))
    (mountAt "" "secret") (listing (fun _ => none))
    ⟨mountAt "" "secret", _, _, rfl, rfl, rfl, Or.inl ⟨by decide, rfl, rfl⟩⟩ rfl).1 rfl

/-! ## Rename safety (mount and policy kinds) -/

/-- C2: rename safety for the mount and the policy kind. On the Active path,
with a recorded path (name) that is non-empty and differs from the desired one
and every Vault call of the run succeeding, the Vault calls of the run are, in
order: for a mount the listing, the tune or the mount of the desired path with
the desired configuration, and the delete of `/sys/mounts/` followed by the
recorded path; for a policy the write of the desired document at
`/sys/policies/acl/` followed by the name, and the delete of `/sys/policies/acl/`
followed by the recorded name. In both the one status update of the run carries
the desired path (name) with valid set. The desired configuration is, field
by field, the one declared in the manifest: the lease TTLs, the cache flag,
the audit keys, the listing visibility, the request and response headers, the
description and the options of the tune, the same under the type, the
description, the three flags and the options of the mount, and for a policy
the single key `policy` holding the marshalled path map. -/
theorem C2_rename_safety {W V : Type}
    (env : Env W VaultMount) (w w1 : W) (o : VaultMount)
    (hA : VaultMountReconciler.Active env w o w1)
    (h1 : o.Status.Path ≠ "") (h2 : o.Status.Path ≠ o.Spec.Path)
    (hAll : ∀ e ∈ (VaultMountReconciler.Reconcile env w).log, e.isRemote = true → e.ok = true)
    (penv : Env V VaultPolicy) (v v1 : V) (p : VaultPolicy)
    (hB : VaultPolicyReconciler.Active penv v p v1)
    (h3 : p.Status.Name ≠ "") (h4 : p.Status.Name ≠ p.ObjectMeta.Name)
    (hAllP : ∀ e ∈ (VaultPolicyReconciler.Reconcile penv v).log,
      e.isRemote = true → e.ok = true) :
    ((∃ (apply : Call VaultMount) (ok : Bool),
      (apply = .TuneMount o.Spec.Path (VaultMountReconciler.config o) ∨
        apply = .Mount o.Spec.Path (VaultMountReconciler.mountInput o)) ∧
      remoteEvents (VaultMountReconciler.Reconcile env w).log =
        [⟨.ListMounts, true⟩, ⟨apply, true⟩,
         ⟨.Delete ("/sys/mounts/" ++ o.Status.Path), true⟩] ∧
      statusUpdates (VaultMountReconciler.Reconcile env w).log =
        [⟨.StatusUpdate (VaultMountReconciler.markValid o), ok⟩] ∧
      (VaultMountReconciler.markValid o).Status.Path = o.Spec.Path ∧
      (VaultMountReconciler.markValid o).Status.Valid = true) ∧
      (VaultMountReconciler.config o).DefaultLeaseTTL = o.Spec.Config.DefaultLeaseTTL ∧
      (VaultMountReconciler.config o).Description = some o.Spec.Description ∧
      (VaultMountReconciler.config o).MaxLeaseTTL = o.Spec.Config.MaxLeaseTTL ∧
      (VaultMountReconciler.config o).ForceNoCache = o.Spec.Config.ForceNoCache ∧
      (VaultMountReconciler.config o).AuditNonHMACRequestKeys = o.Spec.Config.AuditNonHMACRequestKeys ∧
      (VaultMountReconciler.config o).AuditNonHMACResponseKeys = o.Spec.Config.AuditNonHMACResponseKeys ∧
      (VaultMountReconciler.config o).ListingVisibility = o.Spec.Config.ListingVisibility ∧
      (VaultMountReconciler.config o).PassthroughRequestHeaders = o.Spec.Config.PassthroughRequestHeaders ∧
      (VaultMountReconciler.config o).AllowedResponseHeaders = o.Spec.Config.AllowedResponseHeaders ∧
      (VaultMountReconciler.config o).Options = o.Spec.Options ∧
      (VaultMountReconciler.mountInput o).Typ = o.Spec.Typ ∧
      (VaultMountReconciler.mountInput o).Description = o.Spec.Description ∧
      (VaultMountReconciler.mountInput o).Config = VaultMountReconciler.config o ∧
      (VaultMountReconciler.mountInput o).Local = o.Spec.Local ∧
      (VaultMountReconciler.mountInput o).SealWrap = o.Spec.SealWrap ∧
      (VaultMountReconciler.mountInput o).ExternalEntropyAccess = o.Spec.ExternalEntropyAccess ∧
      (VaultMountReconciler.mountInput o).Options = o.Spec.Options) ∧
    ((∃ ok : Bool,
      remoteEvents (VaultPolicyReconciler.Reconcile penv v).log =
        [⟨.Write ("/sys/policies/acl/" ++ p.ObjectMeta.Name)
            (VaultPolicyReconciler.writePayload p), true⟩,
         ⟨.Delete ("/sys/policies/acl/" ++ p.Status.Name), true⟩] ∧
      statusUpdates (VaultPolicyReconciler.Reconcile penv v).log =
        [⟨.StatusUpdate (VaultPolicyReconciler.markValid p), ok⟩] ∧
      (VaultPolicyReconciler.markValid p).Status.Name = p.ObjectMeta.Name ∧
      (VaultPolicyReconciler.markValid p).Status.Valid = true) ∧
      (VaultPolicyReconciler.writePayload p).map Prod.fst = ["policy"] ∧
      (VaultPolicyReconciler.writePayload p).lookup "policy" =
        some (.leaf (.str (marshalPolicy (VaultPolicyReconciler.pathMap p))))) := by
  constructor
  · refine ⟨?_, rfl, rfl, rfl, rfl, rfl, rfl, rfl, rfl, rfl, rfl, rfl, rfl, rfl, rfl, rfl, rfl, rfl⟩
    obtain ⟨pre, hpre, hR⟩ := mount_reconcile_of_active env w w1 o hA
    have hrn := (mount_renamed_iff o).2 ⟨h1, h2⟩
    have hp1 := remoteEvents_pre pre hpre
    have hp2 := statusUpdates_pre pre hpre
    simp only [remoteEvents, statusUpdates] at hp1 hp2 ⊢
    rw [hR] at hAll ⊢
    rcases hL : env.ListMounts w1 with ⟨e | mounts, w2⟩
    · rw [mount_converge_list_fail env o w1 w2 e hL] at hAll
      exact absurd (hAll ⟨.ListMounts, false⟩ (by simp [Outcome.after]) rfl) (by simp)
    · cases hm : (mounts (o.Spec.Path ++ "/")).isSome
      · have hm1 : mounts (o.Spec.Path ++ "/") = none := by simpa using hm
        rcases hM : env.Mount o.Spec.Path (VaultMountReconciler.mountInput o) w2 with ⟨_ | e, w3⟩
        · rw [mount_converge_mount_ok env o w1 w2 w3 mounts hL hm1 hM] at hAll ⊢
          rcases hD : env.Delete ("/sys/mounts/" ++ o.Status.Path) w3 with ⟨_ | e, w4⟩
          · rw [mount_cleanup_ok env o w3 w4 hrn hD]
            refine ⟨_, (VaultMountReconciler.persist env o w4).err.isNone, Or.inr rfl, ?_, ?_, rfl, rfl⟩ <;>
              simp [Outcome.after, mount_persist_log, List.filter_cons, hp1, hp2, Event.isRemote,
                Call.isRemote, Event.isStatusUpdate, Call.isStatusUpdate]
          · rw [mount_cleanup_fail env o w3 w4 e hrn hD] at hAll
            exact absurd (hAll ⟨.Delete ("/sys/mounts/" ++ o.Status.Path), false⟩
              (by simp [Outcome.after]) rfl) (by simp)
        · rw [mount_converge_mount_fail env o w1 w2 w3 mounts e hL hm1 hM] at hAll
          exact absurd (hAll ⟨.Mount o.Spec.Path (VaultMountReconciler.mountInput o), false⟩
            (by simp [Outcome.after]) rfl) (by simp)
      · rcases hM : env.TuneMount o.Spec.Path (VaultMountReconciler.config o) w2 with ⟨_ | e, w3⟩
        · rw [mount_converge_tune_ok env o w1 w2 w3 mounts hL hm hM] at hAll ⊢
          rcases hD : env.Delete ("/sys/mounts/" ++ o.Status.Path) w3 with ⟨_ | e, w4⟩
          · rw [mount_cleanup_ok env o w3 w4 hrn hD]
            refine ⟨_, (VaultMountReconciler.persist env o w4).err.isNone, Or.inl rfl, ?_, ?_, rfl, rfl⟩ <;>
              simp [Outcome.after, mount_persist_log, List.filter_cons, hp1, hp2, Event.isRemote,
                Call.isRemote, Event.isStatusUpdate, Call.isStatusUpdate]
          · rw [mount_cleanup_fail env o w3 w4 e hrn hD] at hAll
            exact absurd (hAll ⟨.Delete ("/sys/mounts/" ++ o.Status.Path), false⟩
              (by simp [Outcome.after]) rfl) (by simp)
        · rw [mount_converge_tune_fail env o w1 w2 w3 mounts e hL hm hM] at hAll
          exact absurd (hAll ⟨.TuneMount o.Spec.Path (VaultMountReconciler.config o), false⟩
            (by simp [Outcome.after]) rfl) (by simp)
  · refine ⟨?_, rfl, rfl⟩
    obtain ⟨pre, hpre, hR⟩ := policy_reconcile_of_active penv v v1 p hB
    have hrn := (policy_renamed_iff p).2 ⟨h3, h4⟩
    have hp1 := remoteEvents_pre pre hpre
    have hp2 := statusUpdates_pre pre hpre
    simp only [remoteEvents, statusUpdates] at hp1 hp2 ⊢
    rw [hR] at hAllP ⊢
    rcases hW : penv.Write ("/sys/policies/acl/" ++ p.ObjectMeta.Name)
      (VaultPolicyReconciler.writePayload p) v1 with ⟨_ | e, v2⟩
    · rcases hD : penv.Delete ("/sys/policies/acl/" ++ p.Status.Name) v2 with ⟨_ | e, v3⟩
      · rw [policy_converge_write_delete_ok penv p v1 v2 v3 hW hrn hD]
        refine ⟨(VaultPolicyReconciler.persist penv p v3).err.isNone, ?_, ?_, rfl, rfl⟩ <;>
          simp [Outcome.after, policy_persist_log, List.filter_cons, hp1, hp2, Event.isRemote,
            Call.isRemote, Event.isStatusUpdate, Call.isStatusUpdate]
      · rw [policy_converge_write_delete_fail penv p v1 v2 v3 e hW hrn hD] at hAllP
        exact absurd (hAllP ⟨.Delete ("/sys/policies/acl/" ++ p.Status.Name), false⟩
          (by simp [Outcome.after]) rfl) (by simp)
    · rw [policy_converge_write_fail penv p v1 v2 e hW] at hAllP
      exact absurd (hAllP ⟨.Write ("/sys/policies/acl/" ++ p.ObjectMeta.Name)
        (VaultPolicyReconciler.writePayload p), false⟩ (by simp [Outcome.after]) rfl) (by simp)

/-- C2, witness: the mount `tunedMount`, renamed from `a` to `b` with a value
of its own in every declared field, and the policy `a` renamed to `b`, over
the model without faults. -/
theorem C2_rename_safety_witness :
    ((∃ (apply : Call VaultMount) (ok : Bool),
      (apply = .TuneMount "b" (VaultMountReconciler.config tunedMount) ∨
        apply = .Mount "b" (VaultMountReconciler.mountInput tunedMount)) ∧
      remoteEvents (VaultMountReconciler.Reconcile (mountModel noFault) tunedRenameWorld).log =
        [⟨.ListMounts, true⟩, ⟨apply, true⟩, ⟨.Delete ("/sys/mounts/" ++ "a"), true⟩] ∧
      statusUpdates (VaultMountReconciler.Reconcile (mountModel noFault) tunedRenameWorld).log =
        [⟨.StatusUpdate (VaultMountReconciler.markValid tunedMount), ok⟩] ∧
      (VaultMountReconciler.markValid tunedMount).Status.Path = "b" ∧
      (VaultMountReconciler.markValid tunedMount).Status.Valid = true) ∧
      (VaultMountReconciler.config tunedMount).DefaultLeaseTTL = "1h" ∧
      (VaultMountReconciler.config tunedMount).Description = some "team secrets" ∧
      (VaultMountReconciler.config tunedMount).MaxLeaseTTL = "24h" ∧
      (VaultMountReconciler.config tunedMount).ForceNoCache = true ∧
      (VaultMountReconciler.config tunedMount).AuditNonHMACRequestKeys = ["x-req"] ∧
      (VaultMountReconciler.config tunedMount).AuditNonHMACResponseKeys = ["x-resp"] ∧
      (VaultMountReconciler.config tunedMount).ListingVisibility = "unauth" ∧
      (VaultMountReconciler.config tunedMount).PassthroughRequestHeaders = ["x-pass"] ∧
      (VaultMountReconciler.config tunedMount).AllowedResponseHeaders = ["x-allow"] ∧
      (VaultMountReconciler.config tunedMount).Options = [("version", "2")] ∧
      (VaultMountReconciler.mountInput tunedMount).Typ = "kv" ∧
      (VaultMountReconciler.mountInput tunedMount).Description = "team secrets" ∧
      (VaultMountReconciler.mountInput tunedMount).Config = VaultMountReconciler.config tunedMount ∧
      (VaultMountReconciler.mountInput tunedMount).Local = true ∧
      (VaultMountReconciler.mountInput tunedMount).SealWrap = true ∧
      (VaultMountReconciler.mountInput tunedMount).ExternalEntropyAccess = true ∧
      (VaultMountReconciler.mountInput tunedMount).Options = [("version", "2")]) ∧
    ((∃ ok : Bool,
      remoteEvents (VaultPolicyReconciler.Reconcile (policyModel noFault) policyRenameWorld).log =
        [⟨.Write ("/sys/policies/acl/" ++ "b")
            (VaultPolicyReconciler.writePayload (policyAt "a" "b")), true⟩,
         ⟨.Delete ("/sys/policies/acl/" ++ "a"), true⟩] ∧
      statusUpdates (VaultPolicyReconciler.Reconcile (policyModel noFault) policyRenameWorld).log =
        [⟨.StatusUpdate (VaultPolicyReconciler.markValid (policyAt "a" "b")), ok⟩] ∧
      (VaultPolicyReconciler.markValid (policyAt "a" "b")).Status.Name = "b" ∧
      (VaultPolicyReconciler.markValid (policyAt "a" "b")).Status.Valid = true) ∧
      (VaultPolicyReconciler.writePayload (policyAt "a" "b")).map Prod.fst = ["policy"] ∧
      (VaultPolicyReconciler.writePayload (policyAt "a" "b")).lookup "policy" =
        some (.leaf (.str
          "\x7b\"path\":\x7b\"secret/*\":\x7b\"capabilities\":[\"read\",\"list\"]\x7d\x7d\x7d"))) :=
  C2_rename_safety (mountModel noFault) tunedRenameWorld tunedRenameWorld tunedMount
    ⟨tunedMount, _, _, rfl, rfl, rfl, Or.inl ⟨by decide, rfl, rfl⟩⟩
    (by decide) (by decide) (by decide)
    (policyModel noFault) policyRenameWorld policyRenameWorld (policyAt "a" "b")
    ⟨policyAt "a" "b", _, _, rfl, rfl, rfl, Or.inl ⟨by decide, rfl, rfl⟩⟩
    (by decide) (by decide) (by decide)

/-! ## Rename crash safety (mount kind) -/

/-- C3, as stated, fails: with deletes and tunes failing, the first run mounts
`b` and fails to delete `a`; the retry reads the same manifest, finds `b`
listed, fails to tune it and returns without issuing any delete. -/
theorem C3_retry_without_delete :
    remoteEvents tuneCrashFirstRun.log =
      [⟨.ListMounts, true⟩,
       ⟨.Mount "b" (VaultMountReconciler.mountInput (mountAt "a" "b")), true⟩,
       ⟨.Delete "/sys/mounts/a", false⟩] ∧
    tuneCrashFirstRun.world.manifest = some (mountAt "a" "b") ∧
    (listing tuneCrashFirstRun.world.remote "b/").isSome = true ∧
    remoteEvents tuneCrashRetry.log =
      [⟨.ListMounts, true⟩,
       ⟨.TuneMount "b" (VaultMountReconciler.config (mountAt "a" "b")), false⟩] ∧
    (∀ e ∈ tuneCrashRetry.log, e.call.isDelete = false) := by
  decide

/-- C3, amended: a first mount reconcile on the Active path with recorded path
`A`, desired path `B` not listed, the mount of `B` succeeding and the delete
of `/sys/mounts/A` failing returns the error of the delete and issues no status
update. In a retry on the Active path with the same desired spec and recorded
path and `B` listed, no `Mount` is issued; if the tune of `B` succeeds, a
delete of `/sys/mounts/A` is issued; and a status update is issued only if
that delete succeeded, in which case it carries valid set and path `B`. -/
theorem C3_rename_crash_retry {W : Type} (env : Env W VaultMount)
    (w w1 w2 w3 w4 : W) (o : VaultMount) (mounts : String → Option MountOutput) (e : Err)
    (hA : VaultMountReconciler.Active env w o w1)
    (h1 : o.Status.Path ≠ "") (h2 : o.Status.Path ≠ o.Spec.Path)
    (hL : env.ListMounts w1 = (.ok mounts, w2)) (hm : mounts (o.Spec.Path ++ "/") = none)
    (hM : env.Mount o.Spec.Path (VaultMountReconciler.mountInput o) w2 = (none, w3))
    (hD : env.Delete ("/sys/mounts/" ++ o.Status.Path) w3 = (some e, w4))
    (v v1 v2 : W) (o' : VaultMount) (mounts' : String → Option MountOutput)
    (hA' : VaultMountReconciler.Active env v o' v1)
    (hSpec : o'.Spec = o.Spec) (hStatus : o'.Status.Path = o.Status.Path)
    (hL' : env.ListMounts v1 = (.ok mounts', v2))
    (hm' : (mounts' (o.Spec.Path ++ "/")).isSome = true) :
    ((VaultMountReconciler.Reconcile env w).err = some e ∧
      statusUpdates (VaultMountReconciler.Reconcile env w).log = []) ∧
    (∀ ev ∈ (VaultMountReconciler.Reconcile env v).log, ev.call.isMount = false) ∧
    (⟨.TuneMount o.Spec.Path (VaultMountReconciler.config o), true⟩ ∈
        (VaultMountReconciler.Reconcile env v).log →
      ∃ ok, ⟨.Delete ("/sys/mounts/" ++ o.Status.Path), ok⟩ ∈
        (VaultMountReconciler.Reconcile env v).log) ∧
    (∀ ev ∈ (VaultMountReconciler.Reconcile env v).log, ev.isStatusUpdate = true →
      ⟨.Delete ("/sys/mounts/" ++ o.Status.Path), true⟩ ∈
          (VaultMountReconciler.Reconcile env v).log ∧
        ∃ o2, ev.call = .StatusUpdate o2 ∧ o2.Status.Valid = true ∧
          o2.Status.Path = o.Spec.Path) := by
  have hrn := (mount_renamed_iff o).2 ⟨h1, h2⟩
  have hrn' : VaultMountReconciler.renamed o' = true :=
    (mount_renamed_iff o').2 ⟨by rw [hStatus]; exact h1, by rw [hStatus, hSpec]; exact h2⟩
  have hcfg : VaultMountReconciler.config o' = VaultMountReconciler.config o := by
    simp [VaultMountReconciler.config, hSpec]
  constructor
  · obtain ⟨pre, hpre, hR⟩ := mount_reconcile_of_active env w w1 o hA
    have hp2 := statusUpdates_pre pre hpre
    simp only [statusUpdates] at hp2 ⊢
    rw [hR, mount_converge_mount_ok env o w1 w2 w3 mounts hL hm hM,
      mount_cleanup_fail env o w3 w4 e hrn hD]
    simp [Outcome.after, List.filter_cons, hp2, Event.isStatusUpdate, Call.isStatusUpdate]
  · obtain ⟨pre, hpre, hR⟩ := mount_reconcile_of_active env v v1 o' hA'
    have hpm : ∀ ev ∈ pre, ev.call.isMount = false ∧ ev.isStatusUpdate = false ∧
        ev.call.isDelete = false ∧ ev.call.isTuneMount = false := by
      intro ev hev
      have := hpre ev hev
      revert this
      cases ev with
      | mk c ok =>
        cases c <;> simp [Call.isRemote, Call.isStatusUpdate, Call.isMount, Event.isStatusUpdate,
          Call.isDelete, Call.isTuneMount]
    rw [← hSpec] at hm'
    rw [hR]
    rcases hT : env.TuneMount o'.Spec.Path (VaultMountReconciler.config o') v2 with ⟨_ | e', v3⟩
    · rw [mount_converge_tune_ok env o' v1 v2 v3 mounts' hL' hm' hT]
      rcases hD' : env.Delete ("/sys/mounts/" ++ o'.Status.Path) v3 with ⟨_ | e', v4⟩
      · rw [mount_cleanup_ok env o' v3 v4 hrn' hD']
        simp only [after_log, mount_persist_log, List.cons_append, List.nil_append]
        refine ⟨?_, ?_, ?_⟩
        · intro ev hev
          simp only [List.mem_append, List.mem_cons, List.mem_singleton,
            List.not_mem_nil, or_false] at hev
          rcases hev with h | h | h | h | h
          · exact (hpm ev h).1
          all_goals subst h; rfl
        · intro _
          exact ⟨true, by simp [hStatus]⟩
        · intro ev hev hs
          simp only [List.mem_append, List.mem_cons, List.mem_singleton,
            List.not_mem_nil, or_false] at hev
          refine ⟨by simp [hStatus], ?_⟩
          rcases hev with h | h | h | h | h
          · rw [(hpm ev h).2.1] at hs; cases hs
          · subst h; cases hs
          · subst h; cases hs
          · subst h; cases hs
          · subst h
            exact ⟨_, rfl, rfl, by simp [VaultMountReconciler.markValid, hSpec]⟩
      · rw [mount_cleanup_fail env o' v3 v4 e' hrn' hD']
        simp only [after_log, List.cons_append, List.nil_append]
        refine ⟨?_, ?_, ?_⟩
        · intro ev hev
          simp only [List.mem_append, List.mem_cons, List.mem_singleton,
            List.not_mem_nil, or_false] at hev
          rcases hev with h | h | h | h
          · exact (hpm ev h).1
          all_goals subst h; rfl
        · intro _
          exact ⟨false, by simp [hStatus]⟩
        · intro ev hev hs
          simp only [List.mem_append, List.mem_cons, List.mem_singleton,
            List.not_mem_nil, or_false] at hev
          rcases hev with h | h | h | h
          · rw [(hpm ev h).2.1] at hs; cases hs
          all_goals subst h; cases hs
    · rw [mount_converge_tune_fail env o' v1 v2 v3 mounts' e' hL' hm' hT]
      simp only [after_log, List.cons_append, List.nil_append]
      refine ⟨?_, ?_, ?_⟩
      · intro ev hev
        simp only [List.mem_append, List.mem_cons, List.mem_singleton,
          List.not_mem_nil, or_false] at hev
        rcases hev with h | h | h
        · exact (hpm ev h).1
        all_goals subst h; rfl
      · intro hin
        simp only [List.mem_append, List.mem_cons, List.mem_singleton,
          List.not_mem_nil, or_false] at hin
        rcases hin with h | h | h
        · have := (hpm _ h).2.2.2
          simp [Call.isTuneMount] at this
        · simp at h
        · simp at h
      · intro ev hev hs
        simp only [List.mem_append, List.mem_cons, List.mem_singleton,
          List.not_mem_nil, or_false] at hev
        rcases hev with h | h | h
        · rw [(hpm ev h).2.1] at hs; cases hs
        all_goals subst h; cases hs

/-- C3, witness: the rename of mount `a` to `b` over the model with failing
deletes, and its retry from the world the first run left. -/
theorem C3_rename_crash_retry_witness :
    ((VaultMountReconciler.Reconcile (mountModel Call.isDelete) mountRenameWorld).err =
        some "remote error" ∧
      statusUpdates
        (VaultMountReconciler.Reconcile (mountModel Call.isDelete) mountRenameWorld).log = []) ∧
    (∀ ev ∈ (VaultMountReconciler.Reconcile (mountModel Call.isDelete) crashFirstRun.world).log,
      ev.call.isMount = false) ∧
    (⟨.TuneMount "b" (VaultMountReconciler.config (mountAt "a" "b")), true⟩ ∈
        (VaultMountReconciler.Reconcile (mountModel Call.isDelete) crashFirstRun.world).log →
      ∃ ok, ⟨.Delete ("/sys/mounts/" ++ "a"), ok⟩ ∈
        (VaultMountReconciler.Reconcile (mountModel Call.isDelete) crashFirstRun.world).log) ∧
    (∀ ev ∈ (VaultMountReconciler.Reconcile (mountModel Call.isDelete) crashFirstRun.world).log,
      ev.isStatusUpdate = true →
      ⟨.Delete ("/sys/mounts/" ++ "a"), true⟩ ∈
          (VaultMountReconciler.Reconcile (mountModel Call.isDelete) crashFirstRun.world).log ∧
        ∃ o2, ev.call = .StatusUpdate o2 ∧ o2.Status.Valid = true ∧ o2.Status.Path = "b") :=
  C3_rename_crash_retry (mountModel Call.isDelete) mountRenameWorld mountRenameWorld
    mountRenameWorld
    (mountRenameWorld.put "/sys/mounts/b"
      (some (.mount (VaultMountReconciler.mountInput (mountAt "a" "b")))))
    (mountRenameWorld.put "/sys/mounts/b"
      (some (.mount (VaultMountReconciler.mountInput (mountAt "a" "b")))))
    (mountAt "a" "b") (listing mountRenameWorld.remote) "remote error"
    ⟨mountAt "a" "b", _, _, rfl, rfl, rfl, Or.inl ⟨by decide, rfl, rfl⟩⟩
    (by decide) (by decide) rfl (by decide) rfl rfl
    crashFirstRun.world crashFirstRun.world crashFirstRun.world (mountAt "a" "b")
    (listing crashFirstRun.world.remote)
    ⟨mountAt "a" "b", _, _, rfl, rfl, rfl, Or.inl ⟨by decide, rfl, rfl⟩⟩
    rfl rfl rfl (by decide)

/-! ## Rename cleanup of the KV mount kind when the target exists -/

/-- Whenever the read of a KV mount reconcile on the Active path finds an
object at the desired path, the read is the only Vault call of the run,
whatever path is recorded, and the status update of the validated object
follows. -/
theorem kv_present_skips_cleanup {W : Type} (env : Env W VaultKVMount) (w w1 w2 : W)
    (o : VaultKVMount) (sec : Secret)
    (hA : VaultKVMountReconciler.Active env w o w1)
    (hRd : env.Read ("/sys/mounts/" ++ o.Spec.Path) w1 = (.ok (some sec), w2)) :
    remoteEvents (VaultKVMountReconciler.Reconcile env w).log =
      [⟨.Read ("/sys/mounts/" ++ o.Spec.Path), true⟩] ∧
    ∃ ok, statusUpdates (VaultKVMountReconciler.Reconcile env w).log =
      [⟨.StatusUpdate (VaultKVMountReconciler.markValid o), ok⟩] := by
  obtain ⟨pre, hpre, hR⟩ := kv_reconcile_of_active env w w1 o hA
  have hp1 := remoteEvents_pre pre hpre
  have hp2 := statusUpdates_pre pre hpre
  simp only [remoteEvents, statusUpdates] at hp1 hp2 ⊢
  rw [hR, kv_converge_present env o w1 w2 sec hRd]
  refine ⟨?_, (VaultKVMountReconciler.persist env o w2).err.isNone, ?_⟩ <;>
    simp [after_log, kv_persist_log, List.filter_cons, hp1, hp2, Event.isRemote, Call.isRemote,
      Event.isStatusUpdate, Call.isStatusUpdate]

/-- C4, the code at the failing input: the KV mount `a` is renamed to `b` and
the delete of `a` fails after `b` was written. The retry, without any fault,
reads `b`, issues no delete, and stores a status with valid set and path `b`
while the object at `/sys/mounts/a` is still there. -/
theorem C4_kv_retry_skips_cleanup :
    remoteEvents kvCrashFirstRun.log =
      [⟨.Read "/sys/mounts/b", true⟩,
       ⟨.Write "/sys/mounts/b" (VaultKVMountReconciler.createPayload (kvMountAt "a" "b")), true⟩,
       ⟨.Delete "/sys/mounts/a", false⟩] ∧
    kvCrashFirstRun.world.manifest = some (kvMountAt "a" "b") ∧
    remoteEvents kvCrashRetry.log = [⟨.Read "/sys/mounts/b", true⟩] ∧
    statusUpdates kvCrashRetry.log =
      [⟨.StatusUpdate (VaultKVMountReconciler.markValid (kvMountAt "a" "b")), true⟩] ∧
    kvCrashRetry.err = none ∧
    kvCrashRetry.world.manifest.map (fun o => (o.Status.Valid, o.Status.Path)) =
      some (true, "b") ∧
    (kvCrashRetry.world.remote "/sys/mounts/a").isSome = true := by
  decide

/-! ## Steps of `handleFinalizer` -/

/-- With the marker present and the remote delete failing, `handleFinalizer`
of the VaultMount kind returns the error and leaves the object as it is. -/
theorem mount_handleFinalizer_delete_fail {W : Type} (env : Env W VaultMount) (o : VaultMount)
    (w w1 : W) (e : Err) (hc : vaultMountFinalizer ∈ o.ObjectMeta.Finalizers)
    (h : env.Delete o.Spec.Path w = (some e, w1)) :
    VaultMountReconciler.handleFinalizer env o w = ⟨some e, some o, w1, [⟨.Delete o.Spec.Path, false⟩]⟩ := by
  simp [VaultMountReconciler.handleFinalizer, ContainsFinalizer, hc, h]

/-- With the marker present and the remote delete succeeding, `handleFinalizer`
of the VaultMount kind removes the marker and updates the manifest. -/
theorem mount_handleFinalizer_delete_ok {W : Type} (env : Env W VaultMount) (o : VaultMount)
    (w w1 : W) (hc : vaultMountFinalizer ∈ o.ObjectMeta.Finalizers)
    (h : env.Delete o.Spec.Path w = (none, w1)) :
    VaultMountReconciler.handleFinalizer env o w =
      ⟨(env.Update { o with ObjectMeta := RemoveFinalizer o.ObjectMeta vaultMountFinalizer } w1).1,
        some (if (env.Update
              { o with ObjectMeta := RemoveFinalizer o.ObjectMeta vaultMountFinalizer } w1).1.isNone
          then env.Updated { o with ObjectMeta := RemoveFinalizer o.ObjectMeta vaultMountFinalizer } w1
          else { o with ObjectMeta := RemoveFinalizer o.ObjectMeta vaultMountFinalizer }),
        (env.Update { o with ObjectMeta := RemoveFinalizer o.ObjectMeta vaultMountFinalizer } w1).2,
        [⟨.Delete o.Spec.Path, true⟩,
         ⟨.Update { o with ObjectMeta := RemoveFinalizer o.ObjectMeta vaultMountFinalizer },
           (env.Update { o with ObjectMeta := RemoveFinalizer o.ObjectMeta vaultMountFinalizer }
             w1).1.isNone⟩]⟩ := by
  rcases hU : env.Update { o with ObjectMeta := RemoveFinalizer o.ObjectMeta vaultMountFinalizer } w1
    with ⟨_ | e, w2⟩ <;>
  simp [VaultMountReconciler.handleFinalizer, ContainsFinalizer, hc, h, hU]

/-- Without the marker `handleFinalizer` of the VaultMount kind does nothing. -/
theorem mount_handleFinalizer_absent {W : Type} (env : Env W VaultMount) (o : VaultMount)
    (w : W) (hc : vaultMountFinalizer ∉ o.ObjectMeta.Finalizers) :
    VaultMountReconciler.handleFinalizer env o w = ⟨none, some o, w, []⟩ := by
  simp [VaultMountReconciler.handleFinalizer, ContainsFinalizer, hc]

/-- With the marker present and the remote delete failing, `handleFinalizer`
of the VaultKVMount kind returns the error and leaves the object as it is. -/
theorem kv_handleFinalizer_delete_fail {W : Type} (env : Env W VaultKVMount) (o : VaultKVMount)
    (w w1 : W) (e : Err) (hc : vaultKVMountFinalizer ∈ o.ObjectMeta.Finalizers)
    (h : env.Delete o.Spec.Path w = (some e, w1)) :
    VaultKVMountReconciler.handleFinalizer env o w = ⟨some e, some o, w1, [⟨.Delete o.Spec.Path, false⟩]⟩ := by
  simp [VaultKVMountReconciler.handleFinalizer, ContainsFinalizer, hc, h]

/-- With the marker present and the remote delete succeeding, `handleFinalizer`
of the VaultKVMount kind removes the marker and updates the manifest. -/
theorem kv_handleFinalizer_delete_ok {W : Type} (env : Env W VaultKVMount) (o : VaultKVMount)
    (w w1 : W) (hc : vaultKVMountFinalizer ∈ o.ObjectMeta.Finalizers)
    (h : env.Delete o.Spec.Path w = (none, w1)) :
    VaultKVMountReconciler.handleFinalizer env o w =
      ⟨(env.Update { o with ObjectMeta := RemoveFinalizer o.ObjectMeta vaultKVMountFinalizer } w1).1,
        some (if (env.Update
              { o with ObjectMeta := RemoveFinalizer o.ObjectMeta vaultKVMountFinalizer } w1).1.isNone
          then env.Updated { o with ObjectMeta := RemoveFinalizer o.ObjectMeta vaultKVMountFinalizer } w1
          else { o with ObjectMeta := RemoveFinalizer o.ObjectMeta vaultKVMountFinalizer }),
        (env.Update { o with ObjectMeta := RemoveFinalizer o.ObjectMeta vaultKVMountFinalizer } w1).2,
        [⟨.Delete o.Spec.Path, true⟩,
         ⟨.Update { o with ObjectMeta := RemoveFinalizer o.ObjectMeta vaultKVMountFinalizer },
           (env.Update { o with ObjectMeta := RemoveFinalizer o.ObjectMeta vaultKVMountFinalizer }
             w1).1.isNone⟩]⟩ := by
  rcases hU : env.Update { o with ObjectMeta := RemoveFinalizer o.ObjectMeta vaultKVMountFinalizer } w1
    with ⟨_ | e, w2⟩ <;>
  simp [VaultKVMountReconciler.handleFinalizer, ContainsFinalizer, hc, h, hU]

/-- Without the marker `handleFinalizer` of the VaultKVMount kind does nothing. -/
theorem kv_handleFinalizer_absent {W : Type} (env : Env W VaultKVMount) (o : VaultKVMount)
    (w : W) (hc : vaultKVMountFinalizer ∉ o.ObjectMeta.Finalizers) :
    VaultKVMountReconciler.handleFinalizer env o w = ⟨none, some o, w, []⟩ := by
  simp [VaultKVMountReconciler.handleFinalizer, ContainsFinalizer, hc]

/-- With the marker present and the remote delete failing, `handleFinalizer`
of the VaultPolicy kind returns the error and leaves the object as it is. -/
theorem policy_handleFinalizer_delete_fail {W : Type} (env : Env W VaultPolicy) (o : VaultPolicy)
    (w w1 : W) (e : Err) (hc : vaultPolicyFinalizer ∈ o.ObjectMeta.Finalizers)
    (h : env.Delete ("/sys/policies/acl/" ++ o.ObjectMeta.Name) w = (some e, w1)) :
    VaultPolicyReconciler.handleFinalizer env o w = ⟨some e, some o, w1, [⟨.Delete ("/sys/policies/acl/" ++ o.ObjectMeta.Name), false⟩]⟩ := by
  simp [VaultPolicyReconciler.handleFinalizer, ContainsFinalizer, hc, h]

/-- With the marker present and the remote delete succeeding, `handleFinalizer`
of the VaultPolicy kind removes the marker and updates the manifest. -/
theorem policy_handleFinalizer_delete_ok {W : Type} (env : Env W VaultPolicy) (o : VaultPolicy)
    (w w1 : W) (hc : vaultPolicyFinalizer ∈ o.ObjectMeta.Finalizers)
    (h : env.Delete ("/sys/policies/acl/" ++ o.ObjectMeta.Name) w = (none, w1)) :
    VaultPolicyReconciler.handleFinalizer env o w =
      ⟨(env.Update { o with ObjectMeta := RemoveFinalizer o.ObjectMeta vaultPolicyFinalizer } w1).1,
        some (if (env.Update
              { o with ObjectMeta := RemoveFinalizer o.ObjectMeta vaultPolicyFinalizer } w1).1.isNone
          then env.Updated { o with ObjectMeta := RemoveFinalizer o.ObjectMeta vaultPolicyFinalizer } w1
          else { o with ObjectMeta := RemoveFinalizer o.ObjectMeta vaultPolicyFinalizer }),
        (env.Update { o with ObjectMeta := RemoveFinalizer o.ObjectMeta vaultPolicyFinalizer } w1).2,
        [⟨.Delete ("/sys/policies/acl/" ++ o.ObjectMeta.Name), true⟩,
         ⟨.Update { o with ObjectMeta := RemoveFinalizer o.ObjectMeta vaultPolicyFinalizer },
           (env.Update { o with ObjectMeta := RemoveFinalizer o.ObjectMeta vaultPolicyFinalizer }
             w1).1.isNone⟩]⟩ := by
  rcases hU : env.Update { o with ObjectMeta := RemoveFinalizer o.ObjectMeta vaultPolicyFinalizer } w1
    with ⟨_ | e, w2⟩ <;>
  simp [VaultPolicyReconciler.handleFinalizer, ContainsFinalizer, hc, h, hU]

/-- Without the marker `handleFinalizer` of the VaultPolicy kind does nothing. -/
theorem policy_handleFinalizer_absent {W : Type} (env : Env W VaultPolicy) (o : VaultPolicy)
    (w : W) (hc : vaultPolicyFinalizer ∉ o.ObjectMeta.Finalizers) :
    VaultPolicyReconciler.handleFinalizer env o w = ⟨none, some o, w, []⟩ := by
  simp [VaultPolicyReconciler.handleFinalizer, ContainsFinalizer, hc]

/-! ## Finalizer gating -/

/-- C5: finalizer gating for the three kinds. On the Deleting path with the
marker of the kind present, the log of the run holds a remote `Delete` that no
manifest update precedes; and if that delete fails, the reconcile returns its
error, the in-memory object is unchanged (so it still holds the marker) and
no manifest update is issued. -/
theorem C5_finalizer_gating {W U V : Type}
    (env : Env W VaultMount) (w w1 : W) (o : VaultMount)
    (hD : VaultMountReconciler.Deleting env w o w1) (hc : vaultMountFinalizer ∈ o.ObjectMeta.Finalizers)
    (kenv : Env U VaultKVMount) (u u1 : U) (k : VaultKVMount)
    (hK : VaultKVMountReconciler.Deleting kenv u k u1) (hck : vaultKVMountFinalizer ∈ k.ObjectMeta.Finalizers)
    (penv : Env V VaultPolicy) (v v1 : V) (p : VaultPolicy)
    (hP : VaultPolicyReconciler.Deleting penv v p v1) (hcp : vaultPolicyFinalizer ∈ p.ObjectMeta.Finalizers) :
    ((∃ pre ok rest, (VaultMountReconciler.Reconcile env w).log = pre ++ ⟨.Delete o.Spec.Path, ok⟩ :: rest ∧
        ∀ e ∈ pre, e.isUpdate = false) ∧
      ∀ e w2, env.Delete o.Spec.Path w1 = (some e, w2) →
        (VaultMountReconciler.Reconcile env w).err = some e ∧
        (VaultMountReconciler.Reconcile env w).obj = some o ∧
        manifestUpdates (VaultMountReconciler.Reconcile env w).log = []) ∧
    ((∃ pre ok rest, (VaultKVMountReconciler.Reconcile kenv u).log = pre ++ ⟨.Delete k.Spec.Path, ok⟩ :: rest ∧
        ∀ e ∈ pre, e.isUpdate = false) ∧
      ∀ e u2, kenv.Delete k.Spec.Path u1 = (some e, u2) →
        (VaultKVMountReconciler.Reconcile kenv u).err = some e ∧
        (VaultKVMountReconciler.Reconcile kenv u).obj = some k ∧
        manifestUpdates (VaultKVMountReconciler.Reconcile kenv u).log = []) ∧
    ((∃ pre ok rest, (VaultPolicyReconciler.Reconcile penv v).log = pre ++ ⟨.Delete ("/sys/policies/acl/" ++ p.ObjectMeta.Name), ok⟩ :: rest ∧
        ∀ e ∈ pre, e.isUpdate = false) ∧
      ∀ e v2, penv.Delete ("/sys/policies/acl/" ++ p.ObjectMeta.Name) v1 = (some e, v2) →
        (VaultPolicyReconciler.Reconcile penv v).err = some e ∧
        (VaultPolicyReconciler.Reconcile penv v).obj = some p ∧
        manifestUpdates (VaultPolicyReconciler.Reconcile penv v).log = []) := by
  refine ⟨?_, ?_, ?_⟩
  · obtain ⟨o0, _, hR⟩ := mount_reconcile_of_deleting env w w1 o hD
    rw [hR]
    constructor
    · refine ⟨[⟨.Get, true⟩, ⟨.ClientFactoryGet o0, true⟩], ?_⟩
      rcases hDel : env.Delete o.Spec.Path w1 with ⟨_ | e, w2⟩
      · rw [mount_handleFinalizer_delete_ok env o w1 w2 hc hDel]
        exact ⟨true, _, rfl, by simp [Event.isUpdate, Call.isUpdate]⟩
      · rw [mount_handleFinalizer_delete_fail env o w1 w2 e hc hDel]
        exact ⟨false, [], rfl, by simp [Event.isUpdate, Call.isUpdate]⟩
    · intro e w2 hDel
      rw [mount_handleFinalizer_delete_fail env o w1 w2 e hc hDel]
      simp [Outcome.after, manifestUpdates, List.filter_cons, Event.isUpdate, Call.isUpdate]
  · obtain ⟨o0, _, hR⟩ := kv_reconcile_of_deleting kenv u u1 k hK
    rw [hR]
    constructor
    · refine ⟨[⟨.Get, true⟩, ⟨.ClientFactoryGet o0, true⟩], ?_⟩
      rcases hDel : kenv.Delete k.Spec.Path u1 with ⟨_ | e, u2⟩
      · rw [kv_handleFinalizer_delete_ok kenv k u1 u2 hck hDel]
        exact ⟨true, _, rfl, by simp [Event.isUpdate, Call.isUpdate]⟩
      · rw [kv_handleFinalizer_delete_fail kenv k u1 u2 e hck hDel]
        exact ⟨false, [], rfl, by simp [Event.isUpdate, Call.isUpdate]⟩
    · intro e u2 hDel
      rw [kv_handleFinalizer_delete_fail kenv k u1 u2 e hck hDel]
      simp [Outcome.after, manifestUpdates, List.filter_cons, Event.isUpdate, Call.isUpdate]
  · obtain ⟨o0, _, hR⟩ := policy_reconcile_of_deleting penv v v1 p hP
    rw [hR]
    constructor
    · refine ⟨[⟨.Get, true⟩, ⟨.ClientFactoryGet o0, true⟩], ?_⟩
      rcases hDel : penv.Delete ("/sys/policies/acl/" ++ p.ObjectMeta.Name) v1 with ⟨_ | e, v2⟩
      · rw [policy_handleFinalizer_delete_ok penv p v1 v2 hcp hDel]
        exact ⟨true, _, rfl, by simp [Event.isUpdate, Call.isUpdate]⟩
      · rw [policy_handleFinalizer_delete_fail penv p v1 v2 e hcp hDel]
        exact ⟨false, [], rfl, by simp [Event.isUpdate, Call.isUpdate]⟩
    · intro e v2 hDel
      rw [policy_handleFinalizer_delete_fail penv p v1 v2 e hcp hDel]
      simp [Outcome.after, manifestUpdates, List.filter_cons, Event.isUpdate, Call.isUpdate]

/-- C5, witness: the three kinds on the Deleting path over the model with
failing deletes. -/
theorem C5_finalizer_gating_witness :
    ((∃ pre ok rest,
        (VaultMountReconciler.Reconcile (mountModel Call.isDelete) (emptyRemote deletingMount)).log = pre ++ ⟨.Delete "b", ok⟩ :: rest ∧
        ∀ e ∈ pre, e.isUpdate = false) ∧
      ∀ e w2, (mountModel Call.isDelete).Delete "b" (emptyRemote deletingMount) = (some e, w2) →
        (VaultMountReconciler.Reconcile (mountModel Call.isDelete) (emptyRemote deletingMount)).err = some e ∧
        (VaultMountReconciler.Reconcile (mountModel Call.isDelete) (emptyRemote deletingMount)).obj = some deletingMount ∧
        manifestUpdates (VaultMountReconciler.Reconcile (mountModel Call.isDelete) (emptyRemote deletingMount)).log = []) ∧
    ((∃ pre ok rest,
        (VaultKVMountReconciler.Reconcile (kvMountModel Call.isDelete) (emptyRemote deletingKVMount)).log = pre ++ ⟨.Delete "b", ok⟩ :: rest ∧
        ∀ e ∈ pre, e.isUpdate = false) ∧
      ∀ e w2, (kvMountModel Call.isDelete).Delete "b" (emptyRemote deletingKVMount) = (some e, w2) →
        (VaultKVMountReconciler.Reconcile (kvMountModel Call.isDelete) (emptyRemote deletingKVMount)).err = some e ∧
        (VaultKVMountReconciler.Reconcile (kvMountModel Call.isDelete) (emptyRemote deletingKVMount)).obj = some deletingKVMount ∧
        manifestUpdates (VaultKVMountReconciler.Reconcile (kvMountModel Call.isDelete) (emptyRemote deletingKVMount)).log = []) ∧
    ((∃ pre ok rest,
        (VaultPolicyReconciler.Reconcile (policyModel Call.isDelete) (emptyRemote deletingPolicy)).log = pre ++ ⟨.Delete ("/sys/policies/acl/" ++ "b"), ok⟩ :: rest ∧
        ∀ e ∈ pre, e.isUpdate = false) ∧
      ∀ e w2, (policyModel Call.isDelete).Delete ("/sys/policies/acl/" ++ "b") (emptyRemote deletingPolicy) = (some e, w2) →
        (VaultPolicyReconciler.Reconcile (policyModel Call.isDelete) (emptyRemote deletingPolicy)).err = some e ∧
        (VaultPolicyReconciler.Reconcile (policyModel Call.isDelete) (emptyRemote deletingPolicy)).obj = some deletingPolicy ∧
        manifestUpdates (VaultPolicyReconciler.Reconcile (policyModel Call.isDelete) (emptyRemote deletingPolicy)).log = []) :=
  C5_finalizer_gating
    (mountModel Call.isDelete) (emptyRemote deletingMount) (emptyRemote deletingMount) deletingMount
    ⟨deletingMount, _, 1, rfl, rfl, rfl, rfl⟩ (by decide)
    (kvMountModel Call.isDelete) (emptyRemote deletingKVMount) (emptyRemote deletingKVMount) deletingKVMount
    ⟨deletingKVMount, _, 1, rfl, rfl, rfl, rfl⟩ (by decide)
    (policyModel Call.isDelete) (emptyRemote deletingPolicy) (emptyRemote deletingPolicy) deletingPolicy
    ⟨deletingPolicy, _, 1, rfl, rfl, rfl, rfl⟩ (by decide)

/-! ## Deleting to Gone -/

/-- C6: for the three kinds, on the Deleting path with the marker of the kind
present and the remote delete succeeding, the run issues exactly one manifest
update; the object it carries has the finalizer list of the manifest with
every occurrence of the marker dropped and every other finalizer kept, in
order, and is otherwise the in-memory object. -/
theorem C6_deleting_to_gone {W U V : Type}
    (env : Env W VaultMount) (w w1 w2 : W) (o : VaultMount)
    (hD : VaultMountReconciler.Deleting env w o w1) (hc : vaultMountFinalizer ∈ o.ObjectMeta.Finalizers)
    (hDel : env.Delete o.Spec.Path w1 = (none, w2))
    (kenv : Env U VaultKVMount) (u u1 u2 : U) (k : VaultKVMount)
    (hK : VaultKVMountReconciler.Deleting kenv u k u1) (hck : vaultKVMountFinalizer ∈ k.ObjectMeta.Finalizers)
    (hDelK : kenv.Delete k.Spec.Path u1 = (none, u2))
    (penv : Env V VaultPolicy) (v v1 v2 : V) (p : VaultPolicy)
    (hP : VaultPolicyReconciler.Deleting penv v p v1) (hcp : vaultPolicyFinalizer ∈ p.ObjectMeta.Finalizers)
    (hDelP : penv.Delete ("/sys/policies/acl/" ++ p.ObjectMeta.Name) v1 = (none, v2)) :
    (∃ (o1 : VaultMount) (ok : Bool),
      manifestUpdates (VaultMountReconciler.Reconcile env w).log = [⟨.Update o1, ok⟩] ∧
      o1.ObjectMeta.Finalizers = o.ObjectMeta.Finalizers.filter (fun f => f != vaultMountFinalizer) ∧
      vaultMountFinalizer ∉ o1.ObjectMeta.Finalizers ∧
      (∀ f, f ≠ vaultMountFinalizer → (f ∈ o1.ObjectMeta.Finalizers ↔ f ∈ o.ObjectMeta.Finalizers)) ∧
      o1.ObjectMeta.Name = o.ObjectMeta.Name ∧ o1.Spec = o.Spec ∧ o1.Status = o.Status) ∧
    (∃ (o1 : VaultKVMount) (ok : Bool),
      manifestUpdates (VaultKVMountReconciler.Reconcile kenv u).log = [⟨.Update o1, ok⟩] ∧
      o1.ObjectMeta.Finalizers = k.ObjectMeta.Finalizers.filter (fun f => f != vaultKVMountFinalizer) ∧
      vaultKVMountFinalizer ∉ o1.ObjectMeta.Finalizers ∧
      (∀ f, f ≠ vaultKVMountFinalizer → (f ∈ o1.ObjectMeta.Finalizers ↔ f ∈ k.ObjectMeta.Finalizers)) ∧
      o1.ObjectMeta.Name = k.ObjectMeta.Name ∧ o1.Spec = k.Spec ∧ o1.Status = k.Status) ∧
    (∃ (o1 : VaultPolicy) (ok : Bool),
      manifestUpdates (VaultPolicyReconciler.Reconcile penv v).log = [⟨.Update o1, ok⟩] ∧
      o1.ObjectMeta.Finalizers = p.ObjectMeta.Finalizers.filter (fun f => f != vaultPolicyFinalizer) ∧
      vaultPolicyFinalizer ∉ o1.ObjectMeta.Finalizers ∧
      (∀ f, f ≠ vaultPolicyFinalizer → (f ∈ o1.ObjectMeta.Finalizers ↔ f ∈ p.ObjectMeta.Finalizers)) ∧
      o1.ObjectMeta.Name = p.ObjectMeta.Name ∧ o1.Spec = p.Spec ∧ o1.Status = p.Status) := by
  refine ⟨?_, ?_, ?_⟩
  · obtain ⟨o0, _, hR⟩ := mount_reconcile_of_deleting env w w1 o hD
    rw [hR, mount_handleFinalizer_delete_ok env o w1 w2 hc hDel]
    refine ⟨{ o with ObjectMeta := RemoveFinalizer o.ObjectMeta vaultMountFinalizer },
      (env.Update { o with ObjectMeta := RemoveFinalizer o.ObjectMeta vaultMountFinalizer } w2).1.isNone,
      ?_, rfl, ?_, ?_, rfl, rfl, rfl⟩
    · simp [Outcome.after, manifestUpdates, List.filter_cons, Event.isUpdate, Call.isUpdate]
    · simp [RemoveFinalizer]
    · intro f hf
      simp [RemoveFinalizer, hf]
  · obtain ⟨o0, _, hR⟩ := kv_reconcile_of_deleting kenv u u1 k hK
    rw [hR, kv_handleFinalizer_delete_ok kenv k u1 u2 hck hDelK]
    refine ⟨{ k with ObjectMeta := RemoveFinalizer k.ObjectMeta vaultKVMountFinalizer },
      (kenv.Update { k with ObjectMeta := RemoveFinalizer k.ObjectMeta vaultKVMountFinalizer } u2).1.isNone,
      ?_, rfl, ?_, ?_, rfl, rfl, rfl⟩
    · simp [Outcome.after, manifestUpdates, List.filter_cons, Event.isUpdate, Call.isUpdate]
    · simp [RemoveFinalizer]
    · intro f hf
      simp [RemoveFinalizer, hf]
  · obtain ⟨o0, _, hR⟩ := policy_reconcile_of_deleting penv v v1 p hP
    rw [hR, policy_handleFinalizer_delete_ok penv p v1 v2 hcp hDelP]
    refine ⟨{ p with ObjectMeta := RemoveFinalizer p.ObjectMeta vaultPolicyFinalizer },
      (penv.Update { p with ObjectMeta := RemoveFinalizer p.ObjectMeta vaultPolicyFinalizer } v2).1.isNone,
      ?_, rfl, ?_, ?_, rfl, rfl, rfl⟩
    · simp [Outcome.after, manifestUpdates, List.filter_cons, Event.isUpdate, Call.isUpdate]
    · simp [RemoveFinalizer]
    · intro f hf
      simp [RemoveFinalizer, hf]

/-- C6, witness: the three kinds on the Deleting path over the model without
faults; the foreign finalizer stays. -/
theorem C6_deleting_to_gone_witness :
    (∃ (o1 : VaultMount) (ok : Bool),
      manifestUpdates (VaultMountReconciler.Reconcile (mountModel noFault) (emptyRemote deletingMount)).log = [⟨.Update o1, ok⟩] ∧
      o1.ObjectMeta.Finalizers = deletingMount.ObjectMeta.Finalizers.filter (fun f => f != vaultMountFinalizer) ∧
      vaultMountFinalizer ∉ o1.ObjectMeta.Finalizers ∧
      (∀ f, f ≠ vaultMountFinalizer → (f ∈ o1.ObjectMeta.Finalizers ↔ f ∈ deletingMount.ObjectMeta.Finalizers)) ∧
      o1.ObjectMeta.Name = deletingMount.ObjectMeta.Name ∧ o1.Spec = deletingMount.Spec ∧ o1.Status = deletingMount.Status) ∧
    (∃ (o1 : VaultKVMount) (ok : Bool),
      manifestUpdates (VaultKVMountReconciler.Reconcile (kvMountModel noFault) (emptyRemote deletingKVMount)).log = [⟨.Update o1, ok⟩] ∧
      o1.ObjectMeta.Finalizers = deletingKVMount.ObjectMeta.Finalizers.filter (fun f => f != vaultKVMountFinalizer) ∧
      vaultKVMountFinalizer ∉ o1.ObjectMeta.Finalizers ∧
      (∀ f, f ≠ vaultKVMountFinalizer → (f ∈ o1.ObjectMeta.Finalizers ↔ f ∈ deletingKVMount.ObjectMeta.Finalizers)) ∧
      o1.ObjectMeta.Name = deletingKVMount.ObjectMeta.Name ∧ o1.Spec = deletingKVMount.Spec ∧ o1.Status = deletingKVMount.Status) ∧
    (∃ (o1 : VaultPolicy) (ok : Bool),
      manifestUpdates (VaultPolicyReconciler.Reconcile (policyModel noFault) (emptyRemote deletingPolicy)).log = [⟨.Update o1, ok⟩] ∧
      o1.ObjectMeta.Finalizers = deletingPolicy.ObjectMeta.Finalizers.filter (fun f => f != vaultPolicyFinalizer) ∧
      vaultPolicyFinalizer ∉ o1.ObjectMeta.Finalizers ∧
      (∀ f, f ≠ vaultPolicyFinalizer → (f ∈ o1.ObjectMeta.Finalizers ↔ f ∈ deletingPolicy.ObjectMeta.Finalizers)) ∧
      o1.ObjectMeta.Name = deletingPolicy.ObjectMeta.Name ∧ o1.Spec = deletingPolicy.Spec ∧ o1.Status = deletingPolicy.Status) :=
  C6_deleting_to_gone
    (mountModel noFault) (emptyRemote deletingMount) (emptyRemote deletingMount) (World.put (emptyRemote deletingMount) "b" none) deletingMount
    ⟨deletingMount, _, 1, rfl, rfl, rfl, rfl⟩ (by decide) rfl
    (kvMountModel noFault) (emptyRemote deletingKVMount) (emptyRemote deletingKVMount) (World.put (emptyRemote deletingKVMount) "b" none) deletingKVMount
    ⟨deletingKVMount, _, 1, rfl, rfl, rfl, rfl⟩ (by decide) rfl
    (policyModel noFault) (emptyRemote deletingPolicy) (emptyRemote deletingPolicy) (World.put (emptyRemote deletingPolicy) ("/sys/policies/acl/" ++ "b") none) deletingPolicy
    ⟨deletingPolicy, _, 1, rfl, rfl, rfl, rfl⟩ (by decide) rfl

/-! ## Policy upsert -/

/-- No event of a log of control-plane calls has a property only Vault calls
and status updates have. -/
theorem pre_not {O : Type} (q : Call O → Bool) (pre : List (Event O))
    (hq : ∀ c, q c = true → c.isRemote = true ∨ c.isStatusUpdate = true)
    (h : ∀ e ∈ pre, e.call.isRemote = false ∧ e.call.isStatusUpdate = false ∧ e.ok = true) :
    ∀ e ∈ pre, q e.call = false := by
  intro e he
  cases hqe : q e.call
  · rfl
  · rcases hq _ hqe with h1 | h1
    · rw [(h e he).1] at h1; cases h1
    · rw [(h e he).2.1] at h1; cases h1

/-- C7: on the Active path of a policy reconcile, whatever the environment
answers and whatever the recorded status is, the `Write` calls of the run are
exactly one, at `/sys/policies/acl/` followed by the manifest name and with
the policy payload; it is the first Vault call of the run, and the run issues
no `Read` and no `ListMounts` at all. -/
theorem C7_policy_upsert {V : Type} (penv : Env V VaultPolicy) (v v1 : V) (p : VaultPolicy)
    (hB : VaultPolicyReconciler.Active penv v p v1) :
    (calls (VaultPolicyReconciler.Reconcile penv v).log).filter Call.isWrite =
      [.Write ("/sys/policies/acl/" ++ p.ObjectMeta.Name)
        (VaultPolicyReconciler.writePayload p)] ∧
    (∃ ok rest, remoteEvents (VaultPolicyReconciler.Reconcile penv v).log =
      ⟨.Write ("/sys/policies/acl/" ++ p.ObjectMeta.Name)
        (VaultPolicyReconciler.writePayload p), ok⟩ :: rest) ∧
    (∀ e ∈ (VaultPolicyReconciler.Reconcile penv v).log, e.call.isReadOrList = false) := by
  obtain ⟨pre, hpre, hR⟩ := policy_reconcile_of_active penv v v1 p hB
  have hw := calls_pre_nil Call.isWrite pre
    (by intro c; cases c <;> simp [Call.isWrite, Call.isRemote]) hpre
  have hr := remoteEvents_pre pre hpre
  have hq := pre_not Call.isReadOrList pre
    (by intro c; cases c <;> simp [Call.isReadOrList, Call.isRemote]) hpre
  simp only [calls, remoteEvents] at hw hr ⊢
  rw [hR]
  rcases hW : penv.Write ("/sys/policies/acl/" ++ p.ObjectMeta.Name)
    (VaultPolicyReconciler.writePayload p) v1 with ⟨_ | e, v2⟩
  · cases hrn : VaultPolicyReconciler.renamed p
    · rw [policy_converge_write_skip penv p v1 v2 hW hrn]
      simp only [after_log, policy_persist_log, List.cons_append, List.nil_append]
      refine ⟨?_, ⟨true, [], ?_⟩, ?_⟩
      · simp [List.filter_cons, hw, Call.isWrite]
      · simp [List.filter_cons, hr, Event.isRemote, Call.isRemote]
      · rw [List.forall_mem_append]
        exact ⟨hq, by simp [Call.isReadOrList]⟩
    · rcases hD : penv.Delete ("/sys/policies/acl/" ++ p.Status.Name) v2 with ⟨_ | e, v3⟩
      · rw [policy_converge_write_delete_ok penv p v1 v2 v3 hW hrn hD]
        simp only [after_log, policy_persist_log, List.cons_append, List.nil_append]
        refine ⟨?_, ⟨true, [⟨.Delete ("/sys/policies/acl/" ++ p.Status.Name), true⟩], ?_⟩, ?_⟩
        · simp [List.filter_cons, hw, Call.isWrite]
        · simp [List.filter_cons, hr, Event.isRemote, Call.isRemote]
        · rw [List.forall_mem_append]
          exact ⟨hq, by simp [Call.isReadOrList]⟩
      · rw [policy_converge_write_delete_fail penv p v1 v2 v3 e hW hrn hD]
        simp only [after_log, List.cons_append, List.nil_append]
        refine ⟨?_, ⟨true, [⟨.Delete ("/sys/policies/acl/" ++ p.Status.Name), false⟩], ?_⟩, ?_⟩
        · simp [List.filter_cons, hw, Call.isWrite]
        · simp [List.filter_cons, hr, Event.isRemote, Call.isRemote]
        · rw [List.forall_mem_append]
          exact ⟨hq, by simp [Call.isReadOrList]⟩
  · rw [policy_converge_write_fail penv p v1 v2 e hW]
    simp only [after_log, List.cons_append, List.nil_append]
    refine ⟨?_, ⟨false, [], ?_⟩, ?_⟩
    · simp [List.filter_cons, hw, Call.isWrite]
    · simp [List.filter_cons, hr, Event.isRemote, Call.isRemote]
    · rw [List.forall_mem_append]
      exact ⟨hq, by simp [Call.isReadOrList]⟩

/-- C7, witness: the policy `app-reader`, never reconciled before, over the
model with an empty remote. -/
theorem C7_policy_upsert_witness :
    (calls (VaultPolicyReconciler.Reconcile (policyModel noFault)
        (emptyRemote (policyAt "" "app-reader"))).log).filter Call.isWrite =
      [.Write ("/sys/policies/acl/" ++ "app-reader")
        (VaultPolicyReconciler.writePayload (policyAt "" "app-reader"))] ∧
    (∃ ok rest, remoteEvents (VaultPolicyReconciler.Reconcile (policyModel noFault)
        (emptyRemote (policyAt "" "app-reader"))).log =
      ⟨.Write ("/sys/policies/acl/" ++ "app-reader")
        (VaultPolicyReconciler.writePayload (policyAt "" "app-reader")), ok⟩ :: rest) ∧
    (∀ e ∈ (VaultPolicyReconciler.Reconcile (policyModel noFault)
        (emptyRemote (policyAt "" "app-reader"))).log, e.call.isReadOrList = false) :=
  C7_policy_upsert (policyModel noFault) (emptyRemote (policyAt "" "app-reader"))
    (emptyRemote (policyAt "" "app-reader")) (policyAt "" "app-reader")
    ⟨policyAt "" "app-reader", _, _, rfl, rfl, rfl, Or.inl ⟨by decide, rfl, rfl⟩⟩

/-! ## The policy document -/

/-- Setting a key that the map does not hold appends the entry. -/
theorem mapSet_of_not_mem {α : Type} (k : String) (v : α) (l : List (String × α))
    (h : k ∉ l.map Prod.fst) : mapSet k v l = l ++ [(k, v)] := by
  induction l with
  | nil => rfl
  | cons x xs ih =>
    simp only [List.map_cons, List.mem_cons, not_or] at h
    have hx : ¬ x.1 = k := fun hxk => h.1 hxk.symm
    simp [mapSet, hx, ih h.2]

/-- Copying entries with distinct keys into a map with other keys appends them
in order. -/
theorem foldl_mapSet_eq {α β : Type} (g : α → β) (l : List (String × α))
    (acc : List (String × β)) (h : (acc.map Prod.fst ++ l.map Prod.fst).Nodup) :
    l.foldl (fun path e => mapSet e.1 (g e.2) path) acc = acc ++ l.map (fun e => (e.1, g e.2)) := by
  induction l generalizing acc with
  | nil => simp
  | cons x xs ih =>
    have hx : x.1 ∉ acc.map Prod.fst := by
      intro hmem
      rw [List.nodup_append] at h
      exact h.2.2 hmem (by simp)
    rw [List.foldl_cons, mapSet_of_not_mem _ _ _ hx, ih]
    · simp
    · simpa [List.map_append, List.append_assoc] using h

/-- The copy of a policy spec with distinct patterns holds its entries, in
order. -/
theorem pathMap_eq_map (o : VaultPolicy) (h : (o.Spec.Path.map Prod.fst).Nodup) :
    VaultPolicyReconciler.pathMap o =
      o.Spec.Path.map (fun e => (e.1, VaultPolicyReconciler.copyPath e.2)) := by
  have := foldl_mapSet_eq VaultPolicyReconciler.copyPath o.Spec.Path [] (by simpa using h)
  simpa [VaultPolicyReconciler.pathMap] using this

/-- Inserting into a sorted list adds the entry and nothing else. -/
theorem insertByKey_perm {α : Type} (e : String × α) (l : List (String × α)) :
    (insertByKey e l).Perm (e :: l) := by
  induction l with
  | nil => exact List.Perm.refl _
  | cons x xs ih =>
    unfold insertByKey
    split
    · exact (List.Perm.cons x ih).trans (List.Perm.swap e x xs)
    · exact List.Perm.refl _

/-- Sorting by key keeps the entries. -/
theorem sortByKey_perm {α : Type} (m : List (String × α)) : (sortByKey m).Perm m := by
  induction m with
  | nil => exact List.Perm.refl _
  | cons x xs ih =>
    exact (insertByKey_perm x (sortByKey xs)).trans (List.Perm.cons x ih)

/-- The `Write` calls of a policy reconcile on the Active path: the one write
of the policy payload. -/
theorem policy_write_calls {V : Type} (penv : Env V VaultPolicy) (v v1 : V) (p : VaultPolicy)
    (hB : VaultPolicyReconciler.Active penv v p v1) :
    (calls (VaultPolicyReconciler.Reconcile penv v).log).filter Call.isWrite =
      [.Write ("/sys/policies/acl/" ++ p.ObjectMeta.Name)
        (VaultPolicyReconciler.writePayload p)] := by
  obtain ⟨pre, hpre, hR⟩ := policy_reconcile_of_active penv v v1 p hB
  have hw := calls_pre_nil Call.isWrite pre
    (by intro c; cases c <;> simp [Call.isWrite, Call.isRemote]) hpre
  simp only [calls] at hw ⊢
  rw [hR]
  rcases hW : penv.Write ("/sys/policies/acl/" ++ p.ObjectMeta.Name)
    (VaultPolicyReconciler.writePayload p) v1 with ⟨_ | e, v2⟩
  · cases hrn : VaultPolicyReconciler.renamed p
    · rw [policy_converge_write_skip penv p v1 v2 hW hrn]
      simp [after_log, policy_persist_log, List.filter_cons, hw, Call.isWrite]
    · rcases hD : penv.Delete ("/sys/policies/acl/" ++ p.Status.Name) v2 with ⟨_ | e, v3⟩
      · rw [policy_converge_write_delete_ok penv p v1 v2 v3 hW hrn hD]
        simp [after_log, policy_persist_log, List.filter_cons, hw, Call.isWrite]
      · rw [policy_converge_write_delete_fail penv p v1 v2 v3 e hW hrn hD]
        simp [after_log, List.filter_cons, hw, Call.isWrite]
  · rw [policy_converge_write_fail penv p v1 v2 e hW]
    simp [after_log, List.filter_cons, hw, Call.isWrite]

/-! ## Idempotence over the model -/

/-- A listing key made of a path and a slash strips to the path. -/
theorem stripSlash_append (p : String) : stripSlash (p ++ "/") = some p := by
  simp [stripSlash, String.data_append]

/-- The key of a path is listed exactly when an object lives at its address. -/
theorem listing_key (remote : String → Option RemoteObj) (p : String) :
    listing remote (p ++ "/") = (remote ("/sys/mounts/" ++ p)).map RemoteObj.descriptor := by
  simp [listing, stripSlash_append]

/-- Putting at an address what it already holds leaves the remote as it is. -/
theorem put_same {O : Type} (w : World O) (addr : String) (obj : Option RemoteObj)
    (h : w.remote addr = obj) : (w.put addr obj).remote = w.remote := by
  funext a
  by_cases ha : a = addr
  · simp [World.put, ha, h]
  · simp [World.put, ha]

/-- The convergence of a mount over the model without faults, when the
recorded path is the desired one and the desired mount is there: list, tune,
status update, all successful; the remote object is put back as it was and
the stored manifest gets the valid status. -/
theorem mount_model_converge (w : World VaultMount) (o stored : VaultMount)
    (hm : w.manifest = some stored) (hS : o.Status.Path = o.Spec.Path)
    (hR : w.remote ("/sys/mounts/" ++ o.Spec.Path) =
      some (.mount (VaultMountReconciler.mountInput o))) :
    VaultMountReconciler.converge (mountModel noFault) o w =
      ⟨none, some { stored with Status := (VaultMountReconciler.markValid o).Status },
        { w.put ("/sys/mounts/" ++ o.Spec.Path)
            (some (.mount (VaultMountReconciler.mountInput o))) with
          manifest := some { stored with Status := (VaultMountReconciler.markValid o).Status } },
        [⟨.ListMounts, true⟩, ⟨.TuneMount o.Spec.Path (VaultMountReconciler.config o), true⟩,
         ⟨.StatusUpdate (VaultMountReconciler.markValid o), true⟩]⟩ := by
  have htune : (RemoteObj.mount (VaultMountReconciler.mountInput o)).tune
      (VaultMountReconciler.config o) = .mount (VaultMountReconciler.mountInput o) := by
    simp [RemoteObj.tune, VaultMountReconciler.mountInput, VaultMountReconciler.config]
  have hk : (listing w.remote (o.Spec.Path ++ "/")).isSome = true := by
    rw [listing_key]; simp [hR]
  have hTu : (mountModel noFault).TuneMount o.Spec.Path (VaultMountReconciler.config o) w =
      (none, w.put ("/sys/mounts/" ++ o.Spec.Path)
        (some (.mount (VaultMountReconciler.mountInput o)))) := by
    simp only [mountModel, modelEnv, noFault, hR]
    exact congrArg
      (fun x => ((none : Option Err), w.put ("/sys/mounts/" ++ o.Spec.Path) (some x))) htune
  have hrn : VaultMountReconciler.renamed o = false := by
    simp [VaultMountReconciler.renamed, hS]
  have hSU : (mountModel noFault).StatusUpdate (VaultMountReconciler.markValid o)
      (w.put ("/sys/mounts/" ++ o.Spec.Path)
        (some (.mount (VaultMountReconciler.mountInput o)))) =
      (none, { w.put ("/sys/mounts/" ++ o.Spec.Path)
        (some (.mount (VaultMountReconciler.mountInput o))) with
        manifest := some { stored with Status := (VaultMountReconciler.markValid o).Status } }) := by
    simp [mountModel, modelEnv, noFault, World.put, hm]
  rw [mount_converge_tune_ok _ _ w w _ (listing w.remote) rfl hk hTu,
    mount_cleanup_skip _ _ _ hrn, mount_persist_ok _ _ _ _ hSU]
  simp [mountModel, modelEnv, World.put, hm, Outcome.after]

/-- A mount reconcile over the model without faults, from a world whose
manifest is not being deleted, records the desired path and finds the desired
mount: it succeeds, leaves the remote as it is and stores a valid status. -/
theorem mount_model_run (w : World VaultMount) (o : VaultMount)
    (hm : w.manifest = some o) (hT : o.ObjectMeta.DeletionTimestamp = none)
    (hS : o.Status.Path = o.Spec.Path)
    (hR : w.remote ("/sys/mounts/" ++ o.Spec.Path) =
      some (.mount (VaultMountReconciler.mountInput o))) :
    (VaultMountReconciler.Reconcile (mountModel noFault) w).err = none ∧
    (VaultMountReconciler.Reconcile (mountModel noFault) w).world.remote = w.remote ∧
    (VaultMountReconciler.Reconcile (mountModel noFault) w).world.manifest =
      some { ObjectMeta := AddFinalizer o.ObjectMeta vaultMountFinalizer, Spec := o.Spec,
             Status := { Valid := true, Error := o.Status.Error, Path := o.Spec.Path } } ∧
    (∃ o1, statusUpdates (VaultMountReconciler.Reconcile (mountModel noFault) w).log =
        [⟨.StatusUpdate o1, true⟩] ∧ o1.Status.Valid = true ∧ o1.Status.Path = o.Spec.Path) := by
  have hG : (mountModel noFault).Get w = (.found o, w) := by
    simp [mountModel, modelEnv, noFault, hm]
  by_cases hc : vaultMountFinalizer ∈ o.ObjectMeta.Finalizers
  · have hA : VaultMountReconciler.Active (mountModel noFault) w
        { o with Status := { o.Status with Valid := false } } w :=
      ⟨o, w, w, hG, rfl, hT, Or.inl ⟨hc, rfl, rfl⟩⟩
    obtain ⟨pre, hpre, hRe⟩ := mount_reconcile_of_active _ _ _ _ hA
    have hp2 := statusUpdates_pre pre hpre
    simp only [statusUpdates] at hp2 ⊢
    rw [hRe, mount_model_converge w { o with Status := { o.Status with Valid := false } } o
      hm hS hR]
    refine ⟨rfl, put_same w _ _ hR, ?_, ?_⟩
    · simp [after_world, AddFinalizer, hc, VaultMountReconciler.markValid]
    · refine ⟨VaultMountReconciler.markValid
        { o with Status := { o.Status with Valid := false } }, ?_, rfl, rfl⟩
      simp [after_log, hp2, List.filter_cons, Event.isStatusUpdate, Call.isStatusUpdate]
  · have hU : (mountModel noFault).Update
        { o with
            Status := { o.Status with Valid := false }
            ObjectMeta := { o.ObjectMeta with
              Finalizers := o.ObjectMeta.Finalizers ++ [vaultMountFinalizer] } } w =
        (none, { w with manifest := some ({ o with ObjectMeta := { o.ObjectMeta with
          Finalizers := o.ObjectMeta.Finalizers ++ [vaultMountFinalizer] } } : VaultMount) }) := by
      simp [mountModel, modelEnv, noFault, hm]
    have hUd : (mountModel noFault).Updated
        { o with
          Status := { o.Status with Valid := false }
          ObjectMeta := { o.ObjectMeta with
            Finalizers := o.ObjectMeta.Finalizers ++ [vaultMountFinalizer] } } w =
        ({ o with ObjectMeta := { o.ObjectMeta with
          Finalizers := o.ObjectMeta.Finalizers ++ [vaultMountFinalizer] } } : VaultMount) := by
      simp [mountModel, modelEnv, hm]
    have hA : VaultMountReconciler.Active (mountModel noFault) w _ _ :=
      ⟨o, w, w, hG, rfl, hT, Or.inr ⟨hc, hUd.symm, hU⟩⟩
    obtain ⟨pre, hpre, hRe⟩ := mount_reconcile_of_active _ _ _ _ hA
    have hp2 := statusUpdates_pre pre hpre
    simp only [statusUpdates] at hp2 ⊢
    rw [hRe, mount_model_converge
      ({ w with manifest := some ({ o with ObjectMeta := { o.ObjectMeta with
        Finalizers := o.ObjectMeta.Finalizers ++ [vaultMountFinalizer] } } : VaultMount) } :
        World VaultMount)
      ({ o with ObjectMeta := { o.ObjectMeta with
          Finalizers := o.ObjectMeta.Finalizers ++ [vaultMountFinalizer] } } : VaultMount) _ rfl hS hR]
    refine ⟨rfl, put_same w _ _ hR, ?_, ?_⟩
    · simp [after_world, AddFinalizer, hc, VaultMountReconciler.markValid]
    · refine ⟨VaultMountReconciler.markValid
        ({ o with ObjectMeta := { o.ObjectMeta with
          Finalizers := o.ObjectMeta.Finalizers ++ [vaultMountFinalizer] } } : VaultMount), ?_, rfl, rfl⟩
      simp [after_log, hp2, List.filter_cons, Event.isStatusUpdate, Call.isStatusUpdate]

/-- The convergence of a KV mount over the model without faults, when an
object is at the desired path: the read and the status update, both
successful; the remote is not touched. -/
theorem kv_model_converge (w : World VaultKVMount) (o stored : VaultKVMount) (obj : RemoteObj)
    (hm : w.manifest = some stored)
    (hR : w.remote ("/sys/mounts/" ++ o.Spec.Path) = some obj) :
    VaultKVMountReconciler.converge (kvMountModel noFault) o w =
      ⟨none, some { stored with Status := (VaultKVMountReconciler.markValid o).Status },
        { w with
          manifest := some { stored with Status := (VaultKVMountReconciler.markValid o).Status } },
        [⟨.Read ("/sys/mounts/" ++ o.Spec.Path), true⟩,
         ⟨.StatusUpdate (VaultKVMountReconciler.markValid o), true⟩]⟩ := by
  have hRd : (kvMountModel noFault).Read ("/sys/mounts/" ++ o.Spec.Path) w =
      (.ok (some obj.secret), w) := by
    simp [kvMountModel, modelEnv, noFault, hR]
  have hSU : (kvMountModel noFault).StatusUpdate (VaultKVMountReconciler.markValid o) w =
      (none, { w with
        manifest := some { stored with Status := (VaultKVMountReconciler.markValid o).Status } }) := by
    simp [kvMountModel, modelEnv, noFault, hm]
  rw [kv_converge_present _ _ w w _ hRd, kv_persist_ok _ _ _ _ hSU]
  simp [kvMountModel, modelEnv, World.put, hm, Outcome.after]

/-- The convergence of a policy over the model without faults, when the
recorded name is the manifest name and the desired document is there: the
write and the status update, both successful; the document is put back as it
was. -/
theorem policy_model_converge (w : World VaultPolicy) (o stored : VaultPolicy)
    (hm : w.manifest = some stored) (hS : o.Status.Name = o.ObjectMeta.Name) :
    VaultPolicyReconciler.converge (policyModel noFault) o w =
      ⟨none, some { stored with Status := (VaultPolicyReconciler.markValid o).Status },
        { w.put ("/sys/policies/acl/" ++ o.ObjectMeta.Name)
            (some (.doc (VaultPolicyReconciler.writePayload o))) with
          manifest := some { stored with Status := (VaultPolicyReconciler.markValid o).Status } },
        [⟨.Write ("/sys/policies/acl/" ++ o.ObjectMeta.Name)
            (VaultPolicyReconciler.writePayload o), true⟩,
         ⟨.StatusUpdate (VaultPolicyReconciler.markValid o), true⟩]⟩ := by
  have hW : (policyModel noFault).Write ("/sys/policies/acl/" ++ o.ObjectMeta.Name)
      (VaultPolicyReconciler.writePayload o) w =
      (none, w.put ("/sys/policies/acl/" ++ o.ObjectMeta.Name)
        (some (.doc (VaultPolicyReconciler.writePayload o)))) := by
    simp [policyModel, modelEnv, noFault]
  have hrn : VaultPolicyReconciler.renamed o = false := by
    simp [VaultPolicyReconciler.renamed, hS]
  have hSU : (policyModel noFault).StatusUpdate (VaultPolicyReconciler.markValid o)
      (w.put ("/sys/policies/acl/" ++ o.ObjectMeta.Name)
        (some (.doc (VaultPolicyReconciler.writePayload o)))) =
      (none, { w.put ("/sys/policies/acl/" ++ o.ObjectMeta.Name)
        (some (.doc (VaultPolicyReconciler.writePayload o))) with
        manifest := some { stored with Status := (VaultPolicyReconciler.markValid o).Status } }) := by
    simp [policyModel, modelEnv, noFault, World.put, hm]
  rw [policy_converge_write_skip _ _ w _ hW hrn, policy_persist_ok _ _ _ _ hSU]
  simp [policyModel, modelEnv, World.put, hm, Outcome.after]

/-- A reconcile of the KV mount kind over the model without faults, from a world
whose manifest is not being deleted and finds the desired object: it
succeeds, leaves the remote as it is and stores a valid status. -/
theorem kv_model_run (w : World VaultKVMount) (o : VaultKVMount)
    (hm : w.manifest = some o) (hT : o.ObjectMeta.DeletionTimestamp = none)
    (hR : w.remote ("/sys/mounts/" ++ o.Spec.Path) = some (.doc (VaultKVMountReconciler.createPayload o))) :
    (VaultKVMountReconciler.Reconcile (kvMountModel noFault) w).err = none ∧
    (VaultKVMountReconciler.Reconcile (kvMountModel noFault) w).world.remote = w.remote ∧
    (VaultKVMountReconciler.Reconcile (kvMountModel noFault) w).world.manifest =
      some { ObjectMeta := AddFinalizer o.ObjectMeta vaultKVMountFinalizer, Spec := o.Spec,
             Status := { Valid := true, Error := o.Status.Error, Path := o.Spec.Path } } ∧
    (∃ o1, statusUpdates (VaultKVMountReconciler.Reconcile (kvMountModel noFault) w).log =
        [⟨.StatusUpdate o1, true⟩] ∧ o1.Status.Valid = true ∧ o1.Status.Path = o.Spec.Path) := by
  have hG : (kvMountModel noFault).Get w = (.found o, w) := by
    simp [kvMountModel, modelEnv, noFault, hm]
  by_cases hc : vaultKVMountFinalizer ∈ o.ObjectMeta.Finalizers
  · have hA : VaultKVMountReconciler.Active (kvMountModel noFault) w
        { o with Status := { o.Status with Valid := false } } w :=
      ⟨o, w, w, hG, rfl, hT, Or.inl ⟨hc, rfl, rfl⟩⟩
    obtain ⟨pre, hpre, hRe⟩ := kv_reconcile_of_active _ _ _ _ hA
    have hp2 := statusUpdates_pre pre hpre
    simp only [statusUpdates] at hp2 ⊢
    rw [hRe, kv_model_converge w { o with Status := { o.Status with Valid := false } } o
      _ hm hR]
    refine ⟨rfl, rfl, ?_, ?_⟩
    · simp [after_world, AddFinalizer, hc, VaultKVMountReconciler.markValid]
    · refine ⟨VaultKVMountReconciler.markValid
        { o with Status := { o.Status with Valid := false } }, ?_, rfl, rfl⟩
      simp [after_log, hp2, List.filter_cons, Event.isStatusUpdate, Call.isStatusUpdate]
  · have hU : (kvMountModel noFault).Update
        { o with
          Status := { o.Status with Valid := false }
          ObjectMeta := { o.ObjectMeta with
            Finalizers := o.ObjectMeta.Finalizers ++ [vaultKVMountFinalizer] } } w =
        (none, { w with manifest := some ({ o with ObjectMeta := { o.ObjectMeta with
          Finalizers := o.ObjectMeta.Finalizers ++ [vaultKVMountFinalizer] } } : VaultKVMount) }) := by
      simp [kvMountModel, modelEnv, noFault, hm]
    have hUd : (kvMountModel noFault).Updated
        { o with
          Status := { o.Status with Valid := false }
          ObjectMeta := { o.ObjectMeta with
            Finalizers := o.ObjectMeta.Finalizers ++ [vaultKVMountFinalizer] } } w =
        ({ o with ObjectMeta := { o.ObjectMeta with
          Finalizers := o.ObjectMeta.Finalizers ++ [vaultKVMountFinalizer] } } : VaultKVMount) := by
      simp [kvMountModel, modelEnv, hm]
    have hA : VaultKVMountReconciler.Active (kvMountModel noFault) w _ _ :=
      ⟨o, w, w, hG, rfl, hT, Or.inr ⟨hc, hUd.symm, hU⟩⟩
    obtain ⟨pre, hpre, hRe⟩ := kv_reconcile_of_active _ _ _ _ hA
    have hp2 := statusUpdates_pre pre hpre
    simp only [statusUpdates] at hp2 ⊢
    rw [hRe, kv_model_converge
      ({ w with manifest := some ({ o with ObjectMeta := { o.ObjectMeta with
        Finalizers := o.ObjectMeta.Finalizers ++ [vaultKVMountFinalizer] } } : VaultKVMount) } :
        World VaultKVMount)
      ({ o with ObjectMeta := { o.ObjectMeta with
          Finalizers := o.ObjectMeta.Finalizers ++ [vaultKVMountFinalizer] } } : VaultKVMount) _
      _ rfl hR]
    refine ⟨rfl, rfl, ?_, ?_⟩
    · simp [after_world, AddFinalizer, hc, VaultKVMountReconciler.markValid]
    · refine ⟨VaultKVMountReconciler.markValid
        ({ o with ObjectMeta := { o.ObjectMeta with
          Finalizers := o.ObjectMeta.Finalizers ++ [vaultKVMountFinalizer] } } : VaultKVMount), ?_, rfl, rfl⟩
      simp [after_log, hp2, List.filter_cons, Event.isStatusUpdate, Call.isStatusUpdate]

/-- A reconcile of the policy kind over the model without faults, from a world
whose manifest is not being deleted, records the desired name and finds the
desired object: it succeeds, leaves the remote as it is and stores a valid
status. -/
theorem policy_model_run (w : World VaultPolicy) (o : VaultPolicy)
    (hm : w.manifest = some o) (hT : o.ObjectMeta.DeletionTimestamp = none)
    (hS : o.Status.Name = o.ObjectMeta.Name)
    (hR : w.remote ("/sys/policies/acl/" ++ o.ObjectMeta.Name) = some (.doc (VaultPolicyReconciler.writePayload o))) :
    (VaultPolicyReconciler.Reconcile (policyModel noFault) w).err = none ∧
    (VaultPolicyReconciler.Reconcile (policyModel noFault) w).world.remote = w.remote ∧
    (VaultPolicyReconciler.Reconcile (policyModel noFault) w).world.manifest =
      some { ObjectMeta := AddFinalizer o.ObjectMeta vaultPolicyFinalizer, Spec := o.Spec,
             Status := { Valid := true, Error := o.Status.Error, Name := o.ObjectMeta.Name } } ∧
    (∃ o1, statusUpdates (VaultPolicyReconciler.Reconcile (policyModel noFault) w).log =
        [⟨.StatusUpdate o1, true⟩] ∧ o1.Status.Valid = true ∧ o1.Status.Name = o.ObjectMeta.Name) := by
  have hG : (policyModel noFault).Get w = (.found o, w) := by
    simp [policyModel, modelEnv, noFault, hm]
  by_cases hc : vaultPolicyFinalizer ∈ o.ObjectMeta.Finalizers
  · have hA : VaultPolicyReconciler.Active (policyModel noFault) w
        { o with Status := { o.Status with Valid := false } } w :=
      ⟨o, w, w, hG, rfl, hT, Or.inl ⟨hc, rfl, rfl⟩⟩
    obtain ⟨pre, hpre, hRe⟩ := policy_reconcile_of_active _ _ _ _ hA
    have hp2 := statusUpdates_pre pre hpre
    simp only [statusUpdates] at hp2 ⊢
    rw [hRe, policy_model_converge w { o with Status := { o.Status with Valid := false } } o
      hm hS]
    refine ⟨rfl, put_same w _ _ hR, ?_, ?_⟩
    · simp [after_world, AddFinalizer, hc, VaultPolicyReconciler.markValid]
    · refine ⟨VaultPolicyReconciler.markValid
        { o with Status := { o.Status with Valid := false } }, ?_, rfl, rfl⟩
      simp [after_log, hp2, List.filter_cons, Event.isStatusUpdate, Call.isStatusUpdate]
  · have hU : (policyModel noFault).Update
        { o with
          Status := { o.Status with Valid := false }
          ObjectMeta := { o.ObjectMeta with
            Finalizers := o.ObjectMeta.Finalizers ++ [vaultPolicyFinalizer] } } w =
        (none, { w with manifest := some ({ o with ObjectMeta := { o.ObjectMeta with
          Finalizers := o.ObjectMeta.Finalizers ++ [vaultPolicyFinalizer] } } : VaultPolicy) }) := by
      simp [policyModel, modelEnv, noFault, hm]
    have hUd : (policyModel noFault).Updated
        { o with
          Status := { o.Status with Valid := false }
          ObjectMeta := { o.ObjectMeta with
            Finalizers := o.ObjectMeta.Finalizers ++ [vaultPolicyFinalizer] } } w =
        ({ o with ObjectMeta := { o.ObjectMeta with
          Finalizers := o.ObjectMeta.Finalizers ++ [vaultPolicyFinalizer] } } : VaultPolicy) := by
      simp [policyModel, modelEnv, hm]
    have hA : VaultPolicyReconciler.Active (policyModel noFault) w _ _ :=
      ⟨o, w, w, hG, rfl, hT, Or.inr ⟨hc, hUd.symm, hU⟩⟩
    obtain ⟨pre, hpre, hRe⟩ := policy_reconcile_of_active _ _ _ _ hA
    have hp2 := statusUpdates_pre pre hpre
    simp only [statusUpdates] at hp2 ⊢
    rw [hRe, policy_model_converge
      ({ w with manifest := some ({ o with ObjectMeta := { o.ObjectMeta with
        Finalizers := o.ObjectMeta.Finalizers ++ [vaultPolicyFinalizer] } } : VaultPolicy) } :
        World VaultPolicy)
      ({ o with ObjectMeta := { o.ObjectMeta with
          Finalizers := o.ObjectMeta.Finalizers ++ [vaultPolicyFinalizer] } } : VaultPolicy) _
      rfl hS]
    refine ⟨rfl, put_same w _ _ hR, ?_, ?_⟩
    · simp [after_world, AddFinalizer, hc, VaultPolicyReconciler.markValid]
    · refine ⟨VaultPolicyReconciler.markValid
        ({ o with ObjectMeta := { o.ObjectMeta with
          Finalizers := o.ObjectMeta.Finalizers ++ [vaultPolicyFinalizer] } } : VaultPolicy), ?_, rfl, rfl⟩
      simp [after_log, hp2, List.filter_cons, Event.isStatusUpdate, Call.isStatusUpdate]

/-- Attaching a finalizer leaves the deletion timestamp as it is. -/
theorem AddFinalizer_deletionTimestamp (m : ObjectMeta) (f : String) :
    (AddFinalizer m f).DeletionTimestamp = m.DeletionTimestamp := by
  unfold AddFinalizer
  split <;> rfl

/-- Attaching a finalizer leaves the name as it is. -/
theorem AddFinalizer_name (m : ObjectMeta) (f : String) :
    (AddFinalizer m f).Name = m.Name := by
  unfold AddFinalizer
  split <;> rfl

/-- C9: idempotence over the model of the remote as a map from address to
configuration, without faults. For a mount whose recorded path is the desired
one and whose desired input is mounted at `/sys/mounts/` followed by the path,
for a KV mount whose create payload is stored at `/sys/mounts/` followed by
the path (whatever path is recorded), and for a policy whose recorded name is the manifest name and whose
document is stored at `/sys/policies/acl/` followed by the name: a second
reconcile leaves the remote the first one left, which is the initial remote,
and both runs persist a valid status. -/
theorem C9_idempotence
    (w : World VaultMount) (o : VaultMount)
    (hm : w.manifest = some o) (hT : o.ObjectMeta.DeletionTimestamp = none)
    (hS : o.Status.Path = o.Spec.Path)
    (hR : w.remote ("/sys/mounts/" ++ o.Spec.Path) =
      some (.mount (VaultMountReconciler.mountInput o)))
    (u : World VaultKVMount) (k : VaultKVMount)
    (hmk : u.manifest = some k) (hTk : k.ObjectMeta.DeletionTimestamp = none)
    (hRk : u.remote ("/sys/mounts/" ++ k.Spec.Path) =
      some (.doc (VaultKVMountReconciler.createPayload k)))
    (v : World VaultPolicy) (p : VaultPolicy)
    (hmp : v.manifest = some p) (hTp : p.ObjectMeta.DeletionTimestamp = none)
    (hSp : p.Status.Name = p.ObjectMeta.Name)
    (hRp : v.remote ("/sys/policies/acl/" ++ p.ObjectMeta.Name) =
      some (.doc (VaultPolicyReconciler.writePayload p))) :
    ((mountTwice w).world.remote = (mountOnce w).world.remote ∧
      (mountOnce w).world.remote = w.remote ∧
      PersistsValid (fun x => x.Status.Valid) (mountOnce w) ∧
      PersistsValid (fun x => x.Status.Valid) (mountTwice w)) ∧
    ((kvTwice u).world.remote = (kvOnce u).world.remote ∧
      (kvOnce u).world.remote = u.remote ∧
      PersistsValid (fun x => x.Status.Valid) (kvOnce u) ∧
      PersistsValid (fun x => x.Status.Valid) (kvTwice u)) ∧
    ((policyTwice v).world.remote = (policyOnce v).world.remote ∧
      (policyOnce v).world.remote = v.remote ∧
      PersistsValid (fun x => x.Status.Valid) (policyOnce v) ∧
      PersistsValid (fun x => x.Status.Valid) (policyTwice v)) := by
  refine ⟨?_, ?_, ?_⟩
  · obtain ⟨e1, r1, m1, o1, s1, v1, _⟩ := mount_model_run w o hm hT hS hR
    obtain ⟨e2, r2, m2, o2, s2, v2, _⟩ := mount_model_run
      (VaultMountReconciler.Reconcile (mountModel noFault) w).world _ m1
      (by rw [AddFinalizer_deletionTimestamp]; exact hT) rfl (by rw [r1]; exact hR)
    refine ⟨r2, r1, ⟨e1, ⟨o1, s1, v1⟩, ?_⟩, ⟨e2, ⟨o2, s2, v2⟩, ?_⟩⟩
    · simp [mountOnce, m1]
    · simp [mountTwice, mountOnce, m2]
  · obtain ⟨e1, r1, m1, o1, s1, v1, _⟩ := kv_model_run u k hmk hTk hRk
    obtain ⟨e2, r2, m2, o2, s2, v2, _⟩ := kv_model_run
      (VaultKVMountReconciler.Reconcile (kvMountModel noFault) u).world _ m1
      (by rw [AddFinalizer_deletionTimestamp]; exact hTk) (by rw [r1]; exact hRk)
    refine ⟨r2, r1, ⟨e1, ⟨o1, s1, v1⟩, ?_⟩, ⟨e2, ⟨o2, s2, v2⟩, ?_⟩⟩
    · simp [kvOnce, m1]
    · simp [kvTwice, kvOnce, m2]
  · obtain ⟨e1, r1, m1, o1, s1, v1, _⟩ := policy_model_run v p hmp hTp hSp hRp
    obtain ⟨e2, r2, m2, o2, s2, v2, _⟩ := policy_model_run
      (VaultPolicyReconciler.Reconcile (policyModel noFault) v).world _ m1
      (by rw [AddFinalizer_deletionTimestamp]; exact hTp) (AddFinalizer_name _ _).symm
      (by
        rw [r1]
        show v.remote ("/sys/policies/acl/" ++
          (AddFinalizer p.ObjectMeta vaultPolicyFinalizer).Name) = _
        rw [AddFinalizer_name]
        exact hRp)
    refine ⟨r2, r1, ⟨e1, ⟨o1, s1, v1⟩, ?_⟩, ⟨e2, ⟨o2, s2, v2⟩, ?_⟩⟩
    · simp [policyOnce, m1]
    · simp [policyTwice, policyOnce, m2]

/-- C9, witness: for each kind a world whose remote holds the desired object
at the desired address. -/
theorem C9_idempotence_witness :
    ((mountTwice (oneObject (mountAt "b" "b") "/sys/mounts/b"
          (.mount (VaultMountReconciler.mountInput (mountAt "b" "b"))))).world.remote =
        (mountOnce (oneObject (mountAt "b" "b") "/sys/mounts/b"
          (.mount (VaultMountReconciler.mountInput (mountAt "b" "b"))))).world.remote ∧
      (mountOnce (oneObject (mountAt "b" "b") "/sys/mounts/b"
          (.mount (VaultMountReconciler.mountInput (mountAt "b" "b"))))).world.remote =
        (oneObject (mountAt "b" "b") "/sys/mounts/b"
          (.mount (VaultMountReconciler.mountInput (mountAt "b" "b")))).remote ∧
      PersistsValid (fun x => x.Status.Valid)
        (mountOnce (oneObject (mountAt "b" "b") "/sys/mounts/b"
          (.mount (VaultMountReconciler.mountInput (mountAt "b" "b"))))) ∧
      PersistsValid (fun x => x.Status.Valid)
        (mountTwice (oneObject (mountAt "b" "b") "/sys/mounts/b"
          (.mount (VaultMountReconciler.mountInput (mountAt "b" "b")))))) ∧
    ((kvTwice (oneObject (kvMountAt "b" "b") "/sys/mounts/b"
          (.doc (VaultKVMountReconciler.createPayload (kvMountAt "b" "b"))))).world.remote =
        (kvOnce (oneObject (kvMountAt "b" "b") "/sys/mounts/b"
          (.doc (VaultKVMountReconciler.createPayload (kvMountAt "b" "b"))))).world.remote ∧
      (kvOnce (oneObject (kvMountAt "b" "b") "/sys/mounts/b"
          (.doc (VaultKVMountReconciler.createPayload (kvMountAt "b" "b"))))).world.remote =
        (oneObject (kvMountAt "b" "b") "/sys/mounts/b"
          (.doc (VaultKVMountReconciler.createPayload (kvMountAt "b" "b")))).remote ∧
      PersistsValid (fun x => x.Status.Valid)
        (kvOnce (oneObject (kvMountAt "b" "b") "/sys/mounts/b"
          (.doc (VaultKVMountReconciler.createPayload (kvMountAt "b" "b"))))) ∧
      PersistsValid (fun x => x.Status.Valid)
        (kvTwice (oneObject (kvMountAt "b" "b") "/sys/mounts/b"
          (.doc (VaultKVMountReconciler.createPayload (kvMountAt "b" "b")))))) ∧
    ((policyTwice (oneObject (policyAt "b" "b") "/sys/policies/acl/b"
          (.doc (VaultPolicyReconciler.writePayload (policyAt "b" "b"))))).world.remote =
        (policyOnce (oneObject (policyAt "b" "b") "/sys/policies/acl/b"
          (.doc (VaultPolicyReconciler.writePayload (policyAt "b" "b"))))).world.remote ∧
      (policyOnce (oneObject (policyAt "b" "b") "/sys/policies/acl/b"
          (.doc (VaultPolicyReconciler.writePayload (policyAt "b" "b"))))).world.remote =
        (oneObject (policyAt "b" "b") "/sys/policies/acl/b"
          (.doc (VaultPolicyReconciler.writePayload (policyAt "b" "b")))).remote ∧
      PersistsValid (fun x => x.Status.Valid)
        (policyOnce (oneObject (policyAt "b" "b") "/sys/policies/acl/b"
          (.doc (VaultPolicyReconciler.writePayload (policyAt "b" "b"))))) ∧
      PersistsValid (fun x => x.Status.Valid)
        (policyTwice (oneObject (policyAt "b" "b") "/sys/policies/acl/b"
          (.doc (VaultPolicyReconciler.writePayload (policyAt "b" "b")))))) :=
  C9_idempotence
    (oneObject (mountAt "b" "b") "/sys/mounts/b"
      (.mount (VaultMountReconciler.mountInput (mountAt "b" "b"))))
    (mountAt "b" "b") rfl rfl rfl (by decide)
    (oneObject (kvMountAt "b" "b") "/sys/mounts/b"
      (.doc (VaultKVMountReconciler.createPayload (kvMountAt "b" "b"))))
    (kvMountAt "b" "b") rfl rfl (by decide)
    (oneObject (policyAt "b" "b") "/sys/policies/acl/b"
      (.doc (VaultPolicyReconciler.writePayload (policyAt "b" "b"))))
    (policyAt "b" "b") rfl rfl rfl (by decide)

/-! ## Ordering of the rename cleanup -/

/-- Control-plane events before a log do not change the scan for guarded
deletes. -/
theorem deletesGuarded_pre {O : Type} (seen : Bool) (pre l : List (Event O))
    (h : ∀ e ∈ pre, e.call.isRemote = false ∧ e.call.isStatusUpdate = false ∧ e.ok = true) :
    deletesGuarded seen (pre ++ l) = deletesGuarded seen l := by
  induction pre with
  | nil => rfl
  | cons x xs ih =>
    have hx := (h x (by simp)).1
    have hd : x.isDelete = false := by
      cases x with
      | mk c ok => cases c <;> simp_all [Event.isDelete, Call.isDelete, Call.isRemote]
    have ha : x.isApply = false := by
      cases x with
      | mk c ok => cases c <;> simp_all [Event.isApply, Call.isApply, Call.isRemote]
    simp only [List.cons_append, deletesGuarded, hd, ha, Bool.not_false, Bool.true_or,
      Bool.false_and, Bool.or_false, Bool.true_and]
    exact ih (fun e he => h e (by simp [he]))

/-- Control-plane events hold no failed create, tune or write and no delete. -/
theorem checks_pre {O : Type} (pre l : List (Event O))
    (h : ∀ e ∈ pre, e.call.isRemote = false ∧ e.call.isStatusUpdate = false ∧ e.ok = true) :
    appliesSucceed (pre ++ l) = appliesSucceed l ∧ deleteFree (pre ++ l) = deleteFree l := by
  have h1 : appliesSucceed pre = true := by
    simp only [appliesSucceed, List.all_eq_true]
    intro e he
    simp [(h e he).2.2]
  have h2 : deleteFree pre = true := by
    simp only [deleteFree, List.all_eq_true]
    intro e he
    have hx := (h e he).1
    cases e with
    | mk c ok => cases c <;> simp_all [Event.isDelete, Call.isDelete, Call.isRemote]
  simp only [appliesSucceed, deleteFree, List.all_append] at h1 h2 ⊢
  simp [h1, h2]

/-- What the scan for guarded deletes says: a delete anywhere in the log comes
with `seen` set or after a create, tune or write that returned success. -/
theorem deletesGuarded_split {O : Type} (log : List (Event O)) :
    ∀ (seen : Bool), deletesGuarded seen log = true →
      ∀ (l1 : List (Event O)) (d : Event O) (l2 : List (Event O)), log = l1 ++ d :: l2 →
        d.isDelete = true → seen = true ∨ ∃ a ∈ l1, a.isApply = true ∧ a.ok = true := by
  induction log with
  | nil => intro seen _ l1 d l2 h; simp at h
  | cons x xs ih =>
    intro seen hg l1 d l2 h hd
    simp only [deletesGuarded, Bool.and_eq_true, Bool.or_eq_true, Bool.not_eq_true'] at hg
    cases l1 with
    | nil =>
      simp only [List.nil_append, List.cons.injEq] at h
      rcases hg.1 with h1 | h1
      · rw [h.1, hd] at h1; cases h1
      · exact Or.inl h1
    | cons y ys =>
      simp only [List.cons_append, List.cons.injEq] at h
      have hrec := ih (seen || (x.isApply && x.ok)) hg.2 ys d l2 h.2 hd
      rcases hrec with h1 | ⟨a, ha, hp⟩
      · simp only [Bool.or_eq_true, Bool.and_eq_true] at h1
        rcases h1 with h1 | h1
        · exact Or.inl h1
        · exact Or.inr ⟨y, by simp, by rw [← h.1]; exact h1⟩
      · exact Or.inr ⟨a, by simp [ha], hp⟩

/-- The two checks of a log give the ordering invariant in words: a delete is
issued only after a create, tune or write returned success, and a failed
create, tune or write excludes any delete. -/
theorem ordering_of_checks {O : Type} (log : List (Event O))
    (h1 : deletesGuarded false log = true)
    (h2 : (appliesSucceed log || deleteFree log) = true) :
    (∀ (l1 : List (Event O)) (d : Event O) (l2 : List (Event O)), log = l1 ++ d :: l2 →
      d.isDelete = true → ∃ a ∈ l1, a.isApply = true ∧ a.ok = true) ∧
    (∀ a ∈ log, a.isApply = true → a.ok = false → ∀ d ∈ log, d.isDelete = false) := by
  constructor
  · intro l1 d l2 h hd
    rcases deletesGuarded_split log false h1 l1 d l2 h hd with h3 | h3
    · cases h3
    · exact h3
  · intro a ha hap hok d hd
    simp only [Bool.or_eq_true, appliesSucceed, deleteFree, List.all_eq_true] at h2
    rcases h2 with h3 | h3
    · have := h3 a ha
      simp [hap, hok] at this
    · simpa using h3 d hd

/-- The two checks hold of the log of a mount convergence. -/
theorem mount_converge_checks {W : Type} (env : Env W VaultMount) (o : VaultMount) (w : W) :
    deletesGuarded false (VaultMountReconciler.converge env o w).log = true ∧
    (appliesSucceed (VaultMountReconciler.converge env o w).log ||
      deleteFree (VaultMountReconciler.converge env o w).log) = true := by
  have hc : ∀ w3, deletesGuarded true (VaultMountReconciler.cleanup env o w3).log = true ∧
      appliesSucceed (VaultMountReconciler.cleanup env o w3).log = true := by
    intro w3
    cases hr : VaultMountReconciler.renamed o
    · rw [mount_cleanup_skip env o w3 hr, mount_persist_log]
      simp [deletesGuarded, appliesSucceed, deleteFree, Event.isDelete, Call.isDelete, Event.isApply, Call.isApply]
    · rcases hD : env.Delete ("/sys/mounts/" ++ o.Status.Path) w3 with ⟨_ | e, w4⟩
      · rw [mount_cleanup_ok env o w3 w4 hr hD, after_log, mount_persist_log]
        simp [deletesGuarded, appliesSucceed, deleteFree, Event.isDelete, Call.isDelete, Event.isApply, Call.isApply]
      · rw [mount_cleanup_fail env o w3 w4 e hr hD]
        simp [deletesGuarded, appliesSucceed, deleteFree, Event.isDelete, Call.isDelete, Event.isApply, Call.isApply]
  rcases hL : env.ListMounts w with ⟨e | mounts, w2⟩
  · rw [mount_converge_list_fail env o w w2 e hL]
    simp [deletesGuarded, appliesSucceed, deleteFree, Event.isDelete, Call.isDelete, Event.isApply, Call.isApply]
  · cases hm : (mounts (o.Spec.Path ++ "/")).isSome
    · have hm1 : mounts (o.Spec.Path ++ "/") = none := by simpa using hm
      rcases hM : env.Mount o.Spec.Path (VaultMountReconciler.mountInput o) w2 with ⟨_ | e, w3⟩
      · rw [mount_converge_mount_ok env o w w2 w3 mounts hL hm1 hM, after_log]
        have h1 : ∀ (a : Event VaultMount) (cl : List (Event VaultMount)),
            a.isApply = true → a.isDelete = false → a.ok = true →
            deletesGuarded false ([⟨.ListMounts, true⟩, a] ++ cl) = deletesGuarded true cl ∧
            appliesSucceed ([⟨.ListMounts, true⟩, a] ++ cl) = appliesSucceed cl := by
          intro a cl ha hd hk
          have e1 : (⟨.ListMounts, true⟩ : Event VaultMount).isDelete = false := rfl
          have e2 : (⟨.ListMounts, true⟩ : Event VaultMount).isApply = false := rfl
          simp [deletesGuarded, appliesSucceed, ha, hd, hk, e1, e2]
        obtain ⟨h2, h3⟩ := h1 ⟨.Mount o.Spec.Path (VaultMountReconciler.mountInput o), true⟩
          (VaultMountReconciler.cleanup env o w3).log rfl rfl rfl
        rw [h2, h3, (hc w3).1, (hc w3).2]
        simp
      · rw [mount_converge_mount_fail env o w w2 w3 mounts e hL hm1 hM]
        simp [deletesGuarded, appliesSucceed, deleteFree, Event.isDelete, Call.isDelete, Event.isApply, Call.isApply]
    · rcases hM : env.TuneMount o.Spec.Path (VaultMountReconciler.config o) w2 with ⟨_ | e, w3⟩
      · rw [mount_converge_tune_ok env o w w2 w3 mounts hL hm hM, after_log]
        have h1 : ∀ (a : Event VaultMount) (cl : List (Event VaultMount)),
            a.isApply = true → a.isDelete = false → a.ok = true →
            deletesGuarded false ([⟨.ListMounts, true⟩, a] ++ cl) = deletesGuarded true cl ∧
            appliesSucceed ([⟨.ListMounts, true⟩, a] ++ cl) = appliesSucceed cl := by
          intro a cl ha hd hk
          have e1 : (⟨.ListMounts, true⟩ : Event VaultMount).isDelete = false := rfl
          have e2 : (⟨.ListMounts, true⟩ : Event VaultMount).isApply = false := rfl
          simp [deletesGuarded, appliesSucceed, ha, hd, hk, e1, e2]
        obtain ⟨h2, h3⟩ := h1 ⟨.TuneMount o.Spec.Path (VaultMountReconciler.config o), true⟩
          (VaultMountReconciler.cleanup env o w3).log rfl rfl rfl
        rw [h2, h3, (hc w3).1, (hc w3).2]
        simp
      · rw [mount_converge_tune_fail env o w w2 w3 mounts e hL hm hM]
        simp [deletesGuarded, appliesSucceed, deleteFree, Event.isDelete, Call.isDelete, Event.isApply, Call.isApply]

/-- The two checks hold of the log of a KV mount convergence. -/
theorem kv_converge_checks {W : Type} (env : Env W VaultKVMount) (o : VaultKVMount) (w : W) :
    deletesGuarded false (VaultKVMountReconciler.converge env o w).log = true ∧
    (appliesSucceed (VaultKVMountReconciler.converge env o w).log ||
      deleteFree (VaultKVMountReconciler.converge env o w).log) = true := by
  rcases hRd : env.Read ("/sys/mounts/" ++ o.Spec.Path) w with ⟨e | (_ | sec), w1⟩
  · rw [kv_converge_read_fail env o w w1 e hRd]
    simp [deletesGuarded, appliesSucceed, deleteFree, Event.isDelete, Call.isDelete, Event.isApply, Call.isApply]
  · rcases hW : env.Write ("/sys/mounts/" ++ o.Spec.Path)
      (VaultKVMountReconciler.createPayload o) w1 with ⟨_ | e, w2⟩
    · cases hr : VaultKVMountReconciler.renamed o
      · rw [kv_converge_write_skip env o w w1 w2 hRd hW hr, after_log, kv_persist_log]
        simp [deletesGuarded, appliesSucceed, deleteFree, Event.isDelete, Call.isDelete, Event.isApply, Call.isApply]
      · rcases hD : env.Delete ("/sys/mounts/" ++ o.Status.Path) w2 with ⟨_ | e, w3⟩
        · rw [kv_converge_write_delete_ok env o w w1 w2 w3 hRd hW hr hD, after_log,
            kv_persist_log]
          simp [deletesGuarded, appliesSucceed, deleteFree, Event.isDelete, Call.isDelete, Event.isApply, Call.isApply]
        · rw [kv_converge_write_delete_fail env o w w1 w2 w3 e hRd hW hr hD]
          simp [deletesGuarded, appliesSucceed, deleteFree, Event.isDelete, Call.isDelete, Event.isApply, Call.isApply]
    · rw [kv_converge_write_fail env o w w1 w2 e hRd hW]
      simp [deletesGuarded, appliesSucceed, deleteFree, Event.isDelete, Call.isDelete, Event.isApply, Call.isApply]
  · rw [kv_converge_present env o w w1 sec hRd, after_log, kv_persist_log]
    simp [deletesGuarded, appliesSucceed, deleteFree, Event.isDelete, Call.isDelete, Event.isApply, Call.isApply]

/-- The two checks hold of the log of a policy convergence. -/
theorem policy_converge_checks {W : Type} (env : Env W VaultPolicy) (o : VaultPolicy) (w : W) :
    deletesGuarded false (VaultPolicyReconciler.converge env o w).log = true ∧
    (appliesSucceed (VaultPolicyReconciler.converge env o w).log ||
      deleteFree (VaultPolicyReconciler.converge env o w).log) = true := by
  rcases hW : env.Write ("/sys/policies/acl/" ++ o.ObjectMeta.Name)
    (VaultPolicyReconciler.writePayload o) w with ⟨_ | e, w1⟩
  · cases hr : VaultPolicyReconciler.renamed o
    · rw [policy_converge_write_skip env o w w1 hW hr, after_log, policy_persist_log]
      simp [deletesGuarded, appliesSucceed, deleteFree, Event.isDelete, Call.isDelete, Event.isApply, Call.isApply]
    · rcases hD : env.Delete ("/sys/policies/acl/" ++ o.Status.Name) w1 with ⟨_ | e, w2⟩
      · rw [policy_converge_write_delete_ok env o w w1 w2 hW hr hD, after_log,
          policy_persist_log]
        simp [deletesGuarded, appliesSucceed, deleteFree, Event.isDelete, Call.isDelete, Event.isApply, Call.isApply]
      · rw [policy_converge_write_delete_fail env o w w1 w2 e hW hr hD]
        simp [deletesGuarded, appliesSucceed, deleteFree, Event.isDelete, Call.isDelete, Event.isApply, Call.isApply]
  · rw [policy_converge_write_fail env o w w1 e hW]
    simp [deletesGuarded, appliesSucceed, deleteFree, Event.isDelete, Call.isDelete, Event.isApply, Call.isApply]

/-- The calls of a mount convergence: the listing, the tune or the mount of
the desired path, the delete of the recorded path, the status update of the
validated object. -/
theorem mount_converge_alphabet {W : Type} (env : Env W VaultMount) (o : VaultMount) (w : W) :
    ∀ e ∈ (VaultMountReconciler.converge env o w).log,
      e.call ∈ [Call.ListMounts, .TuneMount o.Spec.Path (VaultMountReconciler.config o),
        .Mount o.Spec.Path (VaultMountReconciler.mountInput o),
        .Delete ("/sys/mounts/" ++ o.Status.Path),
        .StatusUpdate (VaultMountReconciler.markValid o)] := by
  have hc : ∀ w3, ∀ e ∈ (VaultMountReconciler.cleanup env o w3).log,
      e.call ∈ [Call.ListMounts, .TuneMount o.Spec.Path (VaultMountReconciler.config o),
        .Mount o.Spec.Path (VaultMountReconciler.mountInput o),
        .Delete ("/sys/mounts/" ++ o.Status.Path),
        .StatusUpdate (VaultMountReconciler.markValid o)] := by
    intro w3 e he
    rcases mount_cleanup_calls env o w3 e.call (by simp only [calls]; exact List.mem_map_of_mem _ he)
      with h | h <;> simp [h]
  rcases hL : env.ListMounts w with ⟨e | mounts, w2⟩
  · rw [mount_converge_list_fail env o w w2 e hL]
    simp
  · cases hm : (mounts (o.Spec.Path ++ "/")).isSome
    · have hm1 : mounts (o.Spec.Path ++ "/") = none := by simpa using hm
      rcases hM : env.Mount o.Spec.Path (VaultMountReconciler.mountInput o) w2 with ⟨_ | e, w3⟩
      · rw [mount_converge_mount_ok env o w w2 w3 mounts hL hm1 hM, after_log,
          List.forall_mem_append]
        exact ⟨by simp, hc w3⟩
      · rw [mount_converge_mount_fail env o w w2 w3 mounts e hL hm1 hM]
        simp
    · rcases hM : env.TuneMount o.Spec.Path (VaultMountReconciler.config o) w2 with ⟨_ | e, w3⟩
      · rw [mount_converge_tune_ok env o w w2 w3 mounts hL hm hM, after_log,
          List.forall_mem_append]
        exact ⟨by simp, hc w3⟩
      · rw [mount_converge_tune_fail env o w w2 w3 mounts e hL hm hM]
        simp

/-- The calls of a KV mount convergence: the read and the write at the desired
path, the delete of the recorded path, the status update of the validated
object. -/
theorem kv_converge_alphabet {W : Type} (env : Env W VaultKVMount) (o : VaultKVMount) (w : W) :
    ∀ e ∈ (VaultKVMountReconciler.converge env o w).log,
      e.call ∈ [Call.Read ("/sys/mounts/" ++ o.Spec.Path),
        .Write ("/sys/mounts/" ++ o.Spec.Path) (VaultKVMountReconciler.createPayload o),
        .Delete ("/sys/mounts/" ++ o.Status.Path),
        .StatusUpdate (VaultKVMountReconciler.markValid o)] := by
  rcases hRd : env.Read ("/sys/mounts/" ++ o.Spec.Path) w with ⟨e | (_ | sec), w1⟩
  · rw [kv_converge_read_fail env o w w1 e hRd]
    simp
  · rcases hW : env.Write ("/sys/mounts/" ++ o.Spec.Path)
      (VaultKVMountReconciler.createPayload o) w1 with ⟨_ | e, w2⟩
    · cases hr : VaultKVMountReconciler.renamed o
      · rw [kv_converge_write_skip env o w w1 w2 hRd hW hr, after_log, kv_persist_log]
        simp
      · rcases hD : env.Delete ("/sys/mounts/" ++ o.Status.Path) w2 with ⟨_ | e, w3⟩
        · rw [kv_converge_write_delete_ok env o w w1 w2 w3 hRd hW hr hD, after_log,
            kv_persist_log]
          simp
        · rw [kv_converge_write_delete_fail env o w w1 w2 w3 e hRd hW hr hD]
          simp
    · rw [kv_converge_write_fail env o w w1 w2 e hRd hW]
      simp
  · rw [kv_converge_present env o w w1 sec hRd, after_log, kv_persist_log]
    simp

/-- The calls of a policy convergence: the write at the manifest name, the
delete of the recorded name, the status update of the validated object. -/
theorem policy_converge_alphabet {W : Type} (env : Env W VaultPolicy) (o : VaultPolicy) (w : W) :
    ∀ e ∈ (VaultPolicyReconciler.converge env o w).log,
      e.call ∈ [Call.Write ("/sys/policies/acl/" ++ o.ObjectMeta.Name)
          (VaultPolicyReconciler.writePayload o),
        .Delete ("/sys/policies/acl/" ++ o.Status.Name),
        .StatusUpdate (VaultPolicyReconciler.markValid o)] := by
  rcases hW : env.Write ("/sys/policies/acl/" ++ o.ObjectMeta.Name)
    (VaultPolicyReconciler.writePayload o) w with ⟨_ | e, w1⟩
  · cases hr : VaultPolicyReconciler.renamed o
    · rw [policy_converge_write_skip env o w w1 hW hr, after_log, policy_persist_log]
      simp
    · rcases hD : env.Delete ("/sys/policies/acl/" ++ o.Status.Name) w1 with ⟨_ | e, w2⟩
      · rw [policy_converge_write_delete_ok env o w w1 w2 hW hr hD, after_log,
          policy_persist_log]
        simp
      · rw [policy_converge_write_delete_fail env o w w1 w2 e hW hr hD]
        simp
  · rw [policy_converge_write_fail env o w w1 e hW]
    simp

/-- An event of a control-plane log is no delete and no create, tune or
write. -/
theorem pre_not_delete_apply {O : Type} (pre : List (Event O))
    (h : ∀ e ∈ pre, e.call.isRemote = false ∧ e.call.isStatusUpdate = false ∧ e.ok = true) :
    ∀ e ∈ pre, e.isDelete = false ∧ e.isApply = false := by
  intro e he
  have h1 := pre_not Call.isDelete pre
    (by intro c; cases c <;> simp [Call.isDelete, Call.isRemote]) h e he
  have h2 := pre_not Call.isApply pre
    (by intro c; cases c <;> simp [Call.isApply, Call.isRemote]) h e he
  exact ⟨h1, h2⟩


/-- C10: the ordering invariant for the three kinds. In every run on the
Active path, whatever the environment answers, a `Delete` is issued only after
a create, tune or write (a `Mount`, `TuneMount` or `Write`) was issued earlier
in the same run and returned success; if a create, tune or write of the run
failed, the run issues no `Delete`; and the creates, tunes and writes of the
run are those of the desired path (name) while its deletes are those of the
recorded path (name). -/
theorem C10_ordering {W U V : Type}
    (env : Env W VaultMount) (w w1 : W) (o : VaultMount)
    (hA : VaultMountReconciler.Active env w o w1)
    (kenv : Env U VaultKVMount) (u u1 : U) (k : VaultKVMount)
    (hK : VaultKVMountReconciler.Active kenv u k u1)
    (penv : Env V VaultPolicy) (v v1 : V) (p : VaultPolicy)
    (hP : VaultPolicyReconciler.Active penv v p v1) :
    ((∀ (l1 : List (Event VaultMount)) (d : Event VaultMount) (l2 : List (Event VaultMount)),
        (VaultMountReconciler.Reconcile env w).log = l1 ++ d :: l2 → d.isDelete = true →
        ∃ a ∈ l1, a.isApply = true ∧ a.ok = true) ∧
      (∀ a ∈ (VaultMountReconciler.Reconcile env w).log, a.isApply = true → a.ok = false →
        ∀ d ∈ (VaultMountReconciler.Reconcile env w).log, d.isDelete = false) ∧
      (∀ e ∈ (VaultMountReconciler.Reconcile env w).log,
        (e.isApply = true →
          e.call = .TuneMount o.Spec.Path (VaultMountReconciler.config o) ∨
          e.call = .Mount o.Spec.Path (VaultMountReconciler.mountInput o)) ∧
        (e.isDelete = true → e.call = .Delete ("/sys/mounts/" ++ o.Status.Path)))) ∧
    ((∀ (l1 : List (Event VaultKVMount)) (d : Event VaultKVMount) (l2 : List (Event VaultKVMount)),
        (VaultKVMountReconciler.Reconcile kenv u).log = l1 ++ d :: l2 → d.isDelete = true →
        ∃ a ∈ l1, a.isApply = true ∧ a.ok = true) ∧
      (∀ a ∈ (VaultKVMountReconciler.Reconcile kenv u).log, a.isApply = true → a.ok = false →
        ∀ d ∈ (VaultKVMountReconciler.Reconcile kenv u).log, d.isDelete = false) ∧
      (∀ e ∈ (VaultKVMountReconciler.Reconcile kenv u).log,
        (e.isApply = true →
          e.call = .Write ("/sys/mounts/" ++ k.Spec.Path)
          (VaultKVMountReconciler.createPayload k)) ∧
        (e.isDelete = true → e.call = .Delete ("/sys/mounts/" ++ k.Status.Path)))) ∧
    ((∀ (l1 : List (Event VaultPolicy)) (d : Event VaultPolicy) (l2 : List (Event VaultPolicy)),
        (VaultPolicyReconciler.Reconcile penv v).log = l1 ++ d :: l2 → d.isDelete = true →
        ∃ a ∈ l1, a.isApply = true ∧ a.ok = true) ∧
      (∀ a ∈ (VaultPolicyReconciler.Reconcile penv v).log, a.isApply = true → a.ok = false →
        ∀ d ∈ (VaultPolicyReconciler.Reconcile penv v).log, d.isDelete = false) ∧
      (∀ e ∈ (VaultPolicyReconciler.Reconcile penv v).log,
        (e.isApply = true →
          e.call = .Write ("/sys/policies/acl/" ++ p.ObjectMeta.Name)
          (VaultPolicyReconciler.writePayload p)) ∧
        (e.isDelete = true → e.call = .Delete ("/sys/policies/acl/" ++ p.Status.Name)))) := by
  refine ⟨?_, ?_, ?_⟩
  · obtain ⟨pre, hpre, hR⟩ := mount_reconcile_of_active env w w1 o hA
    have hc := mount_converge_checks env o w1
    rw [hR, after_log]
    have hord := ordering_of_checks (pre ++ (VaultMountReconciler.converge env o w1).log)
      (by rw [deletesGuarded_pre false pre _ hpre]; exact hc.1)
      (by rw [(checks_pre pre _ hpre).1, (checks_pre pre _ hpre).2]; exact hc.2)
    refine ⟨hord.1, hord.2, ?_⟩
    intro e he
    rcases List.mem_append.1 he with h | h
    · have := pre_not_delete_apply pre hpre e h
      simp [this.1, this.2]
    · have hmem := mount_converge_alphabet env o w1 e h
      simp only [List.mem_cons, List.mem_singleton, List.not_mem_nil, or_false] at hmem
      rcases hmem with h1 | h1 | h1 | h1 | h1 <;>
        simp [Event.isApply, Event.isDelete, h1, Call.isApply, Call.isDelete]
  · obtain ⟨pre, hpre, hR⟩ := kv_reconcile_of_active kenv u u1 k hK
    have hc := kv_converge_checks kenv k u1
    rw [hR, after_log]
    have hord := ordering_of_checks (pre ++ (VaultKVMountReconciler.converge kenv k u1).log)
      (by rw [deletesGuarded_pre false pre _ hpre]; exact hc.1)
      (by rw [(checks_pre pre _ hpre).1, (checks_pre pre _ hpre).2]; exact hc.2)
    refine ⟨hord.1, hord.2, ?_⟩
    intro e he
    rcases List.mem_append.1 he with h | h
    · have := pre_not_delete_apply pre hpre e h
      simp [this.1, this.2]
    · have hmem := kv_converge_alphabet kenv k u1 e h
      simp only [List.mem_cons, List.mem_singleton, List.not_mem_nil, or_false] at hmem
      rcases hmem with h1 | h1 | h1 | h1 <;>
        simp [Event.isApply, Event.isDelete, h1, Call.isApply, Call.isDelete]
  · obtain ⟨pre, hpre, hR⟩ := policy_reconcile_of_active penv v v1 p hP
    have hc := policy_converge_checks penv p v1
    rw [hR, after_log]
    have hord := ordering_of_checks (pre ++ (VaultPolicyReconciler.converge penv p v1).log)
      (by rw [deletesGuarded_pre false pre _ hpre]; exact hc.1)
      (by rw [(checks_pre pre _ hpre).1, (checks_pre pre _ hpre).2]; exact hc.2)
    refine ⟨hord.1, hord.2, ?_⟩
    intro e he
    rcases List.mem_append.1 he with h | h
    · have := pre_not_delete_apply pre hpre e h
      simp [this.1, this.2]
    · have hmem := policy_converge_alphabet penv p v1 e h
      simp only [List.mem_cons, List.mem_singleton, List.not_mem_nil, or_false] at hmem
      rcases hmem with h1 | h1 | h1 <;>
        simp [Event.isApply, Event.isDelete, h1, Call.isApply, Call.isDelete]

/-- C10, witness: the three renames from `a` to `b` over the model with
failing deletes. -/
theorem C10_ordering_witness :
    ((∀ (l1 : List (Event VaultMount)) (d : Event VaultMount) (l2 : List (Event VaultMount)),
        (VaultMountReconciler.Reconcile (mountModel Call.isDelete) mountRenameWorld).log = l1 ++ d :: l2 → d.isDelete = true →
        ∃ a ∈ l1, a.isApply = true ∧ a.ok = true) ∧
      (∀ a ∈ (VaultMountReconciler.Reconcile (mountModel Call.isDelete) mountRenameWorld).log, a.isApply = true → a.ok = false →
        ∀ d ∈ (VaultMountReconciler.Reconcile (mountModel Call.isDelete) mountRenameWorld).log, d.isDelete = false) ∧
      (∀ e ∈ (VaultMountReconciler.Reconcile (mountModel Call.isDelete) mountRenameWorld).log,
        (e.isApply = true →
          e.call = .TuneMount (mountAt "a" "b").Spec.Path (VaultMountReconciler.config (mountAt "a" "b")) ∨
          e.call = .Mount (mountAt "a" "b").Spec.Path (VaultMountReconciler.mountInput (mountAt "a" "b"))) ∧
        (e.isDelete = true → e.call = .Delete ("/sys/mounts/" ++ (mountAt "a" "b").Status.Path)))) ∧
    ((∀ (l1 : List (Event VaultKVMount)) (d : Event VaultKVMount) (l2 : List (Event VaultKVMount)),
        (VaultKVMountReconciler.Reconcile (kvMountModel Call.isDelete) kvRenameWorld).log = l1 ++ d :: l2 → d.isDelete = true →
        ∃ a ∈ l1, a.isApply = true ∧ a.ok = true) ∧
      (∀ a ∈ (VaultKVMountReconciler.Reconcile (kvMountModel Call.isDelete) kvRenameWorld).log, a.isApply = true → a.ok = false →
        ∀ d ∈ (VaultKVMountReconciler.Reconcile (kvMountModel Call.isDelete) kvRenameWorld).log, d.isDelete = false) ∧
      (∀ e ∈ (VaultKVMountReconciler.Reconcile (kvMountModel Call.isDelete) kvRenameWorld).log,
        (e.isApply = true →
          e.call = .Write ("/sys/mounts/" ++ (kvMountAt "a" "b").Spec.Path)
          (VaultKVMountReconciler.createPayload (kvMountAt "a" "b"))) ∧
        (e.isDelete = true → e.call = .Delete ("/sys/mounts/" ++ (kvMountAt "a" "b").Status.Path)))) ∧
    ((∀ (l1 : List (Event VaultPolicy)) (d : Event VaultPolicy) (l2 : List (Event VaultPolicy)),
        (VaultPolicyReconciler.Reconcile (policyModel Call.isDelete) policyRenameWorld).log = l1 ++ d :: l2 → d.isDelete = true →
        ∃ a ∈ l1, a.isApply = true ∧ a.ok = true) ∧
      (∀ a ∈ (VaultPolicyReconciler.Reconcile (policyModel Call.isDelete) policyRenameWorld).log, a.isApply = true → a.ok = false →
        ∀ d ∈ (VaultPolicyReconciler.Reconcile (policyModel Call.isDelete) policyRenameWorld).log, d.isDelete = false) ∧
      (∀ e ∈ (VaultPolicyReconciler.Reconcile (policyModel Call.isDelete) policyRenameWorld).log,
        (e.isApply = true →
          e.call = .Write ("/sys/policies/acl/" ++ (policyAt "a" "b").ObjectMeta.Name)
          (VaultPolicyReconciler.writePayload (policyAt "a" "b"))) ∧
        (e.isDelete = true → e.call = .Delete ("/sys/policies/acl/" ++ (policyAt "a" "b").Status.Name)))) :=
  C10_ordering
    (mountModel Call.isDelete) mountRenameWorld mountRenameWorld (mountAt "a" "b")
    ⟨mountAt "a" "b", _, _, rfl, rfl, rfl, Or.inl ⟨by decide, rfl, rfl⟩⟩
    (kvMountModel Call.isDelete) kvRenameWorld kvRenameWorld (kvMountAt "a" "b")
    ⟨kvMountAt "a" "b", _, _, rfl, rfl, rfl, Or.inl ⟨by decide, rfl, rfl⟩⟩
    (policyModel Call.isDelete) policyRenameWorld policyRenameWorld (policyAt "a" "b")
    ⟨policyAt "a" "b", _, _, rfl, rfl, rfl, Or.inl ⟨by decide, rfl, rfl⟩⟩

/-! ## The exits of a reconcile before convergence -/

/-- A manifest that is not found ends a reconcile of the mount kind at once,
without error. -/
theorem mount_reconcile_not_found {W : Type} (env : Env W VaultMount) (w w1 : W)
    (h : env.Get w = (.notFound, w1)) :
    VaultMountReconciler.Reconcile env w = ⟨none, none, w1, [⟨.Get, false⟩]⟩ := by
  simp [VaultMountReconciler.Reconcile, h]

/-- A failed fetch ends a reconcile of the mount kind at once, with its
error. -/
theorem mount_reconcile_get_failed {W : Type} (env : Env W VaultMount) (w w1 : W) (e : Err)
    (h : env.Get w = (.failed e, w1)) :
    VaultMountReconciler.Reconcile env w = ⟨some e, none, w1, [⟨.Get, false⟩]⟩ := by
  simp [VaultMountReconciler.Reconcile, h]

/-- A failed handle acquisition ends a reconcile of the mount kind with its
error, after one warning event. -/
theorem mount_reconcile_factory_failed {W : Type} (env : Env W VaultMount) (w w1 w2 : W)
    (o : VaultMount) (e : Err) (hG : env.Get w = (.found o, w1))
    (hF : env.ClientFactoryGet o w1 = (some e, w2)) :
    VaultMountReconciler.Reconcile env w =
      ⟨some e, some o, w2,
        [⟨.Get, true⟩, ⟨.ClientFactoryGet o, false⟩,
         ⟨.Eventf o ("Failed to get Vault auth login: " ++ e), true⟩]⟩ := by
  simp [VaultMountReconciler.Reconcile, hG, hF, Outcome.after]

/-- A failed update of the manifest with the marker attached ends a reconcile
of the mount kind with its error. -/
theorem mount_reconcile_finalizer_failed {W : Type} (env : Env W VaultMount) (w w1 w2 w3 : W)
    (o : VaultMount) (e : Err) (hG : env.Get w = (.found o, w1))
    (hF : env.ClientFactoryGet o w1 = (none, w2))
    (hT : o.ObjectMeta.DeletionTimestamp = none)
    (hc : vaultMountFinalizer ∉ o.ObjectMeta.Finalizers)
    (hU : env.Update
        { o with
          Status := { o.Status with Valid := false }
          ObjectMeta := { o.ObjectMeta with
            Finalizers := o.ObjectMeta.Finalizers ++ [vaultMountFinalizer] } } w2 = (some e, w3)) :
    VaultMountReconciler.Reconcile env w =
      ⟨some e,
        some { o with
          Status := { o.Status with Valid := false }
          ObjectMeta := { o.ObjectMeta with
            Finalizers := o.ObjectMeta.Finalizers ++ [vaultMountFinalizer] } },
        w3,
        [⟨.Get, true⟩, ⟨.ClientFactoryGet o, true⟩,
         ⟨.Update { o with
          Status := { o.Status with Valid := false }
          ObjectMeta := { o.ObjectMeta with
            Finalizers := o.ObjectMeta.Finalizers ++ [vaultMountFinalizer] } }, false⟩]⟩ := by
  simp only [hT] at hU
  simp [VaultMountReconciler.Reconcile, hG, hF, hT, VaultMountReconciler.addFinalizer, ContainsFinalizer, AddFinalizer, hc,
    hU, Outcome.after]

/-- A manifest that is not found ends a reconcile of the KV mount kind at once,
without error. -/
theorem kv_reconcile_not_found {W : Type} (env : Env W VaultKVMount) (w w1 : W)
    (h : env.Get w = (.notFound, w1)) :
    VaultKVMountReconciler.Reconcile env w = ⟨none, none, w1, [⟨.Get, false⟩]⟩ := by
  simp [VaultKVMountReconciler.Reconcile, h]

/-- A failed fetch ends a reconcile of the KV mount kind at once, with its
error. -/
theorem kv_reconcile_get_failed {W : Type} (env : Env W VaultKVMount) (w w1 : W) (e : Err)
    (h : env.Get w = (.failed e, w1)) :
    VaultKVMountReconciler.Reconcile env w = ⟨some e, none, w1, [⟨.Get, false⟩]⟩ := by
  simp [VaultKVMountReconciler.Reconcile, h]

/-- A failed handle acquisition ends a reconcile of the KV mount kind with its
error, after one warning event. -/
theorem kv_reconcile_factory_failed {W : Type} (env : Env W VaultKVMount) (w w1 w2 : W)
    (o : VaultKVMount) (e : Err) (hG : env.Get w = (.found o, w1))
    (hF : env.ClientFactoryGet o w1 = (some e, w2)) :
    VaultKVMountReconciler.Reconcile env w =
      ⟨some e, some o, w2,
        [⟨.Get, true⟩, ⟨.ClientFactoryGet o, false⟩,
         ⟨.Eventf o ("Failed to get Vault auth login: " ++ e), true⟩]⟩ := by
  simp [VaultKVMountReconciler.Reconcile, hG, hF, Outcome.after]

/-- A failed update of the manifest with the marker attached ends a reconcile
of the KV mount kind with its error. -/
theorem kv_reconcile_finalizer_failed {W : Type} (env : Env W VaultKVMount) (w w1 w2 w3 : W)
    (o : VaultKVMount) (e : Err) (hG : env.Get w = (.found o, w1))
    (hF : env.ClientFactoryGet o w1 = (none, w2))
    (hT : o.ObjectMeta.DeletionTimestamp = none)
    (hc : vaultKVMountFinalizer ∉ o.ObjectMeta.Finalizers)
    (hU : env.Update
        { o with
          Status := { o.Status with Valid := false }
          ObjectMeta := { o.ObjectMeta with
            Finalizers := o.ObjectMeta.Finalizers ++ [vaultKVMountFinalizer] } } w2 = (some e, w3)) :
    VaultKVMountReconciler.Reconcile env w =
      ⟨some e,
        some { o with
          Status := { o.Status with Valid := false }
          ObjectMeta := { o.ObjectMeta with
            Finalizers := o.ObjectMeta.Finalizers ++ [vaultKVMountFinalizer] } },
        w3,
        [⟨.Get, true⟩, ⟨.ClientFactoryGet o, true⟩,
         ⟨.Update { o with
          Status := { o.Status with Valid := false }
          ObjectMeta := { o.ObjectMeta with
            Finalizers := o.ObjectMeta.Finalizers ++ [vaultKVMountFinalizer] } }, false⟩]⟩ := by
  simp only [hT] at hU
  simp [VaultKVMountReconciler.Reconcile, hG, hF, hT, VaultKVMountReconciler.addFinalizer, ContainsFinalizer, AddFinalizer, hc,
    hU, Outcome.after]

/-- A manifest that is not found ends a reconcile of the policy kind at once,
without error. -/
theorem policy_reconcile_not_found {W : Type} (env : Env W VaultPolicy) (w w1 : W)
    (h : env.Get w = (.notFound, w1)) :
    VaultPolicyReconciler.Reconcile env w = ⟨none, none, w1, [⟨.Get, false⟩]⟩ := by
  simp [VaultPolicyReconciler.Reconcile, h]

/-- A failed fetch ends a reconcile of the policy kind at once, with its
error. -/
theorem policy_reconcile_get_failed {W : Type} (env : Env W VaultPolicy) (w w1 : W) (e : Err)
    (h : env.Get w = (.failed e, w1)) :
    VaultPolicyReconciler.Reconcile env w = ⟨some e, none, w1, [⟨.Get, false⟩]⟩ := by
  simp [VaultPolicyReconciler.Reconcile, h]

/-- A failed handle acquisition ends a reconcile of the policy kind with its
error, after one warning event. -/
theorem policy_reconcile_factory_failed {W : Type} (env : Env W VaultPolicy) (w w1 w2 : W)
    (o : VaultPolicy) (e : Err) (hG : env.Get w = (.found o, w1))
    (hF : env.ClientFactoryGet o w1 = (some e, w2)) :
    VaultPolicyReconciler.Reconcile env w =
      ⟨some e, some o, w2,
        [⟨.Get, true⟩, ⟨.ClientFactoryGet o, false⟩,
         ⟨.Eventf o ("Failed to get Vault auth login: " ++ e), true⟩]⟩ := by
  simp [VaultPolicyReconciler.Reconcile, hG, hF, Outcome.after]

/-- A failed update of the manifest with the marker attached ends a reconcile
of the policy kind with its error. -/
theorem policy_reconcile_finalizer_failed {W : Type} (env : Env W VaultPolicy) (w w1 w2 w3 : W)
    (o : VaultPolicy) (e : Err) (hG : env.Get w = (.found o, w1))
    (hF : env.ClientFactoryGet o w1 = (none, w2))
    (hT : o.ObjectMeta.DeletionTimestamp = none)
    (hc : vaultPolicyFinalizer ∉ o.ObjectMeta.Finalizers)
    (hU : env.Update
        { o with
          Status := { o.Status with Valid := false }
          ObjectMeta := { o.ObjectMeta with
            Finalizers := o.ObjectMeta.Finalizers ++ [vaultPolicyFinalizer] } } w2 = (some e, w3)) :
    VaultPolicyReconciler.Reconcile env w =
      ⟨some e,
        some { o with
          Status := { o.Status with Valid := false }
          ObjectMeta := { o.ObjectMeta with
            Finalizers := o.ObjectMeta.Finalizers ++ [vaultPolicyFinalizer] } },
        w3,
        [⟨.Get, true⟩, ⟨.ClientFactoryGet o, true⟩,
         ⟨.Update { o with
          Status := { o.Status with Valid := false }
          ObjectMeta := { o.ObjectMeta with
            Finalizers := o.ObjectMeta.Finalizers ++ [vaultPolicyFinalizer] } }, false⟩]⟩ := by
  simp only [hT] at hU
  simp [VaultPolicyReconciler.Reconcile, hG, hF, hT, VaultPolicyReconciler.addFinalizer, ContainsFinalizer, AddFinalizer, hc,
    hU, Outcome.after]

/-- What the control plane can answer before convergence, for the mount kind:
the manifest is not found, the fetch fails, the handle acquisition fails, the
update attaching the marker fails, or the run is on the Active or on the
Deleting path. -/
theorem mount_reconcile_cases {W : Type} (env : Env W VaultMount) (w : W) :
    (∃ w1, env.Get w = (.notFound, w1)) ∨
    (∃ e w1, env.Get w = (.failed e, w1)) ∨
    (∃ o e w1 w2, env.Get w = (.found o, w1) ∧ env.ClientFactoryGet o w1 = (some e, w2)) ∨
    (∃ o e w1 w2 w3, env.Get w = (.found o, w1) ∧ env.ClientFactoryGet o w1 = (none, w2) ∧
      o.ObjectMeta.DeletionTimestamp = none ∧ vaultMountFinalizer ∉ o.ObjectMeta.Finalizers ∧
      env.Update
          { o with
            Status := { o.Status with Valid := false }
            ObjectMeta := { o.ObjectMeta with
              Finalizers := o.ObjectMeta.Finalizers ++ [vaultMountFinalizer] } } w2 = (some e, w3)) ∨
    (∃ o w1, VaultMountReconciler.Active env w o w1) ∨
    (∃ o w1, VaultMountReconciler.Deleting env w o w1) := by
  rcases hG : env.Get w with ⟨o | _ | e, w1⟩
  · rcases hF : env.ClientFactoryGet o w1 with ⟨_ | e, w2⟩
    · cases hT : o.ObjectMeta.DeletionTimestamp with
      | none =>
        by_cases hc : vaultMountFinalizer ∈ o.ObjectMeta.Finalizers
        · exact Or.inr (Or.inr (Or.inr (Or.inr (Or.inl
            ⟨_, _, o, w1, w2, hG, hF, hT, Or.inl ⟨hc, rfl, rfl⟩⟩))))
        · rcases hU : env.Update
            { o with
            Status := { o.Status with Valid := false }
            ObjectMeta := { o.ObjectMeta with
              Finalizers := o.ObjectMeta.Finalizers ++ [vaultMountFinalizer] } } w2 with ⟨_ | e, w3⟩
          · exact Or.inr (Or.inr (Or.inr (Or.inr (Or.inl
              ⟨_, _, o, w1, w2, hG, hF, hT, Or.inr ⟨hc, rfl, hU⟩⟩))))
          · exact Or.inr (Or.inr (Or.inr (Or.inl ⟨o, e, w1, w2, w3, rfl, hF, hT, hc, hU⟩)))
      | some t =>
        exact Or.inr (Or.inr (Or.inr (Or.inr (Or.inr ⟨_, _, o, w1, t, hG, hF, hT, rfl⟩))))
    · exact Or.inr (Or.inr (Or.inl ⟨o, e, w1, w2, rfl, hF⟩))
  · exact Or.inl ⟨w1, rfl⟩
  · exact Or.inr (Or.inl ⟨e, w1, rfl⟩)

/-- What the control plane can answer before convergence, for the KV mount kind:
the manifest is not found, the fetch fails, the handle acquisition fails, the
update attaching the marker fails, or the run is on the Active or on the
Deleting path. -/
theorem kv_reconcile_cases {W : Type} (env : Env W VaultKVMount) (w : W) :
    (∃ w1, env.Get w = (.notFound, w1)) ∨
    (∃ e w1, env.Get w = (.failed e, w1)) ∨
    (∃ o e w1 w2, env.Get w = (.found o, w1) ∧ env.ClientFactoryGet o w1 = (some e, w2)) ∨
    (∃ o e w1 w2 w3, env.Get w = (.found o, w1) ∧ env.ClientFactoryGet o w1 = (none, w2) ∧
      o.ObjectMeta.DeletionTimestamp = none ∧ vaultKVMountFinalizer ∉ o.ObjectMeta.Finalizers ∧
      env.Update
          { o with
            Status := { o.Status with Valid := false }
            ObjectMeta := { o.ObjectMeta with
              Finalizers := o.ObjectMeta.Finalizers ++ [vaultKVMountFinalizer] } } w2 = (some e, w3)) ∨
    (∃ o w1, VaultKVMountReconciler.Active env w o w1) ∨
    (∃ o w1, VaultKVMountReconciler.Deleting env w o w1) := by
  rcases hG : env.Get w with ⟨o | _ | e, w1⟩
  · rcases hF : env.ClientFactoryGet o w1 with ⟨_ | e, w2⟩
    · cases hT : o.ObjectMeta.DeletionTimestamp with
      | none =>
        by_cases hc : vaultKVMountFinalizer ∈ o.ObjectMeta.Finalizers
        · exact Or.inr (Or.inr (Or.inr (Or.inr (Or.inl
            ⟨_, _, o, w1, w2, hG, hF, hT, Or.inl ⟨hc, rfl, rfl⟩⟩))))
        · rcases hU : env.Update
            { o with
            Status := { o.Status with Valid := false }
            ObjectMeta := { o.ObjectMeta with
              Finalizers := o.ObjectMeta.Finalizers ++ [vaultKVMountFinalizer] } } w2 with ⟨_ | e, w3⟩
          · exact Or.inr (Or.inr (Or.inr (Or.inr (Or.inl
              ⟨_, _, o, w1, w2, hG, hF, hT, Or.inr ⟨hc, rfl, hU⟩⟩))))
          · exact Or.inr (Or.inr (Or.inr (Or.inl ⟨o, e, w1, w2, w3, rfl, hF, hT, hc, hU⟩)))
      | some t =>
        exact Or.inr (Or.inr (Or.inr (Or.inr (Or.inr ⟨_, _, o, w1, t, hG, hF, hT, rfl⟩))))
    · exact Or.inr (Or.inr (Or.inl ⟨o, e, w1, w2, rfl, hF⟩))
  · exact Or.inl ⟨w1, rfl⟩
  · exact Or.inr (Or.inl ⟨e, w1, rfl⟩)

/-- What the control plane can answer before convergence, for the policy kind:
the manifest is not found, the fetch fails, the handle acquisition fails, the
update attaching the marker fails, or the run is on the Active or on the
Deleting path. -/
theorem policy_reconcile_cases {W : Type} (env : Env W VaultPolicy) (w : W) :
    (∃ w1, env.Get w = (.notFound, w1)) ∨
    (∃ e w1, env.Get w = (.failed e, w1)) ∨
    (∃ o e w1 w2, env.Get w = (.found o, w1) ∧ env.ClientFactoryGet o w1 = (some e, w2)) ∨
    (∃ o e w1 w2 w3, env.Get w = (.found o, w1) ∧ env.ClientFactoryGet o w1 = (none, w2) ∧
      o.ObjectMeta.DeletionTimestamp = none ∧ vaultPolicyFinalizer ∉ o.ObjectMeta.Finalizers ∧
      env.Update
          { o with
            Status := { o.Status with Valid := false }
            ObjectMeta := { o.ObjectMeta with
              Finalizers := o.ObjectMeta.Finalizers ++ [vaultPolicyFinalizer] } } w2 = (some e, w3)) ∨
    (∃ o w1, VaultPolicyReconciler.Active env w o w1) ∨
    (∃ o w1, VaultPolicyReconciler.Deleting env w o w1) := by
  rcases hG : env.Get w with ⟨o | _ | e, w1⟩
  · rcases hF : env.ClientFactoryGet o w1 with ⟨_ | e, w2⟩
    · cases hT : o.ObjectMeta.DeletionTimestamp with
      | none =>
        by_cases hc : vaultPolicyFinalizer ∈ o.ObjectMeta.Finalizers
        · exact Or.inr (Or.inr (Or.inr (Or.inr (Or.inl
            ⟨_, _, o, w1, w2, hG, hF, hT, Or.inl ⟨hc, rfl, rfl⟩⟩))))
        · rcases hU : env.Update
            { o with
            Status := { o.Status with Valid := false }
            ObjectMeta := { o.ObjectMeta with
              Finalizers := o.ObjectMeta.Finalizers ++ [vaultPolicyFinalizer] } } w2 with ⟨_ | e, w3⟩
          · exact Or.inr (Or.inr (Or.inr (Or.inr (Or.inl
              ⟨_, _, o, w1, w2, hG, hF, hT, Or.inr ⟨hc, rfl, hU⟩⟩))))
          · exact Or.inr (Or.inr (Or.inr (Or.inl ⟨o, e, w1, w2, w3, rfl, hF, hT, hc, hU⟩)))
      | some t =>
        exact Or.inr (Or.inr (Or.inr (Or.inr (Or.inr ⟨_, _, o, w1, t, hG, hF, hT, rfl⟩))))
    · exact Or.inr (Or.inr (Or.inl ⟨o, e, w1, w2, rfl, hF⟩))
  · exact Or.inl ⟨w1, rfl⟩
  · exact Or.inr (Or.inl ⟨e, w1, rfl⟩)

/-- A failed delete of the recorded path in the log of a mount convergence is
the last call of the run: the run returns the error of that delete, ends in
the world it left and issues no status update. -/
theorem mount_converge_delete_failed {W : Type} (env : Env W VaultMount) (o : VaultMount) (w : W)
    (h : ⟨.Delete ("/sys/mounts/" ++ o.Status.Path), false⟩ ∈
      (VaultMountReconciler.converge env o w).log) :
    ∃ wd e, env.Delete ("/sys/mounts/" ++ o.Status.Path) wd =
        (some e, (VaultMountReconciler.converge env o w).world) ∧
      (VaultMountReconciler.converge env o w).err = some e ∧
      statusUpdates (VaultMountReconciler.converge env o w).log = [] := by
  have hc : ∀ w3 (a : Event VaultMount), a.isStatusUpdate = false →
      ⟨.Delete ("/sys/mounts/" ++ o.Status.Path), false⟩ ∈
        ([⟨.ListMounts, true⟩, a] ++ (VaultMountReconciler.cleanup env o w3).log) →
      (∃ wd e, env.Delete ("/sys/mounts/" ++ o.Status.Path) wd =
          (some e, (VaultMountReconciler.cleanup env o w3).world) ∧
        (VaultMountReconciler.cleanup env o w3).err = some e ∧
        statusUpdates ([⟨.ListMounts, true⟩, a] ++
          (VaultMountReconciler.cleanup env o w3).log) = []) ∨
        (⟨.Delete ("/sys/mounts/" ++ o.Status.Path), false⟩ : Event VaultMount) = a := by
    intro w3 a ha hmem
    cases hr : VaultMountReconciler.renamed o
    · rw [mount_cleanup_skip env o w3 hr, mount_persist_log] at hmem
      simp at hmem
      exact Or.inr hmem
    · rcases hD : env.Delete ("/sys/mounts/" ++ o.Status.Path) w3 with ⟨_ | e, w4⟩
      · rw [mount_cleanup_ok env o w3 w4 hr hD, after_log, mount_persist_log] at hmem
        simp at hmem
        exact Or.inr hmem
      · rw [mount_cleanup_fail env o w3 w4 e hr hD]
        refine Or.inl ⟨w3, e, hD, rfl, ?_⟩
        have e1 : (⟨.ListMounts, true⟩ : Event VaultMount).isStatusUpdate = false := rfl
        have e2 : (⟨.Delete ("/sys/mounts/" ++ o.Status.Path), false⟩ :
          Event VaultMount).isStatusUpdate = false := rfl
        simp [statusUpdates, List.filter_cons, e1, e2, ha]
  rcases hL : env.ListMounts w with ⟨e | mounts, w2⟩
  · rw [mount_converge_list_fail env o w w2 e hL] at h
    simp at h
  · cases hm : (mounts (o.Spec.Path ++ "/")).isSome
    · have hm1 : mounts (o.Spec.Path ++ "/") = none := by simpa using hm
      rcases hM : env.Mount o.Spec.Path (VaultMountReconciler.mountInput o) w2 with ⟨_ | e, w3⟩
      · rw [mount_converge_mount_ok env o w w2 w3 mounts hL hm1 hM] at h ⊢
        rcases hc w3 ⟨.Mount o.Spec.Path (VaultMountReconciler.mountInput o), true⟩ rfl h
          with h1 | h1
        · exact h1
        · simp at h1
      · rw [mount_converge_mount_fail env o w w2 w3 mounts e hL hm1 hM] at h
        simp at h
    · rcases hM : env.TuneMount o.Spec.Path (VaultMountReconciler.config o) w2 with ⟨_ | e, w3⟩
      · rw [mount_converge_tune_ok env o w w2 w3 mounts hL hm hM] at h ⊢
        rcases hc w3 ⟨.TuneMount o.Spec.Path (VaultMountReconciler.config o), true⟩ rfl h
          with h1 | h1
        · exact h1
        · simp at h1
      · rw [mount_converge_tune_fail env o w w2 w3 mounts e hL hm hM] at h
        simp at h

/-- A failed delete of the recorded path in the log of a KV mount convergence
is the last call of the run: the run returns the error of that delete, ends in
the world it left and issues no status update. -/
theorem kv_converge_delete_failed {W : Type} (env : Env W VaultKVMount) (o : VaultKVMount)
    (w : W)
    (h : ⟨.Delete ("/sys/mounts/" ++ o.Status.Path), false⟩ ∈
      (VaultKVMountReconciler.converge env o w).log) :
    ∃ wd e, env.Delete ("/sys/mounts/" ++ o.Status.Path) wd =
        (some e, (VaultKVMountReconciler.converge env o w).world) ∧
      (VaultKVMountReconciler.converge env o w).err = some e ∧
      statusUpdates (VaultKVMountReconciler.converge env o w).log = [] := by
  rcases hRd : env.Read ("/sys/mounts/" ++ o.Spec.Path) w with ⟨e | (_ | sec), w1⟩
  · rw [kv_converge_read_fail env o w w1 e hRd] at h
    simp at h
  · rcases hW : env.Write ("/sys/mounts/" ++ o.Spec.Path)
      (VaultKVMountReconciler.createPayload o) w1 with ⟨_ | e, w2⟩
    · cases hr : VaultKVMountReconciler.renamed o
      · rw [kv_converge_write_skip env o w w1 w2 hRd hW hr, after_log, kv_persist_log] at h
        simp at h
      · rcases hD : env.Delete ("/sys/mounts/" ++ o.Status.Path) w2 with ⟨_ | e, w3⟩
        · rw [kv_converge_write_delete_ok env o w w1 w2 w3 hRd hW hr hD, after_log,
            kv_persist_log] at h
          simp at h
        · rw [kv_converge_write_delete_fail env o w w1 w2 w3 e hRd hW hr hD]
          exact ⟨w2, e, hD, rfl, rfl⟩
    · rw [kv_converge_write_fail env o w w1 w2 e hRd hW] at h
      simp at h
  · rw [kv_converge_present env o w w1 sec hRd, after_log, kv_persist_log] at h
    simp at h

/-- A failed delete of the recorded name in the log of a policy convergence is
the last call of the run: the run returns the error of that delete, ends in
the world it left and issues no status update. -/
theorem policy_converge_delete_failed {W : Type} (env : Env W VaultPolicy) (o : VaultPolicy)
    (w : W)
    (h : ⟨.Delete ("/sys/policies/acl/" ++ o.Status.Name), false⟩ ∈
      (VaultPolicyReconciler.converge env o w).log) :
    ∃ wd e, env.Delete ("/sys/policies/acl/" ++ o.Status.Name) wd =
        (some e, (VaultPolicyReconciler.converge env o w).world) ∧
      (VaultPolicyReconciler.converge env o w).err = some e ∧
      statusUpdates (VaultPolicyReconciler.converge env o w).log = [] := by
  rcases hW : env.Write ("/sys/policies/acl/" ++ o.ObjectMeta.Name)
    (VaultPolicyReconciler.writePayload o) w with ⟨_ | e, w1⟩
  · cases hr : VaultPolicyReconciler.renamed o
    · rw [policy_converge_write_skip env o w w1 hW hr, after_log, policy_persist_log] at h
      simp at h
    · rcases hD : env.Delete ("/sys/policies/acl/" ++ o.Status.Name) w1 with ⟨_ | e, w2⟩
      · rw [policy_converge_write_delete_ok env o w w1 w2 hW hr hD, after_log,
          policy_persist_log] at h
        simp at h
      · rw [policy_converge_write_delete_fail env o w w1 w2 e hW hr hD]
        exact ⟨w1, e, hD, rfl, rfl⟩
  · rw [policy_converge_write_fail env o w w1 e hW] at h
    simp at h

/-! ## A failed rename cleanup aborts the run -/

/-- C11: for the three kinds, on the Active path, whenever the log of the run
holds a failed delete of the recorded path (name), the reconcile returns the
error that delete returned, ends in the world the delete left, and issues no
status update. -/
theorem C11_cleanup_failure_aborts {W U V : Type}
    (env : Env W VaultMount) (w w1 : W) (o : VaultMount)
    (hA : VaultMountReconciler.Active env w o w1)
    (hDmount : ⟨.Delete ("/sys/mounts/" ++ o.Status.Path), false⟩ ∈ (VaultMountReconciler.Reconcile env w).log)
    (kenv : Env U VaultKVMount) (u u1 : U) (k : VaultKVMount)
    (hK : VaultKVMountReconciler.Active kenv u k u1)
    (hDkv : ⟨.Delete ("/sys/mounts/" ++ k.Status.Path), false⟩ ∈ (VaultKVMountReconciler.Reconcile kenv u).log)
    (penv : Env V VaultPolicy) (v v1 : V) (p : VaultPolicy)
    (hP : VaultPolicyReconciler.Active penv v p v1)
    (hDpolicy : ⟨.Delete ("/sys/policies/acl/" ++ p.Status.Name), false⟩ ∈ (VaultPolicyReconciler.Reconcile penv v).log) :
    (∃ wd e, env.Delete ("/sys/mounts/" ++ o.Status.Path) wd = (some e, (VaultMountReconciler.Reconcile env w).world) ∧
      (VaultMountReconciler.Reconcile env w).err = some e ∧
      statusUpdates (VaultMountReconciler.Reconcile env w).log = []) ∧
    (∃ wd e, kenv.Delete ("/sys/mounts/" ++ k.Status.Path) wd = (some e, (VaultKVMountReconciler.Reconcile kenv u).world) ∧
      (VaultKVMountReconciler.Reconcile kenv u).err = some e ∧
      statusUpdates (VaultKVMountReconciler.Reconcile kenv u).log = []) ∧
    (∃ wd e, penv.Delete ("/sys/policies/acl/" ++ p.Status.Name) wd = (some e, (VaultPolicyReconciler.Reconcile penv v).world) ∧
      (VaultPolicyReconciler.Reconcile penv v).err = some e ∧
      statusUpdates (VaultPolicyReconciler.Reconcile penv v).log = []) := by
  refine ⟨?_, ?_, ?_⟩
  · obtain ⟨pre, hpre, hR⟩ := mount_reconcile_of_active env w w1 o hA
    have hp2 := statusUpdates_pre pre hpre
    rw [hR, after_log] at hDmount
    rw [hR]
    rcases List.mem_append.1 hDmount with h | h
    · have := (pre_not_delete_apply pre hpre _ h).1
      simp [Event.isDelete, Call.isDelete] at this
    · obtain ⟨wd, e, h1, h2, h3⟩ := mount_converge_delete_failed env o w1 h
      refine ⟨wd, e, h1, h2, ?_⟩
      simp only [statusUpdates] at hp2 h3 ⊢
      rw [after_log, List.filter_append, hp2, h3]
      rfl
  · obtain ⟨pre, hpre, hR⟩ := kv_reconcile_of_active kenv u u1 k hK
    have hp2 := statusUpdates_pre pre hpre
    rw [hR, after_log] at hDkv
    rw [hR]
    rcases List.mem_append.1 hDkv with h | h
    · have := (pre_not_delete_apply pre hpre _ h).1
      simp [Event.isDelete, Call.isDelete] at this
    · obtain ⟨wd, e, h1, h2, h3⟩ := kv_converge_delete_failed kenv k u1 h
      refine ⟨wd, e, h1, h2, ?_⟩
      simp only [statusUpdates] at hp2 h3 ⊢
      rw [after_log, List.filter_append, hp2, h3]
      rfl
  · obtain ⟨pre, hpre, hR⟩ := policy_reconcile_of_active penv v v1 p hP
    have hp2 := statusUpdates_pre pre hpre
    rw [hR, after_log] at hDpolicy
    rw [hR]
    rcases List.mem_append.1 hDpolicy with h | h
    · have := (pre_not_delete_apply pre hpre _ h).1
      simp [Event.isDelete, Call.isDelete] at this
    · obtain ⟨wd, e, h1, h2, h3⟩ := policy_converge_delete_failed penv p v1 h
      refine ⟨wd, e, h1, h2, ?_⟩
      simp only [statusUpdates] at hp2 h3 ⊢
      rw [after_log, List.filter_append, hp2, h3]
      rfl

/-- C11, witness: the three renames from `a` to `b` over the model with
failing deletes. -/
theorem C11_cleanup_failure_aborts_witness :
    (∃ wd e, (mountModel Call.isDelete).Delete ("/sys/mounts/" ++ (mountAt "a" "b").Status.Path) wd = (some e, (VaultMountReconciler.Reconcile (mountModel Call.isDelete) mountRenameWorld).world) ∧
      (VaultMountReconciler.Reconcile (mountModel Call.isDelete) mountRenameWorld).err = some e ∧
      statusUpdates (VaultMountReconciler.Reconcile (mountModel Call.isDelete) mountRenameWorld).log = []) ∧
    (∃ wd e, (kvMountModel Call.isDelete).Delete ("/sys/mounts/" ++ (kvMountAt "a" "b").Status.Path) wd = (some e, (VaultKVMountReconciler.Reconcile (kvMountModel Call.isDelete) kvRenameWorld).world) ∧
      (VaultKVMountReconciler.Reconcile (kvMountModel Call.isDelete) kvRenameWorld).err = some e ∧
      statusUpdates (VaultKVMountReconciler.Reconcile (kvMountModel Call.isDelete) kvRenameWorld).log = []) ∧
    (∃ wd e, (policyModel Call.isDelete).Delete ("/sys/policies/acl/" ++ (policyAt "a" "b").Status.Name) wd = (some e, (VaultPolicyReconciler.Reconcile (policyModel Call.isDelete) policyRenameWorld).world) ∧
      (VaultPolicyReconciler.Reconcile (policyModel Call.isDelete) policyRenameWorld).err = some e ∧
      statusUpdates (VaultPolicyReconciler.Reconcile (policyModel Call.isDelete) policyRenameWorld).log = []) :=
  C11_cleanup_failure_aborts
    (mountModel Call.isDelete) mountRenameWorld mountRenameWorld (mountAt "a" "b")
    ⟨mountAt "a" "b", _, _, rfl, rfl, rfl, Or.inl ⟨by decide, rfl, rfl⟩⟩ (by decide)
    (kvMountModel Call.isDelete) kvRenameWorld kvRenameWorld (kvMountAt "a" "b")
    ⟨kvMountAt "a" "b", _, _, rfl, rfl, rfl, Or.inl ⟨by decide, rfl, rfl⟩⟩ (by decide)
    (policyModel Call.isDelete) policyRenameWorld policyRenameWorld (policyAt "a" "b")
    ⟨policyAt "a" "b", _, _, rfl, rfl, rfl, Or.inl ⟨by decide, rfl, rfl⟩⟩ (by decide)

/-! ## Two-phase validity -/

/-- The calls before the convergence of a VaultMount reconcile on the Active
path: the fetch and the handle, then, when the fetched manifest lacks the
marker, the successful manifest update that attaches it; convergence then runs
on the server's copy that this update returned. -/
theorem mount_active_entry {W : Type} (env : Env W VaultMount) (w w1 : W) (o : VaultMount)
    (h : VaultMountReconciler.Active env w o w1) :
    ∃ o0 wg, env.Get w = (.found o0, wg) ∧
      ((vaultMountFinalizer ∈ o0.ObjectMeta.Finalizers ∧
          o = { o0 with Status := { o0.Status with Valid := false } } ∧
          VaultMountReconciler.Reconcile env w =
            (VaultMountReconciler.converge env o w1).after [⟨.Get, true⟩, ⟨.ClientFactoryGet o0, true⟩]) ∨
        (vaultMountFinalizer ∉ o0.ObjectMeta.Finalizers ∧
          ∃ (sent : VaultMount) (wf : W),
            env.ClientFactoryGet o0 wg = (none, wf) ∧
            sent = { o0 with
              Status := { o0.Status with Valid := false }
              ObjectMeta := { o0.ObjectMeta with
                Finalizers := o0.ObjectMeta.Finalizers ++ [vaultMountFinalizer] } } ∧
            o = env.Updated sent wf ∧
            VaultMountReconciler.Reconcile env w =
              (VaultMountReconciler.converge env o w1).after
                [⟨.Get, true⟩, ⟨.ClientFactoryGet o0, true⟩, ⟨.Update sent, true⟩])) := by
  obtain ⟨o0, wg, wf, hG, hF, hT, h | h⟩ := h
  · obtain ⟨hc, rfl, rfl⟩ := h
    refine ⟨o0, wg, hG, Or.inl ⟨hc, rfl, ?_⟩⟩
    simp [VaultMountReconciler.Reconcile, hG, hF, hT, VaultMountReconciler.addFinalizer, ContainsFinalizer, hc, Outcome.after]
  · obtain ⟨hc, ho, hU⟩ := h
    refine ⟨o0, wg, hG, Or.inr ⟨hc, _, wf, hF, rfl, ho, ?_⟩⟩
    subst ho
    simp only [hT] at hU
    simp [VaultMountReconciler.Reconcile, hG, hF, hT, VaultMountReconciler.addFinalizer, ContainsFinalizer, AddFinalizer,
      hc, hU, Outcome.after]

/-- The calls before the convergence of a VaultKVMount reconcile on the Active
path: the fetch and the handle, then, when the fetched manifest lacks the
marker, the successful manifest update that attaches it; convergence then runs
on the server's copy that this update returned. -/
theorem kv_active_entry {W : Type} (env : Env W VaultKVMount) (w w1 : W) (o : VaultKVMount)
    (h : VaultKVMountReconciler.Active env w o w1) :
    ∃ o0 wg, env.Get w = (.found o0, wg) ∧
      ((vaultKVMountFinalizer ∈ o0.ObjectMeta.Finalizers ∧
          o = { o0 with Status := { o0.Status with Valid := false } } ∧
          VaultKVMountReconciler.Reconcile env w =
            (VaultKVMountReconciler.converge env o w1).after [⟨.Get, true⟩, ⟨.ClientFactoryGet o0, true⟩]) ∨
        (vaultKVMountFinalizer ∉ o0.ObjectMeta.Finalizers ∧
          ∃ (sent : VaultKVMount) (wf : W),
            env.ClientFactoryGet o0 wg = (none, wf) ∧
            sent = { o0 with
              Status := { o0.Status with Valid := false }
              ObjectMeta := { o0.ObjectMeta with
                Finalizers := o0.ObjectMeta.Finalizers ++ [vaultKVMountFinalizer] } } ∧
            o = env.Updated sent wf ∧
            VaultKVMountReconciler.Reconcile env w =
              (VaultKVMountReconciler.converge env o w1).after
                [⟨.Get, true⟩, ⟨.ClientFactoryGet o0, true⟩, ⟨.Update sent, true⟩])) := by
  obtain ⟨o0, wg, wf, hG, hF, hT, h | h⟩ := h
  · obtain ⟨hc, rfl, rfl⟩ := h
    refine ⟨o0, wg, hG, Or.inl ⟨hc, rfl, ?_⟩⟩
    simp [VaultKVMountReconciler.Reconcile, hG, hF, hT, VaultKVMountReconciler.addFinalizer, ContainsFinalizer, hc, Outcome.after]
  · obtain ⟨hc, ho, hU⟩ := h
    refine ⟨o0, wg, hG, Or.inr ⟨hc, _, wf, hF, rfl, ho, ?_⟩⟩
    subst ho
    simp only [hT] at hU
    simp [VaultKVMountReconciler.Reconcile, hG, hF, hT, VaultKVMountReconciler.addFinalizer, ContainsFinalizer, AddFinalizer,
      hc, hU, Outcome.after]

/-- The calls before the convergence of a VaultPolicy reconcile on the Active
path: the fetch and the handle, then, when the fetched manifest lacks the
marker, the successful manifest update that attaches it; convergence then runs
on the server's copy that this update returned. -/
theorem policy_active_entry {W : Type} (env : Env W VaultPolicy) (w w1 : W) (o : VaultPolicy)
    (h : VaultPolicyReconciler.Active env w o w1) :
    ∃ o0 wg, env.Get w = (.found o0, wg) ∧
      ((vaultPolicyFinalizer ∈ o0.ObjectMeta.Finalizers ∧
          o = { o0 with Status := { o0.Status with Valid := false } } ∧
          VaultPolicyReconciler.Reconcile env w =
            (VaultPolicyReconciler.converge env o w1).after [⟨.Get, true⟩, ⟨.ClientFactoryGet o0, true⟩]) ∨
        (vaultPolicyFinalizer ∉ o0.ObjectMeta.Finalizers ∧
          ∃ (sent : VaultPolicy) (wf : W),
            env.ClientFactoryGet o0 wg = (none, wf) ∧
            sent = { o0 with
              Status := { o0.Status with Valid := false }
              ObjectMeta := { o0.ObjectMeta with
                Finalizers := o0.ObjectMeta.Finalizers ++ [vaultPolicyFinalizer] } } ∧
            o = env.Updated sent wf ∧
            VaultPolicyReconciler.Reconcile env w =
              (VaultPolicyReconciler.converge env o w1).after
                [⟨.Get, true⟩, ⟨.ClientFactoryGet o0, true⟩, ⟨.Update sent, true⟩])) := by
  obtain ⟨o0, wg, wf, hG, hF, hT, h | h⟩ := h
  · obtain ⟨hc, rfl, rfl⟩ := h
    refine ⟨o0, wg, hG, Or.inl ⟨hc, rfl, ?_⟩⟩
    simp [VaultPolicyReconciler.Reconcile, hG, hF, hT, VaultPolicyReconciler.addFinalizer, ContainsFinalizer, hc, Outcome.after]
  · obtain ⟨hc, ho, hU⟩ := h
    refine ⟨o0, wg, hG, Or.inr ⟨hc, _, wf, hF, rfl, ho, ?_⟩⟩
    subst ho
    simp only [hT] at hU
    simp [VaultPolicyReconciler.Reconcile, hG, hF, hT, VaultPolicyReconciler.addFinalizer, ContainsFinalizer, AddFinalizer,
      hc, hU, Outcome.after]

/-- C16: for the three kinds, when the fetch of the manifest reports not-found
the reconcile returns no error, has no in-memory object and its log is the
failed `Get` alone: no handle acquisition, no Vault call, no manifest update
and no status update; when the fetch fails with another error the reconcile
returns that error and its log is again the failed `Get` alone. -/
theorem C16_missing_manifest {W U V : Type}
    (env : Env W VaultMount) (w w1 : W) (hNmount : env.Get w = (.notFound, w1))
    (envF : Env W VaultMount) (wF wF1 : W) (emount : Err)
    (hFmount : envF.Get wF = (.failed emount, wF1))
    (kenv : Env U VaultKVMount) (u u1 : U) (hNkv : kenv.Get u = (.notFound, u1))
    (kenvF : Env U VaultKVMount) (uF uF1 : U) (ekv : Err)
    (hFkv : kenvF.Get uF = (.failed ekv, uF1))
    (penv : Env V VaultPolicy) (v v1 : V) (hNpolicy : penv.Get v = (.notFound, v1))
    (penvF : Env V VaultPolicy) (vF vF1 : V) (epolicy : Err)
    (hFpolicy : penvF.Get vF = (.failed epolicy, vF1)) :
    (VaultMountReconciler.Reconcile env w = ⟨none, none, w1, [⟨.Get, false⟩]⟩ ∧
      VaultMountReconciler.Reconcile envF wF = ⟨some emount, none, wF1, [⟨.Get, false⟩]⟩) ∧
    (VaultKVMountReconciler.Reconcile kenv u = ⟨none, none, u1, [⟨.Get, false⟩]⟩ ∧
      VaultKVMountReconciler.Reconcile kenvF uF = ⟨some ekv, none, uF1, [⟨.Get, false⟩]⟩) ∧
    (VaultPolicyReconciler.Reconcile penv v = ⟨none, none, v1, [⟨.Get, false⟩]⟩ ∧
      VaultPolicyReconciler.Reconcile penvF vF = ⟨some epolicy, none, vF1, [⟨.Get, false⟩]⟩) :=
  ⟨⟨mount_reconcile_not_found env w w1 hNmount,
    mount_reconcile_get_failed envF wF wF1 emount hFmount⟩,
   ⟨kv_reconcile_not_found kenv u u1 hNkv,
    kv_reconcile_get_failed kenvF uF uF1 ekv hFkv⟩,
   ⟨policy_reconcile_not_found penv v v1 hNpolicy,
    policy_reconcile_get_failed penvF vF vF1 epolicy hFpolicy⟩⟩

/-- C16, witness: the three kinds over the model, once without a stored
manifest and once with a failing fetch. -/
theorem C16_missing_manifest_witness :
    (VaultMountReconciler.Reconcile (mountModel noFault) (noManifest : World VaultMount) =
        ⟨none, none, noManifest, [⟨.Get, false⟩]⟩ ∧
      VaultMountReconciler.Reconcile (mountModel Call.isGet) (emptyRemote (mountAt "a" "b")) =
        ⟨some "remote error", none, emptyRemote (mountAt "a" "b"), [⟨.Get, false⟩]⟩) ∧
    (VaultKVMountReconciler.Reconcile (kvMountModel noFault) (noManifest : World VaultKVMount) =
        ⟨none, none, noManifest, [⟨.Get, false⟩]⟩ ∧
      VaultKVMountReconciler.Reconcile (kvMountModel Call.isGet) (emptyRemote (kvMountAt "a" "b")) =
        ⟨some "remote error", none, emptyRemote (kvMountAt "a" "b"), [⟨.Get, false⟩]⟩) ∧
    (VaultPolicyReconciler.Reconcile (policyModel noFault) (noManifest : World VaultPolicy) =
        ⟨none, none, noManifest, [⟨.Get, false⟩]⟩ ∧
      VaultPolicyReconciler.Reconcile (policyModel Call.isGet) (emptyRemote (policyAt "a" "b")) =
        ⟨some "remote error", none, emptyRemote (policyAt "a" "b"), [⟨.Get, false⟩]⟩) :=
  C16_missing_manifest
    (mountModel noFault) noManifest noManifest rfl
    (mountModel Call.isGet) (emptyRemote (mountAt "a" "b")) (emptyRemote (mountAt "a" "b")) "remote error" rfl
    (kvMountModel noFault) noManifest noManifest rfl
    (kvMountModel Call.isGet) (emptyRemote (kvMountAt "a" "b")) (emptyRemote (kvMountAt "a" "b")) "remote error" rfl
    (policyModel noFault) noManifest noManifest rfl
    (policyModel Call.isGet) (emptyRemote (policyAt "a" "b")) (emptyRemote (policyAt "a" "b")) "remote error" rfl

/-! ## Handle acquisition failure -/

/-- C17: for the three kinds, when the manifest is found and obtaining the
handle fails, the reconcile returns that error, its log is the fetch, the
failed acquisition and one warning event on the manifest, the in-memory
object is the fetched manifest (no finalizer is added), and the run issues no
Vault call, no manifest update and no status update. -/
theorem C17_handle_failure {W U V : Type}
    (env : Env W VaultMount) (w w1 w2 : W) (o : VaultMount) (emount : Err)
    (hGmount : env.Get w = (.found o, w1))
    (hFmount : env.ClientFactoryGet o w1 = (some emount, w2))
    (kenv : Env U VaultKVMount) (u u1 u2 : U) (k : VaultKVMount) (ekv : Err)
    (hGkv : kenv.Get u = (.found k, u1))
    (hFkv : kenv.ClientFactoryGet k u1 = (some ekv, u2))
    (penv : Env V VaultPolicy) (v v1 v2 : V) (p : VaultPolicy) (epolicy : Err)
    (hGpolicy : penv.Get v = (.found p, v1))
    (hFpolicy : penv.ClientFactoryGet p v1 = (some epolicy, v2)) :
    (VaultMountReconciler.Reconcile env w =
        ⟨some emount, some o, w2,
          [⟨.Get, true⟩, ⟨.ClientFactoryGet o, false⟩,
           ⟨.Eventf o ("Failed to get Vault auth login: " ++ emount), true⟩]⟩ ∧
      remoteEvents (VaultMountReconciler.Reconcile env w).log = [] ∧
      manifestUpdates (VaultMountReconciler.Reconcile env w).log = [] ∧
      statusUpdates (VaultMountReconciler.Reconcile env w).log = []) ∧
    (VaultKVMountReconciler.Reconcile kenv u =
        ⟨some ekv, some k, u2,
          [⟨.Get, true⟩, ⟨.ClientFactoryGet k, false⟩,
           ⟨.Eventf k ("Failed to get Vault auth login: " ++ ekv), true⟩]⟩ ∧
      remoteEvents (VaultKVMountReconciler.Reconcile kenv u).log = [] ∧
      manifestUpdates (VaultKVMountReconciler.Reconcile kenv u).log = [] ∧
      statusUpdates (VaultKVMountReconciler.Reconcile kenv u).log = []) ∧
    (VaultPolicyReconciler.Reconcile penv v =
        ⟨some epolicy, some p, v2,
          [⟨.Get, true⟩, ⟨.ClientFactoryGet p, false⟩,
           ⟨.Eventf p ("Failed to get Vault auth login: " ++ epolicy), true⟩]⟩ ∧
      remoteEvents (VaultPolicyReconciler.Reconcile penv v).log = [] ∧
      manifestUpdates (VaultPolicyReconciler.Reconcile penv v).log = [] ∧
      statusUpdates (VaultPolicyReconciler.Reconcile penv v).log = []) := by
  refine ⟨?_, ?_, ?_⟩
  · rw [mount_reconcile_factory_failed env w w1 w2 o emount hGmount hFmount]
    exact ⟨rfl, rfl, rfl, rfl⟩
  · rw [kv_reconcile_factory_failed kenv u u1 u2 k ekv hGkv hFkv]
    exact ⟨rfl, rfl, rfl, rfl⟩
  · rw [policy_reconcile_factory_failed penv v v1 v2 p epolicy hGpolicy hFpolicy]
    exact ⟨rfl, rfl, rfl, rfl⟩

/-- C17, witness: the three kinds over the model with a failing handle
acquisition. -/
theorem C17_handle_failure_witness :
    (VaultMountReconciler.Reconcile (mountModel Call.isClientFactoryGet) (emptyRemote (mountAt "a" "b")) =
        ⟨some "remote error", some (mountAt "a" "b"), (emptyRemote (mountAt "a" "b")),
          [⟨.Get, true⟩, ⟨.ClientFactoryGet (mountAt "a" "b"), false⟩,
           ⟨.Eventf (mountAt "a" "b") ("Failed to get Vault auth login: " ++ "remote error"), true⟩]⟩ ∧
      remoteEvents (VaultMountReconciler.Reconcile (mountModel Call.isClientFactoryGet) (emptyRemote (mountAt "a" "b"))).log = [] ∧
      manifestUpdates (VaultMountReconciler.Reconcile (mountModel Call.isClientFactoryGet) (emptyRemote (mountAt "a" "b"))).log = [] ∧
      statusUpdates (VaultMountReconciler.Reconcile (mountModel Call.isClientFactoryGet) (emptyRemote (mountAt "a" "b"))).log = []) ∧
    (VaultKVMountReconciler.Reconcile (kvMountModel Call.isClientFactoryGet) (emptyRemote (kvMountAt "a" "b")) =
        ⟨some "remote error", some (kvMountAt "a" "b"), (emptyRemote (kvMountAt "a" "b")),
          [⟨.Get, true⟩, ⟨.ClientFactoryGet (kvMountAt "a" "b"), false⟩,
           ⟨.Eventf (kvMountAt "a" "b") ("Failed to get Vault auth login: " ++ "remote error"), true⟩]⟩ ∧
      remoteEvents (VaultKVMountReconciler.Reconcile (kvMountModel Call.isClientFactoryGet) (emptyRemote (kvMountAt "a" "b"))).log = [] ∧
      manifestUpdates (VaultKVMountReconciler.Reconcile (kvMountModel Call.isClientFactoryGet) (emptyRemote (kvMountAt "a" "b"))).log = [] ∧
      statusUpdates (VaultKVMountReconciler.Reconcile (kvMountModel Call.isClientFactoryGet) (emptyRemote (kvMountAt "a" "b"))).log = []) ∧
    (VaultPolicyReconciler.Reconcile (policyModel Call.isClientFactoryGet) (emptyRemote (policyAt "a" "b")) =
        ⟨some "remote error", some (policyAt "a" "b"), (emptyRemote (policyAt "a" "b")),
          [⟨.Get, true⟩, ⟨.ClientFactoryGet (policyAt "a" "b"), false⟩,
           ⟨.Eventf (policyAt "a" "b") ("Failed to get Vault auth login: " ++ "remote error"), true⟩]⟩ ∧
      remoteEvents (VaultPolicyReconciler.Reconcile (policyModel Call.isClientFactoryGet) (emptyRemote (policyAt "a" "b"))).log = [] ∧
      manifestUpdates (VaultPolicyReconciler.Reconcile (policyModel Call.isClientFactoryGet) (emptyRemote (policyAt "a" "b"))).log = [] ∧
      statusUpdates (VaultPolicyReconciler.Reconcile (policyModel Call.isClientFactoryGet) (emptyRemote (policyAt "a" "b"))).log = []) :=
  C17_handle_failure
    (mountModel Call.isClientFactoryGet) (emptyRemote (mountAt "a" "b")) (emptyRemote (mountAt "a" "b"))
    (emptyRemote (mountAt "a" "b")) (mountAt "a" "b") "remote error" rfl rfl
    (kvMountModel Call.isClientFactoryGet) (emptyRemote (kvMountAt "a" "b")) (emptyRemote (kvMountAt "a" "b"))
    (emptyRemote (kvMountAt "a" "b")) (kvMountAt "a" "b") "remote error" rfl rfl
    (policyModel Call.isClientFactoryGet) (emptyRemote (policyAt "a" "b")) (emptyRemote (policyAt "a" "b"))
    (emptyRemote (policyAt "a" "b")) (policyAt "a" "b") "remote error" rfl rfl

/-! ## No double-add of the finalizer -/

/-- C20: `addFinalizer` of the three kinds, for a finalizer list that holds the
marker of the kind at most once. If the list holds the marker, the object and
the world are left as they are and no call is issued, and the list holds the
marker exactly once; otherwise the marker is appended and exactly one manifest
update, of the object with the marker, is issued: the list of the object sent
holds the marker exactly once and every other finalizer as often as before,
and the in-memory object is then the server's copy when the update succeeded
and the object sent when it failed. -/
theorem C20_no_double_add {W U V : Type}
    (env : Env W VaultMount) (w : W) (o : VaultMount)
    (hmount : o.ObjectMeta.Finalizers.count vaultMountFinalizer ≤ 1)
    (kenv : Env U VaultKVMount) (u : U) (k : VaultKVMount)
    (hkv : k.ObjectMeta.Finalizers.count vaultKVMountFinalizer ≤ 1)
    (penv : Env V VaultPolicy) (v : V) (p : VaultPolicy)
    (hpolicy : p.ObjectMeta.Finalizers.count vaultPolicyFinalizer ≤ 1) :
    ((vaultMountFinalizer ∈ o.ObjectMeta.Finalizers →
        VaultMountReconciler.addFinalizer env o w = (none, o, w, []) ∧
        o.ObjectMeta.Finalizers.count vaultMountFinalizer = 1) ∧
      (vaultMountFinalizer ∉ o.ObjectMeta.Finalizers →
        ∃ o1 : VaultMount,
          o1 = { o with ObjectMeta := { o.ObjectMeta with
            Finalizers := o.ObjectMeta.Finalizers ++ [vaultMountFinalizer] } } ∧
          VaultMountReconciler.addFinalizer env o w =
            ((env.Update o1 w).1,
              (if (env.Update o1 w).1.isNone then env.Updated o1 w else o1),
              (env.Update o1 w).2,
              [⟨.Update o1, (env.Update o1 w).1.isNone⟩]) ∧
          o1.ObjectMeta.Finalizers.count vaultMountFinalizer = 1 ∧
          ∀ f, f ≠ vaultMountFinalizer →
            o1.ObjectMeta.Finalizers.count f = o.ObjectMeta.Finalizers.count f)) ∧
    ((vaultKVMountFinalizer ∈ k.ObjectMeta.Finalizers →
        VaultKVMountReconciler.addFinalizer kenv k u = (none, k, u, []) ∧
        k.ObjectMeta.Finalizers.count vaultKVMountFinalizer = 1) ∧
      (vaultKVMountFinalizer ∉ k.ObjectMeta.Finalizers →
        ∃ o1 : VaultKVMount,
          o1 = { k with ObjectMeta := { k.ObjectMeta with
            Finalizers := k.ObjectMeta.Finalizers ++ [vaultKVMountFinalizer] } } ∧
          VaultKVMountReconciler.addFinalizer kenv k u =
            ((kenv.Update o1 u).1,
              (if (kenv.Update o1 u).1.isNone then kenv.Updated o1 u else o1),
              (kenv.Update o1 u).2,
              [⟨.Update o1, (kenv.Update o1 u).1.isNone⟩]) ∧
          o1.ObjectMeta.Finalizers.count vaultKVMountFinalizer = 1 ∧
          ∀ f, f ≠ vaultKVMountFinalizer →
            o1.ObjectMeta.Finalizers.count f = k.ObjectMeta.Finalizers.count f)) ∧
    ((vaultPolicyFinalizer ∈ p.ObjectMeta.Finalizers →
        VaultPolicyReconciler.addFinalizer penv p v = (none, p, v, []) ∧
        p.ObjectMeta.Finalizers.count vaultPolicyFinalizer = 1) ∧
      (vaultPolicyFinalizer ∉ p.ObjectMeta.Finalizers →
        ∃ o1 : VaultPolicy,
          o1 = { p with ObjectMeta := { p.ObjectMeta with
            Finalizers := p.ObjectMeta.Finalizers ++ [vaultPolicyFinalizer] } } ∧
          VaultPolicyReconciler.addFinalizer penv p v =
            ((penv.Update o1 v).1,
              (if (penv.Update o1 v).1.isNone then penv.Updated o1 v else o1),
              (penv.Update o1 v).2,
              [⟨.Update o1, (penv.Update o1 v).1.isNone⟩]) ∧
          o1.ObjectMeta.Finalizers.count vaultPolicyFinalizer = 1 ∧
          ∀ f, f ≠ vaultPolicyFinalizer →
            o1.ObjectMeta.Finalizers.count f = p.ObjectMeta.Finalizers.count f)) := by
  refine ⟨?_, ?_, ?_⟩
  · constructor
    · intro hc
      refine ⟨by simp [VaultMountReconciler.addFinalizer, ContainsFinalizer, hc], ?_⟩
      have := List.count_pos_iff.2 hc
      omega
    · intro hc
      refine ⟨_, rfl, ?_, ?_, ?_⟩
      · rcases hU : env.Update { o with ObjectMeta := { o.ObjectMeta with
          Finalizers := o.ObjectMeta.Finalizers ++ [vaultMountFinalizer] } } w with ⟨_ | e, w1⟩ <;>
        simp [VaultMountReconciler.addFinalizer, ContainsFinalizer, AddFinalizer, hc, hU]
      · simp [List.count_append, List.count_eq_zero_of_not_mem hc]
      · intro f hf
        simp [List.count_append, List.count_singleton, Ne.symm hf]
  · constructor
    · intro hc
      refine ⟨by simp [VaultKVMountReconciler.addFinalizer, ContainsFinalizer, hc], ?_⟩
      have := List.count_pos_iff.2 hc
      omega
    · intro hc
      refine ⟨_, rfl, ?_, ?_, ?_⟩
      · rcases hU : kenv.Update { k with ObjectMeta := { k.ObjectMeta with
          Finalizers := k.ObjectMeta.Finalizers ++ [vaultKVMountFinalizer] } } u with ⟨_ | e, w1⟩ <;>
        simp [VaultKVMountReconciler.addFinalizer, ContainsFinalizer, AddFinalizer, hc, hU]
      · simp [List.count_append, List.count_eq_zero_of_not_mem hc]
      · intro f hf
        simp [List.count_append, List.count_singleton, Ne.symm hf]
  · constructor
    · intro hc
      refine ⟨by simp [VaultPolicyReconciler.addFinalizer, ContainsFinalizer, hc], ?_⟩
      have := List.count_pos_iff.2 hc
      omega
    · intro hc
      refine ⟨_, rfl, ?_, ?_, ?_⟩
      · rcases hU : penv.Update { p with ObjectMeta := { p.ObjectMeta with
          Finalizers := p.ObjectMeta.Finalizers ++ [vaultPolicyFinalizer] } } v with ⟨_ | e, w1⟩ <;>
        simp [VaultPolicyReconciler.addFinalizer, ContainsFinalizer, AddFinalizer, hc, hU]
      · simp [List.count_append, List.count_eq_zero_of_not_mem hc]
      · intro f hf
        simp [List.count_append, List.count_singleton, Ne.symm hf]

/-- C20, witness: the three kinds over the model, from a finalizer list that
holds a foreign finalizer only. -/
theorem C20_no_double_add_witness :
    ((vaultMountFinalizer ∈ foreignOnlyMount.ObjectMeta.Finalizers →
        VaultMountReconciler.addFinalizer (mountModel noFault) foreignOnlyMount (emptyRemote foreignOnlyMount) = (none, foreignOnlyMount, (emptyRemote foreignOnlyMount), []) ∧
        foreignOnlyMount.ObjectMeta.Finalizers.count vaultMountFinalizer = 1) ∧
      (vaultMountFinalizer ∉ foreignOnlyMount.ObjectMeta.Finalizers →
        ∃ o1 : VaultMount,
          o1 = { foreignOnlyMount with ObjectMeta := { foreignOnlyMount.ObjectMeta with
            Finalizers := foreignOnlyMount.ObjectMeta.Finalizers ++ [vaultMountFinalizer] } } ∧
          VaultMountReconciler.addFinalizer (mountModel noFault) foreignOnlyMount (emptyRemote foreignOnlyMount) =
            (((mountModel noFault).Update o1 (emptyRemote foreignOnlyMount)).1,
              (if ((mountModel noFault).Update o1 (emptyRemote foreignOnlyMount)).1.isNone then (mountModel noFault).Updated o1 (emptyRemote foreignOnlyMount) else o1),
              ((mountModel noFault).Update o1 (emptyRemote foreignOnlyMount)).2,
              [⟨.Update o1, ((mountModel noFault).Update o1 (emptyRemote foreignOnlyMount)).1.isNone⟩]) ∧
          o1.ObjectMeta.Finalizers.count vaultMountFinalizer = 1 ∧
          ∀ f, f ≠ vaultMountFinalizer →
            o1.ObjectMeta.Finalizers.count f = foreignOnlyMount.ObjectMeta.Finalizers.count f)) ∧
    ((vaultKVMountFinalizer ∈ foreignOnlyKVMount.ObjectMeta.Finalizers →
        VaultKVMountReconciler.addFinalizer (kvMountModel noFault) foreignOnlyKVMount (emptyRemote foreignOnlyKVMount) = (none, foreignOnlyKVMount, (emptyRemote foreignOnlyKVMount), []) ∧
        foreignOnlyKVMount.ObjectMeta.Finalizers.count vaultKVMountFinalizer = 1) ∧
      (vaultKVMountFinalizer ∉ foreignOnlyKVMount.ObjectMeta.Finalizers →
        ∃ o1 : VaultKVMount,
          o1 = { foreignOnlyKVMount with ObjectMeta := { foreignOnlyKVMount.ObjectMeta with
            Finalizers := foreignOnlyKVMount.ObjectMeta.Finalizers ++ [vaultKVMountFinalizer] } } ∧
          VaultKVMountReconciler.addFinalizer (kvMountModel noFault) foreignOnlyKVMount (emptyRemote foreignOnlyKVMount) =
            (((kvMountModel noFault).Update o1 (emptyRemote foreignOnlyKVMount)).1,
              (if ((kvMountModel noFault).Update o1 (emptyRemote foreignOnlyKVMount)).1.isNone then (kvMountModel noFault).Updated o1 (emptyRemote foreignOnlyKVMount) else o1),
              ((kvMountModel noFault).Update o1 (emptyRemote foreignOnlyKVMount)).2,
              [⟨.Update o1, ((kvMountModel noFault).Update o1 (emptyRemote foreignOnlyKVMount)).1.isNone⟩]) ∧
          o1.ObjectMeta.Finalizers.count vaultKVMountFinalizer = 1 ∧
          ∀ f, f ≠ vaultKVMountFinalizer →
            o1.ObjectMeta.Finalizers.count f = foreignOnlyKVMount.ObjectMeta.Finalizers.count f)) ∧
    ((vaultPolicyFinalizer ∈ foreignOnlyPolicy.ObjectMeta.Finalizers →
        VaultPolicyReconciler.addFinalizer (policyModel noFault) foreignOnlyPolicy (emptyRemote foreignOnlyPolicy) = (none, foreignOnlyPolicy, (emptyRemote foreignOnlyPolicy), []) ∧
        foreignOnlyPolicy.ObjectMeta.Finalizers.count vaultPolicyFinalizer = 1) ∧
      (vaultPolicyFinalizer ∉ foreignOnlyPolicy.ObjectMeta.Finalizers →
        ∃ o1 : VaultPolicy,
          o1 = { foreignOnlyPolicy with ObjectMeta := { foreignOnlyPolicy.ObjectMeta with
            Finalizers := foreignOnlyPolicy.ObjectMeta.Finalizers ++ [vaultPolicyFinalizer] } } ∧
          VaultPolicyReconciler.addFinalizer (policyModel noFault) foreignOnlyPolicy (emptyRemote foreignOnlyPolicy) =
            (((policyModel noFault).Update o1 (emptyRemote foreignOnlyPolicy)).1,
              (if ((policyModel noFault).Update o1 (emptyRemote foreignOnlyPolicy)).1.isNone then (policyModel noFault).Updated o1 (emptyRemote foreignOnlyPolicy) else o1),
              ((policyModel noFault).Update o1 (emptyRemote foreignOnlyPolicy)).2,
              [⟨.Update o1, ((policyModel noFault).Update o1 (emptyRemote foreignOnlyPolicy)).1.isNone⟩]) ∧
          o1.ObjectMeta.Finalizers.count vaultPolicyFinalizer = 1 ∧
          ∀ f, f ≠ vaultPolicyFinalizer →
            o1.ObjectMeta.Finalizers.count f = foreignOnlyPolicy.ObjectMeta.Finalizers.count f)) :=
  C20_no_double_add
    (mountModel noFault) (emptyRemote foreignOnlyMount) foreignOnlyMount (by decide)
    (kvMountModel noFault) (emptyRemote foreignOnlyKVMount) foreignOnlyKVMount (by decide)
    (policyModel noFault) (emptyRemote foreignOnlyPolicy) foreignOnlyPolicy (by decide)

/-! ## Failure atomicity of the status -/

/-- A run without status update that leaves the reading as it was is atomic
on the status. -/
theorem statusAtomic_quiet {W O S : Type} (f : W → S) (w : W) (r : Outcome W O)
    (h1 : r.err ≠ none → ∃ e ∈ r.log, e.ok = false)
    (h2 : statusUpdates r.log = []) (h3 : f r.world = f w) : StatusAtomic f w r :=
  ⟨h1, fun _ => ⟨h2, h3⟩⟩

/-- Successful calls other than status updates before an atomic run keep it
atomic. -/
theorem statusAtomic_after {W O S : Type} (f : W → S) (w w1 : W) (r : Outcome W O)
    (pre : List (Event O)) (hpre : ∀ e ∈ pre, e.isStatusUpdate = false ∧ e.ok = true)
    (hw : f w1 = f w) (h : StatusAtomic f w1 r) : StatusAtomic f w (r.after pre) := by
  refine ⟨fun he => ?_, fun hc => ?_⟩
  · obtain ⟨e, hm, hk⟩ := h.1 he
    exact ⟨e, List.mem_append_right pre hm, hk⟩
  · obtain ⟨e, hm, hs, hk⟩ := hc
    rw [after_log] at hm
    rcases List.mem_append.1 hm with hm | hm
    · rw [(hpre e hm).2] at hk
      exact absurd hk (by simp)
    · obtain ⟨h2, h3⟩ := h.2 ⟨e, hm, hs, hk⟩
      refine ⟨?_, h3.trans hw⟩
      rw [after_log, statusUpdates, List.filter_append]
      rw [statusUpdates] at h2
      rw [h2, filter_pre_nil Event.isStatusUpdate pre (fun e he => (hpre e he).1)]
      rfl

/-- The status step of the VaultMount kind is atomic on the status. -/
theorem mount_persist_atomic {W S : Type} (env : Env W VaultMount) (o : VaultMount) (w : W)
    (f : W → S) : StatusAtomic f w (VaultMountReconciler.persist env o w) := by
  refine ⟨fun he => ?_, fun hc => ?_⟩
  · refine ⟨⟨.StatusUpdate (VaultMountReconciler.markValid o), (VaultMountReconciler.persist env o w).err.isNone⟩, ?_, ?_⟩
    · rw [mount_persist_log]; exact List.mem_singleton.2 rfl
    · cases h : (VaultMountReconciler.persist env o w).err
      · exact absurd h he
      · rfl
  · obtain ⟨e, hm, hs, -⟩ := hc
    rw [mount_persist_log, List.mem_singleton] at hm
    rw [hm] at hs
    exact absurd hs (by simp [Event.isStatusUpdate, Call.isStatusUpdate])

/-- The status step of the VaultKVMount kind is atomic on the status. -/
theorem kv_persist_atomic {W S : Type} (env : Env W VaultKVMount) (o : VaultKVMount) (w : W)
    (f : W → S) : StatusAtomic f w (VaultKVMountReconciler.persist env o w) := by
  refine ⟨fun he => ?_, fun hc => ?_⟩
  · refine ⟨⟨.StatusUpdate (VaultKVMountReconciler.markValid o), (VaultKVMountReconciler.persist env o w).err.isNone⟩, ?_, ?_⟩
    · rw [kv_persist_log]; exact List.mem_singleton.2 rfl
    · cases h : (VaultKVMountReconciler.persist env o w).err
      · exact absurd h he
      · rfl
  · obtain ⟨e, hm, hs, -⟩ := hc
    rw [kv_persist_log, List.mem_singleton] at hm
    rw [hm] at hs
    exact absurd hs (by simp [Event.isStatusUpdate, Call.isStatusUpdate])

/-- The status step of the VaultPolicy kind is atomic on the status. -/
theorem policy_persist_atomic {W S : Type} (env : Env W VaultPolicy) (o : VaultPolicy) (w : W)
    (f : W → S) : StatusAtomic f w (VaultPolicyReconciler.persist env o w) := by
  refine ⟨fun he => ?_, fun hc => ?_⟩
  · refine ⟨⟨.StatusUpdate (VaultPolicyReconciler.markValid o), (VaultPolicyReconciler.persist env o w).err.isNone⟩, ?_, ?_⟩
    · rw [policy_persist_log]; exact List.mem_singleton.2 rfl
    · cases h : (VaultPolicyReconciler.persist env o w).err
      · exact absurd h he
      · rfl
  · obtain ⟨e, hm, hs, -⟩ := hc
    rw [policy_persist_log, List.mem_singleton] at hm
    rw [hm] at hs
    exact absurd hs (by simp [Event.isStatusUpdate, Call.isStatusUpdate])

/-- The rename cleanup of the mount kind is atomic on the status. -/
theorem mount_cleanup_atomic {W S : Type} (env : Env W VaultMount) (o : VaultMount) (w : W)
    (f : W → S) (hf : env.Preserves f) :
    StatusAtomic f w (VaultMountReconciler.cleanup env o w) := by
  cases hr : VaultMountReconciler.renamed o
  · rw [mount_cleanup_skip env o w hr]
    exact mount_persist_atomic env o w f
  · rcases hD : env.Delete ("/sys/mounts/" ++ o.Status.Path) w with ⟨_ | e, w1⟩
    · have h1 : f w1 = f w := by simpa [hD] using hf.Delete ("/sys/mounts/" ++ o.Status.Path) w
      rw [mount_cleanup_ok env o w w1 hr hD]
      exact statusAtomic_after f w w1 _ _ (by simp [Event.isStatusUpdate, Call.isStatusUpdate])
        h1 (mount_persist_atomic env o w1 f)
    · have h1 : f w1 = f w := by simpa [hD] using hf.Delete ("/sys/mounts/" ++ o.Status.Path) w
      rw [mount_cleanup_fail env o w w1 e hr hD]
      exact statusAtomic_quiet f w _ (fun _ => ⟨_, List.mem_singleton.2 rfl, rfl⟩)
        (by simp [statusUpdates, Event.isStatusUpdate, Call.isStatusUpdate]) h1

/-- The convergence of the mount kind is atomic on the status. -/
theorem mount_converge_atomic {W S : Type} (env : Env W VaultMount) (o : VaultMount) (w : W)
    (f : W → S) (hf : env.Preserves f) :
    StatusAtomic f w (VaultMountReconciler.converge env o w) := by
  rcases hL : env.ListMounts w with ⟨e | mounts, w2⟩
  · have h2 : f w2 = f w := by simpa [hL] using hf.ListMounts w
    rw [mount_converge_list_fail env o w w2 e hL]
    exact statusAtomic_quiet f w _ (fun _ => ⟨_, List.mem_singleton.2 rfl, rfl⟩)
      (by simp [statusUpdates, Event.isStatusUpdate, Call.isStatusUpdate]) h2
  · have h2 : f w2 = f w := by simpa [hL] using hf.ListMounts w
    cases hm : (mounts (o.Spec.Path ++ "/")).isSome
    · have hm1 : mounts (o.Spec.Path ++ "/") = none := by simpa using hm
      rcases hM : env.Mount o.Spec.Path (VaultMountReconciler.mountInput o) w2 with ⟨_ | e, w3⟩
      · have h3 : f w3 = f w := by
          rw [← h2]; simpa [hM] using hf.Mount o.Spec.Path (VaultMountReconciler.mountInput o) w2
        rw [mount_converge_mount_ok env o w w2 w3 mounts hL hm1 hM]
        exact statusAtomic_after f w w3 _ _
          (by simp [Event.isStatusUpdate, Call.isStatusUpdate]) h3
          (mount_cleanup_atomic env o w3 f hf)
      · have h3 : f w3 = f w := by
          rw [← h2]; simpa [hM] using hf.Mount o.Spec.Path (VaultMountReconciler.mountInput o) w2
        rw [mount_converge_mount_fail env o w w2 w3 mounts e hL hm1 hM]
        exact statusAtomic_quiet f w _ (fun _ => ⟨⟨.Mount o.Spec.Path
            (VaultMountReconciler.mountInput o), false⟩, by simp, rfl⟩)
          (by simp [statusUpdates, Event.isStatusUpdate, Call.isStatusUpdate]) h3
    · rcases hM : env.TuneMount o.Spec.Path (VaultMountReconciler.config o) w2 with ⟨_ | e, w3⟩
      · have h3 : f w3 = f w := by
          rw [← h2]; simpa [hM] using hf.TuneMount o.Spec.Path (VaultMountReconciler.config o) w2
        rw [mount_converge_tune_ok env o w w2 w3 mounts hL hm hM]
        exact statusAtomic_after f w w3 _ _
          (by simp [Event.isStatusUpdate, Call.isStatusUpdate]) h3
          (mount_cleanup_atomic env o w3 f hf)
      · have h3 : f w3 = f w := by
          rw [← h2]; simpa [hM] using hf.TuneMount o.Spec.Path (VaultMountReconciler.config o) w2
        rw [mount_converge_tune_fail env o w w2 w3 mounts e hL hm hM]
        exact statusAtomic_quiet f w _ (fun _ => ⟨⟨.TuneMount o.Spec.Path
            (VaultMountReconciler.config o), false⟩, by simp, rfl⟩)
          (by simp [statusUpdates, Event.isStatusUpdate, Call.isStatusUpdate]) h3

/-- The convergence of the KV mount kind is atomic on the status. -/
theorem kv_converge_atomic {W S : Type} (env : Env W VaultKVMount) (o : VaultKVMount) (w : W)
    (f : W → S) (hf : env.Preserves f) :
    StatusAtomic f w (VaultKVMountReconciler.converge env o w) := by
  rcases hRd : env.Read ("/sys/mounts/" ++ o.Spec.Path) w with ⟨e | (_ | sec), w1⟩
  · have h1 : f w1 = f w := by simpa [hRd] using hf.Read ("/sys/mounts/" ++ o.Spec.Path) w
    rw [kv_converge_read_fail env o w w1 e hRd]
    exact statusAtomic_quiet f w _ (fun _ => by simp)
              (by simp [statusUpdates, Event.isStatusUpdate, Call.isStatusUpdate]) h1
  · have h1 : f w1 = f w := by simpa [hRd] using hf.Read ("/sys/mounts/" ++ o.Spec.Path) w
    rcases hW : env.Write ("/sys/mounts/" ++ o.Spec.Path)
      (VaultKVMountReconciler.createPayload o) w1 with ⟨_ | e, w2⟩
    · have h2 : f w2 = f w := by
        rw [← h1]
        simpa [hW] using hf.Write ("/sys/mounts/" ++ o.Spec.Path)
          (VaultKVMountReconciler.createPayload o) w1
      cases hr : VaultKVMountReconciler.renamed o
      · rw [kv_converge_write_skip env o w w1 w2 hRd hW hr]
        exact statusAtomic_after f w w2 _ _ (by simp [Event.isStatusUpdate, Call.isStatusUpdate]) h2 (kv_persist_atomic env o w2 f)
      · rcases hD : env.Delete ("/sys/mounts/" ++ o.Status.Path) w2 with ⟨_ | e, w3⟩
        · have h3 : f w3 = f w := by
            rw [← h2]; simpa [hD] using hf.Delete ("/sys/mounts/" ++ o.Status.Path) w2
          rw [kv_converge_write_delete_ok env o w w1 w2 w3 hRd hW hr hD]
          exact statusAtomic_after f w w3 _ _ (by simp [Event.isStatusUpdate, Call.isStatusUpdate]) h3 (kv_persist_atomic env o w3 f)
        · have h3 : f w3 = f w := by
            rw [← h2]; simpa [hD] using hf.Delete ("/sys/mounts/" ++ o.Status.Path) w2
          rw [kv_converge_write_delete_fail env o w w1 w2 w3 e hRd hW hr hD]
          exact statusAtomic_quiet f w _ (fun _ => by simp)
              (by simp [statusUpdates, Event.isStatusUpdate, Call.isStatusUpdate]) h3
    · have h2 : f w2 = f w := by
        rw [← h1]
        simpa [hW] using hf.Write ("/sys/mounts/" ++ o.Spec.Path)
          (VaultKVMountReconciler.createPayload o) w1
      rw [kv_converge_write_fail env o w w1 w2 e hRd hW]
      exact statusAtomic_quiet f w _ (fun _ => by simp)
              (by simp [statusUpdates, Event.isStatusUpdate, Call.isStatusUpdate]) h2
  · have h1 : f w1 = f w := by simpa [hRd] using hf.Read ("/sys/mounts/" ++ o.Spec.Path) w
    rw [kv_converge_present env o w w1 sec hRd]
    exact statusAtomic_after f w w1 _ _ (by simp [Event.isStatusUpdate, Call.isStatusUpdate]) h1 (kv_persist_atomic env o w1 f)

/-- The convergence of the policy kind is atomic on the status. -/
theorem policy_converge_atomic {W S : Type} (env : Env W VaultPolicy) (o : VaultPolicy) (w : W)
    (f : W → S) (hf : env.Preserves f) :
    StatusAtomic f w (VaultPolicyReconciler.converge env o w) := by
  rcases hW : env.Write ("/sys/policies/acl/" ++ o.ObjectMeta.Name)
    (VaultPolicyReconciler.writePayload o) w with ⟨_ | e, w1⟩
  · have h1 : f w1 = f w := by
      simpa [hW] using hf.Write ("/sys/policies/acl/" ++ o.ObjectMeta.Name)
        (VaultPolicyReconciler.writePayload o) w
    cases hr : VaultPolicyReconciler.renamed o
    · rw [policy_converge_write_skip env o w w1 hW hr]
      exact statusAtomic_after f w w1 _ _ (by simp [Event.isStatusUpdate, Call.isStatusUpdate]) h1 (policy_persist_atomic env o w1 f)
    · rcases hD : env.Delete ("/sys/policies/acl/" ++ o.Status.Name) w1 with ⟨_ | e, w2⟩
      · have h2 : f w2 = f w := by
          rw [← h1]; simpa [hD] using hf.Delete ("/sys/policies/acl/" ++ o.Status.Name) w1
        rw [policy_converge_write_delete_ok env o w w1 w2 hW hr hD]
        exact statusAtomic_after f w w2 _ _ (by simp [Event.isStatusUpdate, Call.isStatusUpdate]) h2 (policy_persist_atomic env o w2 f)
      · have h2 : f w2 = f w := by
          rw [← h1]; simpa [hD] using hf.Delete ("/sys/policies/acl/" ++ o.Status.Name) w1
        rw [policy_converge_write_delete_fail env o w w1 w2 e hW hr hD]
        exact statusAtomic_quiet f w _ (fun _ => by simp)
              (by simp [statusUpdates, Event.isStatusUpdate, Call.isStatusUpdate]) h2
  · have h1 : f w1 = f w := by
      simpa [hW] using hf.Write ("/sys/policies/acl/" ++ o.ObjectMeta.Name)
        (VaultPolicyReconciler.writePayload o) w
    rw [policy_converge_write_fail env o w w1 e hW]
    exact statusAtomic_quiet f w _ (fun _ => by simp)
              (by simp [statusUpdates, Event.isStatusUpdate, Call.isStatusUpdate]) h1

/-- The finalizer handling of the VaultMount kind is atomic on the status. -/
theorem mount_handleFinalizer_atomic {W S : Type} (env : Env W VaultMount) (o : VaultMount) (w : W)
    (f : W → S) (hf : env.Preserves f) :
    StatusAtomic f w (VaultMountReconciler.handleFinalizer env o w) := by
  by_cases hc : vaultMountFinalizer ∈ o.ObjectMeta.Finalizers
  · rcases hD : env.Delete o.Spec.Path w with ⟨_ | e, w1⟩
    · have h1 : f w1 = f w := by simpa [hD] using hf.Delete o.Spec.Path w
      rw [mount_handleFinalizer_delete_ok env o w w1 hc hD]
      refine statusAtomic_quiet f w _ (fun he => ?_)
        (by simp [statusUpdates, Event.isStatusUpdate, Call.isStatusUpdate])
        ((hf.Update _ w1).trans h1)
      refine ⟨_, List.mem_cons_of_mem _ (List.mem_singleton.2 rfl), ?_⟩
      cases h : (env.Update
        { o with ObjectMeta := RemoveFinalizer o.ObjectMeta vaultMountFinalizer } w1).1
      · exact absurd h he
      · rfl
    · have h1 : f w1 = f w := by simpa [hD] using hf.Delete o.Spec.Path w
      rw [mount_handleFinalizer_delete_fail env o w w1 e hc hD]
      exact statusAtomic_quiet f w _ (fun _ => by simp)
              (by simp [statusUpdates, Event.isStatusUpdate, Call.isStatusUpdate]) h1
  · rw [mount_handleFinalizer_absent env o w hc]
    exact statusAtomic_quiet f w _ (fun he => absurd rfl he) rfl rfl

/-- The finalizer handling of the VaultKVMount kind is atomic on the status. -/
theorem kv_handleFinalizer_atomic {W S : Type} (env : Env W VaultKVMount) (o : VaultKVMount) (w : W)
    (f : W → S) (hf : env.Preserves f) :
    StatusAtomic f w (VaultKVMountReconciler.handleFinalizer env o w) := by
  by_cases hc : vaultKVMountFinalizer ∈ o.ObjectMeta.Finalizers
  · rcases hD : env.Delete o.Spec.Path w with ⟨_ | e, w1⟩
    · have h1 : f w1 = f w := by simpa [hD] using hf.Delete o.Spec.Path w
      rw [kv_handleFinalizer_delete_ok env o w w1 hc hD]
      refine statusAtomic_quiet f w _ (fun he => ?_)
        (by simp [statusUpdates, Event.isStatusUpdate, Call.isStatusUpdate])
        ((hf.Update _ w1).trans h1)
      refine ⟨_, List.mem_cons_of_mem _ (List.mem_singleton.2 rfl), ?_⟩
      cases h : (env.Update
        { o with ObjectMeta := RemoveFinalizer o.ObjectMeta vaultKVMountFinalizer } w1).1
      · exact absurd h he
      · rfl
    · have h1 : f w1 = f w := by simpa [hD] using hf.Delete o.Spec.Path w
      rw [kv_handleFinalizer_delete_fail env o w w1 e hc hD]
      exact statusAtomic_quiet f w _ (fun _ => by simp)
              (by simp [statusUpdates, Event.isStatusUpdate, Call.isStatusUpdate]) h1
  · rw [kv_handleFinalizer_absent env o w hc]
    exact statusAtomic_quiet f w _ (fun he => absurd rfl he) rfl rfl

/-- The finalizer handling of the VaultPolicy kind is atomic on the status. -/
theorem policy_handleFinalizer_atomic {W S : Type} (env : Env W VaultPolicy) (o : VaultPolicy) (w : W)
    (f : W → S) (hf : env.Preserves f) :
    StatusAtomic f w (VaultPolicyReconciler.handleFinalizer env o w) := by
  by_cases hc : vaultPolicyFinalizer ∈ o.ObjectMeta.Finalizers
  · rcases hD : env.Delete ("/sys/policies/acl/" ++ o.ObjectMeta.Name) w with ⟨_ | e, w1⟩
    · have h1 : f w1 = f w := by simpa [hD] using hf.Delete ("/sys/policies/acl/" ++ o.ObjectMeta.Name) w
      rw [policy_handleFinalizer_delete_ok env o w w1 hc hD]
      refine statusAtomic_quiet f w _ (fun he => ?_)
        (by simp [statusUpdates, Event.isStatusUpdate, Call.isStatusUpdate])
        ((hf.Update _ w1).trans h1)
      refine ⟨_, List.mem_cons_of_mem _ (List.mem_singleton.2 rfl), ?_⟩
      cases h : (env.Update
        { o with ObjectMeta := RemoveFinalizer o.ObjectMeta vaultPolicyFinalizer } w1).1
      · exact absurd h he
      · rfl
    · have h1 : f w1 = f w := by simpa [hD] using hf.Delete ("/sys/policies/acl/" ++ o.ObjectMeta.Name) w
      rw [policy_handleFinalizer_delete_fail env o w w1 e hc hD]
      exact statusAtomic_quiet f w _ (fun _ => by simp)
              (by simp [statusUpdates, Event.isStatusUpdate, Call.isStatusUpdate]) h1
  · rw [policy_handleFinalizer_absent env o w hc]
    exact statusAtomic_quiet f w _ (fun he => absurd rfl he) rfl rfl

/-- Every reconcile of the VaultMount kind is atomic on the status. -/
theorem mount_reconcile_atomic {W S : Type} (env : Env W VaultMount) (w : W)
    (f : W → S) (hf : env.Preserves f) :
    StatusAtomic f w (VaultMountReconciler.Reconcile env w) := by
  rcases mount_reconcile_cases env w with ⟨w1, hG⟩ | ⟨e, w1, hG⟩ | ⟨o, e, w1, w2, hG, hF⟩ |
    ⟨o, e, w1, w2, w3, hG, hF, hT, hc, hU⟩ | ⟨o, w1, hA⟩ | ⟨o, w1, hD⟩
  · have h1 : f w1 = f w := by simpa [hG] using hf.Get w
    rw [mount_reconcile_not_found env w w1 hG]
    exact statusAtomic_quiet f w _ (fun he => absurd rfl he)
      (by simp [statusUpdates, Event.isStatusUpdate, Call.isStatusUpdate]) h1
  · have h1 : f w1 = f w := by simpa [hG] using hf.Get w
    rw [mount_reconcile_get_failed env w w1 e hG]
    exact statusAtomic_quiet f w _ (fun _ => by simp)
      (by simp [statusUpdates, Event.isStatusUpdate, Call.isStatusUpdate]) h1
  · have h1 : f w1 = f w := by simpa [hG] using hf.Get w
    have h2 : f w2 = f w := by rw [← h1]; simpa [hF] using hf.ClientFactoryGet o w1
    rw [mount_reconcile_factory_failed env w w1 w2 o e hG hF]
    exact statusAtomic_quiet f w _ (fun _ => by simp)
      (by simp [statusUpdates, Event.isStatusUpdate, Call.isStatusUpdate]) h2
  · have h1 : f w1 = f w := by simpa [hG] using hf.Get w
    have h2 : f w2 = f w := by rw [← h1]; simpa [hF] using hf.ClientFactoryGet o w1
    have h3 : f w3 = f w := by
      rw [← h2]
      exact (congrArg (fun x => f x.2) hU).symm.trans (hf.Update _ w2)
    rw [mount_reconcile_finalizer_failed env w w1 w2 w3 o e hG hF hT hc hU]
    exact statusAtomic_quiet f w _ (fun _ => by simp)
      (by simp [statusUpdates, Event.isStatusUpdate, Call.isStatusUpdate]) h3
  · obtain ⟨pre, hpre, hR⟩ := mount_reconcile_of_active env w w1 o hA
    have hw : f w1 = f w := by
      obtain ⟨o0, wg, wf, hG, hF, -, ⟨-, -, h⟩ | ⟨-, -, h⟩⟩ := hA
      · have h1 : f wg = f w := by simpa [hG] using hf.Get w
        rw [h, ← h1]; simpa [hF] using hf.ClientFactoryGet o0 wg
      · have h1 : f wg = f w := by simpa [hG] using hf.Get w
        have h2 : f wf = f w := by rw [← h1]; simpa [hF] using hf.ClientFactoryGet o0 wg
        rw [← h2]
        exact (congrArg (fun x => f x.2) h).symm.trans (hf.Update _ wf)
    rw [hR]
    exact statusAtomic_after f w w1 _ pre (fun e he => ⟨(hpre e he).2.1, (hpre e he).2.2⟩) hw
      (mount_converge_atomic env o w1 f hf)
  · obtain ⟨o0, -, hR⟩ := mount_reconcile_of_deleting env w w1 o hD
    have hw : f w1 = f w := by
      obtain ⟨o1, wg, t, hG, hF, -, -⟩ := hD
      have h1 : f wg = f w := by simpa [hG] using hf.Get w
      rw [← h1]; simpa [hF] using hf.ClientFactoryGet o1 wg
    rw [hR]
    exact statusAtomic_after f w w1 _ _
      (by simp [Event.isStatusUpdate, Call.isStatusUpdate]) hw
      (mount_handleFinalizer_atomic env o w1 f hf)

/-- Every reconcile of the VaultKVMount kind is atomic on the status. -/
theorem kv_reconcile_atomic {W S : Type} (env : Env W VaultKVMount) (w : W)
    (f : W → S) (hf : env.Preserves f) :
    StatusAtomic f w (VaultKVMountReconciler.Reconcile env w) := by
  rcases kv_reconcile_cases env w with ⟨w1, hG⟩ | ⟨e, w1, hG⟩ | ⟨o, e, w1, w2, hG, hF⟩ |
    ⟨o, e, w1, w2, w3, hG, hF, hT, hc, hU⟩ | ⟨o, w1, hA⟩ | ⟨o, w1, hD⟩
  · have h1 : f w1 = f w := by simpa [hG] using hf.Get w
    rw [kv_reconcile_not_found env w w1 hG]
    exact statusAtomic_quiet f w _ (fun he => absurd rfl he)
      (by simp [statusUpdates, Event.isStatusUpdate, Call.isStatusUpdate]) h1
  · have h1 : f w1 = f w := by simpa [hG] using hf.Get w
    rw [kv_reconcile_get_failed env w w1 e hG]
    exact statusAtomic_quiet f w _ (fun _ => by simp)
      (by simp [statusUpdates, Event.isStatusUpdate, Call.isStatusUpdate]) h1
  · have h1 : f w1 = f w := by simpa [hG] using hf.Get w
    have h2 : f w2 = f w := by rw [← h1]; simpa [hF] using hf.ClientFactoryGet o w1
    rw [kv_reconcile_factory_failed env w w1 w2 o e hG hF]
    exact statusAtomic_quiet f w _ (fun _ => by simp)
      (by simp [statusUpdates, Event.isStatusUpdate, Call.isStatusUpdate]) h2
  · have h1 : f w1 = f w := by simpa [hG] using hf.Get w
    have h2 : f w2 = f w := by rw [← h1]; simpa [hF] using hf.ClientFactoryGet o w1
    have h3 : f w3 = f w := by
      rw [← h2]
      exact (congrArg (fun x => f x.2) hU).symm.trans (hf.Update _ w2)
    rw [kv_reconcile_finalizer_failed env w w1 w2 w3 o e hG hF hT hc hU]
    exact statusAtomic_quiet f w _ (fun _ => by simp)
      (by simp [statusUpdates, Event.isStatusUpdate, Call.isStatusUpdate]) h3
  · obtain ⟨pre, hpre, hR⟩ := kv_reconcile_of_active env w w1 o hA
    have hw : f w1 = f w := by
      obtain ⟨o0, wg, wf, hG, hF, -, ⟨-, -, h⟩ | ⟨-, -, h⟩⟩ := hA
      · have h1 : f wg = f w := by simpa [hG] using hf.Get w
        rw [h, ← h1]; simpa [hF] using hf.ClientFactoryGet o0 wg
      · have h1 : f wg = f w := by simpa [hG] using hf.Get w
        have h2 : f wf = f w := by rw [← h1]; simpa [hF] using hf.ClientFactoryGet o0 wg
        rw [← h2]
        exact (congrArg (fun x => f x.2) h).symm.trans (hf.Update _ wf)
    rw [hR]
    exact statusAtomic_after f w w1 _ pre (fun e he => ⟨(hpre e he).2.1, (hpre e he).2.2⟩) hw
      (kv_converge_atomic env o w1 f hf)
  · obtain ⟨o0, -, hR⟩ := kv_reconcile_of_deleting env w w1 o hD
    have hw : f w1 = f w := by
      obtain ⟨o1, wg, t, hG, hF, -, -⟩ := hD
      have h1 : f wg = f w := by simpa [hG] using hf.Get w
      rw [← h1]; simpa [hF] using hf.ClientFactoryGet o1 wg
    rw [hR]
    exact statusAtomic_after f w w1 _ _
      (by simp [Event.isStatusUpdate, Call.isStatusUpdate]) hw
      (kv_handleFinalizer_atomic env o w1 f hf)

/-- Every reconcile of the VaultPolicy kind is atomic on the status. -/
theorem policy_reconcile_atomic {W S : Type} (env : Env W VaultPolicy) (w : W)
    (f : W → S) (hf : env.Preserves f) :
    StatusAtomic f w (VaultPolicyReconciler.Reconcile env w) := by
  rcases policy_reconcile_cases env w with ⟨w1, hG⟩ | ⟨e, w1, hG⟩ | ⟨o, e, w1, w2, hG, hF⟩ |
    ⟨o, e, w1, w2, w3, hG, hF, hT, hc, hU⟩ | ⟨o, w1, hA⟩ | ⟨o, w1, hD⟩
  · have h1 : f w1 = f w := by simpa [hG] using hf.Get w
    rw [policy_reconcile_not_found env w w1 hG]
    exact statusAtomic_quiet f w _ (fun he => absurd rfl he)
      (by simp [statusUpdates, Event.isStatusUpdate, Call.isStatusUpdate]) h1
  · have h1 : f w1 = f w := by simpa [hG] using hf.Get w
    rw [policy_reconcile_get_failed env w w1 e hG]
    exact statusAtomic_quiet f w _ (fun _ => by simp)
      (by simp [statusUpdates, Event.isStatusUpdate, Call.isStatusUpdate]) h1
  · have h1 : f w1 = f w := by simpa [hG] using hf.Get w
    have h2 : f w2 = f w := by rw [← h1]; simpa [hF] using hf.ClientFactoryGet o w1
    rw [policy_reconcile_factory_failed env w w1 w2 o e hG hF]
    exact statusAtomic_quiet f w _ (fun _ => by simp)
      (by simp [statusUpdates, Event.isStatusUpdate, Call.isStatusUpdate]) h2
  · have h1 : f w1 = f w := by simpa [hG] using hf.Get w
    have h2 : f w2 = f w := by rw [← h1]; simpa [hF] using hf.ClientFactoryGet o w1
    have h3 : f w3 = f w := by
      rw [← h2]
      exact (congrArg (fun x => f x.2) hU).symm.trans (hf.Update _ w2)
    rw [policy_reconcile_finalizer_failed env w w1 w2 w3 o e hG hF hT hc hU]
    exact statusAtomic_quiet f w _ (fun _ => by simp)
      (by simp [statusUpdates, Event.isStatusUpdate, Call.isStatusUpdate]) h3
  · obtain ⟨pre, hpre, hR⟩ := policy_reconcile_of_active env w w1 o hA
    have hw : f w1 = f w := by
      obtain ⟨o0, wg, wf, hG, hF, -, ⟨-, -, h⟩ | ⟨-, -, h⟩⟩ := hA
      · have h1 : f wg = f w := by simpa [hG] using hf.Get w
        rw [h, ← h1]; simpa [hF] using hf.ClientFactoryGet o0 wg
      · have h1 : f wg = f w := by simpa [hG] using hf.Get w
        have h2 : f wf = f w := by rw [← h1]; simpa [hF] using hf.ClientFactoryGet o0 wg
        rw [← h2]
        exact (congrArg (fun x => f x.2) h).symm.trans (hf.Update _ wf)
    rw [hR]
    exact statusAtomic_after f w w1 _ pre (fun e he => ⟨(hpre e he).2.1, (hpre e he).2.2⟩) hw
      (policy_converge_atomic env o w1 f hf)
  · obtain ⟨o0, -, hR⟩ := policy_reconcile_of_deleting env w w1 o hD
    have hw : f w1 = f w := by
      obtain ⟨o1, wg, t, hG, hF, -, -⟩ := hD
      have h1 : f wg = f w := by simpa [hG] using hf.Get w
      rw [← h1]; simpa [hF] using hf.ClientFactoryGet o1 wg
    rw [hR]
    exact statusAtomic_after f w w1 _ _
      (by simp [Event.isStatusUpdate, Call.isStatusUpdate]) hw
      (policy_handleFinalizer_atomic env o w1 f hf)

/-- The model of the collaborators writes the stored status through the status
update only. -/
theorem model_preserves_status {O T : Type} (fails : Call O → Bool) (onUpdate onStatus : O → O → O)
    (status : O → T) (h : ∀ stored o, status (onUpdate stored o) = status stored) :
    (modelEnv fails onUpdate onStatus).Preserves (fun w => w.manifest.map status) := by
  constructor
  · intro w; simp only [modelEnv]; split
    · rfl
    · split <;> rfl
  · intro o w; simp only [modelEnv]; split <;> rfl
  · intro o w; simp only [modelEnv]; split
    · rfl
    · split
      · next stored hs => simp [hs, h]
      · rfl
  · intro w; simp only [modelEnv]; split <;> rfl
  · intro p c w; simp only [modelEnv]; split
    · rfl
    · split <;> rfl
  · intro p i w; simp only [modelEnv]; split
    · rfl
    · split <;> rfl
  · intro p w; simp only [modelEnv]; split <;> rfl
  · intro p d w; simp only [modelEnv]; split <;> rfl
  · intro p w; simp only [modelEnv]; split <;> rfl

/-- The model of the VaultMount kind writes the stored status through the status
update only. -/
theorem mount_model_preserves (fails : Call VaultMount → Bool) :
    (mountModel fails).Preserves (fun w => w.manifest.map VaultMount.Status) :=
  model_preserves_status fails _ _ VaultMount.Status (fun _ _ => rfl)

/-- The model of the VaultKVMount kind writes the stored status through the status
update only. -/
theorem kv_model_preserves (fails : Call VaultKVMount → Bool) :
    (kvMountModel fails).Preserves (fun w => w.manifest.map VaultKVMount.Status) :=
  model_preserves_status fails _ _ VaultKVMount.Status (fun _ _ => rfl)

/-- The model of the VaultPolicy kind writes the stored status through the status
update only. -/
theorem policy_model_preserves (fails : Call VaultPolicy → Bool) :
    (policyModel fails).Preserves (fun w => w.manifest.map VaultPolicy.Status) :=
  model_preserves_status fails _ _ VaultPolicy.Status (fun _ _ => rfl)

/-- C13: failure atomicity of the status, for each kind. In every reconcile
in which a step other than the status update failed (the manifest fetch, the
handle acquisition, the finalizer update, the existence check, a create, a
tune, a write or a delete), no status update is issued, and every reading of
the world that only a status update writes (the persisted status document, so
its path or name) is the one from before the run; and an error the reconcile
returns always comes with such a failed call in its log. -/
theorem C13_failure_atomicity {W U V S T R : Type}
    (env : Env W VaultMount) (w : W) (f : W → S) (hf : env.Preserves f)
    (hC : ∃ e ∈ (VaultMountReconciler.Reconcile env w).log, e.isStatusUpdate = false ∧ e.ok = false)
    (kenv : Env U VaultKVMount) (u : U) (g : U → T) (hg : kenv.Preserves g)
    (hKC : ∃ e ∈ (VaultKVMountReconciler.Reconcile kenv u).log, e.isStatusUpdate = false ∧ e.ok = false)
    (penv : Env V VaultPolicy) (v : V) (h : V → R) (hh : penv.Preserves h)
    (hPC : ∃ e ∈ (VaultPolicyReconciler.Reconcile penv v).log, e.isStatusUpdate = false ∧ e.ok = false) :
    (statusUpdates (VaultMountReconciler.Reconcile env w).log = [] ∧
      f (VaultMountReconciler.Reconcile env w).world = f w ∧
      ((VaultMountReconciler.Reconcile env w).err ≠ none →
        ∃ e ∈ (VaultMountReconciler.Reconcile env w).log, e.ok = false)) ∧
    (statusUpdates (VaultKVMountReconciler.Reconcile kenv u).log = [] ∧
      g (VaultKVMountReconciler.Reconcile kenv u).world = g u ∧
      ((VaultKVMountReconciler.Reconcile kenv u).err ≠ none →
        ∃ e ∈ (VaultKVMountReconciler.Reconcile kenv u).log, e.ok = false)) ∧
    (statusUpdates (VaultPolicyReconciler.Reconcile penv v).log = [] ∧
      h (VaultPolicyReconciler.Reconcile penv v).world = h v ∧
      ((VaultPolicyReconciler.Reconcile penv v).err ≠ none →
        ∃ e ∈ (VaultPolicyReconciler.Reconcile penv v).log, e.ok = false)) :=
  ⟨⟨((mount_reconcile_atomic env w f hf).2 hC).1,
      ((mount_reconcile_atomic env w f hf).2 hC).2,
      (mount_reconcile_atomic env w f hf).1⟩,
    ⟨((kv_reconcile_atomic kenv u g hg).2 hKC).1,
      ((kv_reconcile_atomic kenv u g hg).2 hKC).2,
      (kv_reconcile_atomic kenv u g hg).1⟩,
    ⟨((policy_reconcile_atomic penv v h hh).2 hPC).1,
      ((policy_reconcile_atomic penv v h hh).2 hPC).2,
      (policy_reconcile_atomic penv v h hh).1⟩⟩

/-- C13 at a rename from `a` to `b` whose cleanup delete fails, over the model
and for each kind: no status update, and the stored status is the one from
before the run. -/
theorem C13_failure_atomicity_witness :
    (statusUpdates (VaultMountReconciler.Reconcile (mountModel Call.isDelete) mountRenameWorld).log = [] ∧
      (VaultMountReconciler.Reconcile (mountModel Call.isDelete) mountRenameWorld).world.manifest.map VaultMount.Status =
        mountRenameWorld.manifest.map VaultMount.Status ∧
      ((VaultMountReconciler.Reconcile (mountModel Call.isDelete) mountRenameWorld).err ≠ none →
        ∃ e ∈ (VaultMountReconciler.Reconcile (mountModel Call.isDelete) mountRenameWorld).log, e.ok = false)) ∧
    (statusUpdates (VaultKVMountReconciler.Reconcile (kvMountModel Call.isDelete) kvRenameWorld).log = [] ∧
      (VaultKVMountReconciler.Reconcile (kvMountModel Call.isDelete) kvRenameWorld).world.manifest.map VaultKVMount.Status =
        kvRenameWorld.manifest.map VaultKVMount.Status ∧
      ((VaultKVMountReconciler.Reconcile (kvMountModel Call.isDelete) kvRenameWorld).err ≠ none →
        ∃ e ∈ (VaultKVMountReconciler.Reconcile (kvMountModel Call.isDelete) kvRenameWorld).log, e.ok = false)) ∧
    (statusUpdates (VaultPolicyReconciler.Reconcile (policyModel Call.isDelete) policyRenameWorld).log = [] ∧
      (VaultPolicyReconciler.Reconcile (policyModel Call.isDelete) policyRenameWorld).world.manifest.map VaultPolicy.Status =
        policyRenameWorld.manifest.map VaultPolicy.Status ∧
      ((VaultPolicyReconciler.Reconcile (policyModel Call.isDelete) policyRenameWorld).err ≠ none →
        ∃ e ∈ (VaultPolicyReconciler.Reconcile (policyModel Call.isDelete) policyRenameWorld).log, e.ok = false)) :=
  C13_failure_atomicity
    (mountModel Call.isDelete) mountRenameWorld (fun x => x.manifest.map VaultMount.Status)
    (mount_model_preserves Call.isDelete)
    ⟨⟨.Delete ("/sys/mounts/" ++ "a"), false⟩, by decide, rfl, rfl⟩
    (kvMountModel Call.isDelete) kvRenameWorld (fun x => x.manifest.map VaultKVMount.Status)
    (kv_model_preserves Call.isDelete)
    ⟨⟨.Delete ("/sys/mounts/" ++ "a"), false⟩, by decide, rfl, rfl⟩
    (policyModel Call.isDelete) policyRenameWorld (fun x => x.manifest.map VaultPolicy.Status)
    (policy_model_preserves Call.isDelete)
    ⟨⟨.Delete ("/sys/policies/acl/" ++ "a"), false⟩, by decide, rfl, rfl⟩

/-! ## Validity after a remote error -/

/-- A status update after successful calls holds no failed Vault call. -/
theorem no_failed_remote_persisted {O : Type} (pre : List (Event O)) (x : O) (ok : Bool)
    (hpre : ∀ e ∈ pre, e.ok = true) :
    ¬ ∃ e ∈ pre ++ [⟨.StatusUpdate x, ok⟩], e.isRemote = true ∧ e.ok = false := by
  rintro ⟨e, hm, hr, hk⟩
  rcases List.mem_append.1 hm with h | h
  · rw [hpre e h] at hk
    exact absurd hk (by simp)
  · rw [List.mem_singleton] at h
    rw [h] at hr
    exact absurd hr (by simp [Event.isRemote, Call.isRemote])

/-- A failed Vault call in the rename cleanup of the mount kind ends the run
with an error and the in-memory object as it was. -/
theorem mount_cleanup_remote_failed {W : Type} (env : Env W VaultMount) (o : VaultMount) (w : W)
    (pre : List (Event VaultMount)) (hpre : ∀ e ∈ pre, e.ok = true)
    (h : ∃ e ∈ pre ++ (VaultMountReconciler.cleanup env o w).log,
      e.isRemote = true ∧ e.ok = false) :
    (VaultMountReconciler.cleanup env o w).err ≠ none ∧
      (VaultMountReconciler.cleanup env o w).obj = some o := by
  cases hr : VaultMountReconciler.renamed o
  · rw [mount_cleanup_skip env o w hr, mount_persist_log] at h
    exact absurd h (no_failed_remote_persisted pre _ _ hpre)
  · rcases hD : env.Delete ("/sys/mounts/" ++ o.Status.Path) w with ⟨_ | e, w1⟩
    · rw [mount_cleanup_ok env o w w1 hr hD, after_log, mount_persist_log,
        ← List.append_assoc] at h
      refine absurd h (no_failed_remote_persisted _ _ _ ?_)
      intro e he
      rcases List.mem_append.1 he with h1 | h1
      · exact hpre e h1
      · rw [List.mem_singleton.1 h1]
    · rw [mount_cleanup_fail env o w w1 e hr hD]
      exact ⟨by simp, rfl⟩

/-- A failed Vault call in the convergence of the mount kind ends the run with
an error and the in-memory object as it was. -/
theorem mount_converge_remote_failed {W : Type} (env : Env W VaultMount) (o : VaultMount) (w : W)
    (h : ∃ e ∈ (VaultMountReconciler.converge env o w).log, e.isRemote = true ∧ e.ok = false) :
    (VaultMountReconciler.converge env o w).err ≠ none ∧
      (VaultMountReconciler.converge env o w).obj = some o := by
  rcases hL : env.ListMounts w with ⟨e | mounts, w2⟩
  · rw [mount_converge_list_fail env o w w2 e hL]
    exact ⟨by simp, rfl⟩
  · cases hm : (mounts (o.Spec.Path ++ "/")).isSome
    · have hm1 : mounts (o.Spec.Path ++ "/") = none := by simpa using hm
      rcases hM : env.Mount o.Spec.Path (VaultMountReconciler.mountInput o) w2 with ⟨_ | e, w3⟩
      · rw [mount_converge_mount_ok env o w w2 w3 mounts hL hm1 hM] at h ⊢
        rw [after_log] at h
        rw [after_err, after_obj]
        exact mount_cleanup_remote_failed env o w3 _ (by simp) h
      · rw [mount_converge_mount_fail env o w w2 w3 mounts e hL hm1 hM]
        exact ⟨by simp, rfl⟩
    · rcases hM : env.TuneMount o.Spec.Path (VaultMountReconciler.config o) w2 with ⟨_ | e, w3⟩
      · rw [mount_converge_tune_ok env o w w2 w3 mounts hL hm hM] at h ⊢
        rw [after_log] at h
        rw [after_err, after_obj]
        exact mount_cleanup_remote_failed env o w3 _ (by simp) h
      · rw [mount_converge_tune_fail env o w w2 w3 mounts e hL hm hM]
        exact ⟨by simp, rfl⟩

/-- A failed Vault call in the convergence of the KV mount kind ends the run
with an error and the in-memory object as it was. -/
theorem kv_converge_remote_failed {W : Type} (env : Env W VaultKVMount) (o : VaultKVMount)
    (w : W)
    (h : ∃ e ∈ (VaultKVMountReconciler.converge env o w).log,
      e.isRemote = true ∧ e.ok = false) :
    (VaultKVMountReconciler.converge env o w).err ≠ none ∧
      (VaultKVMountReconciler.converge env o w).obj = some o := by
  rcases hRd : env.Read ("/sys/mounts/" ++ o.Spec.Path) w with ⟨e | (_ | sec), w1⟩
  · rw [kv_converge_read_fail env o w w1 e hRd]
    exact ⟨by simp, rfl⟩
  · rcases hW : env.Write ("/sys/mounts/" ++ o.Spec.Path)
      (VaultKVMountReconciler.createPayload o) w1 with ⟨_ | e, w2⟩
    · cases hr : VaultKVMountReconciler.renamed o
      · rw [kv_converge_write_skip env o w w1 w2 hRd hW hr, after_log, kv_persist_log] at h
        exact absurd h (no_failed_remote_persisted _ _ _ (by simp))
      · rcases hD : env.Delete ("/sys/mounts/" ++ o.Status.Path) w2 with ⟨_ | e, w3⟩
        · rw [kv_converge_write_delete_ok env o w w1 w2 w3 hRd hW hr hD, after_log,
            kv_persist_log] at h
          exact absurd h (no_failed_remote_persisted _ _ _ (by simp))
        · rw [kv_converge_write_delete_fail env o w w1 w2 w3 e hRd hW hr hD]
          exact ⟨by simp, rfl⟩
    · rw [kv_converge_write_fail env o w w1 w2 e hRd hW]
      exact ⟨by simp, rfl⟩
  · rw [kv_converge_present env o w w1 sec hRd, after_log, kv_persist_log] at h
    exact absurd h (no_failed_remote_persisted _ _ _ (by simp))

/-- A failed Vault call in the convergence of the policy kind ends the run
with an error and the in-memory object as it was. -/
theorem policy_converge_remote_failed {W : Type} (env : Env W VaultPolicy) (o : VaultPolicy)
    (w : W)
    (h : ∃ e ∈ (VaultPolicyReconciler.converge env o w).log,
      e.isRemote = true ∧ e.ok = false) :
    (VaultPolicyReconciler.converge env o w).err ≠ none ∧
      (VaultPolicyReconciler.converge env o w).obj = some o := by
  rcases hW : env.Write ("/sys/policies/acl/" ++ o.ObjectMeta.Name)
    (VaultPolicyReconciler.writePayload o) w with ⟨_ | e, w1⟩
  · cases hr : VaultPolicyReconciler.renamed o
    · rw [policy_converge_write_skip env o w w1 hW hr, after_log, policy_persist_log] at h
      exact absurd h (no_failed_remote_persisted _ _ _ (by simp))
    · rcases hD : env.Delete ("/sys/policies/acl/" ++ o.Status.Name) w1 with ⟨_ | e, w2⟩
      · rw [policy_converge_write_delete_ok env o w w1 w2 hW hr hD, after_log,
          policy_persist_log] at h
        exact absurd h (no_failed_remote_persisted _ _ _ (by simp))
      · rw [policy_converge_write_delete_fail env o w w1 w2 e hW hr hD]
        exact ⟨by simp, rfl⟩
  · rw [policy_converge_write_fail env o w w1 e hW]
    exact ⟨by simp, rfl⟩

/-- A failed Vault call in the finalizer handling of the VaultMount kind ends the
run with an error and the in-memory object as it was. -/
theorem mount_handleFinalizer_remote_failed {W : Type} (env : Env W VaultMount) (o : VaultMount) (w : W)
    (h : ∃ e ∈ (VaultMountReconciler.handleFinalizer env o w).log, e.isRemote = true ∧ e.ok = false) :
    (VaultMountReconciler.handleFinalizer env o w).err ≠ none ∧
      (VaultMountReconciler.handleFinalizer env o w).obj = some o := by
  by_cases hc : vaultMountFinalizer ∈ o.ObjectMeta.Finalizers
  · rcases hD : env.Delete o.Spec.Path w with ⟨_ | e, w1⟩
    · rw [mount_handleFinalizer_delete_ok env o w w1 hc hD] at h
      obtain ⟨e, hm, hr, hk⟩ := h
      simp only [List.mem_cons, List.mem_singleton, List.not_mem_nil, or_false] at hm
      rcases hm with hm | hm
      · rw [hm] at hk; exact absurd hk (by simp)
      · rw [hm] at hr; exact absurd hr (by simp [Event.isRemote, Call.isRemote])
    · rw [mount_handleFinalizer_delete_fail env o w w1 e hc hD]
      exact ⟨by simp, rfl⟩
  · rw [mount_handleFinalizer_absent env o w hc] at h
    obtain ⟨e, hm, -⟩ := h
    exact absurd hm (List.not_mem_nil e)

/-- A failed Vault call in a reconcile of the VaultMount kind ends it with an
error. -/
theorem mount_reconcile_remote_failed {W : Type} (env : Env W VaultMount) (w : W)
    (h : ∃ e ∈ (VaultMountReconciler.Reconcile env w).log, e.isRemote = true ∧ e.ok = false) :
    (VaultMountReconciler.Reconcile env w).err ≠ none := by
  have hlit : ∀ l : List (Event VaultMount), (∀ e ∈ l, e.isRemote = false) →
      ¬ ∃ e ∈ l, e.isRemote = true ∧ e.ok = false := by
    rintro l hl ⟨e, hm, hr, -⟩
    rw [hl e hm] at hr
    exact absurd hr (by simp)
  rcases mount_reconcile_cases env w with ⟨w1, hG⟩ | ⟨e, w1, hG⟩ | ⟨o, e, w1, w2, hG, hF⟩ |
    ⟨o, e, w1, w2, w3, hG, hF, hT, hc, hU⟩ | ⟨o, w1, hA⟩ | ⟨o, w1, hD⟩
  · rw [mount_reconcile_not_found env w w1 hG] at h
    exact absurd h (hlit _ (by simp [Event.isRemote, Call.isRemote]))
  · rw [mount_reconcile_get_failed env w w1 e hG] at h
    exact absurd h (hlit _ (by simp [Event.isRemote, Call.isRemote]))
  · rw [mount_reconcile_factory_failed env w w1 w2 o e hG hF] at h
    exact absurd h (hlit _ (by simp [Event.isRemote, Call.isRemote]))
  · rw [mount_reconcile_finalizer_failed env w w1 w2 w3 o e hG hF hT hc hU] at h
    exact absurd h (hlit _ (by simp [Event.isRemote, Call.isRemote]))
  · obtain ⟨pre, hpre, hR⟩ := mount_reconcile_of_active env w w1 o hA
    rw [hR, after_log] at h
    obtain ⟨e, hm, hr, hk⟩ := h
    rcases List.mem_append.1 hm with h1 | h1
    · have h2 := (hpre e h1).1
      rw [Event.isRemote, h2] at hr
      exact absurd hr (by simp)
    · obtain ⟨he, ho⟩ := mount_converge_remote_failed env o w1 ⟨e, h1, hr, hk⟩
      rw [hR, after_err]
      exact he
  · obtain ⟨o0, ho0, hR⟩ := mount_reconcile_of_deleting env w w1 o hD
    rw [hR, after_log] at h
    obtain ⟨e, hm, hr, hk⟩ := h
    rcases List.mem_append.1 hm with h1 | h1
    · simp only [List.mem_cons, List.mem_singleton, List.not_mem_nil, or_false] at h1
      rcases h1 with h1 | h1 <;> rw [h1] at hk <;> exact absurd hk (by simp)
    · obtain ⟨he, ho⟩ := mount_handleFinalizer_remote_failed env o w1 ⟨e, h1, hr, hk⟩
      rw [hR, after_err]
      exact he

/-- A failed Vault call in the finalizer handling of the VaultKVMount kind ends the
run with an error and the in-memory object as it was. -/
theorem kv_handleFinalizer_remote_failed {W : Type} (env : Env W VaultKVMount) (o : VaultKVMount) (w : W)
    (h : ∃ e ∈ (VaultKVMountReconciler.handleFinalizer env o w).log, e.isRemote = true ∧ e.ok = false) :
    (VaultKVMountReconciler.handleFinalizer env o w).err ≠ none ∧
      (VaultKVMountReconciler.handleFinalizer env o w).obj = some o := by
  by_cases hc : vaultKVMountFinalizer ∈ o.ObjectMeta.Finalizers
  · rcases hD : env.Delete o.Spec.Path w with ⟨_ | e, w1⟩
    · rw [kv_handleFinalizer_delete_ok env o w w1 hc hD] at h
      obtain ⟨e, hm, hr, hk⟩ := h
      simp only [List.mem_cons, List.mem_singleton, List.not_mem_nil, or_false] at hm
      rcases hm with hm | hm
      · rw [hm] at hk; exact absurd hk (by simp)
      · rw [hm] at hr; exact absurd hr (by simp [Event.isRemote, Call.isRemote])
    · rw [kv_handleFinalizer_delete_fail env o w w1 e hc hD]
      exact ⟨by simp, rfl⟩
  · rw [kv_handleFinalizer_absent env o w hc] at h
    obtain ⟨e, hm, -⟩ := h
    exact absurd hm (List.not_mem_nil e)

/-- A failed Vault call in a reconcile of the VaultKVMount kind ends it with an
error. -/
theorem kv_reconcile_remote_failed {W : Type} (env : Env W VaultKVMount) (w : W)
    (h : ∃ e ∈ (VaultKVMountReconciler.Reconcile env w).log, e.isRemote = true ∧ e.ok = false) :
    (VaultKVMountReconciler.Reconcile env w).err ≠ none := by
  have hlit : ∀ l : List (Event VaultKVMount), (∀ e ∈ l, e.isRemote = false) →
      ¬ ∃ e ∈ l, e.isRemote = true ∧ e.ok = false := by
    rintro l hl ⟨e, hm, hr, -⟩
    rw [hl e hm] at hr
    exact absurd hr (by simp)
  rcases kv_reconcile_cases env w with ⟨w1, hG⟩ | ⟨e, w1, hG⟩ | ⟨o, e, w1, w2, hG, hF⟩ |
    ⟨o, e, w1, w2, w3, hG, hF, hT, hc, hU⟩ | ⟨o, w1, hA⟩ | ⟨o, w1, hD⟩
  · rw [kv_reconcile_not_found env w w1 hG] at h
    exact absurd h (hlit _ (by simp [Event.isRemote, Call.isRemote]))
  · rw [kv_reconcile_get_failed env w w1 e hG] at h
    exact absurd h (hlit _ (by simp [Event.isRemote, Call.isRemote]))
  · rw [kv_reconcile_factory_failed env w w1 w2 o e hG hF] at h
    exact absurd h (hlit _ (by simp [Event.isRemote, Call.isRemote]))
  · rw [kv_reconcile_finalizer_failed env w w1 w2 w3 o e hG hF hT hc hU] at h
    exact absurd h (hlit _ (by simp [Event.isRemote, Call.isRemote]))
  · obtain ⟨pre, hpre, hR⟩ := kv_reconcile_of_active env w w1 o hA
    rw [hR, after_log] at h
    obtain ⟨e, hm, hr, hk⟩ := h
    rcases List.mem_append.1 hm with h1 | h1
    · have h2 := (hpre e h1).1
      rw [Event.isRemote, h2] at hr
      exact absurd hr (by simp)
    · obtain ⟨he, ho⟩ := kv_converge_remote_failed env o w1 ⟨e, h1, hr, hk⟩
      rw [hR, after_err]
      exact he
  · obtain ⟨o0, ho0, hR⟩ := kv_reconcile_of_deleting env w w1 o hD
    rw [hR, after_log] at h
    obtain ⟨e, hm, hr, hk⟩ := h
    rcases List.mem_append.1 hm with h1 | h1
    · simp only [List.mem_cons, List.mem_singleton, List.not_mem_nil, or_false] at h1
      rcases h1 with h1 | h1 <;> rw [h1] at hk <;> exact absurd hk (by simp)
    · obtain ⟨he, ho⟩ := kv_handleFinalizer_remote_failed env o w1 ⟨e, h1, hr, hk⟩
      rw [hR, after_err]
      exact he

/-- A failed Vault call in the finalizer handling of the VaultPolicy kind ends the
run with an error and the in-memory object as it was. -/
theorem policy_handleFinalizer_remote_failed {W : Type} (env : Env W VaultPolicy) (o : VaultPolicy) (w : W)
    (h : ∃ e ∈ (VaultPolicyReconciler.handleFinalizer env o w).log, e.isRemote = true ∧ e.ok = false) :
    (VaultPolicyReconciler.handleFinalizer env o w).err ≠ none ∧
      (VaultPolicyReconciler.handleFinalizer env o w).obj = some o := by
  by_cases hc : vaultPolicyFinalizer ∈ o.ObjectMeta.Finalizers
  · rcases hD : env.Delete ("/sys/policies/acl/" ++ o.ObjectMeta.Name) w with ⟨_ | e, w1⟩
    · rw [policy_handleFinalizer_delete_ok env o w w1 hc hD] at h
      obtain ⟨e, hm, hr, hk⟩ := h
      simp only [List.mem_cons, List.mem_singleton, List.not_mem_nil, or_false] at hm
      rcases hm with hm | hm
      · rw [hm] at hk; exact absurd hk (by simp)
      · rw [hm] at hr; exact absurd hr (by simp [Event.isRemote, Call.isRemote])
    · rw [policy_handleFinalizer_delete_fail env o w w1 e hc hD]
      exact ⟨by simp, rfl⟩
  · rw [policy_handleFinalizer_absent env o w hc] at h
    obtain ⟨e, hm, -⟩ := h
    exact absurd hm (List.not_mem_nil e)

/-- A failed Vault call in a reconcile of the VaultPolicy kind ends it with an
error. -/
theorem policy_reconcile_remote_failed {W : Type} (env : Env W VaultPolicy) (w : W)
    (h : ∃ e ∈ (VaultPolicyReconciler.Reconcile env w).log, e.isRemote = true ∧ e.ok = false) :
    (VaultPolicyReconciler.Reconcile env w).err ≠ none := by
  have hlit : ∀ l : List (Event VaultPolicy), (∀ e ∈ l, e.isRemote = false) →
      ¬ ∃ e ∈ l, e.isRemote = true ∧ e.ok = false := by
    rintro l hl ⟨e, hm, hr, -⟩
    rw [hl e hm] at hr
    exact absurd hr (by simp)
  rcases policy_reconcile_cases env w with ⟨w1, hG⟩ | ⟨e, w1, hG⟩ | ⟨o, e, w1, w2, hG, hF⟩ |
    ⟨o, e, w1, w2, w3, hG, hF, hT, hc, hU⟩ | ⟨o, w1, hA⟩ | ⟨o, w1, hD⟩
  · rw [policy_reconcile_not_found env w w1 hG] at h
    exact absurd h (hlit _ (by simp [Event.isRemote, Call.isRemote]))
  · rw [policy_reconcile_get_failed env w w1 e hG] at h
    exact absurd h (hlit _ (by simp [Event.isRemote, Call.isRemote]))
  · rw [policy_reconcile_factory_failed env w w1 w2 o e hG hF] at h
    exact absurd h (hlit _ (by simp [Event.isRemote, Call.isRemote]))
  · rw [policy_reconcile_finalizer_failed env w w1 w2 w3 o e hG hF hT hc hU] at h
    exact absurd h (hlit _ (by simp [Event.isRemote, Call.isRemote]))
  · obtain ⟨pre, hpre, hR⟩ := policy_reconcile_of_active env w w1 o hA
    rw [hR, after_log] at h
    obtain ⟨e, hm, hr, hk⟩ := h
    rcases List.mem_append.1 hm with h1 | h1
    · have h2 := (hpre e h1).1
      rw [Event.isRemote, h2] at hr
      exact absurd hr (by simp)
    · obtain ⟨he, ho⟩ := policy_converge_remote_failed env o w1 ⟨e, h1, hr, hk⟩
      rw [hR, after_err]
      exact he
  · obtain ⟨o0, ho0, hR⟩ := policy_reconcile_of_deleting env w w1 o hD
    rw [hR, after_log] at h
    obtain ⟨e, hm, hr, hk⟩ := h
    rcases List.mem_append.1 hm with h1 | h1
    · simp only [List.mem_cons, List.mem_singleton, List.not_mem_nil, or_false] at h1
      rcases h1 with h1 | h1 <;> rw [h1] at hk <;> exact absurd hk (by simp)
    · obtain ⟨he, ho⟩ := policy_handleFinalizer_remote_failed env o w1 ⟨e, h1, hr, hk⟩
      rw [hR, after_err]
      exact he

/-- A Vault call is not a status update. -/
theorem remote_not_statusUpdate {O : Type} (e : Event O) (h : e.isRemote = true) :
    e.isStatusUpdate = false := by
  rcases e with ⟨c, ok⟩
  cases c <;> first | rfl | exact absurd h (by simp [Event.isRemote, Call.isRemote])

/-- C14, counterexample: from a stored manifest with the finalizer attached
and valid = true, a reconcile over the model whose Vault calls fail returns
the remote error after the failed existence check (`ListMounts`, `Read`) or
the failed `Write`, issues no update of any kind, and the stored status still
has valid = true. -/
theorem C14_valid_flag_not_reset :
    (settledMount.Status.Valid = true ∧
      vaultMountFinalizer ∈ settledMount.ObjectMeta.Finalizers ∧
      (VaultMountReconciler.Reconcile (mountModel Call.isRemote) (emptyRemote settledMount)).err =
        some "remote error" ∧
      (VaultMountReconciler.Reconcile (mountModel Call.isRemote) (emptyRemote settledMount)).log =
        [⟨.Get, true⟩, ⟨.ClientFactoryGet settledMount, true⟩, ⟨.ListMounts, false⟩] ∧
      (VaultMountReconciler.Reconcile (mountModel Call.isRemote)
        (emptyRemote settledMount)).world.manifest.map (fun o => o.Status.Valid) = some true) ∧
    (settledKVMount.Status.Valid = true ∧
      vaultKVMountFinalizer ∈ settledKVMount.ObjectMeta.Finalizers ∧
      (VaultKVMountReconciler.Reconcile (kvMountModel Call.isRemote)
        (emptyRemote settledKVMount)).err = some "remote error" ∧
      (VaultKVMountReconciler.Reconcile (kvMountModel Call.isRemote)
        (emptyRemote settledKVMount)).log =
        [⟨.Get, true⟩, ⟨.ClientFactoryGet settledKVMount, true⟩,
         ⟨.Read ("/sys/mounts/" ++ "b"), false⟩] ∧
      (VaultKVMountReconciler.Reconcile (kvMountModel Call.isRemote)
        (emptyRemote settledKVMount)).world.manifest.map (fun o => o.Status.Valid) =
        some true) ∧
    (settledPolicy.Status.Valid = true ∧
      vaultPolicyFinalizer ∈ settledPolicy.ObjectMeta.Finalizers ∧
      (VaultPolicyReconciler.Reconcile (policyModel Call.isRemote)
        (emptyRemote settledPolicy)).err = some "remote error" ∧
      (VaultPolicyReconciler.Reconcile (policyModel Call.isRemote)
        (emptyRemote settledPolicy)).log =
        [⟨.Get, true⟩, ⟨.ClientFactoryGet settledPolicy, true⟩,
         ⟨.Write ("/sys/policies/acl/" ++ "b")
            (VaultPolicyReconciler.writePayload settledPolicy), false⟩] ∧
      (VaultPolicyReconciler.Reconcile (policyModel Call.isRemote)
        (emptyRemote settledPolicy)).world.manifest.map (fun o => o.Status.Valid) =
        some true) := by
  refine ⟨⟨rfl, by decide, by decide, by decide, by decide⟩,
    ⟨rfl, by decide, by decide, by decide, by decide⟩,
    ⟨rfl, by decide, by decide, by decide, by decide⟩⟩

/-- C14, amended: for each kind, after every reconcile in which a Vault call
(list, read, create, tune, write or delete) returned an error, the reconcile
returns an error, no status update is issued, and every reading of the world
that only a status update writes (the persisted status document, so its
validity flag) is the one from before the run: the persisted flag is false
only if it was false before the run. -/
theorem C14_valid_after_remote_error {W U V S T R : Type}
    (env : Env W VaultMount) (w : W) (f : W → S) (hf : env.Preserves f)
    (hC : ∃ e ∈ (VaultMountReconciler.Reconcile env w).log, e.isRemote = true ∧ e.ok = false)
    (kenv : Env U VaultKVMount) (u : U) (g : U → T) (hg : kenv.Preserves g)
    (hKC : ∃ e ∈ (VaultKVMountReconciler.Reconcile kenv u).log, e.isRemote = true ∧ e.ok = false)
    (penv : Env V VaultPolicy) (v : V) (h : V → R) (hh : penv.Preserves h)
    (hPC : ∃ e ∈ (VaultPolicyReconciler.Reconcile penv v).log, e.isRemote = true ∧ e.ok = false) :
    ((VaultMountReconciler.Reconcile env w).err ≠ none ∧
      statusUpdates (VaultMountReconciler.Reconcile env w).log = [] ∧
      f (VaultMountReconciler.Reconcile env w).world = f w) ∧
    ((VaultKVMountReconciler.Reconcile kenv u).err ≠ none ∧
      statusUpdates (VaultKVMountReconciler.Reconcile kenv u).log = [] ∧
      g (VaultKVMountReconciler.Reconcile kenv u).world = g u) ∧
    ((VaultPolicyReconciler.Reconcile penv v).err ≠ none ∧
      statusUpdates (VaultPolicyReconciler.Reconcile penv v).log = [] ∧
      h (VaultPolicyReconciler.Reconcile penv v).world = h v) := by
  refine ⟨?_, ?_, ?_⟩
  · obtain ⟨e, hm, hr, hk⟩ := hC
    have hs : e.isStatusUpdate = false := remote_not_statusUpdate e hr
    have h1 := mount_reconcile_remote_failed env w ⟨e, hm, hr, hk⟩
    obtain ⟨h3, h4⟩ := (mount_reconcile_atomic env w f hf).2 ⟨e, hm, hs, hk⟩
    exact ⟨h1, h3, h4⟩
  · obtain ⟨e, hm, hr, hk⟩ := hKC
    have hs : e.isStatusUpdate = false := remote_not_statusUpdate e hr
    have h1 := kv_reconcile_remote_failed kenv u ⟨e, hm, hr, hk⟩
    obtain ⟨h3, h4⟩ := (kv_reconcile_atomic kenv u g hg).2 ⟨e, hm, hs, hk⟩
    exact ⟨h1, h3, h4⟩
  · obtain ⟨e, hm, hr, hk⟩ := hPC
    have hs : e.isStatusUpdate = false := remote_not_statusUpdate e hr
    have h1 := policy_reconcile_remote_failed penv v ⟨e, hm, hr, hk⟩
    obtain ⟨h3, h4⟩ := (policy_reconcile_atomic penv v h hh).2 ⟨e, hm, hs, hk⟩
    exact ⟨h1, h3, h4⟩

/-- C14, amended, at the settled manifests over the model whose Vault calls
fail, for each kind. -/
theorem C14_valid_after_remote_error_witness :
    ((VaultMountReconciler.Reconcile (mountModel Call.isRemote) (emptyRemote settledMount)).err ≠ none ∧
      statusUpdates (VaultMountReconciler.Reconcile (mountModel Call.isRemote) (emptyRemote settledMount)).log = [] ∧
      (VaultMountReconciler.Reconcile (mountModel Call.isRemote) (emptyRemote settledMount)).world.manifest.map VaultMount.Status =
        (emptyRemote settledMount).manifest.map VaultMount.Status) ∧
    ((VaultKVMountReconciler.Reconcile (kvMountModel Call.isRemote) (emptyRemote settledKVMount)).err ≠ none ∧
      statusUpdates (VaultKVMountReconciler.Reconcile (kvMountModel Call.isRemote) (emptyRemote settledKVMount)).log = [] ∧
      (VaultKVMountReconciler.Reconcile (kvMountModel Call.isRemote) (emptyRemote settledKVMount)).world.manifest.map VaultKVMount.Status =
        (emptyRemote settledKVMount).manifest.map VaultKVMount.Status) ∧
    ((VaultPolicyReconciler.Reconcile (policyModel Call.isRemote) (emptyRemote settledPolicy)).err ≠ none ∧
      statusUpdates (VaultPolicyReconciler.Reconcile (policyModel Call.isRemote) (emptyRemote settledPolicy)).log = [] ∧
      (VaultPolicyReconciler.Reconcile (policyModel Call.isRemote) (emptyRemote settledPolicy)).world.manifest.map VaultPolicy.Status =
        (emptyRemote settledPolicy).manifest.map VaultPolicy.Status) :=
  C14_valid_after_remote_error
    (mountModel Call.isRemote) (emptyRemote settledMount) (fun x => x.manifest.map VaultMount.Status)
    (mount_model_preserves Call.isRemote)
    ⟨⟨.ListMounts, false⟩, by decide, rfl, rfl⟩
    (kvMountModel Call.isRemote) (emptyRemote settledKVMount) (fun x => x.manifest.map VaultKVMount.Status)
    (kv_model_preserves Call.isRemote)
    ⟨⟨.Read ("/sys/mounts/" ++ "b"), false⟩, by decide, rfl, rfl⟩
    (policyModel Call.isRemote) (emptyRemote settledPolicy) (fun x => x.manifest.map VaultPolicy.Status)
    (policy_model_preserves Call.isRemote)
    ⟨⟨.Write ("/sys/policies/acl/" ++ "b") (VaultPolicyReconciler.writePayload settledPolicy), false⟩, by decide, rfl, rfl⟩

/-! ## The update branch of the KV mount kind -/

/-- No reconcile of the KV mount kind issues a `Mount` or a `TuneMount`. -/
theorem kv_reconcile_no_tune {W : Type} (env : Env W VaultKVMount) (w : W) :
    ∀ e ∈ (VaultKVMountReconciler.Reconcile env w).log, e.call.isMountOrTune = false := by
  intro e he
  rcases kv_reconcile_cases env w with ⟨w1, hG⟩ | ⟨e1, w1, hG⟩ | ⟨o, e1, w1, w2, hG, hF⟩ |
    ⟨o, e1, w1, w2, w3, hG, hF, hT, hc, hU⟩ | ⟨o, w1, hA⟩ | ⟨o, w1, hD⟩
  · rw [kv_reconcile_not_found env w w1 hG] at he
    simp only [List.mem_singleton] at he
    rw [he]; rfl
  · rw [kv_reconcile_get_failed env w w1 e1 hG] at he
    simp only [List.mem_singleton] at he
    rw [he]; rfl
  · rw [kv_reconcile_factory_failed env w w1 w2 o e1 hG hF] at he
    simp only [List.mem_cons, List.mem_singleton, List.not_mem_nil, or_false] at he
    rcases he with h | h | h <;> rw [h] <;> rfl
  · rw [kv_reconcile_finalizer_failed env w w1 w2 w3 o e1 hG hF hT hc hU] at he
    simp only [List.mem_cons, List.mem_singleton, List.not_mem_nil, or_false] at he
    rcases he with h | h | h <;> rw [h] <;> rfl
  · obtain ⟨pre, hpre, hR⟩ := kv_reconcile_of_active env w w1 o hA
    rw [hR, after_log] at he
    rcases List.mem_append.1 he with h | h
    · have h1 := (hpre e h).1
      cases hc : e.call <;> rw [hc] at h1 <;> first | rfl | exact absurd h1 (by simp [Call.isRemote])
    · have h1 := kv_converge_alphabet env o w1 e h
      simp only [List.mem_cons, List.mem_singleton, List.not_mem_nil, or_false] at h1
      rcases h1 with h1 | h1 | h1 | h1 <;> rw [h1] <;> rfl
  · obtain ⟨o0, -, hR⟩ := kv_reconcile_of_deleting env w w1 o hD
    rw [hR, after_log] at he
    rcases List.mem_append.1 he with h | h
    · simp only [List.mem_cons, List.mem_singleton, List.not_mem_nil, or_false] at h
      rcases h with h | h <;> rw [h] <;> rfl
    · by_cases hc : vaultKVMountFinalizer ∈ o.ObjectMeta.Finalizers
      · rcases hDel : env.Delete o.Spec.Path w1 with ⟨_ | e1, w2⟩
        · rw [kv_handleFinalizer_delete_ok env o w1 w2 hc hDel] at h
          simp only [List.mem_cons, List.mem_singleton, List.not_mem_nil, or_false] at h
          rcases h with h | h <;> rw [h] <;> rfl
        · rw [kv_handleFinalizer_delete_fail env o w1 w2 e1 hc hDel] at h
          simp only [List.mem_singleton] at h
          rw [h]; rfl
      · rw [kv_handleFinalizer_absent env o w1 hc] at h
        exact absurd h (List.not_mem_nil e)

/-- C15: the KV mount kind has no update branch. No reconcile of a VaultKVMount
issues a `TuneMount` (nor a `Mount`), whatever the collaborators answer; and
over the model, for a manifest whose description changed while its object
exists at the desired path `b`, the run on the Active path issues the `Read`
as its only Vault call, returns no error, stores valid = true, and leaves at
`/sys/mounts/b` the object of the old description, which differs from the
desired one. -/
theorem C15_kv_present_no_tune :
    (∀ (W : Type) (env : Env W VaultKVMount) (w : W),
      ∀ e ∈ (VaultKVMountReconciler.Reconcile env w).log, e.call.isMountOrTune = false) ∧
    VaultKVMountReconciler.Active (kvMountModel noFault) kvDriftedWorld kvDrifted
      kvDriftedWorld ∧
    (kvDriftedWorld.remote ("/sys/mounts/" ++ kvDrifted.Spec.Path)).isSome = true ∧
    remoteEvents (kvOnce kvDriftedWorld).log = [⟨.Read "/sys/mounts/b", true⟩] ∧
    (kvOnce kvDriftedWorld).err = none ∧
    (kvOnce kvDriftedWorld).world.manifest.map (fun o => o.Status.Valid) = some true ∧
    (kvOnce kvDriftedWorld).world.remote "/sys/mounts/b" =
      some (.doc (VaultKVMountReconciler.createPayload (kvMountAt "b" "b"))) ∧
    VaultKVMountReconciler.createPayload (kvMountAt "b" "b") ≠
      VaultKVMountReconciler.createPayload kvDrifted := by
  refine ⟨fun W env w => kv_reconcile_no_tune env w,
    ⟨kvDrifted, _, _, rfl, rfl, rfl, Or.inl ⟨by decide, rfl, rfl⟩⟩,
    by decide, by decide, by decide, by decide, by decide, by decide⟩

/-! ## The address of the delete on the Deleting path -/

/-- A path is never its own address under `/sys/mounts/`. -/
theorem path_ne_mount_address (p : String) : p ≠ "/sys/mounts/" ++ p := by
  intro h
  have h1 := congrArg String.length h
  rw [String.length_append] at h1
  have h2 : ("/sys/mounts/" : String).length = 12 := by decide
  omega

/-- On the Deleting path with the finalizer attached a reconcile of the
VaultMount kind issues one `Delete`, of `o.Spec.Path`. -/
theorem mount_deleting_delete_address {W : Type} (env : Env W VaultMount) (w w1 : W) (o : VaultMount)
    (hD : VaultMountReconciler.Deleting env w o w1) (hc : vaultMountFinalizer ∈ o.ObjectMeta.Finalizers) :
    (calls (VaultMountReconciler.Reconcile env w).log).filter Call.isDelete = [.Delete o.Spec.Path] := by
  obtain ⟨o0, -, hR⟩ := mount_reconcile_of_deleting env w w1 o hD
  rw [hR, after_log]
  rcases hDel : env.Delete o.Spec.Path w1 with ⟨_ | e, w2⟩
  · rw [mount_handleFinalizer_delete_ok env o w1 w2 hc hDel]
    simp [calls, Call.isDelete]
  · rw [mount_handleFinalizer_delete_fail env o w1 w2 e hc hDel]
    simp [calls, Call.isDelete]

/-- On the Deleting path with the finalizer attached a reconcile of the
VaultKVMount kind issues one `Delete`, of `o.Spec.Path`. -/
theorem kv_deleting_delete_address {W : Type} (env : Env W VaultKVMount) (w w1 : W) (o : VaultKVMount)
    (hD : VaultKVMountReconciler.Deleting env w o w1) (hc : vaultKVMountFinalizer ∈ o.ObjectMeta.Finalizers) :
    (calls (VaultKVMountReconciler.Reconcile env w).log).filter Call.isDelete = [.Delete o.Spec.Path] := by
  obtain ⟨o0, -, hR⟩ := kv_reconcile_of_deleting env w w1 o hD
  rw [hR, after_log]
  rcases hDel : env.Delete o.Spec.Path w1 with ⟨_ | e, w2⟩
  · rw [kv_handleFinalizer_delete_ok env o w1 w2 hc hDel]
    simp [calls, Call.isDelete]
  · rw [kv_handleFinalizer_delete_fail env o w1 w2 e hc hDel]
    simp [calls, Call.isDelete]

/-- On the Deleting path with the finalizer attached a reconcile of the
VaultPolicy kind issues one `Delete`, of `"/sys/policies/acl/" ++ o.ObjectMeta.Name`. -/
theorem policy_deleting_delete_address {W : Type} (env : Env W VaultPolicy) (w w1 : W) (o : VaultPolicy)
    (hD : VaultPolicyReconciler.Deleting env w o w1) (hc : vaultPolicyFinalizer ∈ o.ObjectMeta.Finalizers) :
    (calls (VaultPolicyReconciler.Reconcile env w).log).filter Call.isDelete = [.Delete ("/sys/policies/acl/" ++ o.ObjectMeta.Name)] := by
  obtain ⟨o0, -, hR⟩ := policy_reconcile_of_deleting env w w1 o hD
  rw [hR, after_log]
  rcases hDel : env.Delete ("/sys/policies/acl/" ++ o.ObjectMeta.Name) w1 with ⟨_ | e, w2⟩
  · rw [policy_handleFinalizer_delete_ok env o w1 w2 hc hDel]
    simp [calls, Call.isDelete]
  · rw [policy_handleFinalizer_delete_fail env o w1 w2 e hc hDel]
    simp [calls, Call.isDelete]

/-- C18: the delete of the Deleting path. With the finalizer attached a
reconcile on the Deleting path issues exactly one `Delete`: of
`/sys/policies/acl/<name>` for a policy, the address its convergence writes,
but of the bare `<path>` for a mount and a KV mount, which is never the
address `/sys/mounts/<path>` at which their convergence creates the object and
their rename cleanup deletes. Over the model, convergence of path `b` creates
the object at `/sys/mounts/b`; the Deleting run on `deletingMount` and on
`deletingKVMount` returns no error, issues `Delete "b"` as its only Vault
call, stores the manifest without the finalizer and leaves the object at
`/sys/mounts/b`; the run on `deletingPolicy` leaves nothing at
`/sys/policies/acl/b`. -/
theorem C18_deleting_address :
    (∀ (W : Type) (env : Env W VaultMount) (w w1 : W) (o : VaultMount),
      VaultMountReconciler.Deleting env w o w1 → vaultMountFinalizer ∈ o.ObjectMeta.Finalizers →
      (calls (VaultMountReconciler.Reconcile env w).log).filter Call.isDelete =
          [.Delete o.Spec.Path] ∧
        o.Spec.Path ≠ "/sys/mounts/" ++ o.Spec.Path) ∧
    (∀ (W : Type) (env : Env W VaultKVMount) (w w1 : W) (o : VaultKVMount),
      VaultKVMountReconciler.Deleting env w o w1 →
      vaultKVMountFinalizer ∈ o.ObjectMeta.Finalizers →
      (calls (VaultKVMountReconciler.Reconcile env w).log).filter Call.isDelete =
          [.Delete o.Spec.Path] ∧
        o.Spec.Path ≠ "/sys/mounts/" ++ o.Spec.Path) ∧
    (∀ (W : Type) (env : Env W VaultPolicy) (w w1 : W) (o : VaultPolicy),
      VaultPolicyReconciler.Deleting env w o w1 →
      vaultPolicyFinalizer ∈ o.ObjectMeta.Finalizers →
      (calls (VaultPolicyReconciler.Reconcile env w).log).filter Call.isDelete =
        [.Delete ("/sys/policies/acl/" ++ o.ObjectMeta.Name)]) ∧
    ((mountOnce (emptyRemote (mountAt "" "b"))).world.remote "/sys/mounts/b" =
        some (.mount (VaultMountReconciler.mountInput (mountAt "" "b"))) ∧
      VaultMountReconciler.Deleting (mountModel noFault) mountedDeleting deletingMount
        mountedDeleting ∧
      (mountOnce mountedDeleting).err = none ∧
      remoteEvents (mountOnce mountedDeleting).log = [⟨.Delete "b", true⟩] ∧
      (mountOnce mountedDeleting).world.manifest.map (fun o => o.ObjectMeta.Finalizers) =
        some ["other/finalizer"] ∧
      (mountOnce mountedDeleting).world.remote "/sys/mounts/b" =
        some (.mount (VaultMountReconciler.mountInput deletingMount))) ∧
    ((kvOnce (emptyRemote (kvMountAt "" "b"))).world.remote "/sys/mounts/b" =
        some (.doc (VaultKVMountReconciler.createPayload (kvMountAt "" "b"))) ∧
      VaultKVMountReconciler.Deleting (kvMountModel noFault) kvMountedDeleting deletingKVMount
        kvMountedDeleting ∧
      (kvOnce kvMountedDeleting).err = none ∧
      remoteEvents (kvOnce kvMountedDeleting).log = [⟨.Delete "b", true⟩] ∧
      (kvOnce kvMountedDeleting).world.manifest.map (fun o => o.ObjectMeta.Finalizers) =
        some ["other/finalizer"] ∧
      (kvOnce kvMountedDeleting).world.remote "/sys/mounts/b" =
        some (.doc (VaultKVMountReconciler.createPayload deletingKVMount))) ∧
    ((policyOnce (emptyRemote (policyAt "" "b"))).world.remote "/sys/policies/acl/b" =
        some (.doc (VaultPolicyReconciler.writePayload (policyAt "" "b"))) ∧
      VaultPolicyReconciler.Deleting (policyModel noFault) policyWrittenDeleting deletingPolicy
        policyWrittenDeleting ∧
      (policyOnce policyWrittenDeleting).err = none ∧
      remoteEvents (policyOnce policyWrittenDeleting).log =
        [⟨.Delete "/sys/policies/acl/b", true⟩] ∧
      (policyOnce policyWrittenDeleting).world.manifest.map
        (fun o => o.ObjectMeta.Finalizers) = some ["other/finalizer"] ∧
      (policyOnce policyWrittenDeleting).world.remote "/sys/policies/acl/b" = none) := by
  refine ⟨fun W env w w1 o hD hc =>
      ⟨mount_deleting_delete_address env w w1 o hD hc, path_ne_mount_address _⟩,
    fun W env w w1 o hD hc =>
      ⟨kv_deleting_delete_address env w w1 o hD hc, path_ne_mount_address _⟩,
    fun W env w w1 o hD hc => policy_deleting_delete_address env w w1 o hD hc,
    ⟨by decide, ⟨deletingMount, _, 1, rfl, rfl, rfl, rfl⟩, by decide, by decide, by decide,
      by decide⟩,
    ⟨by decide, ⟨deletingKVMount, _, 1, rfl, rfl, rfl, rfl⟩, by decide, by decide, by decide,
      by decide⟩,
    ⟨?_, ⟨deletingPolicy, _, 1, rfl, rfl, rfl, rfl⟩, by decide, by decide, by decide,
      by decide⟩⟩
  decide

/-! ## Deterministic encoding -/

/-- Inserting an entry with a fresh key into entries sorted strictly by key
keeps them sorted strictly by key. -/
theorem insertByKey_sorted {α : Type} (e : String × α) (l : List (String × α))
    (hl : l.Pairwise (fun a b => a.1 < b.1)) (he : ∀ x ∈ l, x.1 ≠ e.1) :
    (insertByKey e l).Pairwise (fun a b => a.1 < b.1) := by
  induction l with
  | nil => simp [insertByKey]
  | cons x xs ih =>
    rw [List.pairwise_cons] at hl
    have hx : x.1 ≠ e.1 := he x (List.mem_cons_self _ _)
    by_cases hlt : x.1 < e.1
    · have hins : insertByKey e (x :: xs) = x :: insertByKey e xs := by
        simp [insertByKey, hlt]
      rw [hins, List.pairwise_cons]
      refine ⟨fun y hy => ?_, ih hl.2 (fun y hy => he y (List.mem_cons_of_mem _ hy))⟩
      rcases List.mem_cons.1 ((insertByKey_perm e xs).subset hy) with h | h
      · rw [h]; exact hlt
      · exact hl.1 y h
    · have hins : insertByKey e (x :: xs) = e :: x :: xs := by
        simp [insertByKey, hlt]
      have hex : e.1 < x.1 := lt_of_le_of_ne (not_lt.1 hlt) (Ne.symm hx)
      rw [hins, List.pairwise_cons, List.pairwise_cons]
      refine ⟨fun y hy => ?_, hl⟩
      rcases List.mem_cons.1 hy with h | h
      · rw [h]; exact hex
      · exact lt_trans hex (hl.1 y h)

/-- The entries of a map, whose keys are distinct, come out of `sortByKey`
sorted strictly by key. -/
theorem sortByKey_sorted {α : Type} (m : List (String × α)) (h : (m.map Prod.fst).Nodup) :
    (sortByKey m).Pairwise (fun a b => a.1 < b.1) := by
  induction m with
  | nil => simp [sortByKey]
  | cons x xs ih =>
    rw [List.map_cons, List.nodup_cons] at h
    have hs : sortByKey (x :: xs) = insertByKey x (sortByKey xs) := rfl
    rw [hs]
    refine insertByKey_sorted x _ (ih h.2) (fun y hy hxy => h.1 ?_)
    rw [← hxy]
    exact List.mem_map_of_mem Prod.fst ((sortByKey_perm xs).subset hy)

/-- The order in which `Marshal` emits the entries of a map does not depend on
the order in which the entries were set. -/
theorem sortByKey_eq_of_perm {α : Type} (m1 m2 : List (String × α)) (hp : m1.Perm m2)
    (h : (m1.map Prod.fst).Nodup) : sortByKey m1 = sortByKey m2 := by
  haveI : IsAntisymm (String × α) (fun a b => a.1 < b.1) :=
    ⟨fun a b h1 h2 => absurd (lt_trans h1 h2) (lt_irrefl _)⟩
  have h2 : (m2.map Prod.fst).Nodup := ((hp.map Prod.fst).nodup_iff).1 h
  exact List.eq_of_perm_of_sorted
    (((sortByKey_perm m1).trans hp).trans (sortByKey_perm m2).symm)
    (sortByKey_sorted m1 h) (sortByKey_sorted m2 h2)

/-- C19: deterministic encoding. Two policy manifests whose path maps hold the
same entries, set in any order (the entry lists are permutations of each other,
keys distinct as in a Go map), give the same policy document string and the
same write payload; the KV create payload, the mount create input and the
mount tune input are the same for manifests of equal spec, whatever their
metadata and status. -/
theorem C19_deterministic_encoding (p q : VaultPolicy)
    (hk : (p.Spec.Path.map Prod.fst).Nodup) (hperm : p.Spec.Path.Perm q.Spec.Path)
    (k1 k2 : VaultKVMount) (hkv : k1.Spec = k2.Spec)
    (o1 o2 : VaultMount) (ho : o1.Spec = o2.Spec) :
    marshalPolicy (VaultPolicyReconciler.pathMap p) =
      marshalPolicy (VaultPolicyReconciler.pathMap q) ∧
    VaultPolicyReconciler.writePayload p = VaultPolicyReconciler.writePayload q ∧
    VaultKVMountReconciler.createPayload k1 = VaultKVMountReconciler.createPayload k2 ∧
    VaultMountReconciler.mountInput o1 = VaultMountReconciler.mountInput o2 ∧
    VaultMountReconciler.config o1 = VaultMountReconciler.config o2 := by
  have hq : (q.Spec.Path.map Prod.fst).Nodup := ((hperm.map Prod.fst).nodup_iff).1 hk
  have hm : marshalPolicy (VaultPolicyReconciler.pathMap p) =
      marshalPolicy (VaultPolicyReconciler.pathMap q) := by
    rw [pathMap_eq_map p hk, pathMap_eq_map q hq, marshalPolicy, marshalPolicy,
      sortByKey_eq_of_perm _ _
        (hperm.map (fun e => (e.1, VaultPolicyReconciler.copyPath e.2)))
        (by rw [List.map_map]; exact hk)]
  refine ⟨hm, ?_, ?_, ?_, ?_⟩
  · rw [VaultPolicyReconciler.writePayload, VaultPolicyReconciler.writePayload, hm]
  · rw [VaultKVMountReconciler.createPayload, VaultKVMountReconciler.createPayload, hkv]
  · rw [VaultMountReconciler.mountInput, VaultMountReconciler.mountInput,
      VaultMountReconciler.config, VaultMountReconciler.config, ho]
  · rw [VaultMountReconciler.config, VaultMountReconciler.config, ho]

/-- C19 at the two-pattern policy set in both orders, and at manifests of
equal spec with different metadata and status. -/
theorem C19_deterministic_encoding_witness :
    marshalPolicy (VaultPolicyReconciler.pathMap readerAB) =
      marshalPolicy (VaultPolicyReconciler.pathMap readerBA) ∧
    VaultPolicyReconciler.writePayload readerAB = VaultPolicyReconciler.writePayload readerBA ∧
    VaultKVMountReconciler.createPayload (kvMountAt "a" "b") =
      VaultKVMountReconciler.createPayload deletingKVMount ∧
    VaultMountReconciler.mountInput (mountAt "a" "b") =
      VaultMountReconciler.mountInput deletingMount ∧
    VaultMountReconciler.config (mountAt "a" "b") = VaultMountReconciler.config deletingMount :=
  C19_deterministic_encoding readerAB readerBA (by simp [readerAB])
    (by simp [readerAB, readerBA, List.Perm.swap])
    (kvMountAt "a" "b") deletingKVMount rfl (mountAt "a" "b") deletingMount rfl

/-! ## The delete branch -/

/-- The Vault calls of a reconcile of the VaultMount kind on the Deleting path:
none without the finalizer, the one finalizer-gated `Delete` with it; no
status update, no create, tune, write, read or list. -/
theorem mount_deleting_calls {W : Type} (env : Env W VaultMount) (w w1 : W) (o : VaultMount)
    (hD : VaultMountReconciler.Deleting env w o w1) :
    statusUpdates (VaultMountReconciler.Reconcile env w).log = [] ∧
    (∀ e ∈ (VaultMountReconciler.Reconcile env w).log, e.isApply = false ∧ e.call.isReadOrList = false) ∧
    ((vaultMountFinalizer ∉ o.ObjectMeta.Finalizers ∧ remoteEvents (VaultMountReconciler.Reconcile env w).log = []) ∨
      (vaultMountFinalizer ∈ o.ObjectMeta.Finalizers ∧
        ∃ ok, remoteEvents (VaultMountReconciler.Reconcile env w).log = [⟨.Delete o.Spec.Path, ok⟩])) := by
  obtain ⟨o0, -, hR⟩ := mount_reconcile_of_deleting env w w1 o hD
  rw [hR, after_log]
  by_cases hc : vaultMountFinalizer ∈ o.ObjectMeta.Finalizers
  · rcases hDel : env.Delete o.Spec.Path w1 with ⟨_ | e, w2⟩
    · rw [mount_handleFinalizer_delete_ok env o w1 w2 hc hDel]
      refine ⟨by simp [statusUpdates, Event.isStatusUpdate, Call.isStatusUpdate], ?_,
        Or.inr ⟨hc, true, by simp [remoteEvents, Event.isRemote, Call.isRemote]⟩⟩
      intro e he
      simp only [List.cons_append, List.nil_append, List.mem_cons, List.mem_singleton,
        List.not_mem_nil, or_false] at he
      rcases he with h | h | h | h <;> rw [h] <;> exact ⟨rfl, rfl⟩
    · rw [mount_handleFinalizer_delete_fail env o w1 w2 e hc hDel]
      refine ⟨by simp [statusUpdates, Event.isStatusUpdate, Call.isStatusUpdate], ?_,
        Or.inr ⟨hc, false, by simp [remoteEvents, Event.isRemote, Call.isRemote]⟩⟩
      intro e he
      simp only [List.cons_append, List.nil_append, List.mem_cons, List.mem_singleton,
        List.not_mem_nil, or_false] at he
      rcases he with h | h | h <;> rw [h] <;> exact ⟨rfl, rfl⟩
  · rw [mount_handleFinalizer_absent env o w1 hc]
    refine ⟨by simp [statusUpdates, Event.isStatusUpdate, Call.isStatusUpdate], ?_,
      Or.inl ⟨hc, by simp [remoteEvents, Event.isRemote, Call.isRemote]⟩⟩
    intro e he
    simp only [List.append_nil, List.mem_cons, List.mem_singleton, List.not_mem_nil,
      or_false] at he
    rcases he with h | h <;> rw [h] <;> exact ⟨rfl, rfl⟩

/-- The Vault calls of a reconcile of the VaultKVMount kind on the Deleting path:
none without the finalizer, the one finalizer-gated `Delete` with it; no
status update, no create, tune, write, read or list. -/
theorem kv_deleting_calls {W : Type} (env : Env W VaultKVMount) (w w1 : W) (o : VaultKVMount)
    (hD : VaultKVMountReconciler.Deleting env w o w1) :
    statusUpdates (VaultKVMountReconciler.Reconcile env w).log = [] ∧
    (∀ e ∈ (VaultKVMountReconciler.Reconcile env w).log, e.isApply = false ∧ e.call.isReadOrList = false) ∧
    ((vaultKVMountFinalizer ∉ o.ObjectMeta.Finalizers ∧ remoteEvents (VaultKVMountReconciler.Reconcile env w).log = []) ∨
      (vaultKVMountFinalizer ∈ o.ObjectMeta.Finalizers ∧
        ∃ ok, remoteEvents (VaultKVMountReconciler.Reconcile env w).log = [⟨.Delete o.Spec.Path, ok⟩])) := by
  obtain ⟨o0, -, hR⟩ := kv_reconcile_of_deleting env w w1 o hD
  rw [hR, after_log]
  by_cases hc : vaultKVMountFinalizer ∈ o.ObjectMeta.Finalizers
  · rcases hDel : env.Delete o.Spec.Path w1 with ⟨_ | e, w2⟩
    · rw [kv_handleFinalizer_delete_ok env o w1 w2 hc hDel]
      refine ⟨by simp [statusUpdates, Event.isStatusUpdate, Call.isStatusUpdate], ?_,
        Or.inr ⟨hc, true, by simp [remoteEvents, Event.isRemote, Call.isRemote]⟩⟩
      intro e he
      simp only [List.cons_append, List.nil_append, List.mem_cons, List.mem_singleton,
        List.not_mem_nil, or_false] at he
      rcases he with h | h | h | h <;> rw [h] <;> exact ⟨rfl, rfl⟩
    · rw [kv_handleFinalizer_delete_fail env o w1 w2 e hc hDel]
      refine ⟨by simp [statusUpdates, Event.isStatusUpdate, Call.isStatusUpdate], ?_,
        Or.inr ⟨hc, false, by simp [remoteEvents, Event.isRemote, Call.isRemote]⟩⟩
      intro e he
      simp only [List.cons_append, List.nil_append, List.mem_cons, List.mem_singleton,
        List.not_mem_nil, or_false] at he
      rcases he with h | h | h <;> rw [h] <;> exact ⟨rfl, rfl⟩
  · rw [kv_handleFinalizer_absent env o w1 hc]
    refine ⟨by simp [statusUpdates, Event.isStatusUpdate, Call.isStatusUpdate], ?_,
      Or.inl ⟨hc, by simp [remoteEvents, Event.isRemote, Call.isRemote]⟩⟩
    intro e he
    simp only [List.append_nil, List.mem_cons, List.mem_singleton, List.not_mem_nil,
      or_false] at he
    rcases he with h | h <;> rw [h] <;> exact ⟨rfl, rfl⟩

/-- The Vault calls of a reconcile of the VaultPolicy kind on the Deleting path:
none without the finalizer, the one finalizer-gated `Delete` with it; no
status update, no create, tune, write, read or list. -/
theorem policy_deleting_calls {W : Type} (env : Env W VaultPolicy) (w w1 : W) (o : VaultPolicy)
    (hD : VaultPolicyReconciler.Deleting env w o w1) :
    statusUpdates (VaultPolicyReconciler.Reconcile env w).log = [] ∧
    (∀ e ∈ (VaultPolicyReconciler.Reconcile env w).log, e.isApply = false ∧ e.call.isReadOrList = false) ∧
    ((vaultPolicyFinalizer ∉ o.ObjectMeta.Finalizers ∧ remoteEvents (VaultPolicyReconciler.Reconcile env w).log = []) ∨
      (vaultPolicyFinalizer ∈ o.ObjectMeta.Finalizers ∧
        ∃ ok, remoteEvents (VaultPolicyReconciler.Reconcile env w).log = [⟨.Delete ("/sys/policies/acl/" ++ o.ObjectMeta.Name), ok⟩])) := by
  obtain ⟨o0, -, hR⟩ := policy_reconcile_of_deleting env w w1 o hD
  rw [hR, after_log]
  by_cases hc : vaultPolicyFinalizer ∈ o.ObjectMeta.Finalizers
  · rcases hDel : env.Delete ("/sys/policies/acl/" ++ o.ObjectMeta.Name) w1 with ⟨_ | e, w2⟩
    · rw [policy_handleFinalizer_delete_ok env o w1 w2 hc hDel]
      refine ⟨by simp [statusUpdates, Event.isStatusUpdate, Call.isStatusUpdate], ?_,
        Or.inr ⟨hc, true, by simp [remoteEvents, Event.isRemote, Call.isRemote]⟩⟩
      intro e he
      simp only [List.cons_append, List.nil_append, List.mem_cons, List.mem_singleton,
        List.not_mem_nil, or_false] at he
      rcases he with h | h | h | h <;> rw [h] <;> exact ⟨rfl, rfl⟩
    · rw [policy_handleFinalizer_delete_fail env o w1 w2 e hc hDel]
      refine ⟨by simp [statusUpdates, Event.isStatusUpdate, Call.isStatusUpdate], ?_,
        Or.inr ⟨hc, false, by simp [remoteEvents, Event.isRemote, Call.isRemote]⟩⟩
      intro e he
      simp only [List.cons_append, List.nil_append, List.mem_cons, List.mem_singleton,
        List.not_mem_nil, or_false] at he
      rcases he with h | h | h <;> rw [h] <;> exact ⟨rfl, rfl⟩
  · rw [policy_handleFinalizer_absent env o w1 hc]
    refine ⟨by simp [statusUpdates, Event.isStatusUpdate, Call.isStatusUpdate], ?_,
      Or.inl ⟨hc, by simp [remoteEvents, Event.isRemote, Call.isRemote]⟩⟩
    intro e he
    simp only [List.append_nil, List.mem_cons, List.mem_singleton, List.not_mem_nil,
      or_false] at he
    rcases he with h | h <;> rw [h] <;> exact ⟨rfl, rfl⟩

/-- C21: the delete branch excludes convergence, for each kind. Whenever the
fetched manifest has its deletion timestamp set, the reconcile issues no
status update, no create, tune or write and no read or list; its Vault calls
are none, or, with the finalizer attached, exactly one `Delete`, the
finalizer-gated one, so no rename cleanup delete is issued besides it. -/
theorem C21_delete_branch {W U V : Type}
    (env : Env W VaultMount) (w wg : W) (o : VaultMount) (t : Nat)
    (hG : env.Get w = (.found o, wg)) (hT : o.ObjectMeta.DeletionTimestamp = some t)
    (kenv : Env U VaultKVMount) (u ug : U) (k : VaultKVMount) (tk : Nat)
    (hGk : kenv.Get u = (.found k, ug)) (hTk : k.ObjectMeta.DeletionTimestamp = some tk)
    (penv : Env V VaultPolicy) (v vg : V) (p : VaultPolicy) (tp : Nat)
    (hGp : penv.Get v = (.found p, vg)) (hTp : p.ObjectMeta.DeletionTimestamp = some tp) :
    (statusUpdates (VaultMountReconciler.Reconcile env w).log = [] ∧
      (∀ e ∈ (VaultMountReconciler.Reconcile env w).log,
        e.isApply = false ∧ e.call.isReadOrList = false) ∧
      (remoteEvents (VaultMountReconciler.Reconcile env w).log = [] ∨
        (vaultMountFinalizer ∈ o.ObjectMeta.Finalizers ∧
          ∃ ok, remoteEvents (VaultMountReconciler.Reconcile env w).log = [⟨.Delete o.Spec.Path, ok⟩]))) ∧
    (statusUpdates (VaultKVMountReconciler.Reconcile kenv u).log = [] ∧
      (∀ e ∈ (VaultKVMountReconciler.Reconcile kenv u).log,
        e.isApply = false ∧ e.call.isReadOrList = false) ∧
      (remoteEvents (VaultKVMountReconciler.Reconcile kenv u).log = [] ∨
        (vaultKVMountFinalizer ∈ k.ObjectMeta.Finalizers ∧
          ∃ ok, remoteEvents (VaultKVMountReconciler.Reconcile kenv u).log = [⟨.Delete k.Spec.Path, ok⟩]))) ∧
    (statusUpdates (VaultPolicyReconciler.Reconcile penv v).log = [] ∧
      (∀ e ∈ (VaultPolicyReconciler.Reconcile penv v).log,
        e.isApply = false ∧ e.call.isReadOrList = false) ∧
      (remoteEvents (VaultPolicyReconciler.Reconcile penv v).log = [] ∨
        (vaultPolicyFinalizer ∈ p.ObjectMeta.Finalizers ∧
          ∃ ok, remoteEvents (VaultPolicyReconciler.Reconcile penv v).log = [⟨.Delete ("/sys/policies/acl/" ++ p.ObjectMeta.Name), ok⟩]))) := by
  refine ⟨?_, ?_, ?_⟩
  · rcases hF : env.ClientFactoryGet o wg with ⟨_ | e, w1⟩
    · obtain ⟨h1, h2, h3⟩ := mount_deleting_calls env w w1
        { o with Status := { o.Status with Valid := false } } ⟨o, wg, t, hG, hF, hT, rfl⟩
      refine ⟨h1, h2, ?_⟩
      rcases h3 with ⟨-, h⟩ | ⟨hc, h⟩
      · exact Or.inl h
      · exact Or.inr ⟨hc, h⟩
    · rw [mount_reconcile_factory_failed env w wg w1 o e hG hF]
      refine ⟨by simp [statusUpdates, Event.isStatusUpdate, Call.isStatusUpdate], ?_,
        Or.inl (by simp [remoteEvents, Event.isRemote, Call.isRemote])⟩
      intro x hx
      simp only [List.mem_cons, List.mem_singleton, List.not_mem_nil, or_false] at hx
      rcases hx with h | h | h <;> rw [h] <;> exact ⟨rfl, rfl⟩
  · rcases hF : kenv.ClientFactoryGet k ug with ⟨_ | e, w1⟩
    · obtain ⟨h1, h2, h3⟩ := kv_deleting_calls kenv u w1
        { k with Status := { k.Status with Valid := false } } ⟨k, ug, tk, hGk, hF, hTk, rfl⟩
      refine ⟨h1, h2, ?_⟩
      rcases h3 with ⟨-, h⟩ | ⟨hc, h⟩
      · exact Or.inl h
      · exact Or.inr ⟨hc, h⟩
    · rw [kv_reconcile_factory_failed kenv u ug w1 k e hGk hF]
      refine ⟨by simp [statusUpdates, Event.isStatusUpdate, Call.isStatusUpdate], ?_,
        Or.inl (by simp [remoteEvents, Event.isRemote, Call.isRemote])⟩
      intro x hx
      simp only [List.mem_cons, List.mem_singleton, List.not_mem_nil, or_false] at hx
      rcases hx with h | h | h <;> rw [h] <;> exact ⟨rfl, rfl⟩
  · rcases hF : penv.ClientFactoryGet p vg with ⟨_ | e, w1⟩
    · obtain ⟨h1, h2, h3⟩ := policy_deleting_calls penv v w1
        { p with Status := { p.Status with Valid := false } } ⟨p, vg, tp, hGp, hF, hTp, rfl⟩
      refine ⟨h1, h2, ?_⟩
      rcases h3 with ⟨-, h⟩ | ⟨hc, h⟩
      · exact Or.inl h
      · exact Or.inr ⟨hc, h⟩
    · rw [policy_reconcile_factory_failed penv v vg w1 p e hGp hF]
      refine ⟨by simp [statusUpdates, Event.isStatusUpdate, Call.isStatusUpdate], ?_,
        Or.inl (by simp [remoteEvents, Event.isRemote, Call.isRemote])⟩
      intro x hx
      simp only [List.mem_cons, List.mem_singleton, List.not_mem_nil, or_false] at hx
      rcases hx with h | h | h <;> rw [h] <;> exact ⟨rfl, rfl⟩

/-- C21 at the manifests marked for deletion, over the model without faults,
for each kind. -/
theorem C21_delete_branch_witness :
    (statusUpdates (VaultMountReconciler.Reconcile (mountModel noFault) mountedDeleting).log = [] ∧
      (∀ e ∈ (VaultMountReconciler.Reconcile (mountModel noFault) mountedDeleting).log, e.isApply = false ∧ e.call.isReadOrList = false) ∧
      (remoteEvents (VaultMountReconciler.Reconcile (mountModel noFault) mountedDeleting).log = [] ∨
        (vaultMountFinalizer ∈ deletingMount.ObjectMeta.Finalizers ∧
          ∃ ok, remoteEvents (VaultMountReconciler.Reconcile (mountModel noFault) mountedDeleting).log = [⟨.Delete deletingMount.Spec.Path, ok⟩]))) ∧
    (statusUpdates (VaultKVMountReconciler.Reconcile (kvMountModel noFault) kvMountedDeleting).log = [] ∧
      (∀ e ∈ (VaultKVMountReconciler.Reconcile (kvMountModel noFault) kvMountedDeleting).log, e.isApply = false ∧ e.call.isReadOrList = false) ∧
      (remoteEvents (VaultKVMountReconciler.Reconcile (kvMountModel noFault) kvMountedDeleting).log = [] ∨
        (vaultKVMountFinalizer ∈ deletingKVMount.ObjectMeta.Finalizers ∧
          ∃ ok, remoteEvents (VaultKVMountReconciler.Reconcile (kvMountModel noFault) kvMountedDeleting).log = [⟨.Delete deletingKVMount.Spec.Path, ok⟩]))) ∧
    (statusUpdates (VaultPolicyReconciler.Reconcile (policyModel noFault) policyWrittenDeleting).log = [] ∧
      (∀ e ∈ (VaultPolicyReconciler.Reconcile (policyModel noFault) policyWrittenDeleting).log, e.isApply = false ∧ e.call.isReadOrList = false) ∧
      (remoteEvents (VaultPolicyReconciler.Reconcile (policyModel noFault) policyWrittenDeleting).log = [] ∨
        (vaultPolicyFinalizer ∈ deletingPolicy.ObjectMeta.Finalizers ∧
          ∃ ok, remoteEvents (VaultPolicyReconciler.Reconcile (policyModel noFault) policyWrittenDeleting).log = [⟨.Delete ("/sys/policies/acl/" ++ deletingPolicy.ObjectMeta.Name), ok⟩]))) :=
  C21_delete_branch
    (mountModel noFault) mountedDeleting mountedDeleting deletingMount 1 rfl rfl
    (kvMountModel noFault) kvMountedDeleting kvMountedDeleting deletingKVMount 1 rfl rfl
    (policyModel noFault) policyWrittenDeleting policyWrittenDeleting deletingPolicy 1 rfl rfl

/-! ## Deleting without the finalizer -/

/-- C28: deleting without the finalizer is a no-op, for each kind. On the
Deleting path, when the finalizer list does not hold the kind's marker, the
finalizer handling does nothing, and the reconcile returns no error, leaves
the world as it was after the handle was
obtained and the in-memory object as it is, and issues no Vault call (so no
delete), no manifest update and no status update. -/
theorem C28_deleting_without_finalizer {W U V : Type}
    (env : Env W VaultMount) (w w1 : W) (o : VaultMount)
    (hD : VaultMountReconciler.Deleting env w o w1)
    (hc : vaultMountFinalizer ∉ o.ObjectMeta.Finalizers)
    (kenv : Env U VaultKVMount) (u u1 : U) (k : VaultKVMount)
    (hK : VaultKVMountReconciler.Deleting kenv u k u1)
    (hck : vaultKVMountFinalizer ∉ k.ObjectMeta.Finalizers)
    (penv : Env V VaultPolicy) (v v1 : V) (p : VaultPolicy)
    (hP : VaultPolicyReconciler.Deleting penv v p v1)
    (hcp : vaultPolicyFinalizer ∉ p.ObjectMeta.Finalizers) :
    (VaultMountReconciler.handleFinalizer env o w1 = ⟨none, some o, w1, []⟩ ∧
      (VaultMountReconciler.Reconcile env w).err = none ∧
      (VaultMountReconciler.Reconcile env w).world = w1 ∧
      (VaultMountReconciler.Reconcile env w).obj = some o ∧
      remoteEvents (VaultMountReconciler.Reconcile env w).log = [] ∧
      manifestUpdates (VaultMountReconciler.Reconcile env w).log = [] ∧
      statusUpdates (VaultMountReconciler.Reconcile env w).log = []) ∧
    (VaultKVMountReconciler.handleFinalizer kenv k u1 = ⟨none, some k, u1, []⟩ ∧
      (VaultKVMountReconciler.Reconcile kenv u).err = none ∧
      (VaultKVMountReconciler.Reconcile kenv u).world = u1 ∧
      (VaultKVMountReconciler.Reconcile kenv u).obj = some k ∧
      remoteEvents (VaultKVMountReconciler.Reconcile kenv u).log = [] ∧
      manifestUpdates (VaultKVMountReconciler.Reconcile kenv u).log = [] ∧
      statusUpdates (VaultKVMountReconciler.Reconcile kenv u).log = []) ∧
    (VaultPolicyReconciler.handleFinalizer penv p v1 = ⟨none, some p, v1, []⟩ ∧
      (VaultPolicyReconciler.Reconcile penv v).err = none ∧
      (VaultPolicyReconciler.Reconcile penv v).world = v1 ∧
      (VaultPolicyReconciler.Reconcile penv v).obj = some p ∧
      remoteEvents (VaultPolicyReconciler.Reconcile penv v).log = [] ∧
      manifestUpdates (VaultPolicyReconciler.Reconcile penv v).log = [] ∧
      statusUpdates (VaultPolicyReconciler.Reconcile penv v).log = []) := by
  refine ⟨?_, ?_, ?_⟩
  · obtain ⟨o0, -, hR⟩ := mount_reconcile_of_deleting env w w1 o hD
    rw [hR, mount_handleFinalizer_absent env o w1 hc]
    refine ⟨rfl, rfl, rfl, rfl, ?_, ?_, ?_⟩
    · simp [Outcome.after, remoteEvents, Event.isRemote, Call.isRemote]
    · simp [Outcome.after, manifestUpdates, Event.isUpdate, Call.isUpdate]
    · simp [Outcome.after, statusUpdates, Event.isStatusUpdate, Call.isStatusUpdate]
  · obtain ⟨o0, -, hR⟩ := kv_reconcile_of_deleting kenv u u1 k hK
    rw [hR, kv_handleFinalizer_absent kenv k u1 hck]
    refine ⟨rfl, rfl, rfl, rfl, ?_, ?_, ?_⟩
    · simp [Outcome.after, remoteEvents, Event.isRemote, Call.isRemote]
    · simp [Outcome.after, manifestUpdates, Event.isUpdate, Call.isUpdate]
    · simp [Outcome.after, statusUpdates, Event.isStatusUpdate, Call.isStatusUpdate]
  · obtain ⟨o0, -, hR⟩ := policy_reconcile_of_deleting penv v v1 p hP
    rw [hR, policy_handleFinalizer_absent penv p v1 hcp]
    refine ⟨rfl, rfl, rfl, rfl, ?_, ?_, ?_⟩
    · simp [Outcome.after, remoteEvents, Event.isRemote, Call.isRemote]
    · simp [Outcome.after, manifestUpdates, Event.isUpdate, Call.isUpdate]
    · simp [Outcome.after, statusUpdates, Event.isStatusUpdate, Call.isStatusUpdate]

/-- C28 at the manifests marked for deletion that hold a foreign finalizer
only, over the model, for each kind. -/
theorem C28_deleting_without_finalizer_witness :
    (VaultMountReconciler.handleFinalizer (mountModel noFault) unguardedMount (emptyRemote unguardedMount) =
        ⟨none, some unguardedMount, emptyRemote unguardedMount, []⟩ ∧
      (VaultMountReconciler.Reconcile (mountModel noFault) (emptyRemote unguardedMount)).err = none ∧
      (VaultMountReconciler.Reconcile (mountModel noFault) (emptyRemote unguardedMount)).world = emptyRemote unguardedMount ∧
      (VaultMountReconciler.Reconcile (mountModel noFault) (emptyRemote unguardedMount)).obj = some unguardedMount ∧
      remoteEvents (VaultMountReconciler.Reconcile (mountModel noFault) (emptyRemote unguardedMount)).log = [] ∧
      manifestUpdates (VaultMountReconciler.Reconcile (mountModel noFault) (emptyRemote unguardedMount)).log = [] ∧
      statusUpdates (VaultMountReconciler.Reconcile (mountModel noFault) (emptyRemote unguardedMount)).log = []) ∧
    (VaultKVMountReconciler.handleFinalizer (kvMountModel noFault) unguardedKVMount (emptyRemote unguardedKVMount) =
        ⟨none, some unguardedKVMount, emptyRemote unguardedKVMount, []⟩ ∧
      (VaultKVMountReconciler.Reconcile (kvMountModel noFault) (emptyRemote unguardedKVMount)).err = none ∧
      (VaultKVMountReconciler.Reconcile (kvMountModel noFault) (emptyRemote unguardedKVMount)).world = emptyRemote unguardedKVMount ∧
      (VaultKVMountReconciler.Reconcile (kvMountModel noFault) (emptyRemote unguardedKVMount)).obj = some unguardedKVMount ∧
      remoteEvents (VaultKVMountReconciler.Reconcile (kvMountModel noFault) (emptyRemote unguardedKVMount)).log = [] ∧
      manifestUpdates (VaultKVMountReconciler.Reconcile (kvMountModel noFault) (emptyRemote unguardedKVMount)).log = [] ∧
      statusUpdates (VaultKVMountReconciler.Reconcile (kvMountModel noFault) (emptyRemote unguardedKVMount)).log = []) ∧
    (VaultPolicyReconciler.handleFinalizer (policyModel noFault) unguardedPolicy (emptyRemote unguardedPolicy) =
        ⟨none, some unguardedPolicy, emptyRemote unguardedPolicy, []⟩ ∧
      (VaultPolicyReconciler.Reconcile (policyModel noFault) (emptyRemote unguardedPolicy)).err = none ∧
      (VaultPolicyReconciler.Reconcile (policyModel noFault) (emptyRemote unguardedPolicy)).world = emptyRemote unguardedPolicy ∧
      (VaultPolicyReconciler.Reconcile (policyModel noFault) (emptyRemote unguardedPolicy)).obj = some unguardedPolicy ∧
      remoteEvents (VaultPolicyReconciler.Reconcile (policyModel noFault) (emptyRemote unguardedPolicy)).log = [] ∧
      manifestUpdates (VaultPolicyReconciler.Reconcile (policyModel noFault) (emptyRemote unguardedPolicy)).log = [] ∧
      statusUpdates (VaultPolicyReconciler.Reconcile (policyModel noFault) (emptyRemote unguardedPolicy)).log = []) :=
  C28_deleting_without_finalizer
    (mountModel noFault) (emptyRemote unguardedMount) (emptyRemote unguardedMount) unguardedMount
    ⟨unguardedMount, _, 1, rfl, rfl, rfl, rfl⟩ (by decide)
    (kvMountModel noFault) (emptyRemote unguardedKVMount) (emptyRemote unguardedKVMount) unguardedKVMount
    ⟨unguardedKVMount, _, 1, rfl, rfl, rfl, rfl⟩ (by decide)
    (policyModel noFault) (emptyRemote unguardedPolicy) (emptyRemote unguardedPolicy) unguardedPolicy
    ⟨unguardedPolicy, _, 1, rfl, rfl, rfl, rfl⟩ (by decide)

/-! ## A failed existence check -/

/-- C27: a failed existence check is read-only, for the two mount kinds. On
the Active path, when `ListMounts` (mount) or the `Read` of
`/sys/mounts/<path>` (KV mount) returns an error, the reconcile returns that
error, the failed check is its only Vault call (no create, tune, write or
delete) and it issues no status update. -/
theorem C27_existence_check_failure {W U : Type}
    (env : Env W VaultMount) (w w1 w2 : W) (o : VaultMount) (e : Err)
    (hA : VaultMountReconciler.Active env w o w1)
    (hL : env.ListMounts w1 = (.error e, w2))
    (kenv : Env U VaultKVMount) (u u1 u2 : U) (k : VaultKVMount) (ek : Err)
    (hK : VaultKVMountReconciler.Active kenv u k u1)
    (hR : kenv.Read ("/sys/mounts/" ++ k.Spec.Path) u1 = (.error ek, u2)) :
    ((VaultMountReconciler.Reconcile env w).err = some e ∧
      remoteEvents (VaultMountReconciler.Reconcile env w).log = [⟨.ListMounts, false⟩] ∧
      statusUpdates (VaultMountReconciler.Reconcile env w).log = [] ∧
      (VaultMountReconciler.Reconcile env w).world = w2) ∧
    ((VaultKVMountReconciler.Reconcile kenv u).err = some ek ∧
      remoteEvents (VaultKVMountReconciler.Reconcile kenv u).log =
        [⟨.Read ("/sys/mounts/" ++ k.Spec.Path), false⟩] ∧
      statusUpdates (VaultKVMountReconciler.Reconcile kenv u).log = [] ∧
      (VaultKVMountReconciler.Reconcile kenv u).world = u2) := by
  constructor
  · obtain ⟨pre, hpre, hRec⟩ := mount_reconcile_of_active env w w1 o hA
    have h1 := remoteEvents_pre pre hpre
    have h2 := statusUpdates_pre pre hpre
    rw [remoteEvents] at h1
    rw [statusUpdates] at h2
    rw [hRec, mount_converge_list_fail env o w1 w2 e hL]
    refine ⟨rfl, ?_, ?_, rfl⟩
    · simp only [Outcome.after, remoteEvents, List.filter_append, h1, List.nil_append]
      rfl
    · simp only [Outcome.after, statusUpdates, List.filter_append, h2, List.nil_append]
      rfl
  · obtain ⟨pre, hpre, hRec⟩ := kv_reconcile_of_active kenv u u1 k hK
    have h1 := remoteEvents_pre pre hpre
    have h2 := statusUpdates_pre pre hpre
    rw [remoteEvents] at h1
    rw [statusUpdates] at h2
    rw [hRec, kv_converge_read_fail kenv k u1 u2 ek hR]
    refine ⟨rfl, ?_, ?_, rfl⟩
    · simp only [Outcome.after, remoteEvents, List.filter_append, h1, List.nil_append]
      rfl
    · simp only [Outcome.after, statusUpdates, List.filter_append, h2, List.nil_append]
      rfl

/-- C27 at a rename from `a` to `b` over the model whose reads and listings
fail. -/
theorem C27_existence_check_failure_witness :
    ((VaultMountReconciler.Reconcile (mountModel Call.isReadOrList) mountRenameWorld).err =
        some "remote error" ∧
      remoteEvents (VaultMountReconciler.Reconcile (mountModel Call.isReadOrList)
        mountRenameWorld).log = [⟨.ListMounts, false⟩] ∧
      statusUpdates (VaultMountReconciler.Reconcile (mountModel Call.isReadOrList)
        mountRenameWorld).log = [] ∧
      (VaultMountReconciler.Reconcile (mountModel Call.isReadOrList) mountRenameWorld).world =
        mountRenameWorld) ∧
    ((VaultKVMountReconciler.Reconcile (kvMountModel Call.isReadOrList) kvRenameWorld).err =
        some "remote error" ∧
      remoteEvents (VaultKVMountReconciler.Reconcile (kvMountModel Call.isReadOrList)
        kvRenameWorld).log = [⟨.Read ("/sys/mounts/" ++ (kvMountAt "a" "b").Spec.Path), false⟩] ∧
      statusUpdates (VaultKVMountReconciler.Reconcile (kvMountModel Call.isReadOrList)
        kvRenameWorld).log = [] ∧
      (VaultKVMountReconciler.Reconcile (kvMountModel Call.isReadOrList) kvRenameWorld).world =
        kvRenameWorld) :=
  C27_existence_check_failure
    (mountModel Call.isReadOrList) mountRenameWorld mountRenameWorld mountRenameWorld
    (mountAt "a" "b") "remote error"
    ⟨mountAt "a" "b", _, _, rfl, rfl, rfl, Or.inl ⟨by decide, rfl, rfl⟩⟩ rfl
    (kvMountModel Call.isReadOrList) kvRenameWorld kvRenameWorld kvRenameWorld
    (kvMountAt "a" "b") "remote error"
    ⟨kvMountAt "a" "b", _, _, rfl, rfl, rfl, Or.inl ⟨by decide, rfl, rfl⟩⟩ rfl

/-! ## No spurious cleanup -/

/-- Without a rename the convergence of the mount kind issues no `Delete`. -/
theorem mount_converge_no_delete {W : Type} (env : Env W VaultMount) (o : VaultMount) (w : W)
    (hr : VaultMountReconciler.renamed o = false) :
    ∀ e ∈ (VaultMountReconciler.converge env o w).log, e.isDelete = false := by
  intro e he
  have h := mount_converge_alphabet env o w e he
  have hc : ∀ w3, ∀ x ∈ (VaultMountReconciler.cleanup env o w3).log, x.isDelete = false := by
    intro w3 x hx
    rw [mount_cleanup_skip env o w3 hr, mount_persist_log, List.mem_singleton] at hx
    rw [hx]; rfl
  rcases hL : env.ListMounts w with ⟨e1 | mounts, w2⟩
  · rw [mount_converge_list_fail env o w w2 e1 hL, List.mem_singleton] at he
    rw [he]; rfl
  · cases hm : (mounts (o.Spec.Path ++ "/")).isSome
    · have hm1 : mounts (o.Spec.Path ++ "/") = none := by simpa using hm
      rcases hM : env.Mount o.Spec.Path (VaultMountReconciler.mountInput o) w2 with ⟨_ | e1, w3⟩
      · rw [mount_converge_mount_ok env o w w2 w3 mounts hL hm1 hM, after_log] at he
        rcases List.mem_append.1 he with h1 | h1
        · simp only [List.mem_cons, List.mem_singleton, List.not_mem_nil, or_false] at h1
          rcases h1 with h1 | h1 <;> rw [h1] <;> rfl
        · exact hc w3 e h1
      · rw [mount_converge_mount_fail env o w w2 w3 mounts e1 hL hm1 hM] at he
        simp only [List.mem_cons, List.mem_singleton, List.not_mem_nil, or_false] at he
        rcases he with h1 | h1 <;> rw [h1] <;> rfl
    · rcases hM : env.TuneMount o.Spec.Path (VaultMountReconciler.config o) w2 with ⟨_ | e1, w3⟩
      · rw [mount_converge_tune_ok env o w w2 w3 mounts hL hm hM, after_log] at he
        rcases List.mem_append.1 he with h1 | h1
        · simp only [List.mem_cons, List.mem_singleton, List.not_mem_nil, or_false] at h1
          rcases h1 with h1 | h1 <;> rw [h1] <;> rfl
        · exact hc w3 e h1
      · rw [mount_converge_tune_fail env o w w2 w3 mounts e1 hL hm hM] at he
        simp only [List.mem_cons, List.mem_singleton, List.not_mem_nil, or_false] at he
        rcases he with h1 | h1 <;> rw [h1] <;> rfl

/-- Without a rename the convergence of the KV mount kind issues no
`Delete`. -/
theorem kv_converge_no_delete {W : Type} (env : Env W VaultKVMount) (o : VaultKVMount) (w : W)
    (hr : VaultKVMountReconciler.renamed o = false) :
    ∀ e ∈ (VaultKVMountReconciler.converge env o w).log, e.isDelete = false := by
  intro e he
  rcases hRd : env.Read ("/sys/mounts/" ++ o.Spec.Path) w with ⟨e1 | (_ | sec), w1⟩
  · rw [kv_converge_read_fail env o w w1 e1 hRd, List.mem_singleton] at he
    rw [he]; rfl
  · rcases hW : env.Write ("/sys/mounts/" ++ o.Spec.Path)
      (VaultKVMountReconciler.createPayload o) w1 with ⟨_ | e1, w2⟩
    · rw [kv_converge_write_skip env o w w1 w2 hRd hW hr, after_log, kv_persist_log] at he
      simp only [List.cons_append, List.nil_append, List.mem_cons, List.mem_singleton,
        List.not_mem_nil, or_false] at he
      rcases he with h1 | h1 | h1 <;> rw [h1] <;> rfl
    · rw [kv_converge_write_fail env o w w1 w2 e1 hRd hW] at he
      simp only [List.mem_cons, List.mem_singleton, List.not_mem_nil, or_false] at he
      rcases he with h1 | h1 <;> rw [h1] <;> rfl
  · rw [kv_converge_present env o w w1 sec hRd, after_log, kv_persist_log] at he
    simp only [List.cons_append, List.nil_append, List.mem_cons, List.mem_singleton,
      List.not_mem_nil, or_false] at he
    rcases he with h1 | h1 <;> rw [h1] <;> rfl

/-- Without a rename the convergence of the policy kind issues no `Delete`. -/
theorem policy_converge_no_delete {W : Type} (env : Env W VaultPolicy) (o : VaultPolicy) (w : W)
    (hr : VaultPolicyReconciler.renamed o = false) :
    ∀ e ∈ (VaultPolicyReconciler.converge env o w).log, e.isDelete = false := by
  intro e he
  rcases hW : env.Write ("/sys/policies/acl/" ++ o.ObjectMeta.Name)
    (VaultPolicyReconciler.writePayload o) w with ⟨_ | e1, w1⟩
  · rw [policy_converge_write_skip env o w w1 hW hr, after_log, policy_persist_log] at he
    simp only [List.cons_append, List.nil_append, List.mem_cons, List.mem_singleton,
      List.not_mem_nil, or_false] at he
    rcases he with h1 | h1 <;> rw [h1] <;> rfl
  · rw [policy_converge_write_fail env o w w1 e1 hW, List.mem_singleton] at he
    rw [he]; rfl

/-- C22: no spurious cleanup, for each kind. On the Active path, when the
recorded status path (name for a policy) is empty or equals the desired one,
the reconcile issues no `Delete` at all. -/
theorem C22_no_spurious_cleanup {W U V : Type}
    (env : Env W VaultMount) (w w1 : W) (o : VaultMount)
    (hA : VaultMountReconciler.Active env w o w1)
    (hS : o.Status.Path = "" ∨ o.Status.Path = o.Spec.Path)
    (kenv : Env U VaultKVMount) (u u1 : U) (k : VaultKVMount)
    (hK : VaultKVMountReconciler.Active kenv u k u1)
    (hSk : k.Status.Path = "" ∨ k.Status.Path = k.Spec.Path)
    (penv : Env V VaultPolicy) (v v1 : V) (p : VaultPolicy)
    (hP : VaultPolicyReconciler.Active penv v p v1)
    (hSp : p.Status.Name = "" ∨ p.Status.Name = p.ObjectMeta.Name) :
    (∀ e ∈ (VaultMountReconciler.Reconcile env w).log, e.isDelete = false) ∧
    (∀ e ∈ (VaultKVMountReconciler.Reconcile kenv u).log, e.isDelete = false) ∧
    (∀ e ∈ (VaultPolicyReconciler.Reconcile penv v).log, e.isDelete = false) := by
  refine ⟨?_, ?_, ?_⟩
  · obtain ⟨pre, hpre, hR⟩ := mount_reconcile_of_active env w w1 o hA
    have hr : VaultMountReconciler.renamed o = false := by
      cases h : VaultMountReconciler.renamed o
      · rfl
      · obtain ⟨h1, h2⟩ := (mount_renamed_iff o).1 h
        rcases hS with h3 | h3
        · exact absurd h3 h1
        · exact absurd h3 h2
    intro e he
    rw [hR, after_log] at he
    rcases List.mem_append.1 he with h | h
    · exact (pre_not_delete_apply pre hpre e h).1
    · exact mount_converge_no_delete env o w1 hr e h
  · obtain ⟨pre, hpre, hR⟩ := kv_reconcile_of_active kenv u u1 k hK
    have hr : VaultKVMountReconciler.renamed k = false := by
      cases h : VaultKVMountReconciler.renamed k
      · rfl
      · obtain ⟨h1, h2⟩ := (kv_renamed_iff k).1 h
        rcases hSk with h3 | h3
        · exact absurd h3 h1
        · exact absurd h3 h2
    intro e he
    rw [hR, after_log] at he
    rcases List.mem_append.1 he with h | h
    · exact (pre_not_delete_apply pre hpre e h).1
    · exact kv_converge_no_delete kenv k u1 hr e h
  · obtain ⟨pre, hpre, hR⟩ := policy_reconcile_of_active penv v v1 p hP
    have hr : VaultPolicyReconciler.renamed p = false := by
      cases h : VaultPolicyReconciler.renamed p
      · rfl
      · obtain ⟨h1, h2⟩ := (policy_renamed_iff p).1 h
        rcases hSp with h3 | h3
        · exact absurd h3 h1
        · exact absurd h3 h2
    intro e he
    rw [hR, after_log] at he
    rcases List.mem_append.1 he with h | h
    · exact (pre_not_delete_apply pre hpre e h).1
    · exact policy_converge_no_delete penv p v1 hr e h

/-- C22 over the model without faults: a mount with nothing recorded, a KV
mount and a policy with the desired path or name recorded. -/
theorem C22_no_spurious_cleanup_witness :
    (∀ e ∈ (VaultMountReconciler.Reconcile (mountModel noFault)
        (emptyRemote (mountAt "" "b"))).log, e.isDelete = false) ∧
    (∀ e ∈ (VaultKVMountReconciler.Reconcile (kvMountModel noFault)
        (emptyRemote (kvMountAt "b" "b"))).log, e.isDelete = false) ∧
    (∀ e ∈ (VaultPolicyReconciler.Reconcile (policyModel noFault)
        (emptyRemote (policyAt "b" "b"))).log, e.isDelete = false) :=
  C22_no_spurious_cleanup
    (mountModel noFault) (emptyRemote (mountAt "" "b")) (emptyRemote (mountAt "" "b"))
    (mountAt "" "b") ⟨mountAt "" "b", _, _, rfl, rfl, rfl, Or.inl ⟨by decide, rfl, rfl⟩⟩
    (Or.inl rfl)
    (kvMountModel noFault) (emptyRemote (kvMountAt "b" "b")) (emptyRemote (kvMountAt "b" "b"))
    (kvMountAt "b" "b") ⟨kvMountAt "b" "b", _, _, rfl, rfl, rfl, Or.inl ⟨by decide, rfl, rfl⟩⟩
    (Or.inr rfl)
    (policyModel noFault) (emptyRemote (policyAt "b" "b")) (emptyRemote (policyAt "b" "b"))
    (policyAt "b" "b") ⟨policyAt "b" "b", _, _, rfl, rfl, rfl, Or.inl ⟨by decide, rfl, rfl⟩⟩
    (Or.inr rfl)

/-! ## The create payload of the KV mount kind -/

/-- The `Write` calls of a KV mount reconcile on the Active path when nothing
exists at the desired path: the one write of the create payload. -/
theorem kv_absent_write_calls {W : Type} (env : Env W VaultKVMount) (w w1 w2 : W)
    (o : VaultKVMount) (hA : VaultKVMountReconciler.Active env w o w1)
    (hRd : env.Read ("/sys/mounts/" ++ o.Spec.Path) w1 = (.ok none, w2)) :
    (calls (VaultKVMountReconciler.Reconcile env w).log).filter Call.isWrite =
      [.Write ("/sys/mounts/" ++ o.Spec.Path) (VaultKVMountReconciler.createPayload o)] := by
  obtain ⟨pre, hpre, hR⟩ := kv_reconcile_of_active env w w1 o hA
  have hp := calls_pre_nil Call.isWrite pre
    (by intro c; cases c <;> simp [Call.isWrite, Call.isRemote]) hpre
  simp only [calls] at hp
  rw [hR, after_log, calls, List.map_append, List.filter_append, hp, List.nil_append]
  rcases hW : env.Write ("/sys/mounts/" ++ o.Spec.Path)
    (VaultKVMountReconciler.createPayload o) w2 with ⟨_ | e, w3⟩
  · cases hr : VaultKVMountReconciler.renamed o
    · rw [kv_converge_write_skip env o w1 w2 w3 hRd hW hr, after_log, kv_persist_log]
      simp [List.filter_cons, Call.isWrite]
    · rcases hD : env.Delete ("/sys/mounts/" ++ o.Status.Path) w3 with ⟨_ | e, w4⟩
      · rw [kv_converge_write_delete_ok env o w1 w2 w3 w4 hRd hW hr hD, after_log,
          kv_persist_log]
        simp [List.filter_cons, Call.isWrite]
      · rw [kv_converge_write_delete_fail env o w1 w2 w3 w4 e hRd hW hr hD]
        simp [List.filter_cons, Call.isWrite]
  · rw [kv_converge_write_fail env o w1 w2 w3 e hRd hW]
    simp [List.filter_cons, Call.isWrite]

/-- C23: the shape of the KV mount create payload. On the Active path, when
the `Read` of `/sys/mounts/<path>` finds nothing, the run issues exactly one
`Write`, at `/sys/mounts/<path>`; its payload has exactly the top-level keys
description, type and config, description and type hold the spec fields, and
config is a nested map with exactly the eleven tunable keys, each holding the
value of the corresponding spec field. -/
theorem C23_kv_create_payload {W : Type} (env : Env W VaultKVMount) (w w1 w2 : W)
    (o : VaultKVMount) (hA : VaultKVMountReconciler.Active env w o w1)
    (hRd : env.Read ("/sys/mounts/" ++ o.Spec.Path) w1 = (.ok none, w2)) :
    ∃ payload config,
      (calls (VaultKVMountReconciler.Reconcile env w).log).filter Call.isWrite =
        [.Write ("/sys/mounts/" ++ o.Spec.Path) payload] ∧
      payload.map Prod.fst = ["description", "type", "config"] ∧
      payload.lookup "description" = some (.leaf (.str o.Spec.Description)) ∧
      payload.lookup "type" = some (.leaf (.str o.Spec.Typ)) ∧
      payload.lookup "config" = some (.map config) ∧
      config.map Prod.fst =
        ["default_lease_ttl", "max_lease_ttl", "force_no_cache", "audit_non_hmac_request_keys",
         "audit_non_hmac_response_keys", "listing_visibility", "passthrough_request_headers",
         "allowed_response_headers", "local", "seal_wrap", "external_entropy_access"] ∧
      config.lookup "default_lease_ttl" = some (.str o.Spec.Config.DefaultLeaseTTL) ∧
      config.lookup "max_lease_ttl" = some (.str o.Spec.Config.MaxLeaseTTL) ∧
      config.lookup "force_no_cache" = some (.bool o.Spec.Config.ForceNoCache) ∧
      config.lookup "audit_non_hmac_request_keys" =
        some (.strs o.Spec.Config.AuditNonHMACRequestKeys) ∧
      config.lookup "audit_non_hmac_response_keys" =
        some (.strs o.Spec.Config.AuditNonHMACResponseKeys) ∧
      config.lookup "listing_visibility" = some (.str o.Spec.Config.ListingVisibility) ∧
      config.lookup "passthrough_request_headers" =
        some (.strs o.Spec.Config.PassthroughRequestHeaders) ∧
      config.lookup "allowed_response_headers" =
        some (.strs o.Spec.Config.AllowedResponseHeaders) ∧
      config.lookup "local" = some (.bool o.Spec.Local) ∧
      config.lookup "seal_wrap" = some (.bool o.Spec.SealWrap) ∧
      config.lookup "external_entropy_access" = some (.bool o.Spec.ExternalEntropyAccess) := by
  refine ⟨VaultKVMountReconciler.createPayload o, _, kv_absent_write_calls env w w1 w2 o hA hRd,
    rfl, rfl, rfl, rfl, rfl, rfl, rfl, rfl, rfl, rfl, rfl, rfl, rfl, rfl, rfl, rfl⟩

/-- C23 at the manifest of path `b` over the model with an empty remote. -/
theorem C23_kv_create_payload_witness :
    ∃ payload config,
      (calls (VaultKVMountReconciler.Reconcile (kvMountModel noFault)
          (emptyRemote (kvMountAt "" "b"))).log).filter Call.isWrite =
        [.Write ("/sys/mounts/" ++ (kvMountAt "" "b").Spec.Path) payload] ∧
      payload.map Prod.fst = ["description", "type", "config"] ∧
      payload.lookup "description" = some (.leaf (.str (kvMountAt "" "b").Spec.Description)) ∧
      payload.lookup "type" = some (.leaf (.str (kvMountAt "" "b").Spec.Typ)) ∧
      payload.lookup "config" = some (.map config) ∧
      config.map Prod.fst =
        ["default_lease_ttl", "max_lease_ttl", "force_no_cache", "audit_non_hmac_request_keys",
         "audit_non_hmac_response_keys", "listing_visibility", "passthrough_request_headers",
         "allowed_response_headers", "local", "seal_wrap", "external_entropy_access"] ∧
      config.lookup "default_lease_ttl" = some (.str (kvMountAt "" "b").Spec.Config.DefaultLeaseTTL) ∧
      config.lookup "max_lease_ttl" = some (.str (kvMountAt "" "b").Spec.Config.MaxLeaseTTL) ∧
      config.lookup "force_no_cache" = some (.bool (kvMountAt "" "b").Spec.Config.ForceNoCache) ∧
      config.lookup "audit_non_hmac_request_keys" =
        some (.strs (kvMountAt "" "b").Spec.Config.AuditNonHMACRequestKeys) ∧
      config.lookup "audit_non_hmac_response_keys" =
        some (.strs (kvMountAt "" "b").Spec.Config.AuditNonHMACResponseKeys) ∧
      config.lookup "listing_visibility" = some (.str (kvMountAt "" "b").Spec.Config.ListingVisibility) ∧
      config.lookup "passthrough_request_headers" =
        some (.strs (kvMountAt "" "b").Spec.Config.PassthroughRequestHeaders) ∧
      config.lookup "allowed_response_headers" =
        some (.strs (kvMountAt "" "b").Spec.Config.AllowedResponseHeaders) ∧
      config.lookup "local" = some (.bool (kvMountAt "" "b").Spec.Local) ∧
      config.lookup "seal_wrap" = some (.bool (kvMountAt "" "b").Spec.SealWrap) ∧
      config.lookup "external_entropy_access" = some (.bool (kvMountAt "" "b").Spec.ExternalEntropyAccess) :=
  C23_kv_create_payload (kvMountModel noFault) (emptyRemote (kvMountAt "" "b"))
    (emptyRemote (kvMountAt "" "b")) (emptyRemote (kvMountAt "" "b")) (kvMountAt "" "b")
    ⟨kvMountAt "" "b", _, _, rfl, rfl, rfl, Or.inl ⟨by decide, rfl, rfl⟩⟩ rfl

/-! ## Completeness of the KV mount create payload -/

/-- Two KV manifests with the same create payload agree on the description,
the type, the configuration and the three flags. -/
theorem kv_payload_injective (k1 k2 : VaultKVMount)
    (h : VaultKVMountReconciler.createPayload k1 = VaultKVMountReconciler.createPayload k2) :
    k1.Spec.Description = k2.Spec.Description ∧ k1.Spec.Typ = k2.Spec.Typ ∧
    k1.Spec.Config = k2.Spec.Config ∧ k1.Spec.Local = k2.Spec.Local ∧
    k1.Spec.SealWrap = k2.Spec.SealWrap ∧
    k1.Spec.ExternalEntropyAccess = k2.Spec.ExternalEntropyAccess := by
  simp only [VaultKVMountReconciler.createPayload, List.cons.injEq, Prod.mk.injEq, true_and,
    Value.leaf.injEq, Value.map.injEq, Scalar.str.injEq, Scalar.bool.injEq, Scalar.strs.injEq,
    and_true] at h
  obtain ⟨h1, h2, h3, h4, h5, h6, h7, h8, h9, h10, h11, h12, h13⟩ := h
  refine ⟨h1, h2, ?_, h11, h12, h13⟩
  rcases hc1 : k1.Spec.Config with ⟨a1, a2, a3, a4, a5, a6, a7, a8⟩
  rcases hc2 : k2.Spec.Config with ⟨b1, b2, b3, b4, b5, b6, b7, b8⟩
  rw [hc1, hc2] at h3 h4 h5 h6 h7 h8 h9 h10
  simp only at h3 h4 h5 h6 h7 h8 h9 h10
  rw [h3, h4, h5, h6, h7, h8, h9, h10]

/-- C24: the KV mount create payload leaves out the version and the options.
The payload is the same whatever the `Version` and the `Options` of the spec,
while it does tell apart specs that differ in the description, the type, a
configuration field or one of the three flags; the manifests `kvVersionOne` (version 1) and `kvWithOptions` (one option set)
have the path of `kvMountAt "" "b"` (version 2, no option) and a different
spec, yet the same create payload, and over the model with an empty remote
the three runs write the same object at `/sys/mounts/b`. -/
theorem C24_kv_payload_omits_version :
    (∀ (k : VaultKVMount) (version : String) (options : List (String × String)),
      VaultKVMountReconciler.createPayload
          { k with Spec := { k.Spec with Version := version, Options := options } } =
        VaultKVMountReconciler.createPayload k) ∧
    (∀ k1 k2 : VaultKVMount,
      VaultKVMountReconciler.createPayload k1 = VaultKVMountReconciler.createPayload k2 →
      k1.Spec.Description = k2.Spec.Description ∧ k1.Spec.Typ = k2.Spec.Typ ∧
      k1.Spec.Config = k2.Spec.Config ∧ k1.Spec.Local = k2.Spec.Local ∧
      k1.Spec.SealWrap = k2.Spec.SealWrap ∧
      k1.Spec.ExternalEntropyAccess = k2.Spec.ExternalEntropyAccess) ∧
    (kvVersionOne.Spec.Path = (kvMountAt "" "b").Spec.Path ∧
      kvVersionOne.Spec.Version = "1" ∧ (kvMountAt "" "b").Spec.Version = "2" ∧
      kvVersionOne.Spec ≠ (kvMountAt "" "b").Spec ∧
      VaultKVMountReconciler.createPayload kvVersionOne =
        VaultKVMountReconciler.createPayload (kvMountAt "" "b") ∧
      remoteEvents (kvOnce (emptyRemote kvVersionOne)).log =
        [⟨.Read "/sys/mounts/b", true⟩,
         ⟨.Write "/sys/mounts/b" (VaultKVMountReconciler.createPayload (kvMountAt "" "b")),
           true⟩] ∧
      (kvOnce (emptyRemote kvVersionOne)).world.remote "/sys/mounts/b" =
        (kvOnce (emptyRemote (kvMountAt "" "b"))).world.remote "/sys/mounts/b") ∧
    (kvWithOptions.Spec.Path = (kvMountAt "" "b").Spec.Path ∧
      kvWithOptions.Spec.Options = [("max_versions", "5")] ∧
      (kvMountAt "" "b").Spec.Options = [] ∧
      kvWithOptions.Spec ≠ (kvMountAt "" "b").Spec ∧
      VaultKVMountReconciler.createPayload kvWithOptions =
        VaultKVMountReconciler.createPayload (kvMountAt "" "b") ∧
      (kvOnce (emptyRemote kvWithOptions)).world.remote "/sys/mounts/b" =
        (kvOnce (emptyRemote (kvMountAt "" "b"))).world.remote "/sys/mounts/b") := by
  refine ⟨fun k version options => rfl, kv_payload_injective,
    ⟨rfl, rfl, rfl, by decide, rfl, by decide, by decide⟩,
    ⟨rfl, rfl, rfl, by decide, rfl, by decide⟩⟩

/-! ## The key of the mount existence test -/

/-- The `Mount` and `TuneMount` calls of a mount reconcile on the Active path
after a successful `ListMounts`: one `TuneMount` when the listing holds the
key `path ++ "/"`, one `Mount` when it lacks it. -/
theorem mount_branch_calls {W : Type} (env : Env W VaultMount) (w w1 w2 : W)
    (o : VaultMount) (mounts : String → Option MountOutput)
    (hA : VaultMountReconciler.Active env w o w1)
    (hL : env.ListMounts w1 = (.ok mounts, w2)) :
    (mounts (o.Spec.Path ++ "/") = none →
      (calls (VaultMountReconciler.Reconcile env w).log).filter Call.isMountOrTune =
        [.Mount o.Spec.Path (VaultMountReconciler.mountInput o)]) ∧
    ((mounts (o.Spec.Path ++ "/")).isSome = true →
      (calls (VaultMountReconciler.Reconcile env w).log).filter Call.isMountOrTune =
        [.TuneMount o.Spec.Path (VaultMountReconciler.config o)]) := by
  obtain ⟨pre, hpre, hR⟩ := mount_reconcile_of_active env w w1 o hA
  have hp := calls_pre_nil Call.isMountOrTune pre
    (by intro c; cases c <;> simp [Call.isMountOrTune, Call.isRemote]) hpre
  have hc : ∀ w3, (calls (VaultMountReconciler.cleanup env o w3).log).filter
      Call.isMountOrTune = [] := by
    intro w3
    rw [List.filter_eq_nil_iff]
    intro c hc
    rcases mount_cleanup_calls env o w3 c hc with rfl | rfl <;>
      simp [Call.isMountOrTune]
  simp only [calls] at hp hc
  rw [hR]
  constructor
  · intro hm
    rcases hM : env.Mount o.Spec.Path (VaultMountReconciler.mountInput o) w2 with ⟨_ | e, w3⟩
    · rw [mount_converge_mount_ok env o w1 w2 w3 mounts hL hm hM]
      simp [Outcome.after, calls, List.filter_cons, hp, hc, Call.isMountOrTune]
    · rw [mount_converge_mount_fail env o w1 w2 w3 mounts e hL hm hM]
      simp [Outcome.after, calls, List.filter_cons, hp, Call.isMountOrTune]
  · intro hm
    rcases hM : env.TuneMount o.Spec.Path (VaultMountReconciler.config o) w2 with ⟨_ | e, w3⟩
    · rw [mount_converge_tune_ok env o w1 w2 w3 mounts hL hm hM]
      simp [Outcome.after, calls, List.filter_cons, hp, hc, Call.isMountOrTune]
    · rw [mount_converge_tune_fail env o w1 w2 w3 mounts e hL hm hM]
      simp [Outcome.after, calls, List.filter_cons, hp, Call.isMountOrTune]

/-- C25, counterexample: the desired paths `secret` and `secret/` look up
different keys, `secret/` and `secret//`. Over the model with a mount at
`/sys/mounts/secret`, whose listing holds `secret/` and not `secret//`, the
manifest of path `secret` takes the tune branch and the manifest of path
`secret/` the create branch. -/
theorem C25_slash_not_normalized :
    (mountAt "" "secret").Spec.Path ++ "/" = "secret/" ∧
    (mountAt "" "secret/").Spec.Path ++ "/" = "secret//" ∧
    (listing (secretWorld "secret").remote "secret/").isSome = true ∧
    listing (secretWorld "secret/").remote "secret//" = none ∧
    (calls (mountOnce (secretWorld "secret")).log).filter Call.isMountOrTune =
      [.TuneMount "secret" (VaultMountReconciler.config (mountAt "" "secret"))] ∧
    (calls (mountOnce (secretWorld "secret/")).log).filter Call.isMountOrTune =
      [.Mount "secret/" (VaultMountReconciler.mountInput (mountAt "" "secret/"))] := by
  refine ⟨by decide, by decide, by decide, by decide, by decide, by decide⟩

/-- C25, amended: on the Active path of a mount reconcile with a successful
`ListMounts`, the key looked up in the listing is the desired path followed by
one slash, whatever the path ends in, and the branch is decided by that key
alone: the run tunes exactly when the listing holds the key and creates
exactly when it lacks it. -/
theorem C25_lookup_key {W : Type} (env : Env W VaultMount) (w w1 w2 : W)
    (o : VaultMount) (mounts : String → Option MountOutput)
    (hA : VaultMountReconciler.Active env w o w1)
    (hL : env.ListMounts w1 = (.ok mounts, w2)) :
    (o.Spec.Path ++ "/").data = o.Spec.Path.data ++ ['/'] ∧
    ((mounts (o.Spec.Path ++ "/")).isSome = true ↔
      (calls (VaultMountReconciler.Reconcile env w).log).filter Call.isMountOrTune =
        [.TuneMount o.Spec.Path (VaultMountReconciler.config o)]) ∧
    (mounts (o.Spec.Path ++ "/") = none ↔
      (calls (VaultMountReconciler.Reconcile env w).log).filter Call.isMountOrTune =
        [.Mount o.Spec.Path (VaultMountReconciler.mountInput o)]) := by
  obtain ⟨h1, h2⟩ := mount_branch_calls env w w1 w2 o mounts hA hL
  refine ⟨rfl, ⟨h2, fun h => ?_⟩, ⟨h1, fun h => ?_⟩⟩
  · cases hm : mounts (o.Spec.Path ++ "/")
    · rw [h1 hm] at h
      exact absurd h (by simp)
    · rfl
  · cases hm : mounts (o.Spec.Path ++ "/")
    · rfl
    · rw [h2 (by rw [hm]; rfl)] at h
      exact absurd h (by simp)

/-- C25, amended, at the desired path `secret/` over the model with a mount
at `/sys/mounts/secret`: the key is `secret//`. -/
theorem C25_lookup_key_witness :
    ((mountAt "" "secret/").Spec.Path ++ "/").data =
      (mountAt "" "secret/").Spec.Path.data ++ ['/'] ∧
    ((listing (secretWorld "secret/").remote
        ((mountAt "" "secret/").Spec.Path ++ "/")).isSome = true ↔
      (calls (VaultMountReconciler.Reconcile (mountModel noFault)
        (secretWorld "secret/")).log).filter Call.isMountOrTune =
        [.TuneMount (mountAt "" "secret/").Spec.Path
          (VaultMountReconciler.config (mountAt "" "secret/"))]) ∧
    (listing (secretWorld "secret/").remote ((mountAt "" "secret/").Spec.Path ++ "/") = none ↔
      (calls (VaultMountReconciler.Reconcile (mountModel noFault)
        (secretWorld "secret/")).log).filter Call.isMountOrTune =
        [.Mount (mountAt "" "secret/").Spec.Path
          (VaultMountReconciler.mountInput (mountAt "" "secret/"))]) :=
  C25_lookup_key (mountModel noFault) (secretWorld "secret/") (secretWorld "secret/")
    (secretWorld "secret/") (mountAt "" "secret/") (listing (secretWorld "secret/").remote)
    ⟨mountAt "" "secret/", _, _, rfl, rfl, rfl, Or.inl ⟨by decide, rfl, rfl⟩⟩ rfl

/-! ## The finalizer precedes every remote mutation -/

/-- Once the marker is held the scan accepts every log. -/
theorem appliesGuarded_held {O : Type} (fin : O → List String) (marker : String)
    (l : List (Event O)) : appliesGuarded fin marker true l = true := by
  induction l with
  | nil => rfl
  | cons e es ih => simp [appliesGuarded, ih]

/-- The scan accepts every log without create, tune or write. -/
theorem appliesGuarded_of_no_apply {O : Type} (fin : O → List String) (marker : String)
    (held : Bool) (l : List (Event O)) (h : ∀ e ∈ l, e.isApply = false) :
    appliesGuarded fin marker held l = true := by
  induction l generalizing held with
  | nil => rfl
  | cons e es ih =>
    simp [appliesGuarded, h e (List.mem_cons_self _ _),
      ih _ (fun x hx => h x (List.mem_cons_of_mem _ hx))]

/-- In every reconcile of the VaultMount kind a create, tune or write comes
after the marker is known to be held. -/
theorem mount_applies_guarded {W : Type} (env : Env W VaultMount) (w : W) :
    appliesGuarded VaultMount.finalizers vaultMountFinalizer
      (holdsMarker VaultMount.finalizers vaultMountFinalizer (env.Get w).1)
      (VaultMountReconciler.Reconcile env w).log = true := by
  rcases mount_reconcile_cases env w with ⟨w1, hG⟩ | ⟨e, w1, hG⟩ | ⟨o, e, w1, w2, hG, hF⟩ |
    ⟨o, e, w1, w2, w3, hG, hF, hT, hc, hU⟩ | ⟨o, w1, hA⟩ | ⟨o, w1, hD⟩
  · rw [mount_reconcile_not_found env w w1 hG]
    exact appliesGuarded_of_no_apply _ _ _ _ (by simp [Event.isApply, Call.isApply])
  · rw [mount_reconcile_get_failed env w w1 e hG]
    exact appliesGuarded_of_no_apply _ _ _ _ (by simp [Event.isApply, Call.isApply])
  · rw [mount_reconcile_factory_failed env w w1 w2 o e hG hF]
    exact appliesGuarded_of_no_apply _ _ _ _ (by simp [Event.isApply, Call.isApply])
  · rw [mount_reconcile_finalizer_failed env w w1 w2 w3 o e hG hF hT hc hU]
    exact appliesGuarded_of_no_apply _ _ _ _ (by simp [Event.isApply, Call.isApply])
  · obtain ⟨o0, wg, hG, ⟨hc, -, hR⟩ | ⟨hc, sent, wf, -, hs, -, hR⟩⟩ := mount_active_entry env w w1 o hA
    · have hh : holdsMarker VaultMount.finalizers vaultMountFinalizer (env.Get w).1 = true := by
        rw [hG]; simp [holdsMarker, VaultMount.finalizers, hc]
      rw [hh]
      exact appliesGuarded_held _ _ _
    · rw [hR, after_log]
      simp [appliesGuarded, attaches, Event.isApply, Call.isApply, VaultMount.finalizers, hs,
        appliesGuarded_held]
  · exact appliesGuarded_of_no_apply _ _ _ _
      (fun e he => ((mount_deleting_calls env w w1 o hD).2.1 e he).1)

/-- In every reconcile of the VaultKVMount kind a create, tune or write comes
after the marker is known to be held. -/
theorem kv_applies_guarded {W : Type} (env : Env W VaultKVMount) (w : W) :
    appliesGuarded VaultKVMount.finalizers vaultKVMountFinalizer
      (holdsMarker VaultKVMount.finalizers vaultKVMountFinalizer (env.Get w).1)
      (VaultKVMountReconciler.Reconcile env w).log = true := by
  rcases kv_reconcile_cases env w with ⟨w1, hG⟩ | ⟨e, w1, hG⟩ | ⟨o, e, w1, w2, hG, hF⟩ |
    ⟨o, e, w1, w2, w3, hG, hF, hT, hc, hU⟩ | ⟨o, w1, hA⟩ | ⟨o, w1, hD⟩
  · rw [kv_reconcile_not_found env w w1 hG]
    exact appliesGuarded_of_no_apply _ _ _ _ (by simp [Event.isApply, Call.isApply])
  · rw [kv_reconcile_get_failed env w w1 e hG]
    exact appliesGuarded_of_no_apply _ _ _ _ (by simp [Event.isApply, Call.isApply])
  · rw [kv_reconcile_factory_failed env w w1 w2 o e hG hF]
    exact appliesGuarded_of_no_apply _ _ _ _ (by simp [Event.isApply, Call.isApply])
  · rw [kv_reconcile_finalizer_failed env w w1 w2 w3 o e hG hF hT hc hU]
    exact appliesGuarded_of_no_apply _ _ _ _ (by simp [Event.isApply, Call.isApply])
  · obtain ⟨o0, wg, hG, ⟨hc, -, hR⟩ | ⟨hc, sent, wf, -, hs, -, hR⟩⟩ := kv_active_entry env w w1 o hA
    · have hh : holdsMarker VaultKVMount.finalizers vaultKVMountFinalizer (env.Get w).1 = true := by
        rw [hG]; simp [holdsMarker, VaultKVMount.finalizers, hc]
      rw [hh]
      exact appliesGuarded_held _ _ _
    · rw [hR, after_log]
      simp [appliesGuarded, attaches, Event.isApply, Call.isApply, VaultKVMount.finalizers, hs,
        appliesGuarded_held]
  · exact appliesGuarded_of_no_apply _ _ _ _
      (fun e he => ((kv_deleting_calls env w w1 o hD).2.1 e he).1)

/-- In every reconcile of the VaultPolicy kind a create, tune or write comes
after the marker is known to be held. -/
theorem policy_applies_guarded {W : Type} (env : Env W VaultPolicy) (w : W) :
    appliesGuarded VaultPolicy.finalizers vaultPolicyFinalizer
      (holdsMarker VaultPolicy.finalizers vaultPolicyFinalizer (env.Get w).1)
      (VaultPolicyReconciler.Reconcile env w).log = true := by
  rcases policy_reconcile_cases env w with ⟨w1, hG⟩ | ⟨e, w1, hG⟩ | ⟨o, e, w1, w2, hG, hF⟩ |
    ⟨o, e, w1, w2, w3, hG, hF, hT, hc, hU⟩ | ⟨o, w1, hA⟩ | ⟨o, w1, hD⟩
  · rw [policy_reconcile_not_found env w w1 hG]
    exact appliesGuarded_of_no_apply _ _ _ _ (by simp [Event.isApply, Call.isApply])
  · rw [policy_reconcile_get_failed env w w1 e hG]
    exact appliesGuarded_of_no_apply _ _ _ _ (by simp [Event.isApply, Call.isApply])
  · rw [policy_reconcile_factory_failed env w w1 w2 o e hG hF]
    exact appliesGuarded_of_no_apply _ _ _ _ (by simp [Event.isApply, Call.isApply])
  · rw [policy_reconcile_finalizer_failed env w w1 w2 w3 o e hG hF hT hc hU]
    exact appliesGuarded_of_no_apply _ _ _ _ (by simp [Event.isApply, Call.isApply])
  · obtain ⟨o0, wg, hG, ⟨hc, -, hR⟩ | ⟨hc, sent, wf, -, hs, -, hR⟩⟩ := policy_active_entry env w w1 o hA
    · have hh : holdsMarker VaultPolicy.finalizers vaultPolicyFinalizer (env.Get w).1 = true := by
        rw [hG]; simp [holdsMarker, VaultPolicy.finalizers, hc]
      rw [hh]
      exact appliesGuarded_held _ _ _
    · rw [hR, after_log]
      simp [appliesGuarded, attaches, Event.isApply, Call.isApply, VaultPolicy.finalizers, hs,
        appliesGuarded_held]
  · exact appliesGuarded_of_no_apply _ _ _ _
      (fun e he => ((policy_deleting_calls env w w1 o hD).2.1 e he).1)

/-- C26: the finalizer precedes every remote mutation, for each kind. In every
reconcile, scanning the log from the fetch on, each create, tune or write
comes after the marker is known to be held: the fetched manifest held it, or
a manifest update of an object holding it succeeded earlier in the run. And
when the manifest update that attaches the marker fails, the reconcile returns
its error and issues no Vault call and no status update. -/
theorem C26_finalizer_precedes_mutation {W U V : Type}
    (env : Env W VaultMount) (w : W)
    (envF : Env W VaultMount) (wF w1 w2 w3 : W) (o : VaultMount) (e : Err)
    (hG : envF.Get wF = (.found o, w1))
    (hF : envF.ClientFactoryGet o w1 = (none, w2))
    (hT : o.ObjectMeta.DeletionTimestamp = none)
    (hc : vaultMountFinalizer ∉ o.ObjectMeta.Finalizers)
    (hU : envF.Update
        { o with
          Status := { o.Status with Valid := false }
          ObjectMeta := { o.ObjectMeta with
            Finalizers := o.ObjectMeta.Finalizers ++ [vaultMountFinalizer] } } w2 = (some e, w3))
    (kenv : Env U VaultKVMount) (u : U)
    (kenvF : Env U VaultKVMount) (uF u1 u2 u3 : U) (ok : VaultKVMount) (ek : Err)
    (hGk : kenvF.Get uF = (.found ok, u1))
    (hFk : kenvF.ClientFactoryGet ok u1 = (none, u2))
    (hTk : ok.ObjectMeta.DeletionTimestamp = none)
    (hck : vaultKVMountFinalizer ∉ ok.ObjectMeta.Finalizers)
    (hUk : kenvF.Update
        { ok with
          Status := { ok.Status with Valid := false }
          ObjectMeta := { ok.ObjectMeta with
            Finalizers := ok.ObjectMeta.Finalizers ++ [vaultKVMountFinalizer] } } u2 = (some ek, u3))
    (penv : Env V VaultPolicy) (v : V)
    (penvF : Env V VaultPolicy) (vF v1 v2 v3 : V) (op : VaultPolicy) (ep : Err)
    (hGp : penvF.Get vF = (.found op, v1))
    (hFp : penvF.ClientFactoryGet op v1 = (none, v2))
    (hTp : op.ObjectMeta.DeletionTimestamp = none)
    (hcp : vaultPolicyFinalizer ∉ op.ObjectMeta.Finalizers)
    (hUp : penvF.Update
        { op with
          Status := { op.Status with Valid := false }
          ObjectMeta := { op.ObjectMeta with
            Finalizers := op.ObjectMeta.Finalizers ++ [vaultPolicyFinalizer] } } v2 = (some ep, v3)) :
    (appliesGuarded VaultMount.finalizers vaultMountFinalizer
        (holdsMarker VaultMount.finalizers vaultMountFinalizer (env.Get w).1)
        (VaultMountReconciler.Reconcile env w).log = true ∧
      (VaultMountReconciler.Reconcile envF wF).err = some e ∧
      remoteEvents (VaultMountReconciler.Reconcile envF wF).log = [] ∧
      statusUpdates (VaultMountReconciler.Reconcile envF wF).log = []) ∧
    (appliesGuarded VaultKVMount.finalizers vaultKVMountFinalizer
        (holdsMarker VaultKVMount.finalizers vaultKVMountFinalizer (kenv.Get u).1)
        (VaultKVMountReconciler.Reconcile kenv u).log = true ∧
      (VaultKVMountReconciler.Reconcile kenvF uF).err = some ek ∧
      remoteEvents (VaultKVMountReconciler.Reconcile kenvF uF).log = [] ∧
      statusUpdates (VaultKVMountReconciler.Reconcile kenvF uF).log = []) ∧
    (appliesGuarded VaultPolicy.finalizers vaultPolicyFinalizer
        (holdsMarker VaultPolicy.finalizers vaultPolicyFinalizer (penv.Get v).1)
        (VaultPolicyReconciler.Reconcile penv v).log = true ∧
      (VaultPolicyReconciler.Reconcile penvF vF).err = some ep ∧
      remoteEvents (VaultPolicyReconciler.Reconcile penvF vF).log = [] ∧
      statusUpdates (VaultPolicyReconciler.Reconcile penvF vF).log = []) := by
  refine ⟨?_, ?_, ?_⟩
  · refine ⟨mount_applies_guarded env w, ?_⟩
    rw [mount_reconcile_finalizer_failed envF wF w1 w2 w3 o e hG hF hT hc hU]
    exact ⟨rfl, by simp [remoteEvents, Event.isRemote, Call.isRemote],
      by simp [statusUpdates, Event.isStatusUpdate, Call.isStatusUpdate]⟩
  · refine ⟨kv_applies_guarded kenv u, ?_⟩
    rw [kv_reconcile_finalizer_failed kenvF uF u1 u2 u3 ok ek hGk hFk hTk hck hUk]
    exact ⟨rfl, by simp [remoteEvents, Event.isRemote, Call.isRemote],
      by simp [statusUpdates, Event.isStatusUpdate, Call.isStatusUpdate]⟩
  · refine ⟨policy_applies_guarded penv v, ?_⟩
    rw [policy_reconcile_finalizer_failed penvF vF v1 v2 v3 op ep hGp hFp hTp hcp hUp]
    exact ⟨rfl, by simp [remoteEvents, Event.isRemote, Call.isRemote],
      by simp [statusUpdates, Event.isStatusUpdate, Call.isStatusUpdate]⟩

/-- C26 at the manifests that hold a foreign finalizer only, over the model:
once without faults, where the marker is attached before the create or write,
and once with failing manifest updates. -/
theorem C26_finalizer_precedes_mutation_witness :
    (appliesGuarded VaultMount.finalizers vaultMountFinalizer
        (holdsMarker VaultMount.finalizers vaultMountFinalizer ((mountModel noFault).Get (emptyRemote foreignOnlyMount)).1)
        (VaultMountReconciler.Reconcile (mountModel noFault) (emptyRemote foreignOnlyMount)).log = true ∧
      (VaultMountReconciler.Reconcile (mountModel Call.isUpdate) (emptyRemote foreignOnlyMount)).err = some "remote error" ∧
      remoteEvents (VaultMountReconciler.Reconcile (mountModel Call.isUpdate) (emptyRemote foreignOnlyMount)).log = [] ∧
      statusUpdates (VaultMountReconciler.Reconcile (mountModel Call.isUpdate) (emptyRemote foreignOnlyMount)).log = []) ∧
    (appliesGuarded VaultKVMount.finalizers vaultKVMountFinalizer
        (holdsMarker VaultKVMount.finalizers vaultKVMountFinalizer ((kvMountModel noFault).Get (emptyRemote foreignOnlyKVMount)).1)
        (VaultKVMountReconciler.Reconcile (kvMountModel noFault) (emptyRemote foreignOnlyKVMount)).log = true ∧
      (VaultKVMountReconciler.Reconcile (kvMountModel Call.isUpdate) (emptyRemote foreignOnlyKVMount)).err = some "remote error" ∧
      remoteEvents (VaultKVMountReconciler.Reconcile (kvMountModel Call.isUpdate) (emptyRemote foreignOnlyKVMount)).log = [] ∧
      statusUpdates (VaultKVMountReconciler.Reconcile (kvMountModel Call.isUpdate) (emptyRemote foreignOnlyKVMount)).log = []) ∧
    (appliesGuarded VaultPolicy.finalizers vaultPolicyFinalizer
        (holdsMarker VaultPolicy.finalizers vaultPolicyFinalizer ((policyModel noFault).Get (emptyRemote foreignOnlyPolicy)).1)
        (VaultPolicyReconciler.Reconcile (policyModel noFault) (emptyRemote foreignOnlyPolicy)).log = true ∧
      (VaultPolicyReconciler.Reconcile (policyModel Call.isUpdate) (emptyRemote foreignOnlyPolicy)).err = some "remote error" ∧
      remoteEvents (VaultPolicyReconciler.Reconcile (policyModel Call.isUpdate) (emptyRemote foreignOnlyPolicy)).log = [] ∧
      statusUpdates (VaultPolicyReconciler.Reconcile (policyModel Call.isUpdate) (emptyRemote foreignOnlyPolicy)).log = []) :=
  C26_finalizer_precedes_mutation
    (mountModel noFault) (emptyRemote foreignOnlyMount)
    (mountModel Call.isUpdate) (emptyRemote foreignOnlyMount) (emptyRemote foreignOnlyMount) (emptyRemote foreignOnlyMount) (emptyRemote foreignOnlyMount) foreignOnlyMount "remote error"
    rfl rfl rfl (by decide) rfl
    (kvMountModel noFault) (emptyRemote foreignOnlyKVMount)
    (kvMountModel Call.isUpdate) (emptyRemote foreignOnlyKVMount) (emptyRemote foreignOnlyKVMount) (emptyRemote foreignOnlyKVMount) (emptyRemote foreignOnlyKVMount) foreignOnlyKVMount "remote error"
    rfl rfl rfl (by decide) rfl
    (policyModel noFault) (emptyRemote foreignOnlyPolicy)
    (policyModel Call.isUpdate) (emptyRemote foreignOnlyPolicy) (emptyRemote foreignOnlyPolicy) (emptyRemote foreignOnlyPolicy) (emptyRemote foreignOnlyPolicy) foreignOnlyPolicy "remote error"
    rfl rfl rfl (by decide) rfl

/-! ## The frame of a reconcile -/

/-- Every object a reconcile of the VaultMount kind hands to the control plane
for storing has the desired spec, the status error, the name and the deletion
timestamp of the object the run last read from the control plane: the fetched
manifest, or for the status update of a run that attached the marker, the
server's copy that the attaching update returned. -/
theorem mount_reconcile_frame {W : Type} (env : Env W VaultMount) (w wg : W) (o0 : VaultMount)
    (hG0 : env.Get w = (.found o0, wg)) :
    ∀ e ∈ (VaultMountReconciler.Reconcile env w).log, ∀ o1, e.call.written = some o1 →
      o1.unwritten = o0.unwritten ∨
      (vaultMountFinalizer ∉ o0.ObjectMeta.Finalizers ∧ e.call.isStatusUpdate = true ∧
        o1.unwritten =
          (env.Updated
            { o0 with
              Status := { o0.Status with Valid := false }
              ObjectMeta := { o0.ObjectMeta with
                Finalizers := o0.ObjectMeta.Finalizers ++ [vaultMountFinalizer] } }
            (env.ClientFactoryGet o0 wg).2).unwritten) := by
  have hlit : ∀ l : List (Event VaultMount), (∀ e ∈ l, e.call.written = none) →
      ∀ e ∈ l, ∀ o1, e.call.written = some o1 → o1.unwritten = o0.unwritten ∨
      (vaultMountFinalizer ∉ o0.ObjectMeta.Finalizers ∧ e.call.isStatusUpdate = true ∧
        o1.unwritten =
          (env.Updated
            { o0 with
              Status := { o0.Status with Valid := false }
              ObjectMeta := { o0.ObjectMeta with
                Finalizers := o0.ObjectMeta.Finalizers ++ [vaultMountFinalizer] } }
            (env.ClientFactoryGet o0 wg).2).unwritten) := by
    intro l hl e he o1 h1
    rw [hl e he] at h1
    exact absurd h1 (by simp)
  rcases mount_reconcile_cases env w with ⟨w1, hG⟩ | ⟨e, w1, hG⟩ | ⟨o, e, w1, w2, hG, hF⟩ |
    ⟨o, e, w1, w2, w3, hG, hF, hT, hc, hU⟩ | ⟨o, w1, hA⟩ | ⟨o, w1, hD⟩
  · rw [hG0] at hG; exact absurd hG (by simp)
  · rw [hG0] at hG; exact absurd hG (by simp)
  · rw [mount_reconcile_factory_failed env w w1 w2 o e hG hF]
    exact hlit _ (by simp [Call.written])
  · have ho : o = o0 := by
      rw [hG0] at hG
      simp only [Prod.mk.injEq, GetResult.found.injEq] at hG
      exact hG.1.symm
    rw [mount_reconcile_finalizer_failed env w w1 w2 w3 o e hG hF hT hc hU]
    intro x hx o1 h1
    simp only [List.mem_cons, List.mem_singleton, List.not_mem_nil, or_false] at hx
    rcases hx with h | h | h <;> rw [h] at h1 <;> simp only [Call.written] at h1
    · exact absurd h1 (by simp)
    · exact absurd h1 (by simp)
    · left; rw [← Option.some.inj h1, ← ho]; rfl
  · have hm : (VaultMountReconciler.markValid o).unwritten = o.unwritten := rfl
    obtain ⟨o0', wg', hG, ⟨-, ho, hR⟩ | ⟨hc, sent, wf, hF, hs, ho, hR⟩⟩ :=
      mount_active_entry env w w1 o hA
    · have hu : o.unwritten = o0.unwritten := by
        rw [hG0] at hG
        simp only [Prod.mk.injEq, GetResult.found.injEq] at hG
        rw [ho, ← hG.1]; rfl
      rw [hR, after_log]
      intro x hx o1 h1
      left
      rcases List.mem_append.1 hx with h | h
      · simp only [List.mem_cons, List.mem_singleton, List.not_mem_nil, or_false] at h
        rcases h with h | h <;> rw [h] at h1 <;> exact absurd h1 (by simp [Call.written])
      · have ha := mount_converge_alphabet env o w1 x h
        simp only [List.mem_cons, List.mem_singleton, List.not_mem_nil, or_false] at ha
        rcases ha with ha | ha | ha | ha | ha <;> rw [ha] at h1 <;>
          simp only [Call.written] at h1 <;>
          first
          | (cases h1; done)
          | (cases h1; exact hm.trans hu)
    · rw [hG0] at hG
      simp only [Prod.mk.injEq, GetResult.found.injEq] at hG
      obtain ⟨hG1, hG2⟩ := hG
      subst hG1 hG2
      have hw : (env.ClientFactoryGet o0 wg).2 = wf := by rw [hF]
      rw [hR, after_log]
      intro x hx o1 h1
      rcases List.mem_append.1 hx with h | h
      · left
        simp only [List.mem_cons, List.mem_singleton, List.not_mem_nil, or_false] at h
        rcases h with h | h | h <;> rw [h] at h1 <;> simp only [Call.written] at h1
        · exact absurd h1 (by simp)
        · exact absurd h1 (by simp)
        · rw [← Option.some.inj h1, hs]; rfl
      · have ha := mount_converge_alphabet env o w1 x h
        simp only [List.mem_cons, List.mem_singleton, List.not_mem_nil, or_false] at ha
        rcases ha with ha | ha | ha | ha | ha <;> rw [ha] at h1 <;>
          simp only [Call.written] at h1 <;>
          first
          | (cases h1; done)
          | (cases h1; exact Or.inr ⟨hc, by rw [ha]; rfl, by rw [hw, ← hs, ← ho]; exact hm⟩)
  · obtain ⟨o0', ho, hR⟩ := mount_reconcile_of_deleting env w w1 o hD
    have hu : o.unwritten = o0.unwritten := by
      obtain ⟨o0'', wg', t, hG, -, -, ho2⟩ := hD
      rw [hG0] at hG
      simp only [Prod.mk.injEq, GetResult.found.injEq] at hG
      rw [ho2, ← hG.1]; rfl
    rw [hR, after_log]
    intro x hx o1 h1
    left
    rcases List.mem_append.1 hx with h | h
    · simp only [List.mem_cons, List.mem_singleton, List.not_mem_nil, or_false] at h
      rcases h with h | h <;> rw [h] at h1 <;> exact absurd h1 (by simp [Call.written])
    · by_cases hc : vaultMountFinalizer ∈ o.ObjectMeta.Finalizers
      · rcases hDel : env.Delete o.Spec.Path w1 with ⟨_ | e1, w2⟩
        · rw [mount_handleFinalizer_delete_ok env o w1 w2 hc hDel] at h
          simp only [List.mem_cons, List.mem_singleton, List.not_mem_nil, or_false] at h
          rcases h with h | h <;> rw [h] at h1 <;> simp only [Call.written] at h1
          · exact absurd h1 (by simp)
          · rw [← Option.some.inj h1, ← hu]; rfl
        · rw [mount_handleFinalizer_delete_fail env o w1 w2 e1 hc hDel] at h
          simp only [List.mem_singleton] at h
          rw [h] at h1
          exact absurd h1 (by simp [Call.written])
      · rw [mount_handleFinalizer_absent env o w1 hc] at h
        exact absurd h (List.not_mem_nil x)

/-- Every object a reconcile of the VaultKVMount kind hands to the control plane
for storing has the desired spec, the status error, the name and the deletion
timestamp of the object the run last read from the control plane: the fetched
manifest, or for the status update of a run that attached the marker, the
server's copy that the attaching update returned. -/
theorem kv_reconcile_frame {W : Type} (env : Env W VaultKVMount) (w wg : W) (o0 : VaultKVMount)
    (hG0 : env.Get w = (.found o0, wg)) :
    ∀ e ∈ (VaultKVMountReconciler.Reconcile env w).log, ∀ o1, e.call.written = some o1 →
      o1.unwritten = o0.unwritten ∨
      (vaultKVMountFinalizer ∉ o0.ObjectMeta.Finalizers ∧ e.call.isStatusUpdate = true ∧
        o1.unwritten =
          (env.Updated
            { o0 with
              Status := { o0.Status with Valid := false }
              ObjectMeta := { o0.ObjectMeta with
                Finalizers := o0.ObjectMeta.Finalizers ++ [vaultKVMountFinalizer] } }
            (env.ClientFactoryGet o0 wg).2).unwritten) := by
  have hlit : ∀ l : List (Event VaultKVMount), (∀ e ∈ l, e.call.written = none) →
      ∀ e ∈ l, ∀ o1, e.call.written = some o1 → o1.unwritten = o0.unwritten ∨
      (vaultKVMountFinalizer ∉ o0.ObjectMeta.Finalizers ∧ e.call.isStatusUpdate = true ∧
        o1.unwritten =
          (env.Updated
            { o0 with
              Status := { o0.Status with Valid := false }
              ObjectMeta := { o0.ObjectMeta with
                Finalizers := o0.ObjectMeta.Finalizers ++ [vaultKVMountFinalizer] } }
            (env.ClientFactoryGet o0 wg).2).unwritten) := by
    intro l hl e he o1 h1
    rw [hl e he] at h1
    exact absurd h1 (by simp)
  rcases kv_reconcile_cases env w with ⟨w1, hG⟩ | ⟨e, w1, hG⟩ | ⟨o, e, w1, w2, hG, hF⟩ |
    ⟨o, e, w1, w2, w3, hG, hF, hT, hc, hU⟩ | ⟨o, w1, hA⟩ | ⟨o, w1, hD⟩
  · rw [hG0] at hG; exact absurd hG (by simp)
  · rw [hG0] at hG; exact absurd hG (by simp)
  · rw [kv_reconcile_factory_failed env w w1 w2 o e hG hF]
    exact hlit _ (by simp [Call.written])
  · have ho : o = o0 := by
      rw [hG0] at hG
      simp only [Prod.mk.injEq, GetResult.found.injEq] at hG
      exact hG.1.symm
    rw [kv_reconcile_finalizer_failed env w w1 w2 w3 o e hG hF hT hc hU]
    intro x hx o1 h1
    simp only [List.mem_cons, List.mem_singleton, List.not_mem_nil, or_false] at hx
    rcases hx with h | h | h <;> rw [h] at h1 <;> simp only [Call.written] at h1
    · exact absurd h1 (by simp)
    · exact absurd h1 (by simp)
    · left; rw [← Option.some.inj h1, ← ho]; rfl
  · have hm : (VaultKVMountReconciler.markValid o).unwritten = o.unwritten := rfl
    obtain ⟨o0', wg', hG, ⟨-, ho, hR⟩ | ⟨hc, sent, wf, hF, hs, ho, hR⟩⟩ :=
      kv_active_entry env w w1 o hA
    · have hu : o.unwritten = o0.unwritten := by
        rw [hG0] at hG
        simp only [Prod.mk.injEq, GetResult.found.injEq] at hG
        rw [ho, ← hG.1]; rfl
      rw [hR, after_log]
      intro x hx o1 h1
      left
      rcases List.mem_append.1 hx with h | h
      · simp only [List.mem_cons, List.mem_singleton, List.not_mem_nil, or_false] at h
        rcases h with h | h <;> rw [h] at h1 <;> exact absurd h1 (by simp [Call.written])
      · have ha := kv_converge_alphabet env o w1 x h
        simp only [List.mem_cons, List.mem_singleton, List.not_mem_nil, or_false] at ha
        rcases ha with ha | ha | ha | ha <;> rw [ha] at h1 <;>
          simp only [Call.written] at h1 <;>
          first
          | (cases h1; done)
          | (cases h1; exact hm.trans hu)
    · rw [hG0] at hG
      simp only [Prod.mk.injEq, GetResult.found.injEq] at hG
      obtain ⟨hG1, hG2⟩ := hG
      subst hG1 hG2
      have hw : (env.ClientFactoryGet o0 wg).2 = wf := by rw [hF]
      rw [hR, after_log]
      intro x hx o1 h1
      rcases List.mem_append.1 hx with h | h
      · left
        simp only [List.mem_cons, List.mem_singleton, List.not_mem_nil, or_false] at h
        rcases h with h | h | h <;> rw [h] at h1 <;> simp only [Call.written] at h1
        · exact absurd h1 (by simp)
        · exact absurd h1 (by simp)
        · rw [← Option.some.inj h1, hs]; rfl
      · have ha := kv_converge_alphabet env o w1 x h
        simp only [List.mem_cons, List.mem_singleton, List.not_mem_nil, or_false] at ha
        rcases ha with ha | ha | ha | ha <;> rw [ha] at h1 <;>
          simp only [Call.written] at h1 <;>
          first
          | (cases h1; done)
          | (cases h1; exact Or.inr ⟨hc, by rw [ha]; rfl, by rw [hw, ← hs, ← ho]; exact hm⟩)
  · obtain ⟨o0', ho, hR⟩ := kv_reconcile_of_deleting env w w1 o hD
    have hu : o.unwritten = o0.unwritten := by
      obtain ⟨o0'', wg', t, hG, -, -, ho2⟩ := hD
      rw [hG0] at hG
      simp only [Prod.mk.injEq, GetResult.found.injEq] at hG
      rw [ho2, ← hG.1]; rfl
    rw [hR, after_log]
    intro x hx o1 h1
    left
    rcases List.mem_append.1 hx with h | h
    · simp only [List.mem_cons, List.mem_singleton, List.not_mem_nil, or_false] at h
      rcases h with h | h <;> rw [h] at h1 <;> exact absurd h1 (by simp [Call.written])
    · by_cases hc : vaultKVMountFinalizer ∈ o.ObjectMeta.Finalizers
      · rcases hDel : env.Delete o.Spec.Path w1 with ⟨_ | e1, w2⟩
        · rw [kv_handleFinalizer_delete_ok env o w1 w2 hc hDel] at h
          simp only [List.mem_cons, List.mem_singleton, List.not_mem_nil, or_false] at h
          rcases h with h | h <;> rw [h] at h1 <;> simp only [Call.written] at h1
          · exact absurd h1 (by simp)
          · rw [← Option.some.inj h1, ← hu]; rfl
        · rw [kv_handleFinalizer_delete_fail env o w1 w2 e1 hc hDel] at h
          simp only [List.mem_singleton] at h
          rw [h] at h1
          exact absurd h1 (by simp [Call.written])
      · rw [kv_handleFinalizer_absent env o w1 hc] at h
        exact absurd h (List.not_mem_nil x)

/-- Every object a reconcile of the VaultPolicy kind hands to the control plane
for storing has the desired spec, the status error, the name and the deletion
timestamp of the object the run last read from the control plane: the fetched
manifest, or for the status update of a run that attached the marker, the
server's copy that the attaching update returned. -/
theorem policy_reconcile_frame {W : Type} (env : Env W VaultPolicy) (w wg : W) (o0 : VaultPolicy)
    (hG0 : env.Get w = (.found o0, wg)) :
    ∀ e ∈ (VaultPolicyReconciler.Reconcile env w).log, ∀ o1, e.call.written = some o1 →
      o1.unwritten = o0.unwritten ∨
      (vaultPolicyFinalizer ∉ o0.ObjectMeta.Finalizers ∧ e.call.isStatusUpdate = true ∧
        o1.unwritten =
          (env.Updated
            { o0 with
              Status := { o0.Status with Valid := false }
              ObjectMeta := { o0.ObjectMeta with
                Finalizers := o0.ObjectMeta.Finalizers ++ [vaultPolicyFinalizer] } }
            (env.ClientFactoryGet o0 wg).2).unwritten) := by
  have hlit : ∀ l : List (Event VaultPolicy), (∀ e ∈ l, e.call.written = none) →
      ∀ e ∈ l, ∀ o1, e.call.written = some o1 → o1.unwritten = o0.unwritten ∨
      (vaultPolicyFinalizer ∉ o0.ObjectMeta.Finalizers ∧ e.call.isStatusUpdate = true ∧
        o1.unwritten =
          (env.Updated
            { o0 with
              Status := { o0.Status with Valid := false }
              ObjectMeta := { o0.ObjectMeta with
                Finalizers := o0.ObjectMeta.Finalizers ++ [vaultPolicyFinalizer] } }
            (env.ClientFactoryGet o0 wg).2).unwritten) := by
    intro l hl e he o1 h1
    rw [hl e he] at h1
    exact absurd h1 (by simp)
  rcases policy_reconcile_cases env w with ⟨w1, hG⟩ | ⟨e, w1, hG⟩ | ⟨o, e, w1, w2, hG, hF⟩ |
    ⟨o, e, w1, w2, w3, hG, hF, hT, hc, hU⟩ | ⟨o, w1, hA⟩ | ⟨o, w1, hD⟩
  · rw [hG0] at hG; exact absurd hG (by simp)
  · rw [hG0] at hG; exact absurd hG (by simp)
  · rw [policy_reconcile_factory_failed env w w1 w2 o e hG hF]
    exact hlit _ (by simp [Call.written])
  · have ho : o = o0 := by
      rw [hG0] at hG
      simp only [Prod.mk.injEq, GetResult.found.injEq] at hG
      exact hG.1.symm
    rw [policy_reconcile_finalizer_failed env w w1 w2 w3 o e hG hF hT hc hU]
    intro x hx o1 h1
    simp only [List.mem_cons, List.mem_singleton, List.not_mem_nil, or_false] at hx
    rcases hx with h | h | h <;> rw [h] at h1 <;> simp only [Call.written] at h1
    · exact absurd h1 (by simp)
    · exact absurd h1 (by simp)
    · left; rw [← Option.some.inj h1, ← ho]; rfl
  · have hm : (VaultPolicyReconciler.markValid o).unwritten = o.unwritten := rfl
    obtain ⟨o0', wg', hG, ⟨-, ho, hR⟩ | ⟨hc, sent, wf, hF, hs, ho, hR⟩⟩ :=
      policy_active_entry env w w1 o hA
    · have hu : o.unwritten = o0.unwritten := by
        rw [hG0] at hG
        simp only [Prod.mk.injEq, GetResult.found.injEq] at hG
        rw [ho, ← hG.1]; rfl
      rw [hR, after_log]
      intro x hx o1 h1
      left
      rcases List.mem_append.1 hx with h | h
      · simp only [List.mem_cons, List.mem_singleton, List.not_mem_nil, or_false] at h
        rcases h with h | h <;> rw [h] at h1 <;> exact absurd h1 (by simp [Call.written])
      · have ha := policy_converge_alphabet env o w1 x h
        simp only [List.mem_cons, List.mem_singleton, List.not_mem_nil, or_false] at ha
        rcases ha with ha | ha | ha <;> rw [ha] at h1 <;>
          simp only [Call.written] at h1 <;>
          first
          | (cases h1; done)
          | (cases h1; exact hm.trans hu)
    · rw [hG0] at hG
      simp only [Prod.mk.injEq, GetResult.found.injEq] at hG
      obtain ⟨hG1, hG2⟩ := hG
      subst hG1 hG2
      have hw : (env.ClientFactoryGet o0 wg).2 = wf := by rw [hF]
      rw [hR, after_log]
      intro x hx o1 h1
      rcases List.mem_append.1 hx with h | h
      · left
        simp only [List.mem_cons, List.mem_singleton, List.not_mem_nil, or_false] at h
        rcases h with h | h | h <;> rw [h] at h1 <;> simp only [Call.written] at h1
        · exact absurd h1 (by simp)
        · exact absurd h1 (by simp)
        · rw [← Option.some.inj h1, hs]; rfl
      · have ha := policy_converge_alphabet env o w1 x h
        simp only [List.mem_cons, List.mem_singleton, List.not_mem_nil, or_false] at ha
        rcases ha with ha | ha | ha <;> rw [ha] at h1 <;>
          simp only [Call.written] at h1 <;>
          first
          | (cases h1; done)
          | (cases h1; exact Or.inr ⟨hc, by rw [ha]; rfl, by rw [hw, ← hs, ← ho]; exact hm⟩)
  · obtain ⟨o0', ho, hR⟩ := policy_reconcile_of_deleting env w w1 o hD
    have hu : o.unwritten = o0.unwritten := by
      obtain ⟨o0'', wg', t, hG, -, -, ho2⟩ := hD
      rw [hG0] at hG
      simp only [Prod.mk.injEq, GetResult.found.injEq] at hG
      rw [ho2, ← hG.1]; rfl
    rw [hR, after_log]
    intro x hx o1 h1
    left
    rcases List.mem_append.1 hx with h | h
    · simp only [List.mem_cons, List.mem_singleton, List.not_mem_nil, or_false] at h
      rcases h with h | h <;> rw [h] at h1 <;> exact absurd h1 (by simp [Call.written])
    · by_cases hc : vaultPolicyFinalizer ∈ o.ObjectMeta.Finalizers
      · rcases hDel : env.Delete ("/sys/policies/acl/" ++ o.ObjectMeta.Name) w1 with ⟨_ | e1, w2⟩
        · rw [policy_handleFinalizer_delete_ok env o w1 w2 hc hDel] at h
          simp only [List.mem_cons, List.mem_singleton, List.not_mem_nil, or_false] at h
          rcases h with h | h <;> rw [h] at h1 <;> simp only [Call.written] at h1
          · exact absurd h1 (by simp)
          · rw [← Option.some.inj h1, ← hu]; rfl
        · rw [policy_handleFinalizer_delete_fail env o w1 w2 e1 hc hDel] at h
          simp only [List.mem_singleton] at h
          rw [h] at h1
          exact absurd h1 (by simp [Call.written])
      · rw [policy_handleFinalizer_absent env o w1 hc] at h
        exact absurd h (List.not_mem_nil x)

/-- C29: the frame of a reconcile, for each kind. Every object a reconcile
hands to the control plane for storing, by a manifest update or by a status
update, has the desired spec, the status error, the name and the deletion
timestamp of the object the run last read from the control plane: the manifest
it fetched, or, for the status update of a run that attached the marker, the
server's copy which the attaching update returned. What a run writes is
confined to the finalizer list, the validity flag and the status path (name
for a policy), and every status it persists carries the error field it read.
When the server's copy carries the four fields of the fetched manifest, every
object handed over carries them too. -/
theorem C29_frame {W U V : Type}
    (env : Env W VaultMount) (w wg : W) (o : VaultMount)
    (hG : env.Get w = (.found o, wg))
    (kenv : Env U VaultKVMount) (u ug : U) (k : VaultKVMount)
    (hGk : kenv.Get u = (.found k, ug))
    (penv : Env V VaultPolicy) (v vg : V) (p : VaultPolicy)
    (hGp : penv.Get v = (.found p, vg)) :
    ((∀ e ∈ (VaultMountReconciler.Reconcile env w).log, ∀ o1, e.call.written = some o1 →
        o1.unwritten = o.unwritten ∨
        (vaultMountFinalizer ∉ o.ObjectMeta.Finalizers ∧ e.call.isStatusUpdate = true ∧
          o1.unwritten =
            (env.Updated
              { o with
              Status := { o.Status with Valid := false }
              ObjectMeta := { o.ObjectMeta with
                Finalizers := o.ObjectMeta.Finalizers ++ [vaultMountFinalizer] } }
              (env.ClientFactoryGet o wg).2).unwritten)) ∧
      ((env.Updated
              { o with
              Status := { o.Status with Valid := false }
              ObjectMeta := { o.ObjectMeta with
                Finalizers := o.ObjectMeta.Finalizers ++ [vaultMountFinalizer] } }
              (env.ClientFactoryGet o wg).2).unwritten = o.unwritten →
      (∀ e ∈ (VaultMountReconciler.Reconcile env w).log, ∀ o1, e.call.written = some o1 →
        o1.Spec = o.Spec ∧ o1.Status.Error = o.Status.Error ∧
        o1.ObjectMeta.Name = o.ObjectMeta.Name ∧
        o1.ObjectMeta.DeletionTimestamp = o.ObjectMeta.DeletionTimestamp))) ∧
    ((∀ e ∈ (VaultKVMountReconciler.Reconcile kenv u).log, ∀ o1, e.call.written = some o1 →
        o1.unwritten = k.unwritten ∨
        (vaultKVMountFinalizer ∉ k.ObjectMeta.Finalizers ∧ e.call.isStatusUpdate = true ∧
          o1.unwritten =
            (kenv.Updated
              { k with
              Status := { k.Status with Valid := false }
              ObjectMeta := { k.ObjectMeta with
                Finalizers := k.ObjectMeta.Finalizers ++ [vaultKVMountFinalizer] } }
              (kenv.ClientFactoryGet k ug).2).unwritten)) ∧
      ((kenv.Updated
              { k with
              Status := { k.Status with Valid := false }
              ObjectMeta := { k.ObjectMeta with
                Finalizers := k.ObjectMeta.Finalizers ++ [vaultKVMountFinalizer] } }
              (kenv.ClientFactoryGet k ug).2).unwritten = k.unwritten →
      (∀ e ∈ (VaultKVMountReconciler.Reconcile kenv u).log, ∀ o1, e.call.written = some o1 →
        o1.Spec = k.Spec ∧ o1.Status.Error = k.Status.Error ∧
        o1.ObjectMeta.Name = k.ObjectMeta.Name ∧
        o1.ObjectMeta.DeletionTimestamp = k.ObjectMeta.DeletionTimestamp))) ∧
    ((∀ e ∈ (VaultPolicyReconciler.Reconcile penv v).log, ∀ o1, e.call.written = some o1 →
        o1.unwritten = p.unwritten ∨
        (vaultPolicyFinalizer ∉ p.ObjectMeta.Finalizers ∧ e.call.isStatusUpdate = true ∧
          o1.unwritten =
            (penv.Updated
              { p with
              Status := { p.Status with Valid := false }
              ObjectMeta := { p.ObjectMeta with
                Finalizers := p.ObjectMeta.Finalizers ++ [vaultPolicyFinalizer] } }
              (penv.ClientFactoryGet p vg).2).unwritten)) ∧
      ((penv.Updated
              { p with
              Status := { p.Status with Valid := false }
              ObjectMeta := { p.ObjectMeta with
                Finalizers := p.ObjectMeta.Finalizers ++ [vaultPolicyFinalizer] } }
              (penv.ClientFactoryGet p vg).2).unwritten = p.unwritten →
      (∀ e ∈ (VaultPolicyReconciler.Reconcile penv v).log, ∀ o1, e.call.written = some o1 →
        o1.Spec = p.Spec ∧ o1.Status.Error = p.Status.Error ∧
        o1.ObjectMeta.Name = p.ObjectMeta.Name ∧
        o1.ObjectMeta.DeletionTimestamp = p.ObjectMeta.DeletionTimestamp))) := by
  refine ⟨?_, ?_, ?_⟩
  · refine ⟨mount_reconcile_frame env w wg o hG, ?_⟩
    intro hS e he o1 h1
    have h : o1.unwritten = o.unwritten := by
      rcases mount_reconcile_frame env w wg o hG e he o1 h1 with h | ⟨-, -, h⟩
      · exact h
      · exact h.trans hS
    simp only [VaultMount.unwritten, Prod.mk.injEq] at h
    exact h
  · refine ⟨kv_reconcile_frame kenv u ug k hGk, ?_⟩
    intro hS e he o1 h1
    have h : o1.unwritten = k.unwritten := by
      rcases kv_reconcile_frame kenv u ug k hGk e he o1 h1 with h | ⟨-, -, h⟩
      · exact h
      · exact h.trans hS
    simp only [VaultKVMount.unwritten, Prod.mk.injEq] at h
    exact h
  · refine ⟨policy_reconcile_frame penv v vg p hGp, ?_⟩
    intro hS e he o1 h1
    have h : o1.unwritten = p.unwritten := by
      rcases policy_reconcile_frame penv v vg p hGp e he o1 h1 with h | ⟨-, -, h⟩
      · exact h
      · exact h.trans hS
    simp only [VaultPolicy.unwritten, Prod.mk.injEq] at h
    exact h

/-- C29 over the model without faults: a mount run and a KV mount run that
attach the finalizer and persist the status, and a policy deletion. -/
theorem C29_frame_witness :
    ((∀ e ∈ (VaultMountReconciler.Reconcile (mountModel noFault) (emptyRemote foreignOnlyMount)).log, ∀ o1, e.call.written = some o1 →
        o1.unwritten = foreignOnlyMount.unwritten ∨
        (vaultMountFinalizer ∉ foreignOnlyMount.ObjectMeta.Finalizers ∧ e.call.isStatusUpdate = true ∧
          o1.unwritten =
            ((mountModel noFault).Updated
              { foreignOnlyMount with
              Status := { foreignOnlyMount.Status with Valid := false }
              ObjectMeta := { foreignOnlyMount.ObjectMeta with
                Finalizers := foreignOnlyMount.ObjectMeta.Finalizers ++ [vaultMountFinalizer] } }
              ((mountModel noFault).ClientFactoryGet foreignOnlyMount (emptyRemote foreignOnlyMount)).2).unwritten)) ∧
      (∀ e ∈ (VaultMountReconciler.Reconcile (mountModel noFault) (emptyRemote foreignOnlyMount)).log, ∀ o1, e.call.written = some o1 →
        o1.Spec = foreignOnlyMount.Spec ∧ o1.Status.Error = foreignOnlyMount.Status.Error ∧
        o1.ObjectMeta.Name = foreignOnlyMount.ObjectMeta.Name ∧
        o1.ObjectMeta.DeletionTimestamp = foreignOnlyMount.ObjectMeta.DeletionTimestamp)) ∧
    ((∀ e ∈ (VaultKVMountReconciler.Reconcile (kvMountModel noFault) (emptyRemote foreignOnlyKVMount)).log, ∀ o1, e.call.written = some o1 →
        o1.unwritten = foreignOnlyKVMount.unwritten ∨
        (vaultKVMountFinalizer ∉ foreignOnlyKVMount.ObjectMeta.Finalizers ∧ e.call.isStatusUpdate = true ∧
          o1.unwritten =
            ((kvMountModel noFault).Updated
              { foreignOnlyKVMount with
              Status := { foreignOnlyKVMount.Status with Valid := false }
              ObjectMeta := { foreignOnlyKVMount.ObjectMeta with
                Finalizers := foreignOnlyKVMount.ObjectMeta.Finalizers ++ [vaultKVMountFinalizer] } }
              ((kvMountModel noFault).ClientFactoryGet foreignOnlyKVMount (emptyRemote foreignOnlyKVMount)).2).unwritten)) ∧
      (∀ e ∈ (VaultKVMountReconciler.Reconcile (kvMountModel noFault) (emptyRemote foreignOnlyKVMount)).log, ∀ o1, e.call.written = some o1 →
        o1.Spec = foreignOnlyKVMount.Spec ∧ o1.Status.Error = foreignOnlyKVMount.Status.Error ∧
        o1.ObjectMeta.Name = foreignOnlyKVMount.ObjectMeta.Name ∧
        o1.ObjectMeta.DeletionTimestamp = foreignOnlyKVMount.ObjectMeta.DeletionTimestamp)) ∧
    ((∀ e ∈ (VaultPolicyReconciler.Reconcile (policyModel noFault) (policyWrittenDeleting)).log, ∀ o1, e.call.written = some o1 →
        o1.unwritten = deletingPolicy.unwritten ∨
        (vaultPolicyFinalizer ∉ deletingPolicy.ObjectMeta.Finalizers ∧ e.call.isStatusUpdate = true ∧
          o1.unwritten =
            ((policyModel noFault).Updated
              { deletingPolicy with
              Status := { deletingPolicy.Status with Valid := false }
              ObjectMeta := { deletingPolicy.ObjectMeta with
                Finalizers := deletingPolicy.ObjectMeta.Finalizers ++ [vaultPolicyFinalizer] } }
              ((policyModel noFault).ClientFactoryGet deletingPolicy (policyWrittenDeleting)).2).unwritten)) ∧
      (∀ e ∈ (VaultPolicyReconciler.Reconcile (policyModel noFault) (policyWrittenDeleting)).log, ∀ o1, e.call.written = some o1 →
        o1.Spec = deletingPolicy.Spec ∧ o1.Status.Error = deletingPolicy.Status.Error ∧
        o1.ObjectMeta.Name = deletingPolicy.ObjectMeta.Name ∧
        o1.ObjectMeta.DeletionTimestamp = deletingPolicy.ObjectMeta.DeletionTimestamp)) :=
  (fun h => ⟨⟨h.1.1, h.1.2 rfl⟩, ⟨h.2.1.1, h.2.1.2 rfl⟩, ⟨h.2.2.1, h.2.2.2 rfl⟩⟩)
    (C29_frame
      (mountModel noFault) (emptyRemote foreignOnlyMount) (emptyRemote foreignOnlyMount) foreignOnlyMount rfl
      (kvMountModel noFault) (emptyRemote foreignOnlyKVMount) (emptyRemote foreignOnlyKVMount) foreignOnlyKVMount rfl
      (policyModel noFault) policyWrittenDeleting policyWrittenDeleting deletingPolicy rfl)

/-! ## The policy document, read back -/

/-- The digit `Nat.digitChar` writes for a value below sixteen reads back as that
value. -/
theorem hexValue_digitChar (k : Nat) (h : k < 16) : hexValue (Nat.digitChar k) = some k := by
  interval_cases k <;> decide

/-- A character is the one of its code. -/
theorem char_of_toNat (c : Char) (n : Nat) (h : c.toNat = n) : c = Char.ofNat n := by
  subst h
  exact (Char.ofNat_toNat c).symm

/-- Reading back the escape of one character gives the character, then goes on
with the rest. -/
theorem parseChars_jsonEscape (c : Char) (t : List Char) :
    parseChars (jsonEscape c ++ t) = (parseChars t).map (fun r => (c :: r.1, r.2)) := by
  by_cases hlt : c.toNat < 64
  · obtain ⟨n, hn⟩ : ∃ n, c.toNat = n := ⟨_, rfl⟩
    rw [hn] at hlt
    have hc := char_of_toNat c n hn
    subst hc
    clear hn
    interval_cases n <;>
      first
      | rfl
      | (simp only [jsonEscape, jsonHexEscaped]
         conv_lhs => rw [parseChars.eq_def]
         simp [simpleEscape])
  · by_cases h92 : c.toNat = 92
    · have hc := char_of_toNat c 92 h92
      subst hc
      simp only [jsonEscape, jsonHexEscaped]
      conv_lhs => rw [parseChars.eq_def]
      simp [simpleEscape]
    · by_cases h1 : c.toNat = 8232
      · have hc := char_of_toNat c 8232 h1
        subst hc
        rfl
      · by_cases h2 : c.toNat = 8233
        · have hc := char_of_toNat c 8233 h2
          subst hc
          rfl
        · have e : jsonEscape c = [c] := by
            have g1 : ¬ c.toNat = 34 := by omega
            have g2 : ¬ c.toNat = 8 := by omega
            have g3 : ¬ c.toNat = 12 := by omega
            have g4 : ¬ c.toNat = 10 := by omega
            have g5 : ¬ c.toNat = 13 := by omega
            have g6 : ¬ c.toNat = 9 := by omega
            have g7 : ¬ (((c.toNat < 32 ∨ c.toNat = 60) ∨ c.toNat = 62) ∨ c.toNat = 38) := by omega
            simp [jsonEscape, jsonHexEscaped, h92, h1, h2, g1, g2, g3, g4, g5, g6, g7]
          rw [e]
          conv_lhs => rw [List.singleton_append, parseChars.eq_def]
          have g1 : ¬ c.toNat = 34 := by omega
          have g2 : ¬ c.toNat < 32 := by omega
          simp [h92, g1, g2]


/-- The closing quote ends the string. -/
theorem parseChars_quote (rest : List Char) : parseChars (Char.ofNat 34 :: rest) = some ([], rest) := by
  rw [parseChars.eq_def]
  simp

/-- Reading back the escaped characters of a string gives the string. -/
theorem parseChars_escaped (s rest : List Char) :
    parseChars (s.flatMap jsonEscape ++ Char.ofNat 34 :: rest) = some (s, rest) := by
  induction s with
  | nil => exact parseChars_quote rest
  | cons c s ih =>
    rw [List.flatMap_cons, List.append_assoc, parseChars_jsonEscape, ih]
    rfl

/-- The characters of an encoded string: the escaped characters between two
quotes. -/
theorem jsonString_data (s : String) :
    (jsonString s).data = Char.ofNat 34 :: (s.data.flatMap jsonEscape ++ [Char.ofNat 34]) := rfl

/-- Reading back an encoded string gives the string. -/
theorem parseStep_string (value : List Char → Option (Json × List Char)) (s : String)
    (rest : List Char) :
    parseStep value ((jsonString s).data ++ rest) = some (Json.str s, rest) := by
  rw [jsonString_data]
  simp only [List.cons_append, List.append_assoc, List.singleton_append, parseStep]
  rw [if_pos (by decide), parseChars_escaped]
  rfl

/-- Each text with at least one character, the joined text has at least as
many characters as there are texts. -/
theorem joinComma_length (ts : List (List Char)) (tail : List Char)
    (h : ∀ t ∈ ts, t ≠ []) : ts.length ≤ (joinComma ts ++ tail).length := by
  cases ts with
  | nil => simp
  | cons t ts =>
    have h1 : 1 ≤ t.length := by
      have := h t (List.mem_cons_self _ _)
      cases t with
      | nil => exact absurd rfl this
      | cons a b => simp
    have h2 : ∀ l : List (List Char), l.length ≤ (l.flatMap (fun a => Char.ofNat 44 :: a)).length := by
      intro l
      induction l with
      | nil => simp
      | cons a l ih => simp only [List.flatMap_cons, List.length_append, List.length_cons]; omega
    have := h2 ts
    simp only [joinComma, List.length_append, List.length_cons]
    omega

/-- Reading back items joined by commas and closed by `close`, when each item
reads back from its own text. -/
theorem parseItems_joined {α : Type} (item : List Char → Option (α × List Char)) (close : Char)
    (hclose : Char.ofNat 44 ≠ close) (rest : List Char) :
    ∀ (ts : List (List Char)) (xs : List α) (fuel : Nat),
      List.Forall₂ (fun t x => ∀ r, item (t ++ r) = some (x, r)) ts xs → ts ≠ [] →
      ts.length ≤ fuel →
      parseItems item close fuel (joinComma ts ++ close :: rest) = some (xs, rest) := by
  intro ts
  induction ts with
  | nil => intro xs fuel _ h; exact absurd rfl h
  | cons t ts ih =>
    intro xs fuel hR _ hf
    cases hR with
    | cons hx hrest =>
      rename_i x xs
      cases fuel with
      | zero => simp at hf
      | succ fuel =>
        cases ts with
        | nil =>
          cases hrest
          simp only [joinComma, List.flatMap_nil, List.append_nil, parseItems, hx]
          simp
        | cons t2 ts =>
          have hi := ih xs fuel hrest (by simp) (by simpa using hf)
          simp only [joinComma, List.flatMap_cons, List.cons_append, List.append_assoc] at hi ⊢
          simp only [parseItems, hx]
          rw [if_pos trivial, hi, if_neg hclose]
          rfl

/-- What a relation gives for every related pair holds for every element of
the left list. -/
theorem forall2_left {α β : Type} {R : α → β → Prop} {P : α → Prop}
    (h : ∀ a b, R a b → P a) (l1 : List α) (l2 : List β) (hR : List.Forall₂ R l1 l2) :
    ∀ a ∈ l1, P a := by
  induction hR with
  | nil => intro a ha; exact absurd ha (List.not_mem_nil a)
  | cons hab _ ih =>
    intro a ha
    rcases List.mem_cons.1 ha with rfl | ha
    · exact h _ _ hab
    · exact ih a ha

/-- Reading back a JSON array or object after its opening character, when each
item reads back from its own text and starts with a quote. -/
theorem parseSeq_joined {α : Type} (item : List Char → Option (α × List Char)) (close : Char)
    (hclose : Char.ofNat 44 ≠ close) (hquote : Char.ofNat 34 ≠ close) (rest : List Char)
    (ts : List (List Char)) (xs : List α)
    (hR : List.Forall₂ (fun t x => (∃ r0, t = Char.ofNat 34 :: r0) ∧
      ∀ r, item (t ++ r) = some (x, r)) ts xs) :
    parseSeq item close (joinComma ts ++ close :: rest) = some (xs, rest) := by
  cases ts with
  | nil =>
    cases hR
    simp [joinComma, parseSeq]
  | cons t ts =>
    have hq : ∀ u ∈ t :: ts, ∃ r0, u = Char.ofNat 34 :: r0 :=
      forall2_left (fun a b h => h.1) _ _ hR
    have hne : ∀ u ∈ t :: ts, u ≠ [] := by
      intro u hu
      obtain ⟨r0, h0⟩ := hq u hu
      rw [h0]
      simp
    have hlen := joinComma_length (t :: ts) (close :: rest) hne
    have hit := parseItems_joined item close hclose rest (t :: ts) xs
      (joinComma (t :: ts) ++ close :: rest).length
      (List.Forall₂.imp (fun a b h => h.2) hR) (by simp) hlen
    obtain ⟨r0, h0⟩ := hq t (List.mem_cons_self _ _)
    have hshape : joinComma (t :: ts) ++ close :: rest =
        Char.ofNat 34 :: (r0 ++ (ts.flatMap (fun a => Char.ofNat 44 :: a) ++ close :: rest)) := by
      simp [joinComma, h0]
    rw [hshape] at hit ⊢
    simp only [parseSeq]
    rw [if_neg hquote]
    exact hit

/-- The characters of strings joined by commas. -/
theorem intercalate_go_data (acc : String) (l : List String) :
    (String.intercalate.go acc "," l).data =
      acc.data ++ (l.map String.data).flatMap (fun a => Char.ofNat 44 :: a) := by
  induction l generalizing acc with
  | nil => simp [String.intercalate.go]
  | cons a l ih =>
    simp only [String.intercalate.go, ih, String.data_append, List.map_cons, List.flatMap_cons,
      List.append_assoc]
    rfl

/-- The characters of strings joined by commas. -/
theorem intercalate_data (l : List String) :
    (",".intercalate l).data = joinComma (l.map String.data) := by
  cases l with
  | nil => rfl
  | cons a l => simp only [String.intercalate, intercalate_go_data, List.map_cons, joinComma]

/-- The characters of an encoded array. -/
theorem jsonArray_data (items : List String) :
    (jsonArray items).data =
      Char.ofNat 91 :: (joinComma (items.map String.data) ++ [Char.ofNat 93]) := by
  simp only [jsonArray, String.data_append, intercalate_data]
  rfl

/-- The characters of an encoded object. -/
theorem jsonObject_data (members : List (String × String)) :
    (jsonObject members).data =
      Char.ofNat 123 ::
        (joinComma (members.map (fun m => (jsonString m.1).data ++ Char.ofNat 58 :: m.2.data)) ++
          [Char.ofNat 125]) := by
  have hf : (String.data ∘ fun m : String × String => jsonString m.1 ++ ":" ++ m.2) =
      (fun m => (jsonString m.1).data ++ Char.ofNat 58 :: m.2.data) := by
    funext m
    simp only [Function.comp, String.data_append, List.append_assoc]
    rfl
  simp only [jsonObject, String.data_append, intercalate_data, List.map_map]
  rw [hf]
  rfl

/-- Reading back one member of an object, when its value reads back. -/
theorem parseMember_member (value : List Char → Option (Json × List Char)) (k : String)
    (vt : List Char) (v : Json) (hv : ∀ r, value (vt ++ r) = some (v, r)) (rest : List Char) :
    parseMember value (((jsonString k).data ++ Char.ofNat 58 :: vt) ++ rest) =
      some ((k, v), rest) := by
  rw [jsonString_data]
  simp only [List.cons_append, List.append_assoc, List.singleton_append, parseMember]
  rw [if_pos (by decide), parseChars_escaped]
  simp only [List.nil_append]
  rw [if_pos (by decide), hv]
  rfl

/-- Two lists related element by element, appended. -/
theorem forall2_append {α β : Type} {R : α → β → Prop} {a c : List α} {b d : List β}
    (h1 : List.Forall₂ R a b) (h2 : List.Forall₂ R c d) : List.Forall₂ R (a ++ c) (b ++ d) := by
  induction h1 with
  | nil => exact h2
  | cons hab _ ih => exact List.Forall₂.cons hab ih

/-- The images of one list under two maps are related when the images of each
element are. -/
theorem forall2_maps {γ α β : Type} {R : α → β → Prop} (f : γ → α) (g : γ → β) (l : List γ)
    (h : ∀ x ∈ l, R (f x) (g x)) : List.Forall₂ R (l.map f) (l.map g) := by
  induction l with
  | nil => exact List.Forall₂.nil
  | cons x l ih =>
    exact List.Forall₂.cons (h x (List.mem_cons_self _ _))
      (ih (fun y hy => h y (List.mem_cons_of_mem _ hy)))

/-- One more level of nesting reads one value, the nested ones a level lower. -/
theorem parseValue_succ (n : Nat) (cs : List Char) :
    parseValue (n + 1) cs = parseStep (parseValue n) cs := rfl

/-- After an opening bracket an array is read. -/
theorem parseStep_array (value : List Char → Option (Json × List Char)) (r : List Char) :
    parseStep value (Char.ofNat 91 :: r) =
      (parseSeq value (Char.ofNat 93) r).map (fun p => (Json.arr p.1, p.2)) := rfl

/-- After an opening brace an object is read. -/
theorem parseStep_object (value : List Char → Option (Json × List Char)) (r : List Char) :
    parseStep value (Char.ofNat 123 :: r) =
      (parseSeq (parseMember value) (Char.ofNat 125) r).map (fun p => (Json.obj p.1, p.2)) := rfl

/-- The text `null` reads back as `null`. -/
theorem parseStep_null (value : List Char → Option (Json × List Char)) (r : List Char) :
    parseStep value ("null".data ++ r) = some (Json.null, r) := rfl

/-- Reading back an encoded array of strings gives the strings. -/
theorem parseValue_strings (n : Nat) (l : List String) (rest : List Char) :
    parseValue (n + 2) ((jsonArray (l.map jsonString)).data ++ rest) =
      some (specStringsJson l, rest) := by
  rw [jsonArray_data, List.cons_append, List.append_assoc, List.singleton_append,
    parseValue_succ, parseStep_array, List.map_map]
  rw [parseSeq_joined (parseValue (n + 1)) (Char.ofNat 93) (by decide) (by decide) rest
    (l.map (String.data ∘ jsonString)) (l.map Json.str)
    (forall2_maps _ _ l (fun x _ => ⟨⟨_, jsonString_data x⟩,
      fun r => parseStep_string (parseValue n) x r⟩))]
  rfl

/-- Reading back an encoded object gives its members, when the value of each
member reads back. -/
theorem parseValue_object (n : Nat) (ms : List (String × String)) (vs : List (String × Json))
    (h : List.Forall₂ (fun m v => m.1 = v.1 ∧
      ∀ r, parseValue n (m.2.data ++ r) = some (v.2, r)) ms vs) (rest : List Char) :
    parseValue (n + 1) ((jsonObject ms).data ++ rest) = some (Json.obj vs, rest) := by
  rw [jsonObject_data, List.cons_append, List.append_assoc, List.singleton_append,
    parseValue_succ, parseStep_object]
  have hR : List.Forall₂ (fun t x => (∃ r0, t = Char.ofNat 34 :: r0) ∧
      ∀ r, parseMember (parseValue n) (t ++ r) = some (x, r))
      (ms.map (fun m => (jsonString m.1).data ++ Char.ofNat 58 :: m.2.data)) vs := by
    rw [List.forall₂_map_left_iff]
    refine List.Forall₂.imp ?_ h
    intro m v hmv
    refine ⟨⟨_, by rw [jsonString_data]; rfl⟩, fun r => ?_⟩
    rw [parseMember_member (parseValue n) m.1 m.2.data v.2 hmv.2 r, hmv.1]
  rw [parseSeq_joined (parseMember (parseValue n)) (Char.ofNat 125) (by decide) (by decide) rest
    _ vs hR]
  rfl

/-- Reading back an encoded parameter map gives the map in key order. -/
theorem parseValue_parameters (n : Nat) (m : List (String × Option (List String)))
    (rest : List Char) :
    parseValue (n + 3) ((jsonParameters m).data ++ rest) =
      some (specParametersJson m, rest) := by
  rw [jsonParameters, specParametersJson]
  refine parseValue_object (n + 2) _ _ ?_ rest
  rw [List.forall₂_map_left_iff, List.forall₂_map_right_iff]
  refine List.forall₂_same.2 (fun e _ => ⟨rfl, fun r => ?_⟩)
  rcases e with ⟨k, _ | l⟩
  · exact parseStep_null (parseValue (n + 1)) r
  · exact parseValue_strings n l r

/-- Reading back the encoded object of one path pattern gives its declared
fields under their names, empty fields omitted. -/
theorem parseValue_path (n : Nat) (d : VaultPolicyPath) (rest : List Char) :
    parseValue (n + 4)
        ((jsonObject (VaultPolicyReconciler.copyPath d).members).data ++ rest) =
      some (specPathJson d, rest) := by
  rw [specPathJson]
  refine parseValue_object (n + 3) _ _ ?_ rest
  simp only [vaultPolicyPath.members, VaultPolicyReconciler.copyPath, List.isEmpty_iff,
    String.isEmpty_iff]
  refine forall2_append (forall2_append (forall2_append (forall2_append (forall2_append
    ?_ ?_) ?_) ?_) ?_) ?_
  · by_cases h : d.Capabilities = []
    · rw [if_pos h, if_pos h]; exact List.Forall₂.nil
    · rw [if_neg h, if_neg h]
      exact List.Forall₂.cons ⟨rfl, fun r => parseValue_strings (n + 1) _ r⟩ List.Forall₂.nil
  · by_cases h : d.AllowedParameters = []
    · rw [if_pos h, if_pos h]; exact List.Forall₂.nil
    · rw [if_neg h, if_neg h]
      exact List.Forall₂.cons ⟨rfl, fun r => parseValue_parameters n _ r⟩ List.Forall₂.nil
  · by_cases h : d.DeniedParameters = []
    · rw [if_pos h, if_pos h]; exact List.Forall₂.nil
    · rw [if_neg h, if_neg h]
      exact List.Forall₂.cons ⟨rfl, fun r => parseValue_parameters n _ r⟩ List.Forall₂.nil
  · by_cases h : d.RequiredParameters = []
    · rw [if_pos h, if_pos h]; exact List.Forall₂.nil
    · rw [if_neg h, if_neg h]
      exact List.Forall₂.cons ⟨rfl, fun r => parseValue_strings (n + 1) _ r⟩ List.Forall₂.nil
  · by_cases h : d.MinWrappingTTL = ""
    · rw [if_pos h, if_pos h]; exact List.Forall₂.nil
    · rw [if_neg h, if_neg h]
      exact List.Forall₂.cons ⟨rfl, fun r => parseStep_string (parseValue (n + 2)) _ r⟩
        List.Forall₂.nil
  · by_cases h : d.MaxWrappingTTL = ""
    · rw [if_pos h, if_pos h]; exact List.Forall₂.nil
    · rw [if_neg h, if_neg h]
      exact List.Forall₂.cons ⟨rfl, fun r => parseStep_string (parseValue (n + 2)) _ r⟩
        List.Forall₂.nil

/-- Inserting by key commutes with a map of the values. -/
theorem insertByKey_map {α β : Type} (f : α → β) (e : String × α) (l : List (String × α)) :
    insertByKey (e.1, f e.2) (l.map (fun x => (x.1, f x.2))) =
      (insertByKey e l).map (fun x => (x.1, f x.2)) := by
  induction l with
  | nil => rfl
  | cons x xs ih =>
    simp only [List.map_cons, insertByKey]
    by_cases h : x.1 < e.1
    · rw [if_pos h, if_pos h, List.map_cons, ih]
    · rw [if_neg h, if_neg h]; rfl

/-- Sorting by key commutes with a map of the values. -/
theorem sortByKey_map {α β : Type} (f : α → β) (l : List (String × α)) :
    sortByKey (l.map (fun x => (x.1, f x.2))) = (sortByKey l).map (fun x => (x.1, f x.2)) := by
  induction l with
  | nil => rfl
  | cons x xs ih =>
    have h1 : sortByKey (x :: xs) = insertByKey x (sortByKey xs) := rfl
    have h2 : sortByKey ((x :: xs).map (fun x => (x.1, f x.2))) =
        insertByKey (x.1, f x.2) (sortByKey (xs.map (fun x => (x.1, f x.2)))) := rfl
    rw [h1, h2, ih, insertByKey_map]

/-- Reading back the encoded policy document of declared entries gives the
document of the spec over the entries in key order. -/
theorem parseJson_marshalPolicy (entries : List (String × VaultPolicyPath)) :
    parseJson (marshalPolicy (entries.map (fun e => (e.1, VaultPolicyReconciler.copyPath e.2)))) =
      some (specDocumentJson (sortByKey entries)) := by
  have hv : ∀ (n : Nat) (rest : List Char),
      parseValue (n + 6)
        ((marshalPolicy (entries.map
          (fun e => (e.1, VaultPolicyReconciler.copyPath e.2)))).data ++ rest) =
        some (specDocumentJson (sortByKey entries), rest) := by
    intro n rest
    rw [marshalPolicy, specDocumentJson, sortByKey_map, List.map_map]
    refine parseValue_object (n + 5) _ _
      (List.Forall₂.cons ⟨rfl, fun r => ?_⟩ List.Forall₂.nil) rest
    refine parseValue_object (n + 4) _ _ ?_ r
    exact forall2_maps _ _ _ (fun e _ => ⟨rfl, fun r1 => parseValue_path n e.2 r1⟩)
  have hl : 6 ≤ (marshalPolicy (entries.map
      (fun e => (e.1, VaultPolicyReconciler.copyPath e.2)))).length := by
    rw [String.length, marshalPolicy, jsonObject_data]
    have h4 : (jsonString "path").data.length = 6 := by decide
    simp only [List.map_cons, List.map_nil, joinComma, List.flatMap_nil, List.append_nil,
      List.length_cons, List.length_append, h4]
    omega
  obtain ⟨n, hn⟩ : ∃ n, (marshalPolicy (entries.map
      (fun e => (e.1, VaultPolicyReconciler.copyPath e.2)))).length = n + 6 :=
    ⟨_, (Nat.sub_add_cancel hl).symm⟩
  have := hv n []
  rw [List.append_nil] at this
  rw [parseJson, hn, this]

set_option maxRecDepth 100000 in
/-- The document of `teamPolicy`, character by character. -/
theorem marshalPolicy_teamPolicy :
    marshalPolicy (VaultPolicyReconciler.pathMap teamPolicy) = teamDocument := by
  have c1 : ("auth/*" : String) < "secret/data/<team>" := by
    rw [String.lt_iff_toList_lt]; decide
  have c2 : ¬ ("mid" : String) < "alpha" := by
    rw [String.lt_iff_toList_lt]; decide
  have c3 : ("alpha" : String) < "zeta" := by
    rw [String.lt_iff_toList_lt]; decide
  have c4 : ("mid" : String) < "zeta" := by
    rw [String.lt_iff_toList_lt]; decide
  have hpm : VaultPolicyReconciler.pathMap teamPolicy =
      [("secret/data/<team>", VaultPolicyReconciler.copyPath teamSecretPath),
       ("auth/*", VaultPolicyReconciler.copyPath teamAuthPath)] := by decide
  have hs : sortByKey [("secret/data/<team>", VaultPolicyReconciler.copyPath teamSecretPath),
       ("auth/*", VaultPolicyReconciler.copyPath teamAuthPath)] =
      [("auth/*", VaultPolicyReconciler.copyPath teamAuthPath),
       ("secret/data/<team>", VaultPolicyReconciler.copyPath teamSecretPath)] := by
    simp only [sortByKey, insertByKey, List.foldr_cons, List.foldr_nil, c1, if_true]
  have hp : jsonParameters [("zeta", some ["1", "2"]), ("alpha", none), ("mid", some [])] =
      "\x7b\"alpha\":null,\"mid\":[],\"zeta\":[\"1\",\"2\"]\x7d" := by
    have : sortByKey [("zeta", some ["1", "2"]), ("alpha", (none : Option (List String))),
        ("mid", some [])] = [("alpha", none), ("mid", some []), ("zeta", some ["1", "2"])] := by
      simp only [sortByKey, insertByKey, List.foldr_cons, List.foldr_nil, c2, c3, c4, if_true,
        if_false]
    rw [jsonParameters, this]
    decide
  have hm : (VaultPolicyReconciler.copyPath teamSecretPath).members =
      [("capabilities", jsonArray (["read", "a\"b\\c"].map jsonString)),
       ("allowed_parameters",
          jsonParameters [("zeta", some ["1", "2"]), ("alpha", none), ("mid", some [])]),
       ("denied_parameters", jsonParameters [("x&y", some ["\t"])]),
       ("required_parameters", jsonArray (["r1", "\x08\x0c\n\r\x1f"].map jsonString)),
       ("min_wrapping_ttl", jsonString "1s"), ("max_wrapping_ttl", jsonString "90s")] := rfl
  rw [marshalPolicy, hpm, hs]
  simp only [List.map_cons, List.map_nil]
  rw [hm, hp]
  decide

/-- C8: the payload a policy reconcile writes, for a spec with distinct
patterns. The one write goes to `/sys/policies/acl/` followed by the name and
carries the single-key map `policy`, whose string is the marshalled path map.
Read back as JSON, this string is the object with the single key `path` whose
value has exactly the declared patterns as keys, in increasing order, each
mapped to the object of its declared fields under the names `capabilities`,
`allowed_parameters`, `denied_parameters`, `required_parameters`,
`min_wrapping_ttl`, `max_wrapping_ttl`, in this order, a field left out when
it is empty. For the policy `app-reader` with the pattern `secret/*` and the
capabilities `read`, `list` the string and the address are the ones of the
example; for `teamPolicy`, which uses every field, the string is
`teamDocument`. -/
theorem C8_policy_document {V : Type} (penv : Env V VaultPolicy) (v v1 : V) (p : VaultPolicy)
    (hB : VaultPolicyReconciler.Active penv v p v1)
    (hnd : (p.Spec.Path.map Prod.fst).Nodup) :
    (calls (VaultPolicyReconciler.Reconcile penv v).log).filter Call.isWrite =
      [.Write ("/sys/policies/acl/" ++ p.ObjectMeta.Name)
        [("policy", .leaf (.str (marshalPolicy (VaultPolicyReconciler.pathMap p))))]] ∧
    (∃ entries : List (String × VaultPolicyPath),
      entries.Perm p.Spec.Path ∧
      entries.Pairwise (fun a b => a.1 < b.1) ∧
      parseJson (marshalPolicy (VaultPolicyReconciler.pathMap p)) =
        some (specDocumentJson entries)) ∧
    marshalPolicy (VaultPolicyReconciler.pathMap appReader) =
      "\x7b\"path\":\x7b\"secret/*\":\x7b\"capabilities\":[\"read\",\"list\"]\x7d\x7d\x7d" ∧
    "/sys/policies/acl/" ++ appReader.ObjectMeta.Name = "/sys/policies/acl/app-reader" ∧
    marshalPolicy (VaultPolicyReconciler.pathMap teamPolicy) = teamDocument := by
  refine ⟨policy_write_calls penv v v1 p hB, ?_, by decide, by decide, marshalPolicy_teamPolicy⟩
  refine ⟨sortByKey p.Spec.Path, sortByKey_perm _, sortByKey_sorted _ hnd, ?_⟩
  rw [pathMap_eq_map p hnd]
  exact parseJson_marshalPolicy p.Spec.Path

/-- C8, witness: the policy `teamPolicy` over the model. The one write carries
`teamDocument`, which reads back as the document of the declared patterns in
increasing order. -/
theorem C8_policy_document_witness :
    (calls (VaultPolicyReconciler.Reconcile (policyModel noFault)
        (emptyRemote teamPolicy)).log).filter Call.isWrite =
      [.Write "/sys/policies/acl/team" [("policy", .leaf (.str teamDocument))]] ∧
    (∃ entries : List (String × VaultPolicyPath),
      entries.Perm [("secret/data/<team>", teamSecretPath), ("auth/*", teamAuthPath)] ∧
      entries.Pairwise (fun a b => a.1 < b.1) ∧
      parseJson teamDocument = some (specDocumentJson entries)) := by
  have h := C8_policy_document (policyModel noFault) (emptyRemote teamPolicy)
    (emptyRemote teamPolicy) teamPolicy
    ⟨teamPolicy, _, _, rfl, rfl, rfl, Or.inl ⟨by decide, rfl, rfl⟩⟩ (by decide)
  rw [marshalPolicy_teamPolicy] at h
  exact ⟨h.1, h.2.1⟩

end VSO
